import Mathlib

/-!
# pdfmark processing of the PDF-writing driver (gs/devices/vector/gdevpdfm.c)

A shallow embedding of the pdfmark engine: the value scanners, the destination
resolver, the annotation / outline dictionary builder, the outline tree manager,
the article manager, the DEST, PAGELABEL and DOCINFO handlers, the dispatcher, the
named object binder and the annotation handler `pdfmark_annot`; and of the unread
buffer of the PDF interpreter's streams (pdf/pdf_file.c: `pdfi_unread`,
`pdfi_read_bytes`).

Conventions of the embedding.

* A `gs_param_string` is a list of characters (`Str`); a parameter string whose
  `data` pointer is null is `none` in an `Option Str`.
* The device `gx_device_pdf` is passed explicitly; a C function that mutates the
  device returns the new device next to its return code.
* A C `int` holds a 32-bit two's complement value.  The integers that come from
  the input are kept in that range: `pdfmark_scan_int` stores what `sscanf` with
  `%d` stores in an `int` (`int32_of`, after the saturation of the digits to a
  `long`, `long_of`), and the sums and the negation of outline counts
  (`pdfmark_adjust_parent_count`, `-sub_count` in `pdfmark_OUT`) wrap around.
  C `long` values (object ids, `%ld` conversions) and the counters that the
  program itself moves by one step at a time (page numbers, `left`,
  `outline_depth`, `outlines_open`, `closed_outline_depth`) are unbounded
  integers.
* C `double` is modelled by exact rationals; rounding is not modelled, and the
  `%g` scanners / printers of the C library are fields of the environment `Env`.
  Infinities and NaN, which `%lg` accepts, are modelled where the numbers of a
  border are written: `pdfmark_write_border_ieee` is `pdfmark_write_border` on the
  type `c_double`.  The format `[%lg %lg %lg %lg]%d` of the /Rect scanner is
  also given directive by directive (`sscanf_rect_fmt`), over the `%lg`
  conversion of the C library.
* Memory allocation is an oracle: the k-th allocation request of a session
  succeeds iff `Env.alloc_ok k`.
* Objects written to the output file are appended to `gx_device_pdf.strm`.
* The fields of the device that only `pdfmark_annot` uses (PDF/A and PDF/X
  settings, page dictionaries, Annots arrays) form the record
  `gx_device_pdf_annot`, passed next to the device; in the dispatch table the ANN
  and LNK handlers are therefore taken from the environment.
* `pdfmark_DOCINFO` works on the dictionary `pdev->Info`, which is passed next to
  the device, with `string_match` and the default producer in the record
  `producer_env`; in the dispatch table the DOCINFO handler is taken from the
  environment.
* The bytes of a stream are natural numbers; `uint32_t` arithmetic is taken modulo
  2^32, and the underlying stream with `sfread` is a parameter (`file_env`).
* Diagnostics printed with `emprintf` are not modelled.
-/

namespace PDFMark

/-! ## Strings and C library scanners -/

/-- Byte strings: the contents of a `gs_param_string`. -/
abbrev Str := List Char

/-- C doubles, modelled by exact rationals. -/
abbrev double := ℚ

/-- Modelled from the spec: the error kinds of section 7, with the numeric codes
of Ghostscript's gserrors.h (the header is not part of the sources at hand). -/
def gs_error_unknownerror : Int := -1

/-- Modelled from the spec: see `gs_error_unknownerror`. -/
def gs_error_invalidfont : Int := -10

/-- Modelled from the spec: see `gs_error_unknownerror`. -/
def gs_error_ioerror : Int := -12

/-- Modelled from the spec: see `gs_error_unknownerror`. -/
def gs_error_limitcheck : Int := -13

/-- Modelled from the spec: see `gs_error_unknownerror`. -/
def gs_error_rangecheck : Int := -15

/-- Modelled from the spec: see `gs_error_unknownerror`. -/
def gs_error_undefined : Int := -21

/-- Modelled from the spec: see `gs_error_unknownerror`. -/
def gs_error_VMerror : Int := -25

/-- The part of a buffer that C sees as a string: everything before the first NUL
(`strlen`). -/
def c_string (s : Str) : Str := s.takeWhile (fun c => c.toNat != 0)

/-- C `isspace` in the C locale. -/
def isspace (c : Char) : Bool :=
  c.toNat == 32 || (decide (9 ≤ c.toNat) && decide (c.toNat ≤ 13))

/-- C `isdigit`. -/
def isdigit (c : Char) : Bool := decide (48 ≤ c.toNat) && decide (c.toNat ≤ 57)

/-- Reads a maximal run of decimal digits, accumulating its value; returns the
value and the unread rest. -/
def scan_digits : Str → Nat → Nat × Str
  | [], acc => (acc, [])
  | c :: r, acc =>
    if isdigit c then scan_digits r (acc * 10 + (c.toNat - 48)) else (acc, c :: r)

/-- The value of a C `int` (32 bits, two's complement) to which the integer `n` is
converted. -/
def int32_of (n : Int) : Int := (n + 2 ^ 31) % 2 ^ 32 - 2 ^ 31

/-- The value of a C `long` (64 bits) that the C library's `strtol` gives for
digits whose mathematical value is `n`: values outside the range are saturated
to `LONG_MIN` / `LONG_MAX`. -/
def long_of (n : Int) : Int :=
  if n < -9223372036854775808 then -9223372036854775808
  else if 9223372036854775807 < n then 9223372036854775807
  else n

/-- The digits of one `%d` / `%ld` conversion of `sscanf`: skips white space, reads
an optional sign and at least one decimal digit.  Returns the mathematical value
of the digits and the unread rest, or `none` when the conversion fails.  What
is stored in the C variable is computed from this value by the caller
(`pdfmark_scan_int` stores an `int`). -/
def scan_int_conv (s : Str) : Option (Int × Str) :=
  let body (neg : Bool) (r : Str) : Option (Int × Str) :=
    match r with
    | [] => none
    | c :: _ =>
      if isdigit c then
        let p := scan_digits r 0
        some ((if neg then - (p.1 : Int) else (p.1 : Int)), p.2)
      else none
  match s.dropWhile isspace with
  | [] => none
  | c :: r =>
    if c = '-' then body true r
    else if c = '+' then body false r
    else body false (c :: r)

/-- The C call `sscanf(str, "%d", &v) == 1` (also `"%ld"`): the mathematical value
of the converted digits, or `none` when nothing was converted. -/
def sscanf_d (s : Str) : Option Int := (scan_int_conv s).map Prod.fst

/-- The C call `sscanf(buf, "%d %d R", &d0, &d1)`: the number of conversions. -/
def sscanf_d_d_R (s : Str) : Nat :=
  match scan_int_conv s with
  | none => 0
  | some (_, r) =>
    match scan_int_conv r with
    | none => 1
    | some _ => 2

/-- Decimal text of an integer as printed by `%d` / `%ld`. -/
def sprintf_d (n : Int) : Str :=
  if n < 0 then '-' :: Nat.toDigits 10 n.natAbs else Nat.toDigits 10 n.toNat

/-! ## Public utilities -/

/-- Compare a C string and a gs_param_string (`pdf_key_eq`): the lengths agree and
`strncmp` finds no difference, i.e. the two byte strings are equal. -/
def pdf_key_eq (pcs : Str) (str : Str) : Bool := decide (pcs = str)

/-- Scan an integer out of a parameter string (`pdfmark_scan_int`).  The second
component is the `int` `*pvalue` after the call (unchanged when nothing is
converted).  For digits in the range of `int` it is their value; for other digits
the C standard leaves the result open, and the model follows the C library that
converts the digits to a `long` (`strtol`) and stores that value converted to
`int`. -/
def pdfmark_scan_int (pstr : Str) (pvalue : Int) : Int × Int :=
  if pstr.length > 20 then (gs_error_limitcheck, pvalue)
  else
    match sscanf_d pstr with
    | some v => (0, int32_of (long_of v))
    | none => (gs_error_rangecheck, pvalue)

/-- Find a key in a dictionary given as a flat pair list (`pdfmark_find_key`).
`none` is the C result `false` with `pstr->data = 0`.  For a list of odd length
the C code would read `pairs[count]`, outside the array; the model reads an empty
value there. -/
def pdfmark_find_key (key : Str) : List Str → Option Str
  | [] => none
  | [k] => if pdf_key_eq k key then some [] else none
  | k :: v :: rest => if pdf_key_eq k key then some v else pdfmark_find_key key rest

/-- C `strchr` on the C string `s`: the suffix starting at the first occurrence of
`c`, or `none` (a null pointer). -/
def strchr : Str → Char → Option Str
  | [], _ => none
  | a :: r, c => if a = c then some (a :: r) else strchr r c

/-! ## Data model -/

/-- A value stored in a Cos dictionary: a scalar (a string in output syntax) or a
dictionary object whose own entries are scalars (action subdictionaries, named
destinations). -/
inductive cos_value_t where
  | scalar (chars : Str)
  | object (id : Int) (elements : List (Str × Str))
deriving DecidableEq, Repr

/-- A Cos dictionary object with its object id (0 while unassigned). -/
structure cos_dict_t where
  id : Int := 0
  elements : List (Str × cos_value_t) := []
deriving DecidableEq, Repr

/-- An element of a Cos array: an integer or a dictionary object of scalars. -/
inductive cos_array_element where
  | int (value : Int)
  | dict (elements : List (Str × Str))
deriving DecidableEq, Repr

/-- A Cos array object with its object id. -/
structure cos_array_t where
  id : Int := 0
  elements : List cos_array_element := []
deriving DecidableEq, Repr

/-- Modelled from the spec: `put(dict, key, value)` of the object graph service
(section 6); the last write per key wins.  An existing key keeps its place, a new
key is added at the end. -/
def cos_dict_put {α : Type} : List (Str × α) → Str → α → List (Str × α)
  | [], k, v => [(k, v)]
  | (k0, v0) :: rest, k, v =>
    if k0 = k then (k, v) :: rest else (k0, v0) :: cos_dict_put rest k v

/-- Modelled from the spec: key lookup of the object graph service
(`cos_dict_find`); `none` is the null pointer. -/
def cos_dict_find {α : Type} : List (Str × α) → Str → Option α
  | [], _ => none
  | (k0, v0) :: rest, k => if k0 = k then some v0 else cos_dict_find rest k

/-- A 2x3 affine transform (`gs_matrix`). -/
structure gs_matrix where
  xx : double := 1
  xy : double := 0
  yx : double := 0
  yy : double := 1
  tx : double := 0
  ty : double := 0
deriving DecidableEq, Repr

/-- A point (`gs_point`). -/
structure gs_point where
  x : double := 0
  y : double := 0
deriving DecidableEq, Repr

/-- A rectangle given by two corners (`gs_rect`). -/
structure gs_rect where
  p : gs_point := {}
  q : gs_point := {}
deriving DecidableEq, Repr

/-- Modelled from the spec: point transform by a 2x3 affine matrix (translation
included). -/
def gs_point_transform (x y : double) (m : gs_matrix) : gs_point :=
  { x := x * m.xx + y * m.yx + m.tx, y := x * m.xy + y * m.yy + m.ty }

/-- Modelled from the spec: distance transform by a 2x3 affine matrix (no
translation). -/
def gs_distance_transform (dx dy : double) (m : gs_matrix) : gs_point :=
  { x := dx * m.xx + dy * m.yx, y := dx * m.xy + dy * m.yy }

/-- One node of the outline tree (`pdf_outline_node_t`). -/
structure pdf_outline_node_t where
  id : Int := 0
  parent_id : Int := 0
  prev_id : Int := 0
  first_id : Int := 0
  last_id : Int := 0
  count : Int := 0
  action : Option cos_dict_t := none
deriving DecidableEq, Repr

/-- One level of the outline stack (`pdf_outline_level_t`). -/
structure pdf_outline_level_t where
  first : pdf_outline_node_t := {}
  last : pdf_outline_node_t := {}
  left : Int := 0
deriving DecidableEq, Repr

/-- An article bead (`pdf_bead_t`). -/
structure pdf_bead_t where
  id : Int := 0
  article_id : Int := 0
  prev_id : Int := 0
  next_id : Int := 0
  page_id : Int := 0
  rect : gs_rect := {}
deriving DecidableEq, Repr

/-- An article (`pdf_article_t`); the `next` link of the C list is the tail of the
list `gx_device_pdf.articles`. -/
structure pdf_article_t where
  contents : cos_dict_t := {}
  first : pdf_bead_t := {}
  last : pdf_bead_t := {}
deriving DecidableEq, Repr

/-- An object written to the output file between `pdf_open_separate` and
`pdf_end_separate`.  An outline item records the node as written and the `/Next`
id it is written with (0: no `/Next`); a bead records the bead as written; an
article records the id of its contents object, the `/F` id and the `/I` entries. -/
inductive pdf_object where
  | outline (node : pdf_outline_node_t) (next_id : Int)
  | bead (b : pdf_bead_t)
  | article (id : Int) (first_id : Int) (contents : List (Str × cos_value_t))
deriving DecidableEq, Repr

/-- A Cos object as the named-object registry looks at it (`cos_object_t`): the
object id, whether the object is still generic (`cos_type(pco)` is
`cos_generic_procs`: referred but not defined) and the `written` flag. -/
structure cos_object_t where
  id : Int := 0
  is_generic : Bool := false
  written : Bool := false
deriving DecidableEq, Repr

/-- A value of the dictionary `local_named_objects`: an object (`value_type` is
COS_VALUE_OBJECT) or a value of another type. -/
inductive cos_named_value where
  | object (obj : cos_object_t)
  | other
deriving DecidableEq, Repr

/-- A resource (`pdf_resource_t`): its object and the `where_used` mask. -/
structure pdf_resource_t where
  object : cos_object_t := {}
  where_used : Nat := 0
deriving DecidableEq, Repr

/-- The part of the device state (`gx_device_pdf`) that pdfmark processing uses. -/
structure gx_device_pdf where
  /-- Modelled from the spec: `allocateId()`; the next unused object id. -/
  next_id : Int := 1
  /-- Number of allocation requests made so far (index into the oracle). -/
  allocs : Nat := 0
  next_page : Int := 0
  max_referred_page : Int := 0
  FirstPage : Int := 0
  LastPage : Int := 0
  /-- Modelled from the spec: `pageObjectId(pageNumber)` of the page service. -/
  page_ids : Int → Int := fun _ => 0
  HWResolution : double × double := (72, 72)
  CompatibilityLevel : double := 0
  outlines_id : Int := 0
  outline_depth : Nat := 0
  closed_outline_depth : Int := 0
  outlines_open : Int := 0
  outline_levels : Nat → pdf_outline_level_t := fun _ => {}
  articles : List pdf_article_t := []
  Dests : Option cos_dict_t := none
  PageLabels : Option cos_array_t := none
  PageLabels_current_page : Int := 0
  PageLabels_current_label : Option (List (Str × Str)) := none
  /-- The objects written to the output file, oldest first. -/
  strm : List pdf_object := []
  /-- The named objects of the current namespace (`local_named_objects`). -/
  local_named_objects : List (Str × cos_named_value) := []
  used_mask : Nat := 0

/-- The type of a pdfmark handler (`pdfmark_proc`): device, pairs, CTM and
optional object name to return code and device. -/
abbrev pdfmark_proc := gx_device_pdf → List Str → gs_matrix → Option Str → Int × gx_device_pdf

/-- What the embedding takes from outside gdevpdfm.c: constants of absent headers,
the allocation oracle, the floating-point scanners and printers of the C
library, and the collaborators of other modules. -/
structure Env where
  /-- Size of a destination buffer (gdevpdfx.h). -/
  MAX_DEST_STRING : Nat := 80
  /-- Size of the outline level stack (gdevpdfx.h). -/
  MAX_OUTLINE_DEPTH : Nat := 32
  /-- Whether the k-th allocation request succeeds. -/
  alloc_ok : Nat → Bool := fun _ => true
  /-- Values converted by `sscanf(buf, "[%g %g %g %g %g %g]", ...)`, in order. -/
  sscanf_ctm : Str → List double := fun _ => []
  /-- The four numbers when `sscanf(chars, "[%lg %lg %lg %lg]%d", ...)` makes all
  five conversions. -/
  sscanf_rect : Str → Option (double × double × double × double) := fun _ => none
  /-- The three numbers when `sscanf(chars, "[%lg %lg %lg", ...)` converts three. -/
  sscanf_border : Str → Option (double × double × double) := fun _ => none
  /-- The number when `sscanf(next, "%lg", &v)` converts one. -/
  sscanf_lg : Str → Option double := fun _ => none
  /-- The four numbers when `sscanf(buf, "[ %g %g %g %g ]", ...)` converts four. -/
  sscanf_box : Str → Option (double × double × double × double) := fun _ => none
  /-- Text printed for a `%g` directive by `pprintg`. -/
  pprintg : double → Str := fun _ => []
  /-- `pdf_scan_token`: return code, the token and the unread rest. -/
  pdf_scan_token : Str → Int × Str × Str := fun s => (0, [], s)
  /-- `pdf_scan_token_composite`: return code, the token and the unread rest. -/
  pdf_scan_token_composite : Str → Int × Str × Str := fun s => (0, [], s)
  /-- `pdf_objname_is_valid`. -/
  pdf_objname_is_valid : Str → Bool := fun _ => true
  /-- `pdf_replace_names`: return code, the rewritten value and the device. -/
  pdf_replace_names : gx_device_pdf → Str → Int × Str × gx_device_pdf :=
    fun pdev s => (0, s, pdev)
  /-- `pdf_make_named_dict`: return code, the id of the new (empty) dictionary and
  the device. -/
  pdf_make_named_dict : gx_device_pdf → Option Str → Bool → Int × Int × gx_device_pdf :=
    fun pdev _ _ => (0, 0, pdev)
  /-- The handlers of the dispatch table that are not embedded here, by name. -/
  procs : Str → pdfmark_proc := fun _ pdev _ _ _ => (0, pdev)
  /-- `cos_write_object` for a named object: return code and the device. -/
  cos_write_object : gx_device_pdf → cos_object_t → Int × gx_device_pdf :=
    fun pdev _ => (0, pdev)
  /-- `pdf_substitute_resource(pdev, &pres, resourceXObject, NULL, write)`: return
  code, the resource `*ppres` after the call and the device. -/
  pdf_substitute_resource : gx_device_pdf → pdf_resource_t → Bool →
      Int × pdf_resource_t × gx_device_pdf :=
    fun pdev pres _ => (0, pres, pdev)

/-- Modelled from the spec: `allocateId()` (`pdf_obj_ref`): returns a fresh object
id. -/
def pdf_obj_ref (pdev : gx_device_pdf) : Int × gx_device_pdf :=
  (pdev.next_id, { pdev with next_id := pdev.next_id + 1 })

/-- One allocation request (`cos_dict_alloc`, `gs_alloc_bytes`, ...): whether it
succeeds, and the device with the request counted. -/
def alloc (E : Env) (pdev : gx_device_pdf) : Bool × gx_device_pdf :=
  (E.alloc_ok pdev.allocs, { pdev with allocs := pdev.allocs + 1 })

/-- Modelled from the spec: `pageObjectId(pageNumber)` (`pdf_page_id`). -/
def pdf_page_id (pdev : gx_device_pdf) (page : Int) : Int := pdev.page_ids page

/-! ## Private utilities -/

/-- Get the page number for a page referenced by number or as /Next or /Prev
(`pdfmark_page_number`); also raises `max_referred_page`. -/
def pdfmark_page_number (pdev : gx_device_pdf) (pnstr : Option Str) : Int × gx_device_pdf :=
  let page0 := pdev.next_page + 1
  let page : Int :=
    match pnstr with
    | none => page0
    | some s =>
      if pdf_key_eq s "/Next".toList then page0 + 1
      else if pdf_key_eq s "/Prev".toList then page0 - 1
      else
        let r := pdfmark_scan_int s page0
        if r.1 < 0 then 0 else r.2
  (page, { pdev with max_referred_page :=
            if pdev.max_referred_page < page then page else pdev.max_referred_page })

/-- Construct a destination string specified by /Page and/or /View
(`pdfmark_make_dest`).  Returns the code (0, 1 or 2 keys present, negative on
error), the text left in `dstr` (empty when the buffer is not touched) and the
device. -/
def pdfmark_make_dest (E : Env) (pdev : gx_device_pdf) (Page_key View_key : Str)
    (pairs : List Str) (RequirePage : Nat) : Int × Str × gx_device_pdf :=
  let page_string := pdfmark_find_key Page_key pairs
  let view_string0 := pdfmark_find_key View_key pairs
  let present : Int :=
    (if page_string.isSome then 1 else 0) + (if view_string0.isSome then 1 else 0)
  let pp : Int × gx_device_pdf :=
    if present ≠ 0 ∨ RequirePage ≠ 0 then pdfmark_page_number pdev page_string else (0, pdev)
  let pdev1 := pp.2
  let r : Int × Str :=
    if pp.1 < pdev1.FirstPage ∨ (pdev1.LastPage ≠ 0 ∧ pp.1 > pdev1.LastPage) then
      (-1, [])
    else
      let page : Int := if pdev1.FirstPage ≠ 0 then (pp.1 - pdev1.FirstPage) + 1 else pp.1
      let view_string : Str :=
        if (view_string0.getD []).length = 0 then "[/XYZ null null null]".toList
        else view_string0.getD []
      let dstr : Str :=
        if page = 0 then "[null ".toList
        else if (match pdfmark_find_key "/Action".toList pairs with
                 | some action => pdf_key_eq action "/GoToR".toList
                 | none => false) then
          "[".toList ++ sprintf_d (page - 1) ++ " ".toList
        else "[".toList ++ sprintf_d (pdf_page_id pdev1 page) ++ " 0 R ".toList
      if dstr.length + view_string.length > E.MAX_DEST_STRING then
        (gs_error_limitcheck, dstr)
      else if view_string.head? ≠ some '[' ∨ view_string.getLast? ≠ some ']' then
        (gs_error_rangecheck, dstr)
      else (present, dstr ++ view_string.drop 1)
  (r.1, r.2, pdev1)

/-- If a named destination is specified by a string, convert it to a name
(`pdfmark_coerce_dest`): returns 1 and the name, otherwise 0 and the value
unchanged.  The C code copies into the buffer `char dest[MAX_DEST_STRING]`
without a length check: this function gives the result of a call that stays
inside the buffer, and `pdfmark_coerce_dest_buf` tells for which values the call
does. -/
def pdfmark_coerce_dest (dstr : Str) : Int × Str :=
  match dstr with
  | [] => (0, dstr)
  | c :: rest => if c = '(' then (1, ('/' :: rest).dropLast) else (0, dstr)

/-- One `%lg` directive of `sscanf`: white space is skipped, then `lg`, the
conversion of the C library (`strtod`), converts a number and gives the unread
rest. -/
def lg_directive (lg : Str → Option (double × Str)) (s : Str) : Option (double × Str) :=
  lg (s.dropWhile isspace)

/-- A row of `n` directives `%lg` (a blank between two directives of the format
skips white space, as the directive itself does): the numbers converted and the
unread rest, or `none` when a conversion fails. -/
def lg_directives (lg : Str → Option (double × Str)) : Nat → Str → Option (List double × Str)
  | 0, s => some ([], s)
  | n + 1, s =>
    match lg_directive lg s with
    | none => none
    | some p =>
      match lg_directives lg n p.2 with
      | none => none
      | some q => some (p.1 :: q.1, q.2)

/-- The C library call `sscanf(chars, "[%lg %lg %lg %lg]%d", ...) == 5`, directive by
directive: the byte `[`, four numbers, the byte `]` and an integer; the result is
the four numbers when all five conversions are made. -/
def sscanf_rect_fmt (lg : Str → Option (double × Str)) (s : Str) :
    Option (double × double × double × double) :=
  match s with
  | [] => none
  | c :: r =>
    if c = '[' then
      match lg_directives lg 4 r with
      | none => none
      | some q =>
        if q.2.head? = some ']' ∧ (scan_int_conv (q.2.drop 1)).isSome = true then
          some (q.1.getD 0 0, q.1.getD 1 0, q.1.getD 2 0, q.1.getD 3 0)
        else none
    else none

/-- Scan a Rect value (`pdfmark_scan_rect`): the code and, on success, the
rectangle with both corners transformed as points. -/
def pdfmark_scan_rect (E : Env) (str : Str) (pctm : gs_matrix) : Int × gs_rect :=
  if str.length > 100 then (gs_error_limitcheck, {})
  else
    match E.sscanf_rect (c_string (str ++ " 0".toList)) with
    | none => (gs_error_rangecheck, {})
    | some v =>
      (0, { p := gs_point_transform v.1 v.2.1 pctm, q := gs_point_transform v.2.2.1 v.2.2.2 pctm })

/-- Make a Rect value (`pdfmark_make_rect`): the text `[%g %g %g %g]`, cut to the
MAX_RECT_STRING - 1 bytes that the string stream accepts. -/
def pdfmark_make_rect (E : Env) (prect : gs_rect) : Str :=
  ("[".toList ++ E.pprintg prect.p.x ++ " ".toList ++ E.pprintg prect.p.y ++ " ".toList ++
    E.pprintg prect.q.x ++ " ".toList ++ E.pprintg prect.q.y ++ "]".toList).take 99

/-- The dash array loop of `pdfmark_write_border`: `next` is the pointer of the C
loop (a suffix of the border string), `out` the text written so far. -/
def write_border_dashes (E : Env) (pctm : gs_matrix) : Nat → Option Str → Str → Str
  | 0, _, out => out
  | fuel + 1, next, out =>
    match next with
    | none => out
    | some s =>
      let s1 := s.drop 1
      match E.sscanf_lg s1 with
      | none => out
      | some v =>
        let vpt := gs_distance_transform 0 v pctm
        write_border_dashes E pctm fuel (strchr s1 ' ')
          (out ++ E.pprintg |vpt.x + vpt.y| ++ " ".toList)

/-- Write a transformed Border value on a stream (`pdfmark_write_border`): the
code and the text written to the stream. -/
def pdfmark_write_border (E : Env) (str : Str) (pctm : gs_matrix) : Int × Str :=
  if str.length > 100 then (gs_error_limitcheck, [])
  else
    let chars := c_string str
    match E.sscanf_border chars with
    | none => (gs_error_rangecheck, [])
    | some v =>
      let bpt := gs_distance_transform v.1 v.2.1 pctm
      let cpt := gs_distance_transform 0 v.2.2 pctm
      let out := "[".toList ++ E.pprintg |bpt.x| ++ " ".toList ++ E.pprintg |bpt.y| ++
        " ".toList ++ E.pprintg |cpt.x + cpt.y|
      match strchr (chars.drop 1) ']' with
      | none => (gs_error_rangecheck, out)
      | some next =>
        if next.drop 1 ≠ [] then
          (0, write_border_dashes E pctm (next.length + 1) (some next) (out ++ "[".toList)
                ++ "]".toList ++ "]".toList)
        else (0, out ++ "]".toList)

/-! ## The numbers of a border as C doubles -/

/-- A C `double` with the special values of IEEE 754 arithmetic: a finite number
(an exact rational; rounding and the sign of zero are not modelled), an infinity
with its sign, or a NaN.  The `%lg` conversion of `sscanf` gives the special
values for texts such as `inf` and `nan`. -/
inductive c_double where
  | fin (q : ℚ)
  | inf (negative : Bool)
  | nan
deriving DecidableEq, Repr

/-- The product of two C doubles. -/
def c_mul : c_double → c_double → c_double
  | .fin a, .fin b => .fin (a * b)
  | .fin a, .inf n => if a = 0 then .nan else .inf (xor n (decide (a < 0)))
  | .inf n, .fin b => if b = 0 then .nan else .inf (xor n (decide (b < 0)))
  | .inf n, .inf m => .inf (xor n m)
  | _, _ => .nan

/-- The sum of two C doubles. -/
def c_add : c_double → c_double → c_double
  | .fin a, .fin b => .fin (a + b)
  | .fin _, .inf n => .inf n
  | .inf n, .fin _ => .inf n
  | .inf n, .inf m => if n = m then .inf n else .nan
  | _, _ => .nan

/-- C `fabs`: the sign is cleared; a NaN stays a NaN. -/
def c_fabs : c_double → c_double
  | .fin a => .fin |a|
  | .inf _ => .inf false
  | .nan => .nan

/-- The entries of a `gs_matrix` that the distance transform uses, as C doubles. -/
structure gs_matrix_ieee where
  xx : c_double := .fin 1
  xy : c_double := .fin 0
  yx : c_double := .fin 0
  yy : c_double := .fin 1
deriving DecidableEq, Repr

/-- Modelled from the spec: distance transform by a 2x3 affine matrix (no
translation), in the arithmetic of C doubles. -/
def gs_distance_transform_ieee (dx dy : c_double) (m : gs_matrix_ieee) : c_double × c_double :=
  (c_add (c_mul dx m.xx) (c_mul dy m.yx), c_add (c_mul dx m.xy) (c_mul dy m.yy))

/-- The C library as `pdfmark_write_border` uses it, on doubles with the special
values: the three numbers when `sscanf(chars, "[%lg %lg %lg", ...)` converts three,
the number when `sscanf(next, "%lg", &v)` converts one, and the text printed for a
`%g` directive. -/
structure border_env where
  sscanf_border : Str → Option (c_double × c_double × c_double) := fun _ => none
  sscanf_lg : Str → Option c_double := fun _ => none
  pprintg : c_double → Str := fun _ => []

/-- The dash array loop of `pdfmark_write_border` on C doubles with the special
values (the same translation as `write_border_dashes`). -/
def write_border_dashes_ieee (I : border_env) (pctm : gs_matrix_ieee) :
    Nat → Option Str → Str → Str
  | 0, _, out => out
  | fuel + 1, next, out =>
    match next with
    | none => out
    | some s =>
      let s1 := s.drop 1
      match I.sscanf_lg s1 with
      | none => out
      | some v =>
        let vpt := gs_distance_transform_ieee (.fin 0) v pctm
        write_border_dashes_ieee I pctm fuel (strchr s1 ' ')
          (out ++ I.pprintg (c_fabs (c_add vpt.1 vpt.2)) ++ " ".toList)

/-- Write a transformed Border value on a stream (`pdfmark_write_border`), on C
doubles with the special values: the same translation as `pdfmark_write_border`,
with the numbers that `%lg` can give and the arithmetic that C does on them. -/
def pdfmark_write_border_ieee (I : border_env) (str : Str) (pctm : gs_matrix_ieee) :
    Int × Str :=
  if str.length > 100 then (gs_error_limitcheck, [])
  else
    let chars := c_string str
    match I.sscanf_border chars with
    | none => (gs_error_rangecheck, [])
    | some v =>
      let bpt := gs_distance_transform_ieee v.1 v.2.1 pctm
      let cpt := gs_distance_transform_ieee (.fin 0) v.2.2 pctm
      let out := "[".toList ++ I.pprintg (c_fabs bpt.1) ++ " ".toList ++
        I.pprintg (c_fabs bpt.2) ++ " ".toList ++ I.pprintg (c_fabs (c_add cpt.1 cpt.2))
      match strchr (chars.drop 1) ']' with
      | none => (gs_error_rangecheck, out)
      | some next =>
        if next.drop 1 ≠ [] then
          (0, write_border_dashes_ieee I pctm (next.length + 1) (some next)
                (out ++ "[".toList) ++ "]".toList ++ "]".toList)
        else (0, out ++ "]".toList)

/-! ## Annotation and outline dictionaries -/

/-- The parameters `ao_params_t` of `pdfmark_put_ao_pairs` (the device is passed
separately). -/
structure ao_params_t where
  subtype : Option Str := none
  src_pg : Int := -1
deriving DecidableEq, Repr

/-- The in-place rewrite of a /Contents value in `pdfmark_put_ao_pairs`: `cstr` is
the copied string, `i` the read index and `j` the write index.  Every round
advances `i`, so `cstr.length` rounds of fuel reach the end of the loop. -/
def contents_loop : Nat → Str → Nat → Nat → Str × Nat × Nat
  | 0, cstr, i, j => (cstr, i, j)
  | fuel + 1, cstr, i, j =>
    let csize := cstr.length
    if i < csize then
      if csize - i ≥ 2 ∧ (cstr.drop i).take 2 = ['\\', 'n'] ∧
          (i = 0 ∨ cstr[i - 1]? ≠ some '\\') then
        contents_loop fuel ((cstr.set j '\\').set (j + 1) 'r') (i + 2) (j + 2)
      else if csize - i ≥ 4 ∧ (cstr.drop i).take 4 = ['\\', '0', '1', '2'] ∧
          (i = 0 ∨ cstr[i - 1]? ≠ some '\\') then
        contents_loop fuel ((cstr.set j '\\').set (j + 1) 'r') (i + 4) (j + 2)
      else
        contents_loop fuel (cstr.set j (cstr.getD i ' ')) (i + 1) (j + 1)
    else (cstr, i, j)

/-- The /Contents value as stored by `pdfmark_put_ao_pairs`: rewritten in place and
resized to the write index when that differs from the read index. -/
def contents_rewrite (value : Str) : Str :=
  let r := contents_loop value.length value 0 0
  if r.2.2 ≠ r.2.1 then r.1.take r.2.2 else r.1

/-- The escape expansion of a generic string value in `pdfmark_put_ao_pairs`: the
bytes written to `buf0`.  (For a backslash in the last position the C code reads
one byte past the value; the model takes the default branch there.) -/
def escape_expand : Str → Str
  | [] => []
  | [c] => [c]
  | c :: d :: rest =>
    if c = '\\' then
      if d = 'b' then c :: '0' :: '0' :: '7' :: escape_expand rest
      else if d = 'f' then c :: '0' :: '1' :: '4' :: escape_expand rest
      else if d = 'n' then c :: '0' :: '1' :: '2' :: escape_expand rest
      else if d = 'r' then c :: '0' :: '1' :: '5' :: escape_expand rest
      else if d = 't' then c :: '0' :: '1' :: '1' :: escape_expand rest
      else c :: escape_expand (d :: rest)
    else c :: escape_expand (d :: rest)

/-- The escape expansion loop of `pdfmark_put_ao_pairs` together with the byte
`past` that lies right after the value in memory (`pair[1].data[size]`): for a
backslash in the last position the switch reads that byte, and when it is one of
b, f, n, r, t the loop writes the three digits and steps over it. -/
def escape_expand_at (past : Char) : Str → Str
  | [] => []
  | [c] =>
    if c = '\\' then
      if past = 'b' then [c, '0', '0', '7']
      else if past = 'f' then [c, '0', '1', '4']
      else if past = 'n' then [c, '0', '1', '2']
      else if past = 'r' then [c, '0', '1', '5']
      else if past = 't' then [c, '0', '1', '1']
      else [c]
    else [c]
  | c :: d :: rest =>
    if c = '\\' then
      if d = 'b' then c :: '0' :: '0' :: '7' :: escape_expand_at past rest
      else if d = 'f' then c :: '0' :: '1' :: '4' :: escape_expand_at past rest
      else if d = 'n' then c :: '0' :: '1' :: '2' :: escape_expand_at past rest
      else if d = 'r' then c :: '0' :: '1' :: '5' :: escape_expand_at past rest
      else if d = 't' then c :: '0' :: '1' :: '1' :: escape_expand_at past rest
      else c :: escape_expand_at past (d :: rest)
    else c :: escape_expand_at past (d :: rest)

/-- The local variables of `pdfmark_put_ao_pairs` together with the dictionary
under construction, `params->src_pg` and the device.  `Action`, `File` and `URI`
point to a pair (key and value); `Dest` and `Subtype` are strings whose null
`data` is `none`. -/
structure ao_vars where
  Action : Option (Str × Str) := none
  File : Option (Str × Str) := none
  URI : Option (Str × Str) := none
  Dest : Option Str := none
  Subtype : Option Str := none
  coerce_dest : Bool := false
  src_pg : Int := -1
  pcd : List (Str × cos_value_t) := []
  pdev : gx_device_pdf := {}

/-- One round of the first loop of `pdfmark_put_ao_pairs`, for the pair
`key value`; `pairs` is the whole list (for `pdfmark_make_dest`).  A negative
code is an early return.  (`/SrcPg` is scanned within the value; C scans the
bytes at `data` up to a terminator.) -/
def ao_pair (E : Env) (pairs : List Str) (pctm : gs_matrix) (for_outline : Bool)
    (key value : Str) (st : ao_vars) : Int × ao_vars :=
  if pdf_key_eq key "/SrcPg".toList && (sscanf_d value).isSome then
    (0, { st with src_pg := (sscanf_d value).getD 0 - 1 })
  else if !for_outline && pdf_key_eq key "/Color".toList then
    (0, { st with pcd := cos_dict_put st.pcd "/C".toList (.scalar value) })
  else if !for_outline && pdf_key_eq key "/Title".toList then
    (0, { st with pcd := cos_dict_put st.pcd "/T".toList (.scalar value) })
  else if pdf_key_eq key "/Action".toList || pdf_key_eq key "/A".toList then
    (0, { st with Action := some (key, value) })
  else if pdf_key_eq key "/File".toList then
    (0, { st with File := some (key, value) })
  else if pdf_key_eq key "/Dest".toList then
    (0, { st with Dest := some value, coerce_dest := true })
  else if pdf_key_eq key "/URI".toList then
    (0, { st with URI := some (key, value) })
  else if pdf_key_eq key "/Page".toList || pdf_key_eq key "/View".toList then
    if st.Dest.isNone then
      let r := pdfmark_make_dest E st.pdev "/Page".toList "/View".toList pairs 0
      if r.1 ≥ 0 then
        (0, { st with Dest := some (c_string r.2.1),
                      coerce_dest := if for_outline then false else st.coerce_dest,
                      pdev := r.2.2 })
      else (0, { st with pdev := r.2.2 })
    else (0, st)
  else if pdf_key_eq key "/Subtype".toList then
    (0, { st with Subtype := some value })
  else if pdf_key_eq key "/Contents".toList then
    (0, { st with pcd := cos_dict_put st.pcd key (.scalar (contents_rewrite value)) })
  else if pdf_key_eq key "/Rect".toList then
    let r := pdfmark_scan_rect E value pctm
    if r.1 < 0 then (r.1, st)
    else
      (0, { st with pcd := cos_dict_put st.pcd "/Rect".toList
                      (.scalar (c_string (pdfmark_make_rect E r.2))) })
  else if pdf_key_eq key "/Border".toList then
    let r := pdfmark_write_border E value pctm
    if r.1 < 0 then (r.1, st)
    else if r.2.length > 100 then (gs_error_limitcheck, st)
    else (0, { st with pcd := cos_dict_put st.pcd "/Border".toList (.scalar (c_string r.2)) })
  else if for_outline && pdf_key_eq key "/Count".toList then
    (0, st)
  else
    let a := alloc E st.pdev
    if !a.1 then (gs_error_VMerror, { st with pdev := a.2 })
    else
      (0, { st with pcd := cos_dict_put st.pcd key (.scalar (escape_expand value)),
                    pdev := a.2 })

/-- The first loop of `pdfmark_put_ao_pairs` over the pairs still to visit.  (For
a list of odd length the C code would read `pairs[count]`, outside the array;
the model reads an empty value there.) -/
def ao_loop (E : Env) (pairs : List Str) (pctm : gs_matrix) (for_outline : Bool) :
    List Str → ao_vars → Int × ao_vars
  | [], st => (0, st)
  | [k], st => ao_pair E pairs pctm for_outline k [] st
  | k :: v :: rest, st =>
    let r := ao_pair E pairs pctm for_outline k v st
    if r.1 < 0 then r else ao_loop E pairs pctm for_outline rest r.2

/-- The token loop over an inline `<< ... >>` Action value in
`pdfmark_put_ao_pairs`: returns the last code, the last key and the action
dictionary.  The scanners consume at least one byte per token, so the loop is
cut after the given number of rounds, read as the end of the input (code 0). -/
def ao_inline_loop (E : Env) : Nat → Str → Str → List (Str × Str) → Int × Str × List (Str × Str)
  | 0, _, key, adict => (0, key, adict)
  | fuel + 1, scan, key0, adict =>
    let t := E.pdf_scan_token scan
    if t.1 > 0 then
      let key := t.2.1
      if key.head? ≠ some '/' then (t.1, key, adict)
      else
        let u := E.pdf_scan_token_composite t.2.2
        if u.1 ≠ 1 then (u.1, key, adict)
        else
          let value := u.2.1
          if pdf_key_eq key "/Dest".toList || pdf_key_eq key "/D".toList then
            let value1 := if value.head? = some '(' then (pdfmark_coerce_dest value).2 else value
            ao_inline_loop E fuel u.2.2 "/D".toList (cos_dict_put adict "/D".toList value1)
          else if pdf_key_eq key "/File".toList then
            ao_inline_loop E fuel u.2.2 "/F".toList (cos_dict_put adict "/F".toList value)
          else if pdf_key_eq key "/Subtype".toList then
            ao_inline_loop E fuel u.2.2 "/S".toList (cos_dict_put adict "/S".toList value)
          else ao_inline_loop E fuel u.2.2 key (cos_dict_put adict key value)
    else (t.1, key0, adict)

/-- The Link rule of `pdfmark_put_ao_pairs`, between the first loop and the
deferred keys: a Link annotation with an Action keeps its Dest only for /GoTo or
for /GoToR with a File. -/
def ao_link (for_outline : Bool) (st : ao_vars) : ao_vars :=
  if !for_outline && (match st.Subtype with
                      | some t => pdf_key_eq t "/Link".toList
                      | none => false) then
    match st.Action with
    | some act =>
      if pdf_key_eq act.2 "/GoTo".toList || (st.File.isSome && pdf_key_eq act.2 "/GoToR".toList)
      then st
      else { st with Dest := none }
    | none => st
  else st

/-- The deferred Action handling of `pdfmark_put_ao_pairs` ("Now handle the
deferred keys").  A negative code is an early return. -/
def ao_action (E : Env) (for_outline : Bool) (st : ao_vars) : Int × ao_vars :=
  match st.Action with
  | none => (0, st)
  | some act =>
    let astr := act.2
    if (st.File.isSome || st.Dest.isSome || st.URI.isSome) &&
        (pdf_key_eq astr "/Launch".toList ||
          (pdf_key_eq astr "/GoToR".toList && st.File.isSome) ||
          pdf_key_eq astr "/Article".toList) then
      let a := alloc E st.pdev
      if !a.1 then (gs_error_VMerror, { st with pdev := a.2 })
      else
        let adict0 : List (Str × Str) :=
          if !for_outline then cos_dict_put [] "/Type".toList "/Action".toList else []
        let article := pdf_key_eq astr "/Article".toList
        let adict1 :=
          if article then cos_dict_put adict0 "/S".toList "/Thread".toList
          else cos_dict_put adict0 "/S".toList astr
        let coerce := if article then false else st.coerce_dest
        let adict2 :=
          match st.Dest with
          | some d =>
            cos_dict_put adict1 "/D".toList (if coerce then (pdfmark_coerce_dest d).2 else d)
          | none => adict1
        let adict3 :=
          match st.File with
          | some f => cos_dict_put adict2 "/F".toList f.2
          | none => adict2
        let adict4 :=
          match st.URI with
          | some u => cos_dict_put (cos_dict_put adict3 u.1 u.2) "/S".toList "/URI".toList
          | none => adict3
        (0, { st with coerce_dest := coerce, Dest := none, File := none,
                      pcd := cos_dict_put st.pcd "/A".toList (.object 0 adict4),
                      pdev := a.2 })
    else if astr.length ≥ 4 ∧ astr.take 2 = "<<".toList then
      let a := alloc E st.pdev
      if !a.1 then (gs_error_VMerror, { st with pdev := a.2 })
      else
        let adict0 : List (Str × Str) :=
          match st.URI with
          | some u => cos_dict_put (cos_dict_put [] u.1 u.2) "/S".toList "/URI".toList
          | none => []
        let r := ao_inline_loop E (astr.length + 1) (astr.drop 2) [] adict0
        if r.1 ≤ 0 ∨ !pdf_key_eq r.2.1 ">>".toList then
          (gs_error_rangecheck, { st with pdev := a.2 })
        else
          (0, { st with pcd := cos_dict_put st.pcd "/A".toList (.object 0 r.2.2), pdev := a.2 })
    else if pdf_key_eq astr "/GoTo".toList then
      (0, { st with pcd := cos_dict_put st.pcd act.1 (.scalar act.2) })
    else if astr.length < 30 then
      if sscanf_d_d_R (c_string astr) = 2 then
        (0, { st with pcd := cos_dict_put st.pcd act.1 (.scalar act.2) })
      else (0, st)
    else (0, st)

/-- The end of `pdfmark_put_ao_pairs`: a remaining Dest or the implicit outline
destination, a remaining File, and the Subtype. -/
def ao_finish (for_outline : Bool) (st : ao_vars) : ao_vars :=
  let pcd1 :=
    match st.Dest with
    | some d =>
      cos_dict_put st.pcd "/Dest".toList
        (.scalar (if st.coerce_dest then (pdfmark_coerce_dest d).2 else d))
    | none =>
      if for_outline && st.Action.isNone then
        cos_dict_put st.pcd "/Dest".toList
          (.scalar ("[".toList ++ sprintf_d (pdf_page_id st.pdev (st.pdev.next_page + 1)) ++
            " 0 R /XYZ null null null]".toList))
      else st.pcd
  let pcd2 :=
    match st.File with
    | some f => cos_dict_put pcd1 f.1 (.scalar f.2)
    | none => pcd1
  let pcd3 :=
    match st.Subtype with
    | some t => cos_dict_put pcd2 "/Subtype".toList (.scalar t)
    | none => pcd2
  { st with pcd := pcd3 }

/-- Create the dictionary for an annotation or outline (`pdfmark_put_ao_pairs`).
Returns the code and the final variables: `pcd` is the dictionary, `src_pg` is
`params->src_pg`, `pdev` the device. -/
def pdfmark_put_ao_pairs (E : Env) (pdev : gx_device_pdf) (pcd : cos_dict_t)
    (pairs : List Str) (pctm : gs_matrix) (params : ao_params_t) (for_outline : Bool) :
    Int × ao_vars :=
  let st0 : ao_vars :=
    { Subtype := params.subtype, src_pg := params.src_pg, pcd := pcd.elements, pdev := pdev }
  let r1 := ao_loop E pairs pctm for_outline pairs st0
  if r1.1 < 0 then r1
  else
    let r2 := ao_action E for_outline (ao_link for_outline r1.2)
    if r2.1 < 0 then r2
    else (0, ao_finish for_outline r2.2)

/-! ## Outline tree -/

/-- Write and release one node of the outline tree (`pdfmark_write_outline`):
returns the code (`undefined` when the node has no action), the node with its
action released, and the device with the item written.  The written action
dictionary carries the id of the node. -/
def pdfmark_write_outline (pdev : gx_device_pdf) (pnode : pdf_outline_node_t) (next_id : Int) :
    Int × pdf_outline_node_t × gx_device_pdf :=
  let code : Int := if pnode.action.isSome then 0 else gs_error_undefined
  let written : pdf_outline_node_t :=
    { pnode with action := pnode.action.map (fun a => { a with id := pnode.id }) }
  (code, { pnode with action := none },
    { pdev with strm := pdev.strm ++ [pdf_object.outline written next_id] })

/-- Adjust the parent's count when writing an outline node
(`pdfmark_adjust_parent_count`); `depth` is the index of `plevel` in the level
stack and the parent is the level below it.  The counts are C `int`s: the sum
and the difference wrap around (`int32_of`). -/
def pdfmark_adjust_parent_count (levels : Nat → pdf_outline_level_t) (depth : Nat) :
    Nat → pdf_outline_level_t :=
  let parent := levels (depth - 1)
  let count := (levels depth).last.count
  if count > 0 then
    if parent.last.count < 0 then
      Function.update levels (depth - 1)
        { parent with last :=
            { parent.last with count := int32_of (parent.last.count - count) } }
    else
      Function.update levels (depth - 1)
        { parent with last :=
            { parent.last with count := int32_of (parent.last.count + count) } }
  else levels

/-- Close the current level of the outline tree (`pdfmark_close_outline`). -/
def pdfmark_close_outline (pdev : gx_device_pdf) : Int × gx_device_pdf :=
  let depth := pdev.outline_depth
  let plevel := pdev.outline_levels depth
  let w : Int × pdf_outline_node_t × gx_device_pdf :=
    if plevel.last.id ≠ 0 then pdfmark_write_outline pdev plevel.last 0
    else (0, plevel.last, pdev)
  let levels1 := Function.update pdev.outline_levels depth { plevel with last := w.2.1 }
  if depth > 0 then
    let parent := levels1 (depth - 1)
    let levels2 := Function.update levels1 (depth - 1)
      { parent with last := { parent.last with last_id := (levels1 depth).last.id } }
    let levels3 := pdfmark_adjust_parent_count levels2 depth
    (w.1, { w.2.2 with
              outline_levels := levels3,
              closed_outline_depth :=
                if (levels3 (depth - 1)).last.count < 0 then pdev.closed_outline_depth - 1
                else pdev.closed_outline_depth,
              outline_depth := depth - 1 })
  else (w.1, { w.2.2 with outline_levels := levels1 })

/-- The /Count scan at the start of `pdfmark_OUT`: `sub_count` after visiting the
given pairs. -/
def out_sub_count : List Str → Int → Int
  | [], sub_count => sub_count
  | [k], sub_count =>
    if pdf_key_eq k "/Count".toList then (pdfmark_scan_int [] sub_count).2 else sub_count
  | k :: v :: rest, sub_count =>
    out_sub_count rest
      (if pdf_key_eq k "/Count".toList then (pdfmark_scan_int v sub_count).2 else sub_count)

/-- The closing loop at the end of `pdfmark_OUT`:
`while (outline_depth > 0 && outline_levels[outline_depth].left == 0) close`.
Every round lowers the depth, so `outline_depth` rounds of fuel end the loop. -/
def out_close_loop : Nat → gx_device_pdf → gx_device_pdf
  | 0, pdev => pdev
  | fuel + 1, pdev =>
    if pdev.outline_depth > 0 ∧ (pdev.outline_levels pdev.outline_depth).left = 0 then
      out_close_loop fuel (pdfmark_close_outline pdev).2
    else pdev

/-- The part of `pdfmark_OUT` that adds the new node at the current level ("Add
this node to the outline at the current level"), up to `plevel->left--`. -/
def out_add_node (pdev : gx_device_pdf) (node : pdf_outline_node_t) : gx_device_pdf :=
  let depth := pdev.outline_depth
  let plevel := pdev.outline_levels depth
  if plevel.first.id = 0 then
    let levels1 :=
      if depth > 0 then
        let parent := pdev.outline_levels (depth - 1)
        Function.update pdev.outline_levels (depth - 1)
          { parent with last := { parent.last with first_id := node.id } }
      else pdev.outline_levels
    let node1 := { node with prev_id := 0 }
    let plevel1 := levels1 depth
    let plevel2 : pdf_outline_level_t :=
      { plevel1 with first := { node1 with action := none }, last := node1,
                     left := plevel1.left - 1 }
    { pdev with outline_levels := Function.update levels1 depth plevel2 }
  else
    let levels1 :=
      if depth > 0 then pdfmark_adjust_parent_count pdev.outline_levels depth
      else pdev.outline_levels
    let w := pdfmark_write_outline { pdev with outline_levels := levels1 } (levels1 depth).last
      node.id
    let plevel1 := levels1 depth
    let plevel2 : pdf_outline_level_t := { plevel1 with last := node, left := plevel1.left - 1 }
    { w.2.2 with outline_levels := Function.update levels1 depth plevel2 }

/-- The id allocation of `pdfmark_OUT`: the id of the outline root is allocated
when there is none yet, then the id of the new node; returns the node id and the
device. -/
def out_node_id (pdev : gx_device_pdf) : Int × gx_device_pdf :=
  let pdev2 : gx_device_pdf :=
    if pdev.outlines_id = 0 then
      { (pdf_obj_ref pdev).2 with outlines_id := (pdf_obj_ref pdev).1 }
    else pdev
  pdf_obj_ref pdev2

/-- OUT pdfmark (`pdfmark_OUT`). -/
def pdfmark_OUT (E : Env) : pdfmark_proc := fun pdev pairs pctm _ =>
  let depth := pdev.outline_depth
  let sub_count := out_sub_count pairs 0
  if sub_count ≠ 0 ∧ (depth : Int) = (E.MAX_OUTLINE_DEPTH : Int) - 1 then
    (gs_error_limitcheck, pdev)
  else
    let a := alloc E pdev
    if !a.1 then (gs_error_VMerror, a.2)
    else
      let r := pdfmark_put_ao_pairs E a.2 {} pairs pctm {} true
      if r.1 < 0 then (r.1, r.2.pdev)
      else
        let n := out_node_id r.2.pdev
        let pdev3 := n.2
        let node : pdf_outline_node_t :=
          { id := n.1,
            parent_id :=
              if depth = 0 then pdev3.outlines_id else (pdev3.outline_levels (depth - 1)).last.id,
            prev_id := (pdev3.outline_levels depth).last.id,
            first_id := 0, last_id := 0, count := sub_count,
            action := some { elements := r.2.pcd } }
        let pdev4 := out_add_node pdev3 node
        let pdev5 :=
          if pdev4.closed_outline_depth = 0 then
            { pdev4 with outlines_open := pdev4.outlines_open + 1 }
          else pdev4
        if sub_count ≠ 0 then
          let plevel := pdev5.outline_levels (depth + 1)
          let plevel1 : pdf_outline_level_t :=
            { plevel with left := (if sub_count > 0 then sub_count else int32_of (- sub_count)),
                          first := { plevel.first with id := 0, action := none },
                          last := { plevel.last with action := none } }
          (0, { pdev5 with
                  outline_depth := depth + 1,
                  outline_levels := Function.update pdev5.outline_levels (depth + 1) plevel1,
                  closed_outline_depth :=
                    if sub_count < 0 then pdev5.closed_outline_depth + 1
                    else pdev5.closed_outline_depth })
        else (0, out_close_loop pdev5.outline_depth pdev5)

/-! ## Articles -/

/-- Write an article bead (`pdfmark_write_bead`). -/
def pdfmark_write_bead (pdev : gx_device_pdf) (pbead : pdf_bead_t) : Int × gx_device_pdf :=
  (0, { pdev with strm := pdev.strm ++ [pdf_object.bead pbead] })

/-- Finish writing an article (`pdfmark_write_article`): the last bead (when there
is more than one), the first bead, then the article object. -/
def pdfmark_write_article (pdev : gx_device_pdf) (part : pdf_article_t) : Int × gx_device_pdf :=
  let art : pdf_article_t :=
    if part.last.id = 0 then
      { part with first := { part.first with prev_id := part.first.id, next_id := part.first.id } }
    else
      { part with first := { part.first with prev_id := part.last.id },
                  last := { part.last with next_id := part.first.id } }
  let pdev1 := if part.last.id = 0 then pdev else (pdfmark_write_bead pdev art.last).2
  let pdev2 := (pdfmark_write_bead pdev1 art.first).2
  (0, { pdev2 with strm := pdev2.strm ++
          [pdf_object.article art.contents.id art.first.id art.contents.elements] })

/-- The article search of `pdfmark_ARTICLE`: the index in the article list of the
first article whose contents hold a scalar /Title equal to `title`. -/
def find_article (title : Str) : List pdf_article_t → Option Nat
  | [] => none
  | part :: rest =>
    if (match cos_dict_find part.contents.elements "/Title".toList with
        | some (cos_value_t.scalar chars) => decide (chars = title)
        | _ => false) then some 0
    else (find_article title rest).map (fun i => i + 1)

/-- The last loop of `pdfmark_ARTICLE`: every pair but /Rect and /Page goes into
the contents dictionary. -/
def article_put_pairs : List Str → List (Str × cos_value_t) → List (Str × cos_value_t)
  | [], c => c
  | [k], c =>
    if pdf_key_eq k "/Rect".toList || pdf_key_eq k "/Page".toList then c
    else cos_dict_put c k (.scalar [])
  | k :: v :: rest, c =>
    article_put_pairs rest
      (if pdf_key_eq k "/Rect".toList || pdf_key_eq k "/Page".toList then c
       else cos_dict_put c k (.scalar v))

/-- The part of `pdfmark_ARTICLE` after the article `part` (at index `i` of the
list) is found or created: "Add the bead to the article". -/
def article_add_bead (pdev : gx_device_pdf) (pairs : List Str) (i : Nat) (part : pdf_article_t)
    (bead_id : Int) (rect : gs_rect) : Int × gx_device_pdf :=
  let part1 : pdf_article_t :=
    if part.last.id = 0 then
      { part with first := { part.first with next_id := bead_id },
                  last := { part.last with id := part.first.id } }
    else { part with last := { part.last with next_id := bead_id } }
  let pdev1 := if part.last.id = 0 then pdev else (pdfmark_write_bead pdev part1.last).2
  let pg := pdfmark_page_number pdev1 (pdfmark_find_key "/Page".toList pairs)
  let last2 : pdf_bead_t :=
    { part1.last with prev_id := part1.last.id, id := bead_id,
                      article_id := part1.contents.id, next_id := 0, rect := rect,
                      page_id := pdf_page_id pg.2 pg.1 }
  let contents : cos_dict_t :=
    { part1.contents with elements := article_put_pairs pairs part1.contents.elements }
  let part3 : pdf_article_t :=
    if part1.first.id = 0 then { contents := contents, first := last2, last := { last2 with id := 0 } }
    else { contents := contents, first := part1.first, last := last2 }
  (0, { pg.2 with articles := pg.2.articles.set i part3 })

/-- ARTICLE pdfmark (`pdfmark_ARTICLE`). -/
def pdfmark_ARTICLE (E : Env) : pdfmark_proc := fun pdev pairs pctm _ =>
  match pdfmark_find_key "/Title".toList pairs, pdfmark_find_key "/Rect".toList pairs with
  | some title, some rectstr =>
    let sr := pdfmark_scan_rect E rectstr pctm
    if sr.1 < 0 then (sr.1, pdev)
    else
      let b := pdf_obj_ref pdev
      match find_article title b.2.articles with
      | some i => article_add_bead b.2 pairs i (b.2.articles.getD i {}) b.1 sr.2
      | none =>
        let a1 := alloc E b.2
        if !a1.1 then (gs_error_VMerror, a1.2)
        else
          let a2 := alloc E a1.2
          if !a2.1 then (gs_error_VMerror, a2.2)
          else
            let c := pdf_obj_ref a2.2
            let part : pdf_article_t :=
              { contents := { id := c.1,
                              elements := cos_dict_put [] "/Title".toList (.scalar title) },
                first := {}, last := {} }
            article_add_bead { c.2 with articles := part :: c.2.articles } pairs 0 part b.1 sr.2
  | _, _ => (gs_error_rangecheck, pdev)

/-! ## Destinations and page labels -/

/-- The pair loop of `pdfmark_DEST`: every pair but /Dest, /Page and /View goes
into the destination dictionary. -/
def dest_put_pairs : List Str → List (Str × Str) → List (Str × Str)
  | [], d => d
  | [k], d =>
    if !pdf_key_eq k "/Dest".toList && !pdf_key_eq k "/Page".toList &&
        !pdf_key_eq k "/View".toList then cos_dict_put d k []
    else d
  | k :: v :: rest, d =>
    dest_put_pairs rest
      (if !pdf_key_eq k "/Dest".toList && !pdf_key_eq k "/Page".toList &&
          !pdf_key_eq k "/View".toList then cos_dict_put d k v
       else d)

/-- DEST pdfmark (`pdfmark_DEST`). -/
def pdfmark_DEST (E : Env) : pdfmark_proc := fun pdev pairs _ objname =>
  match pdfmark_find_key "/Dest".toList pairs with
  | none => (gs_error_rangecheck, pdev)
  | some key =>
    let r := pdfmark_make_dest E pdev "/Page".toList "/View".toList pairs 1
    if r.1 < 0 then (gs_error_rangecheck, r.2.2)
    else
      let present := r.1
      let dest := c_string r.2.1
      let pdev1 := r.2.2
      let a := if pdev1.Dests.isNone then alloc E pdev1 else (true, pdev1)
      if !a.1 then (gs_error_VMerror, a.2)
      else
        let pdev2 : gx_device_pdf :=
          if pdev1.Dests.isNone then
            { (pdf_obj_ref a.2).2 with Dests := some { id := (pdf_obj_ref a.2).1 } }
          else a.2
        let Dests : cos_dict_t := pdev2.Dests.getD {}
        if objname.isSome ∨ (pairs.length : Int) > (present + 1) * 2 then
          let m := E.pdf_make_named_dict pdev2 objname false
          if m.1 < 0 then (m.1, m.2.2)
          else
            let ddict := dest_put_pairs pairs (cos_dict_put [] "/D".toList dest)
            (0, { m.2.2 with Dests := some { Dests with
                    elements := cos_dict_put Dests.elements key (.object m.2.1 ddict) } })
        else
          (0, { pdev2 with Dests := some { Dests with
                  elements := cos_dict_put Dests.elements key (.scalar dest) } })

/-- Add a page label for the current page (`pdfmark_add_pagelabel`); `label = none`
flushes the last label. -/
def pdfmark_add_pagelabel (E : Env) (pdev : gx_device_pdf) (label : Option Str) :
    Int × gx_device_pdf :=
  -- create label dict (and page label array if not present yet)
  let s1 : Int × Option (List (Str × Str)) × gx_device_pdf :=
    match label with
    | none => (0, none, pdev)
    | some l =>
      let s0 : Int × gx_device_pdf :=
        if pdev.PageLabels.isNone then
          let a := alloc E pdev
          if !a.1 then (gs_error_VMerror, a.2)
          else
            let o := pdf_obj_ref a.2
            let p1 : gx_device_pdf :=
              { o.2 with PageLabels := some { id := o.1 }, PageLabels_current_page := 0 }
            let a1 := alloc E p1
            if !a1.1 then (gs_error_VMerror, { a1.2 with PageLabels_current_label := none })
            else (0, { a1.2 with PageLabels_current_label := some [] })
        else (0, pdev)
      if s0.1 < 0 then (s0.1, none, s0.2)
      else
        let a2 := alloc E s0.2
        if !a2.1 then (gs_error_VMerror, none, a2.2)
        else (0, some (cos_dict_put [] "/P".toList l), a2.2)
  if s1.1 < 0 then (s1.1, s1.2.2)
  else
    let dict := s1.2.1
    let p := s1.2.2
    -- flush current label
    let s2 : Int × gx_device_pdf :=
      if label.isNone ∨ p.next_page ≠ p.PageLabels_current_page then
        let p1 : gx_device_pdf :=
          match p.PageLabels_current_label, p.PageLabels with
          | some cur, some arr =>
            { p with PageLabels := some { arr with elements := arr.elements ++
                        [cos_array_element.int p.PageLabels_current_page,
                         cos_array_element.dict cur] },
                     PageLabels_current_label := none }
          | _, _ => { p with PageLabels_current_label := none }
        -- handle unlabeled pages between current labeled page and next labeled page
        match p1.PageLabels with
        | some arr =>
          if p1.next_page - p1.PageLabels_current_page > 1 then
            let a := alloc E p1
            if !a.1 then (gs_error_VMerror, a.2)
            else
              (0, { a.2 with PageLabels := some { arr with elements := arr.elements ++
                      [cos_array_element.int (p1.PageLabels_current_page + 1),
                       cos_array_element.dict []] } })
          else (0, p1)
        | none => (0, p1)
      else (0, p)
    if s2.1 < 0 then s2
    else
      (0, { s2.2 with PageLabels_current_label := dict,
                      PageLabels_current_page := s2.2.next_page })

/-- PAGELABEL pdfmark (`pdfmark_PAGELABEL`). -/
def pdfmark_PAGELABEL (E : Env) : pdfmark_proc := fun pdev pairs _ _ =>
  if pdev.CompatibilityLevel ≥ 13 / 10 then
    match pdfmark_find_key "/Label".toList pairs with
    | some key => pdfmark_add_pagelabel E pdev (some key)
    | none => (0, pdev)
  else (0, pdev)

/-! ## Dispatch -/

/-- Option bit: allows _objdef. -/
def PDFMARK_NAMEABLE : Nat := 1

/-- Option bit: OK if odd number of parameters. -/
def PDFMARK_ODD_OK : Nat := 2

/-- Option bit: do not substitute a reference for the name in the 1st argument. -/
def PDFMARK_KEEP_NAME : Nat := 4

/-- Option bit: do not substitute references for names anywhere. -/
def PDFMARK_NO_REFS : Nat := 8

/-- Option bit: pass the true CTM to the procedure. -/
def PDFMARK_TRUECTM : Nat := 16

/-- An entry in the table of pdfmark-processing procedures (`pdfmark_name`). -/
structure pdfmark_name where
  mname : Str
  proc : pdfmark_proc
  options : Nat

/-- The pdfmark types we know about (`mark_names`), in table order.  The handlers
embedded in this file are named; the others are taken from the environment. -/
def mark_names (E : Env) : List pdfmark_name :=
  [ ⟨"ANN".toList, E.procs "ANN".toList, PDFMARK_NAMEABLE⟩,
    ⟨"LNK".toList, E.procs "LNK".toList, PDFMARK_NAMEABLE⟩,
    ⟨"OUT".toList, pdfmark_OUT E, 0⟩,
    ⟨"ARTICLE".toList, pdfmark_ARTICLE E, 0⟩,
    ⟨"DEST".toList, pdfmark_DEST E, PDFMARK_NAMEABLE⟩,
    ⟨"PS".toList, E.procs "PS".toList, PDFMARK_NAMEABLE⟩,
    ⟨"PAGES".toList, E.procs "PAGES".toList, 0⟩,
    ⟨"PAGE".toList, E.procs "PAGE".toList, 0⟩,
    ⟨"PAGELABEL".toList, pdfmark_PAGELABEL E, 0⟩,
    ⟨"DOCINFO".toList, E.procs "DOCINFO".toList, 0⟩,
    ⟨"DOCVIEW".toList, E.procs "DOCVIEW".toList, 0⟩,
    ⟨"BP".toList, E.procs "BP".toList, PDFMARK_NAMEABLE ||| PDFMARK_TRUECTM⟩,
    ⟨"EP".toList, E.procs "EP".toList, 0⟩,
    ⟨"SP".toList, E.procs "SP".toList,
      PDFMARK_ODD_OK ||| PDFMARK_KEEP_NAME ||| PDFMARK_TRUECTM⟩,
    ⟨"OBJ".toList, E.procs "OBJ".toList, PDFMARK_NAMEABLE⟩,
    ⟨"PUT".toList, E.procs "PUT".toList, PDFMARK_ODD_OK ||| PDFMARK_KEEP_NAME⟩,
    ⟨".PUTDICT".toList, E.procs ".PUTDICT".toList, PDFMARK_ODD_OK ||| PDFMARK_KEEP_NAME⟩,
    ⟨".PUTINTERVAL".toList, E.procs ".PUTINTERVAL".toList,
      PDFMARK_ODD_OK ||| PDFMARK_KEEP_NAME⟩,
    ⟨".PUTSTREAM".toList, E.procs ".PUTSTREAM".toList,
      PDFMARK_ODD_OK ||| PDFMARK_KEEP_NAME ||| PDFMARK_NO_REFS⟩,
    ⟨"APPEND".toList, E.procs "APPEND".toList, PDFMARK_KEEP_NAME⟩,
    ⟨"CLOSE".toList, E.procs "CLOSE".toList, PDFMARK_ODD_OK ||| PDFMARK_KEEP_NAME⟩,
    ⟨"NamespacePush".toList, E.procs "NamespacePush".toList, 0⟩,
    ⟨"NamespacePop".toList, E.procs "NamespacePop".toList, 0⟩,
    ⟨"NI".toList, E.procs "NI".toList, PDFMARK_NAMEABLE⟩,
    ⟨"MP".toList, E.procs "MP".toList, PDFMARK_ODD_OK⟩,
    ⟨"DP".toList, E.procs "DP".toList, 0⟩,
    ⟨"BMC".toList, E.procs "BMC".toList, PDFMARK_ODD_OK⟩,
    ⟨"BDC".toList, E.procs "BDC".toList, 0⟩,
    ⟨"EMC".toList, E.procs "EMC".toList, 0⟩,
    ⟨"StRoleMap".toList, E.procs "StRoleMap".toList, 0⟩,
    ⟨"StClassMap".toList, E.procs "StClassMap".toList, 0⟩,
    ⟨"StPNE".toList, E.procs "StPNE".toList, PDFMARK_NAMEABLE⟩,
    ⟨"StBookmarkRoot".toList, E.procs "StBookmarkRoot".toList, 0⟩,
    ⟨"StPush".toList, E.procs "StPush".toList, 0⟩,
    ⟨"StPop".toList, E.procs "StPop".toList, 0⟩,
    ⟨"StPopAll".toList, E.procs "StPopAll".toList, 0⟩,
    ⟨"StBMC".toList, E.procs "StBMC".toList, 0⟩,
    ⟨"StBDC".toList, E.procs "StBDC".toList, 0⟩,
    ⟨"StOBJ".toList, E.procs "StOBJ".toList, 0⟩,
    ⟨"StAttr".toList, E.procs "StAttr".toList, 0⟩,
    ⟨"StStore".toList, E.procs "StStore".toList, 0⟩,
    ⟨"StRetrieve".toList, E.procs "StRetrieve".toList, 0⟩ ]

/-- The search for an object name in `pdfmark_process`: the index `j` of the
first key /_objdef at an even position at or after `j0`. -/
def find_objdef : List Str → Nat → Option Nat
  | [], _ => none
  | [k], j => if pdf_key_eq k "/_objdef".toList then some j else none
  | k :: _ :: rest, j =>
    if pdf_key_eq k "/_objdef".toList then some j else find_objdef rest (j + 2)

/-- The reference substitution loop of `pdfmark_process`:
`for (j = ...; j < size; j += step) pdf_replace_names(pdev, &pairs[j], &pairs[j])`.
The step is 1 or 2, so `size` rounds of fuel reach the end. -/
def process_refs (E : Env) (step : Nat) :
    Nat → Nat → List Str → gx_device_pdf → Int × List Str × gx_device_pdf
  | 0, _, pairs, pdev => (0, pairs, pdev)
  | fuel + 1, j, pairs, pdev =>
    if j < pairs.length then
      let r := E.pdf_replace_names pdev (pairs.getD j [])
      if r.1 < 0 then (r.1, pairs, r.2.2)
      else process_refs E step fuel (j + step) (pairs.set j r.2.1) r.2.2
    else (0, pairs, pdev)

/-- The body of the dispatch loop of `pdfmark_process` for the matching table
entry `pmn`; `data` holds the parameters without the CTM and the mark name. -/
def process_entry (E : Env) (pdev : gx_device_pdf) (data : List Str) (ctm : gs_matrix)
    (pmn : pdfmark_name) : Int × gx_device_pdf :=
  let odd_ok : Nat := if pmn.options &&& PDFMARK_ODD_OK ≠ 0 then 1 else 0
  let ctm1 : gs_matrix :=
    if pmn.options &&& PDFMARK_TRUECTM ≠ 0 then ctm
    else
      let xscale := 72 / pdev.HWResolution.1
      let yscale := 72 / pdev.HWResolution.2
      { xx := ctm.xx * xscale, xy := ctm.xy * yscale, yx := ctm.yx * xscale,
        yy := ctm.yy * yscale, tx := ctm.tx * xscale, ty := ctm.ty * yscale }
  if data.length &&& (if odd_ok = 0 then 1 else 0) ≠ 0 then (gs_error_rangecheck, pdev)
  else
    let found : Option Nat :=
      if pmn.options &&& PDFMARK_NAMEABLE ≠ 0 then find_objdef data 0 else none
    let objname : Option Str := found.map (fun j => data.getD (j + 1) [])
    if (match objname with
        | some n => !E.pdf_objname_is_valid n
        | none => false) then (gs_error_rangecheck, pdev)
    else
      let a := alloc E pdev
      if !a.1 then (gs_error_VMerror, a.2)
      else
        let pairs : List Str :=
          match found with
          | some j => data.take j ++ data.drop (j + 2)
          | none => data
        let r : Int × List Str × gx_device_pdf :=
          if pmn.options &&& PDFMARK_NO_REFS = 0 then
            process_refs E (2 - odd_ok) pairs.length
              (if pmn.options &&& PDFMARK_KEEP_NAME ≠ 0 then 1 else 1 - odd_ok) pairs a.2
          else (0, pairs, a.2)
        if r.1 < 0 then (r.1, r.2.2)
        else pmn.proc r.2.2 r.2.1 ctm1 objname

/-- Process a pdfmark (`pdfmark_process`).  The parameter array `pma` is
`data ++ [ctm, name]`: the pairs, the CTM string and the mark type name. -/
def pdfmark_process (E : Env) (pdev : gx_device_pdf) (data : List Str) (ctm name : Str) :
    Int × gx_device_pdf :=
  if ctm.length > 199 then (gs_error_rangecheck, pdev)
  else
    let v := E.sscanf_ctm (c_string ctm)
    if v.length ≠ 6 then (gs_error_rangecheck, pdev)
    else
      let m : gs_matrix :=
        { xx := v.getD 0 0, xy := v.getD 1 0, yx := v.getD 2 0, yy := v.getD 3 0,
          tx := v.getD 4 0, ty := v.getD 5 0 }
      match (mark_names E).find? (fun pmn => pdf_key_eq name pmn.mname) with
      | none => (0, pdev)
      | some pmn => process_entry E pdev data m pmn

/-! ## Named objects -/

/-- Modelled from the spec: the object of a resource gets the identifier that is
reserved for it (`pdf_reserve_object_id`), a new one from `allocateId()` when the
identifier passed is 0. -/
def pdf_reserve_object_id (pdev : gx_device_pdf) (pres : pdf_resource_t) (id : Int) :
    pdf_resource_t × gx_device_pdf :=
  if id = 0 then
    ({ pres with object := { pres.object with id := (pdf_obj_ref pdev).1 } }, (pdf_obj_ref pdev).2)
  else ({ pres with object := { pres.object with id := id } }, pdev)

/-- Modelled from the spec: `resolve(name)` of the named object registry
(`pdf_refer_named`): returns the bound object, creating a forward-reference
placeholder if unbound: a generic object with a new identifier from `allocateId()`,
entered in the registry under the name.  The code is 1 when the placeholder is
created and rangecheck when the entry is not an object. -/
def pdf_refer_named (pdev : gx_device_pdf) (name : Str) :
    Int × Option cos_object_t × gx_device_pdf :=
  match cos_dict_find pdev.local_named_objects name with
  | some (cos_named_value.object o) => (0, some o, pdev)
  | some cos_named_value.other => (gs_error_rangecheck, none, pdev)
  | none =>
    let r := pdf_obj_ref pdev
    let o : cos_object_t := { id := r.1, is_generic := true }
    let named1 := cos_dict_put r.2.local_named_objects name (cos_named_value.object o)
    (1, some o, { r.2 with local_named_objects := named1 })

/-- The first block of `pdfmark_bind_named_object`, for a name that is not empty:
the look at the object that the name is bound to so far. -/
def bind_lookup (E : Env) (pdev : gx_device_pdf) (name : Str) (pres : pdf_resource_t) :
    Int × pdf_resource_t × gx_device_pdf :=
  match cos_dict_find pdev.local_named_objects name with
  | none => (0, pres, pdev)
  | some (cos_named_value.object o) =>
    if o.is_generic then
      -- The object was referred but not defined.  Use the old object id.
      (0, (pdf_reserve_object_id pdev pres o.id).1, (pdf_reserve_object_id pdev pres o.id).2)
    else if !o.written then
      let w := E.cos_write_object pdev o
      if w.1 < 0 then (w.1, pres, w.2)
      else
        let o1 : cos_object_t := { o with written := true }
        let named1 := cos_dict_put w.2.local_named_objects name (cos_named_value.object o1)
        (0, pres, { w.2 with local_named_objects := named1 })
    else (0, pres, pdev)
  | some cos_named_value.other => (gs_error_rangecheck, pres, pdev)

/-- The second block of `pdfmark_bind_named_object`: an object without id (-1) goes
through `pdf_substitute_resource`. -/
def bind_substitute (E : Env) (named : Bool) (pres : pdf_resource_t) (pdev : gx_device_pdf) :
    Int × pdf_resource_t × gx_device_pdf :=
  if pres.object.id = -1 then
    let r := E.pdf_substitute_resource pdev pres (!named)
    (r.1, { r.2.1 with where_used := r.2.1.where_used ||| r.2.2.used_mask }, r.2.2)
  else (0, pres, pdev)

/-- The third block of `pdfmark_bind_named_object`, for a name that is not empty:
the name is bound to the object of the resource (`cos_dict_put`, which allocates). -/
def bind_put (E : Env) (name : Str) (pres : pdf_resource_t) (pdev : gx_device_pdf) :
    Int × pdf_resource_t × gx_device_pdf :=
  let a := alloc E pdev
  if !a.1 then (gs_error_VMerror, pres, a.2)
  else
    let named1 := cos_dict_put a.2.local_named_objects name (cos_named_value.object pres.object)
    (0, pres, { a.2 with local_named_objects := named1 })

/-- Bind the object of the resource `*pres` to a name (`pdfmark_bind_named_object`):
the code, the resource `*pres` after the call and the device.  A null `objname` is
`none`. -/
def pdfmark_bind_named_object (E : Env) (pdev : gx_device_pdf) (objname : Option Str)
    (pres : pdf_resource_t) : Int × pdf_resource_t × gx_device_pdf :=
  let named : Bool :=
    match objname with
    | some n => decide (n.length ≠ 0)
    | none => false
  let name : Str := objname.getD []
  let s1 : Int × pdf_resource_t × gx_device_pdf :=
    if named then bind_lookup E pdev name pres else (0, pres, pdev)
  if s1.1 < 0 then s1
  else
    let s2 := bind_substitute E named s1.2.1 s1.2.2
    if s2.1 < 0 then s2
    else if named then bind_put E name s2.2.1 s2.2.2
    else (0, s2.2.1, s2.2.2)

/-! ## Annotations -/

/-- The fields of `gx_device_pdf` that only `pdfmark_annot` uses, kept in a record
of their own that is passed next to the device: the PDF/A and PDF/X settings, the
page size, the Page dictionary and the Annots array of every page (`pages[i].Page`,
`pages[i].Annots`, a null array is `none`), and the annotation objects written to
the output file by `COS_WRITE_OBJECT`, oldest first. -/
structure gx_device_pdf_annot where
  PDFA : Int := 0
  PDFX : Int := 0
  PDFACompatibilityPolicy : Int := 0
  AbortPDFAX : Bool := false
  MediaSize : double × double := (612, 792)
  PDFXTrimBoxToMediaBoxOffset : List double := []
  PDFXBleedBoxToTrimBoxOffset : List double := []
  pages_Page : Int → List (Str × cos_value_t) := fun _ => []
  pages_Annots : Int → Option (List cos_dict_t) := fun _ => none
  written : List cos_dict_t := []

/-- The array `floatp pagebox[4]` of `pdfmark_annot`. -/
structure pagebox_t where
  b0 : double := 0
  b1 : double := 0
  b2 : double := 0
  b3 : double := 0
deriving DecidableEq, Repr

/-- The prescan of `pdfmark_annot` for a /F pair: `Flags` after the loop, which
stops at the first /F key; a value that does not scan leaves 0.  (For a list of
odd length the C code would read `pairs[count]`; the model reads an empty value.) -/
def annot_flags : List Str → Int
  | [] => 0
  | [k] => if pdf_key_eq k "/F".toList then (sscanf_d []).getD 0 else 0
  | k :: v :: rest =>
    if pdf_key_eq k "/F".toList then (sscanf_d v).getD 0 else annot_flags rest

/-- The PDF/A block of `pdfmark_annot`: `some code` is an early return with that
code, `none` goes on with the settings returned. -/
def annot_pdfa (pairs : List Str) (ps : gx_device_pdf_annot) :
    Option Int × gx_device_pdf_annot :=
  if ps.PDFA ≠ 0 then
    let Flags := annot_flags pairs
    if Int.land Flags 4 = 0 then
      if ps.PDFACompatibilityPolicy = 1 then (some 0, ps)
      else if ps.PDFACompatibilityPolicy = 2 then (some gs_error_invalidfont, ps)
      else (none, { ps with AbortPDFAX := true, PDFA := 0 })
    else (none, ps)
  else (none, ps)

/-- The value of the first /Rect pair, if any: the loop over the pairs in the PDF/X
block of `pdfmark_annot` ends at the first /Rect key. -/
def annot_find_rect : List Str → Option Str
  | [] => none
  | [k] => if pdf_key_eq k "/Rect".toList then some [] else none
  | k :: v :: rest =>
    if pdf_key_eq k "/Rect".toList then some v else annot_find_rect rest

/-- One of the four box tests of `pdfmark_annot`: a scalar box value that scans as
four numbers raises `pagebox[0]` and `pagebox[1]`; the value is scanned in a buffer of 100 bytes. -/
def annot_raise_box (E : Env) (v : Option cos_value_t) (pagebox : pagebox_t) : pagebox_t :=
  match v with
  | some (cos_value_t.scalar chars) =>
    match E.sscanf_box (c_string (chars.take 99)) with
    | some temp =>
      { pagebox with
          b0 := if temp.1 > pagebox.b0 then temp.1 else pagebox.b0,
          b1 := if temp.2.1 > pagebox.b1 then temp.2.1 else pagebox.b1 }
    | none => pagebox
  | _ => pagebox

/-- The allowed page box that `pdfmark_annot` computes for the page `next_page`. -/
def annot_pagebox (E : Env) (ps : gx_device_pdf_annot) (next_page : Int) : pagebox_t :=
  let Page := ps.pages_Page next_page
  let v_trimbox := cos_dict_find Page "/TrimBox".toList
  let v_bleedbox := cos_dict_find Page "/BleedBox".toList
  let v_artbox := cos_dict_find Page "/ArtBox".toList
  let v_cropbox := cos_dict_find Page "/CropBox".toList
  let pagebox0 : pagebox_t := { b0 := 0, b1 := 0, b2 := ps.MediaSize.1, b3 := ps.MediaSize.2 }
  let pagebox1 := annot_raise_box E v_cropbox pagebox0
  let pagebox2 := annot_raise_box E v_bleedbox pagebox1
  let pagebox3 := annot_raise_box E v_trimbox pagebox2
  let pagebox4 := annot_raise_box E v_artbox pagebox3
  if v_cropbox.isNone ∧ v_trimbox.isNone ∧ v_artbox.isNone ∧ v_bleedbox.isNone then
    let t := ps.PDFXTrimBoxToMediaBoxOffset
    let b := ps.PDFXBleedBoxToTrimBoxOffset
    if t.length ≥ 4 ∧ t.getD 0 0 ≥ 0 ∧ t.getD 1 0 ≥ 0 ∧ t.getD 2 0 ≥ 0 ∧ t.getD 3 0 ≥ 0 then
      { b0 := pagebox4.b0 + t.getD 0 0, b1 := pagebox4.b1 + t.getD 3 0,
        b2 := pagebox4.b2 - t.getD 1 0, b3 := pagebox4.b3 - t.getD 2 0 }
    else if b.length ≥ 4 ∧ b.getD 0 0 ≥ 0 ∧ b.getD 1 0 ≥ 0 ∧ b.getD 2 0 ≥ 0 ∧
        b.getD 3 0 ≥ 0 then
      { b0 := pagebox4.b0 - b.getD 0 0, b1 := pagebox4.b1 - b.getD 3 0,
        b2 := pagebox4.b2 + b.getD 1 0, b3 := pagebox4.b3 + b.getD 2 0 }
    else pagebox4
  else pagebox4

/-- The policy switch of the PDF/X block of `pdfmark_annot`. -/
def annot_pdfx_policy (ps : gx_device_pdf_annot) : Option Int × gx_device_pdf_annot :=
  if ps.PDFACompatibilityPolicy = 1 then (some 0, ps)
  else if ps.PDFACompatibilityPolicy = 2 then (some gs_error_invalidfont, ps)
  else (none, { ps with AbortPDFAX := true, PDFX := 0 })

/-- The PDF/X block of `pdfmark_annot`: `some code` is an early return with that
code, `none` goes on with the settings returned.  The test of the rectangle
against the page box is the one of the C code, which compares `rect.q.y` with
`pagebox[2]`; without a /Rect key the loop index ends above `count` only when
`count` is odd. -/
def annot_pdfx (E : Env)
    (pdev : gx_device_pdf) (ps : gx_device_pdf_annot) (pairs : List Str) (pctm : gs_matrix)
    (subtype : Option Str) : Option Int × gx_device_pdf_annot :=
  if ps.PDFX ≠ 0 then
    let discard : Bool :=
      match subtype with
      | some s => !(pdf_key_eq s "/TrapNet".toList || pdf_key_eq s "/PrinterMark".toList)
      | none => true
    if discard then
      match annot_find_rect pairs with
      | some value =>
        let r := pdfmark_scan_rect E value pctm
        if r.1 < 0 then (some r.1, ps)
        else
          let pagebox := annot_pagebox E ps pdev.next_page
          let rect := r.2
          if rect.p.x > pagebox.b2 ∨ rect.q.x < pagebox.b0 ∨
              rect.p.y > pagebox.b3 ∨ rect.q.y < pagebox.b2 then (none, ps)
          else annot_pdfx_policy ps
      | none =>
        if pairs.length % 2 = 1 then annot_pdfx_policy ps else (none, ps)
    else (none, ps)
  else (none, ps)

/-- The end of `pdfmark_annot`, from `pdf_make_named_dict` on: the dictionary is
made and filled, and added to the Annots array of its page; without an object name
it is written at once. -/
def annot_add (E : Env) (pdev : gx_device_pdf) (ps : gx_device_pdf_annot) (pairs : List Str)
    (pctm : gs_matrix) (objname : Option Str) (subtype : Option Str) :
    Int × gx_device_pdf × gx_device_pdf_annot :=
  let m := E.pdf_make_named_dict pdev objname true
  if m.1 < 0 then (m.1, m.2.2, ps)
  else
    let pcd : cos_dict_t :=
      { id := m.2.1,
        elements := cos_dict_put [] "/Type".toList (cos_value_t.scalar "/Annot".toList) }
    let r := pdfmark_put_ao_pairs E m.2.2 pcd pairs pctm { subtype := subtype, src_pg := -1 }
      false
    if r.1 < 0 then (r.1, r.2.pdev, ps)
    else
      let page_index : Int := if r.2.src_pg ≥ 0 then r.2.src_pg else pdev.next_page
      if pdf_page_id r.2.pdev (page_index + 1) ≤ 0 then (gs_error_rangecheck, r.2.pdev, ps)
      else
        let a : Bool × gx_device_pdf :=
          match ps.pages_Annots page_index with
          | some _ => (true, r.2.pdev)
          | none => alloc E r.2.pdev
        if !a.1 then (gs_error_VMerror, a.2, ps)
        else
          let annots := (ps.pages_Annots page_index).getD []
          let obj : cos_dict_t := { id := m.2.1, elements := r.2.pcd }
          (0, a.2,
            { ps with
                pages_Annots := Function.update ps.pages_Annots page_index (some (annots ++ [obj])),
                written := if objname.isNone then ps.written ++ [obj] else ps.written })

/-- Copy an annotation dictionary (`pdfmark_annot`): the code, the device and the
annotation fields of the device. -/
def pdfmark_annot (E : Env)
    (pdev : gx_device_pdf) (ps : gx_device_pdf_annot) (pairs : List Str) (pctm : gs_matrix)
    (objname : Option Str) (subtype : Option Str) :
    Int × gx_device_pdf × gx_device_pdf_annot :=
  let a := annot_pdfa pairs ps
  match a.1 with
  | some code => (code, pdev, a.2)
  | none =>
    let x := annot_pdfx E pdev a.2 pairs pctm subtype
    match x.1 with
    | some code => (code, pdev, x.2)
    | none => annot_add E pdev x.2 pairs pctm objname subtype

/-- ANN pdfmark (`pdfmark_ANN`). -/
def pdfmark_ANN (E : Env)
    (pdev : gx_device_pdf) (ps : gx_device_pdf_annot) (pairs : List Str) (pctm : gs_matrix)
    (objname : Option Str) : Int × gx_device_pdf × gx_device_pdf_annot :=
  pdfmark_annot E pdev ps pairs pctm objname (some "/Text".toList)

/-- LNK pdfmark (`pdfmark_LNK`). -/
def pdfmark_LNK (E : Env)
    (pdev : gx_device_pdf) (ps : gx_device_pdf_annot) (pairs : List Str) (pctm : gs_matrix)
    (objname : Option Str) : Int × gx_device_pdf × gx_device_pdf_annot :=
  pdfmark_annot E pdev ps pairs pctm objname (some "/Link".toList)

/-! ## Document information -/

/-- What `pdfmark_DOCINFO` takes from other files: `string_match` with
`ignore_case` set (value, pattern), and the text that `pdf_store_default_Producer`
stores in `buf`, a string enclosed in (). -/
structure producer_env where
  string_match : Str → Str → Bool := fun _ _ => false
  default_Producer : Str := "(GPL Ghostscript)".toList

/-- The second pattern of `pdfmark_DOCINFO`: `*Distiller*` in UTF-16, 20 bytes. -/
def distiller_utf16 : Str :=
  ['*', Char.ofNat 0, 'D', Char.ofNat 0, 'i', Char.ofNat 0, 's', Char.ofNat 0, 't',
    Char.ofNat 0, 'i', Char.ofNat 0, 'l', Char.ofNat 0, 'l', Char.ofNat 0, 'e',
    Char.ofNat 0, 'r', '*']

/-- The backward search of `pdfmark_DOCINFO`:
`for (j = vsize; j > 0 && vdata[--j] != '+'; )`, started with the given `j`; the
result is the index of the last `+` below `j`, or 0. -/
def producer_find_plus (vdata : Str) : Nat → Nat
  | 0 => 0
  | j + 1 => if vdata.getD j ' ' ≠ '+' then producer_find_plus vdata j else j

/-- The loop `while (j < vsize && vdata[j] == ' ') ++j` of `pdfmark_DOCINFO`; the
first argument is the number of rounds left. -/
def producer_skip_blanks (vdata : Str) : Nat → Nat → Nat
  | 0, j => j
  | fuel + 1, j =>
    if j < vdata.length ∧ vdata.getD j '+' = ' ' then producer_skip_blanks vdata fuel (j + 1)
    else j

/-- The Producer that `pdfmark_DOCINFO` stores for a value that matches
`*Distiller*`: `vdata[0 .. j)` followed by `buf + 1`, the default producer without
its first byte. -/
def producer_replace (P : producer_env) (vdata : Str) : Str :=
  let j0 := producer_find_plus vdata vdata.length
  let j :=
    if vdata.length - j0 > 2 ∧ vdata.getD j0 ' ' = '+' then
      producer_skip_blanks vdata vdata.length (j0 + 1)
    else j0
  vdata.take j ++ P.default_Producer.drop 1

/-- The pair loop of `pdfmark_DOCINFO`, on the elements of `pdev->Info`. -/
def docinfo_loop (E : Env) (P : producer_env) :
    List Str → List (Str × cos_value_t) → gx_device_pdf →
    Int × List (Str × cos_value_t) × gx_device_pdf
  | k :: v :: rest, info, pdev =>
    if pdf_key_eq k "/Producer".toList ∧
        (P.string_match v "*Distiller*".toList || P.string_match v distiller_utf16) then
      let a := alloc E pdev
      if !a.1 then (gs_error_VMerror, info, a.2)
      else docinfo_loop E P rest (cos_dict_put info k (cos_value_t.scalar (producer_replace P v)))
        a.2
    else docinfo_loop E P rest (cos_dict_put info k (cos_value_t.scalar v)) pdev
  | _, info, pdev => (0, info, pdev)

/-- DOCINFO pdfmark (`pdfmark_DOCINFO`); `Info` is the dictionary `pdev->Info`. -/
def pdfmark_DOCINFO (E : Env) (P : producer_env) (pdev : gx_device_pdf) (Info : cos_dict_t)
    (pairs : List Str) : Int × cos_dict_t × gx_device_pdf :=
  if pairs.length &&& 1 ≠ 0 then (gs_error_rangecheck, Info, pdev)
  else
    let r := docinfo_loop E P pairs Info.elements pdev
    (r.1, { Info with elements := r.2.1 }, r.2.2)

/-! ## The unread buffer of a PDF stream (`pdf_file.c`) -/

/-- What `pdf_file.c` takes from headers and from the stream library, for an
underlying stream of type `σ`: the constant UNREAD_BUFFER_SIZE, the status EOFC, and
`sfread(Buffer, 1, total, s->s)`, which gives its return value, the bytes it stores
into the buffer, and the underlying stream afterwards. -/
structure file_env (σ : Type) where
  UNREAD_BUFFER_SIZE : Nat
  EOFC : Int := -1
  sfread : σ → Nat → Int × List Nat × σ

/-- The stream of the PDF interpreter (`pdf_stream`): the underlying stream, the
end-of-file flag, and the unread buffer `unget_buffer[UNREAD_BUFFER_SIZE]` with the
number of unread bytes it holds. -/
structure pdf_stream (σ : Type) where
  s : σ
  eof : Bool := false
  unread_size : Nat := 0
  unget_buffer : List Nat := []

/-- The loop of `pdfi_unread` that makes room at the start of the unread buffer:
`do { unget_buffer[size + index] = unget_buffer[index]; } while (index--)`, from
the given index down to 0. -/
def unread_shift (size : Nat) : Nat → List Nat → List Nat
  | 0, buf => buf.set (size % 2 ^ 32) (buf.getD 0 0)
  | index + 1, buf =>
    unread_shift size index (buf.set ((size + (index + 1)) % 2 ^ 32) (buf.getD (index + 1) 0))

/-- The bytes of `dst` after `memcpy(dst, src, n)`. -/
def memcpy (dst src : List Nat) (n : Nat) : List Nat := src.take n ++ dst.drop n

/-- Push bytes back to the stream (`pdfi_unread`): `size` bytes of `Buffer` are put
in front of the unread bytes. -/
def pdfi_unread {σ : Type} (F : file_env σ) (s : pdf_stream σ) (Buffer : List Nat) (size : Nat) :
    Int × pdf_stream σ :=
  if (size + s.unread_size) % 2 ^ 32 > F.UNREAD_BUFFER_SIZE then (gs_error_ioerror, s)
  else
    let buf1 :=
      if s.unread_size ≠ 0 then unread_shift size (s.unread_size - 1) s.unget_buffer
      else s.unget_buffer
    (0, { s with unget_buffer := memcpy buf1 Buffer size,
                 unread_size := (s.unread_size + size) % 2 ^ 32 })

/-- The loop of `pdfi_read_bytes` that moves the remaining unread bytes to the start
of the buffer: `for (i = 0; i < unread_size - total; i++)
unget_buffer[i] = unget_buffer[i + total]`; the first argument is the number of
rounds left. -/
def read_shift (total : Nat) : Nat → Nat → List Nat → List Nat
  | 0, _, buf => buf
  | n + 1, i, buf => read_shift total n (i + 1) (buf.set i (buf.getD ((i + total) % 2 ^ 32) 0))

/-- Read `size * count` bytes (`pdfi_read_bytes`): the return value, the bytes
stored into the buffer of the caller, from its start on, and the stream. -/
def pdfi_read_bytes {σ : Type} (F : file_env σ) (size count : Nat) (s : pdf_stream σ) :
    Int × List Nat × pdf_stream σ :=
  let total := (size * count) % 2 ^ 32
  if s.unread_size ≠ 0 ∧ s.unread_size ≥ total then
    (int32_of size, s.unget_buffer.take total,
      { s with unget_buffer := read_shift total (s.unread_size - total) 0 s.unget_buffer,
               unread_size := s.unread_size - total })
  else
    -- the unread bytes, if any, are delivered first
    let i := s.unread_size
    let out1 := s.unget_buffer.take s.unread_size
    let total1 := total - s.unread_size
    let rd : Int × List Nat × σ := if total1 ≠ 0 then F.sfread s.s total1 else (0, [], s.s)
    let bytes := rd.1
    if bytes ≥ 0 then
      (int32_of ((i + bytes) % 2 ^ 32), out1 ++ rd.2.1, { s with unread_size := 0, s := rd.2.2 })
    else if bytes = F.EOFC then
      (0, out1 ++ rd.2.1, { s with unread_size := 0, s := rd.2.2, eof := true })
    else (bytes, out1 ++ rd.2.1, { s with unread_size := 0, s := rd.2.2 })

/-! ## Definitions used to state the properties -/

/-- Up to `n` integer conversions in a row: a sample `%g` scanner that accepts
decimal integers only. -/
def sample_scan_numbers : Nat → Str → List double × Str
  | 0, s => ([], s)
  | n + 1, s =>
    match scan_int_conv s with
    | none => ([], s)
    | some r => ((r.1 : ℚ) :: (sample_scan_numbers n r.2).1, (sample_scan_numbers n r.2).2)

/-- A sample of `sscanf(buf, "[%g %g %g %g %g %g]", ...)` for integer input. -/
def sample_sscanf_ctm (s : Str) : List double :=
  match s with
  | [] => []
  | c :: r => if c = '[' then (sample_scan_numbers 6 r).1 else []

/-- A sample of `sscanf(chars, "[%lg %lg %lg %lg]%d", ...) == 5` for integer
input. -/
def sample_sscanf_rect (s : Str) : Option (double × double × double × double) :=
  match s with
  | [] => none
  | c :: r =>
    if c = '[' then
      match sample_scan_numbers 4 r with
      | ([a, b, c1, d], rest) =>
        (match rest with
         | [] => none
         | e :: rest1 =>
           if e = ']' then (if (scan_int_conv rest1).isSome then some (a, b, c1, d) else none)
           else none)
      | _ => none
    else none

/-- A sample environment: the constants of Ghostscript's gdevpdfx.h, allocations
that always succeed, and number scanners that accept decimal integers. -/
def sample_env : Env :=
  { sscanf_ctm := sample_sscanf_ctm, sscanf_rect := sample_sscanf_rect,
    pprintg := fun _ => "0".toList }

/-- A run of `pdfmark_add_pagelabel`: for each `(page, label)` the driver is at
page index `page` (`next_page`) when the label is set. -/
def run_pagelabels (E : Env) : List (Int × Str) → gx_device_pdf → gx_device_pdf
  | [], pdev => pdev
  | pl :: rest, pdev =>
    run_pagelabels E rest (pdfmark_add_pagelabel E { pdev with next_page := pl.1 } (some pl.2)).2

/-- The entries of a PageLabels array: page index and label dictionary. -/
def label_entries : List cos_array_element → List (Int × List (Str × Str))
  | cos_array_element.int p :: cos_array_element.dict d :: rest => (p, d) :: label_entries rest
  | _ => []

/-- The page indices that the PageLabels array of the device gives an empty label
dictionary, in array order. -/
def empty_label_pages (pdev : gx_device_pdf) : List Int :=
  ((label_entries ((pdev.PageLabels.getD {}).elements)).filter (fun e => e.2.isEmpty)).map
    Prod.fst

/-- One empty label per gap: page `p + 1` for each page `p` of the list whose
successor in the list is more than one page later. -/
def label_gaps : List Int → List Int
  | p :: q :: rest => (if q - p > 1 then [p + 1] else []) ++ label_gaps (q :: rest)
  | _ => []

/-- The flat PageLabels array that holds the given entries. -/
def label_array : List (Int × List (Str × Str)) → List cos_array_element
  | [] => []
  | e :: rest => cos_array_element.int e.1 :: cos_array_element.dict e.2 :: label_array rest

/-- The empty-label pages that `pdfmark_add_pagelabel` produces for a strictly
increasing list of labelled pages: one per gap, where page 0 counts as a page
labelled with an empty label when the first labelled page is not page 0. -/
def expected_empty_labels : List Int → List Int
  | [] => []
  | f :: rest => if f = 0 then label_gaps (f :: rest) else 0 :: label_gaps (0 :: f :: rest)

/-- A run of one handler over a list of marks (pairs and CTM each), as the driver
delivers them one after the other; a mark that fails does not stop the run. -/
def run_marks (proc : pdfmark_proc) : List (List Str × gs_matrix) → gx_device_pdf → gx_device_pdf
  | [], pdev => pdev
  | m :: rest, pdev => run_marks proc rest (proc pdev m.1 m.2 none).2

/-- The given number of calls of `pdfmark_close_outline`. -/
def close_outline_times : Nat → gx_device_pdf → gx_device_pdf
  | 0, pdev => pdev
  | n + 1, pdev => close_outline_times n (pdfmark_close_outline pdev).2

/-- Closing all levels at the end of the document: `outline_depth + 1` calls of
`pdfmark_close_outline`. -/
def close_all_outlines (pdev : gx_device_pdf) : gx_device_pdf :=
  close_outline_times (pdev.outline_depth + 1) pdev

/-- The outline items in the output, oldest first: the id of the node and the
`/Next` id it is written with (0: no `/Next`). -/
def outline_writes : List pdf_object → List (Int × Int)
  | [] => []
  | pdf_object.outline node next_id :: rest => (node.id, next_id) :: outline_writes rest
  | _ :: rest => outline_writes rest

/-- A flat pair list as a list of pairs, in the order of the loops over it; a key
in the last position of a list of odd length gets an empty value. -/
def pairs_of : List Str → List (Str × Str)
  | [] => []
  | [k] => [(k, [])]
  | k :: v :: rest => (k, v) :: pairs_of rest

/-- The last pair of the list whose key is one of `keys`, or `acc` when there is
none. -/
def last_pair (keys : List Str) : List (Str × Str) → Option (Str × Str) → Option (Str × Str)
  | [], acc => acc
  | p :: rest, acc => last_pair keys rest (if p.1 ∈ keys then some p else acc)

/-- Every /Rect value of the pairs scans and every /Border value is written
within the border buffer, for the given transform. -/
def rect_border_ok (E : Env) (pctm : gs_matrix) (ps : List (Str × Str)) : Bool :=
  ps.all (fun p =>
    (!pdf_key_eq p.1 "/Rect".toList || decide (0 ≤ (pdfmark_scan_rect E p.2 pctm).1)) &&
    (!pdf_key_eq p.1 "/Border".toList ||
      (decide (0 ≤ (pdfmark_write_border E p.2 pctm).1) &&
       decide ((pdfmark_write_border E p.2 pctm).2.length ≤ 100))))

/-- The id of the first node of the list (ids with parent ids, in creation order)
whose parent is `p`, or 0 when there is none. -/
def first_with_parent : List (Int × Int) → Int → Int
  | [], _ => 0
  | x :: rest, p => if x.2 = p then x.1 else first_with_parent rest p

/-- The next sibling of node `n` among the created nodes (ids with parent ids, in
creation order): the id of the first node created after `n` under the same
parent, or 0 when `n` is the last node of its level (or is not in the list). -/
def next_sibling : List (Int × Int) → Int → Int
  | [], _ => 0
  | x :: rest, n => if x.1 = n then first_with_parent rest x.2 else next_sibling rest n

/-- The outline nodes created by a run of OUT marks, in creation order, each with
its parent id: a mark that returns 0 has appended one node, which is then the
last node of the level that was current when the mark arrived. -/
def out_created (E : Env) : List (List Str × gs_matrix) → gx_device_pdf → List (Int × Int)
  | [], _ => []
  | m :: rest, pdev =>
    let r := pdfmark_OUT E pdev m.1 m.2 none
    (if r.1 = 0 then
      [((r.2.outline_levels pdev.outline_depth).last.id,
        (r.2.outline_levels pdev.outline_depth).last.parent_id)]
     else []) ++ out_created E rest r.2

/-- The part of the device that decides which outline items are written with which
`/Next`: the id allocator, the id of the outline root, the depth, the ids of the
first and last node of every level with the parent id of the last node, and the
outline items written so far. -/
@[ext]
structure outline_view where
  next_id : Int
  outlines_id : Int
  depth : Nat
  first : Nat → Int
  last : Nat → Int
  last_parent : Nat → Int
  writes : List (Int × Int)

/-- The outline view of a device. -/
def view (pdev : gx_device_pdf) : outline_view :=
  { next_id := pdev.next_id, outlines_id := pdev.outlines_id, depth := pdev.outline_depth,
    first := fun d => (pdev.outline_levels d).first.id,
    last := fun d => (pdev.outline_levels d).last.id,
    last_parent := fun d => (pdev.outline_levels d).last.parent_id,
    writes := outline_writes pdev.strm }

/-- The parent id of the nodes of level `d`: the outline root for level 0, the
last node of the level below otherwise. -/
def view_parent (a : outline_view) (d : Nat) : Int :=
  if d = 0 then a.outlines_id else a.last (d - 1)

/-- What `pdfmark_close_outline` does to the view: the last node of the current
level, if any, is written without `/Next`, and the depth goes down (not below 0). -/
def view_close (a : outline_view) : outline_view :=
  { a with depth := a.depth - 1,
           writes := a.writes ++ (if a.last a.depth ≠ 0 then [(a.last a.depth, 0)] else []) }

/-- What a successful `pdfmark_OUT` does to the view up to `plevel->left--`: the
outline root id is allocated if needed, the new node gets the next id and becomes
the last node of the current level; it becomes its first node too when the level
has none, otherwise the previous last node is written with the new id as `/Next`. -/
def view_append (a : outline_view) : outline_view :=
  let a1 : outline_view :=
    if a.outlines_id = 0 then { a with outlines_id := a.next_id, next_id := a.next_id + 1 } else a
  { a1 with next_id := a1.next_id + 1,
            first := if a1.first a.depth = 0 then Function.update a1.first a.depth a1.next_id
                     else a1.first,
            last := Function.update a1.last a.depth a1.next_id,
            last_parent := Function.update a1.last_parent a.depth (view_parent a1 a.depth),
            writes := a1.writes ++
              (if a1.first a.depth = 0 then [] else [(a1.last a.depth, a1.next_id)]) }

/-- What the descent of `pdfmark_OUT` does to the view: the depth goes up and the
new level has no first node; its last node is left as it was. -/
def view_descend (a : outline_view) : outline_view :=
  { a with depth := a.depth + 1, first := Function.update a.first (a.depth + 1) 0 }

/-- Some number of `view_close` steps, each taken at a depth above 0: the closing
loop at the end of `pdfmark_OUT`. -/
inductive view_closes : outline_view → outline_view → Prop where
  | done (a : outline_view) : view_closes a a
  | step (a b : outline_view) (hd : 0 < a.depth) (h : view_closes (view_close a) b) :
      view_closes a b

/-- The node ids of a level that the outline view records: the ids of the first
and last node and the parent id of the last node. -/
def level_ids (l : pdf_outline_level_t) : Int × Int × Int :=
  (l.first.id, l.last.id, l.last.parent_id)

/-- Node `n` is finished with respect to the view and the created nodes `T`: it has
no next sibling among `T` and its parent is not the parent of any level that is
open, so that no node can be added after it. -/
def view_dead (a : outline_view) (T : List (Int × Int)) (n : Int) : Prop :=
  next_sibling T n = 0 ∧ ∃ p, (n, p) ∈ T ∧ ∀ d, d ≤ a.depth → p ≠ view_parent a d

/-- The invariant of the outline view `a` with respect to the nodes `T` created so
far (ids with parent ids, in creation order). -/
structure view_inv (a : outline_view) (T : List (Int × Int)) : Prop where
  /-- Object ids are positive and allocated in increasing order. -/
  ids_pos : 0 < a.next_id ∧ 0 ≤ a.outlines_id ∧ a.outlines_id < a.next_id
  /-- The created nodes have increasing ids. -/
  sorted : T.Pairwise (fun x y => x.1 < y.1)
  /-- A node is created after its parent. -/
  bounds : ∀ x ∈ T, 0 < x.2 ∧ x.2 < x.1 ∧ x.1 < a.next_id
  /-- Every level below the current one has nodes. -/
  below : ∀ d, d < a.depth → a.first d ≠ 0
  /-- The last node of an open level with nodes is the newest node under the
  parent of that level. -/
  active : ∀ d, d ≤ a.depth → a.first d ≠ 0 →
    (a.last d, view_parent a d) ∈ T ∧ ∀ x ∈ T, x.2 = view_parent a d → x.1 ≤ a.last d
  /-- Every item written has its next sibling as `/Next`; one written without
  `/Next` is finished. -/
  written : ∀ w ∈ a.writes,
    (w.2 ≠ 0 ∧ next_sibling T w.1 = w.2) ∨ (w.2 = 0 ∧ view_dead a T w.1)
  /-- The last node left over in a level that is not open, or is open without
  nodes, is finished. -/
  stale : ∀ d, (a.depth < d ∨ (d = a.depth ∧ a.first d = 0)) →
    a.last d = 0 ∨ view_dead a T (a.last d)

/-- The weaker invariant of the closing phase at the end of the document: every
item written is a created node and has its next sibling as `/Next`, and the last
node of every level not above the current one is a created node without next
sibling. -/
structure view_final (a : outline_view) (T : List (Int × Int)) : Prop where
  written : ∀ w ∈ a.writes, w.2 = next_sibling T w.1 ∧ ∃ p, (w.1, p) ∈ T
  lasts : ∀ d, d ≤ a.depth → a.last d ≠ 0 →
    next_sibling T (a.last d) = 0 ∧ ∃ p, (a.last d, p) ∈ T

/-- The beads in the output, oldest first: the id of the bead and the `next_id`
(`/N`) it is written with. -/
def bead_writes : List pdf_object → List (Int × Int)
  | [] => []
  | pdf_object.bead b :: rest => (b.id, b.next_id) :: bead_writes rest
  | _ :: rest => bead_writes rest

/-- The `next_id` that the beads written give bead `id`: that of the first bead
written with this id, 0 when no bead is written with it. -/
def bead_next : List (Int × Int) → Int → Int
  | [], _ => 0
  | w :: rest, id => if w.1 = id then w.2 else bead_next rest id

/-- The contents id of the first article of the list that holds bead `b` as its
first or last bead (0 when there is none). -/
def bead_article (b : Int) (arts : List pdf_article_t) : Int :=
  match arts.find? (fun p => decide (p.first.id = b) || decide (p.last.id = b)) with
  | some p => p.contents.id
  | none => 0

/-- The beads created by a run of ARTICLE marks, in creation order, each with the
contents id of its article: a mark that returns 0 has added one bead, whose id is
the object id that was the next unused one when the mark arrived. -/
def article_created (E : Env) : List (List Str × gs_matrix) → gx_device_pdf → List (Int × Int)
  | [], _ => []
  | m :: rest, pdev =>
    let r := pdfmark_ARTICLE E pdev m.1 m.2 none
    (if r.1 = 0 then [(pdev.next_id, bead_article pdev.next_id r.2.articles)] else []) ++
      article_created E rest r.2

/-- The ids of the beads of the article with contents id `a` among the created
beads, in creation order. -/
def article_beads (T : List (Int × Int)) (a : Int) : List Int :=
  (T.filter (fun x => decide (x.2 = a))).map Prod.fst

/-- The invariant of one article with respect to the beads `T` created so far. -/
structure part_inv (T : List (Int × Int)) (p : pdf_article_t) : Prop where
  first_ne : p.first.id ≠ 0
  first_mem : (p.first.id, p.contents.id) ∈ T
  first_fwp : first_with_parent T p.contents.id = p.first.id
  /-- An article without last bead has one bead. -/
  single : p.last.id = 0 → ∀ x ∈ T, x.2 = p.contents.id → x.1 = p.first.id
  first_next : p.last.id ≠ 0 → p.first.next_id ≠ 0 ∧ next_sibling T p.first.id = p.first.next_id
  last_mem : p.last.id ≠ 0 → (p.last.id, p.contents.id) ∈ T
  last_newest : p.last.id ≠ 0 → ∀ x ∈ T, x.2 = p.contents.id → x.1 ≤ p.last.id

/-- The invariant of the articles of the device with respect to the beads `T`
created so far (bead ids with the contents ids of their articles, in creation
order). -/
structure article_inv (pdev : gx_device_pdf) (T : List (Int × Int)) : Prop where
  next_pos : 0 < pdev.next_id
  /-- The created beads have increasing ids. -/
  sorted : T.Pairwise (fun x y => x.1 < y.1)
  bounds : ∀ x ∈ T, 0 < x.1 ∧ x.1 < pdev.next_id ∧ x.2 < pdev.next_id
  /-- The articles have different contents ids. -/
  ids : ∀ (i j : Nat) (p q : pdf_article_t),
    pdev.articles[i]? = some p → pdev.articles[j]? = some q →
    p.contents.id = q.contents.id → i = j
  parts : ∀ (i : Nat) (p : pdf_article_t), pdev.articles[i]? = some p → part_inv T p
  /-- Every bead written has the next bead of its article as `next_id`. -/
  written : ∀ w ∈ bead_writes pdev.strm, w.2 ≠ 0 ∧ next_sibling T w.1 = w.2
  /-- Every bead that is neither the first nor the last of its article is written. -/
  complete : ∀ x ∈ T, next_sibling T x.1 ≠ 0 → first_with_parent T x.2 ≠ x.1 →
    ∃ w ∈ bead_writes pdev.strm, w.1 = x.1

/-- Three ARTICLE marks for the article titled (T), with the identity CTM. -/
def sample_article_marks : List (List Str × gs_matrix) :=
  [(["/Title".toList, "(T)".toList, "/Rect".toList, "[0 0 1 1]".toList], {}),
   (["/Title".toList, "(T)".toList, "/Rect".toList, "[0 0 2 2]".toList], {}),
   (["/Title".toList, "(T)".toList, "/Rect".toList, "[0 0 3 3]".toList], {})]

/-- The pure rewrite of a /Contents value, reading the original string from left to
right: an escape `\n` or `\012` that does not follow a backslash becomes `\r`, every
other byte is copied.  The flag tells whether the previous byte of the original is a
backslash. -/
def contents_rewrite_pure : Bool → Str → Str
  | _, [] => []
  | false, '\\' :: 'n' :: rest => '\\' :: 'r' :: contents_rewrite_pure false rest
  | false, '\\' :: '0' :: '1' :: '2' :: rest => '\\' :: 'r' :: contents_rewrite_pure false rest
  | _, c :: rest => c :: contents_rewrite_pure (decide (c = '\\')) rest

/-- The number of four-character escapes `\012` that the pure rewrite replaces. -/
def contents_long_escapes : Bool → Str → Nat
  | _, [] => 0
  | false, '\\' :: 'n' :: rest => contents_long_escapes false rest
  | false, '\\' :: '0' :: '1' :: '2' :: rest => contents_long_escapes false rest + 1
  | _, c :: rest => contents_long_escapes (decide (c = '\\')) rest

/-- `pdfmark_coerce_dest` together with its buffer `char dest[MAX_DEST_STRING]`:
for a value that begins with `(` the function copies `size - 1` bytes into `dest`
and writes `dest[size - 1]`, without a length check; the result is `none` when
that write is outside the buffer (`size - 1 ≥ MAX_DEST_STRING`), which is undefined
behaviour in C. -/
def pdfmark_coerce_dest_buf (E : Env) (dstr : Str) : Option (Int × Str) :=
  match dstr with
  | [] => some (0, dstr)
  | c :: _ =>
    if c ≠ '(' then some (0, dstr)
    else if dstr.length - 1 < E.MAX_DEST_STRING then some (pdfmark_coerce_dest dstr)
    else none

/-- The pair list without its first pair whose key is /_objdef. -/
def remove_first_objdef : List (Str × Str) → List (Str × Str)
  | [] => []
  | p :: rest =>
    if pdf_key_eq p.1 "/_objdef".toList then rest else p :: remove_first_objdef rest

/-- The value of the first pair whose key is /_objdef. -/
def first_objdef : List (Str × Str) → Option Str
  | [] => none
  | p :: rest => if pdf_key_eq p.1 "/_objdef".toList then some p.2 else first_objdef rest

/-- The text of a dash array entry list: each number printed with `%g` and followed
by a blank. -/
def dash_text (E : Env) : List double → Str
  | [] => []
  | v :: rest => E.pprintg v ++ " ".toList ++ dash_text E rest

/-- A sample of `sscanf(chars, "[%lg %lg %lg", ...) == 3` for integer input. -/
def sample_sscanf_border (s : Str) : Option (double × double × double) :=
  match s with
  | [] => none
  | c :: r =>
    if c = '[' then
      match (sample_scan_numbers 3 r).1 with
      | [a, b, c1] => some (a, b, c1)
      | _ => none
    else none

/-- The sample environment with border scanners that accept decimal integers. -/
def sample_env_border : Env :=
  { sample_env with
    sscanf_border := sample_sscanf_border,
    sscanf_lg := fun s => (scan_int_conv s).map (fun r => (r.1 : ℚ)) }

/-- The matrix with the finite entries of a `gs_matrix`. -/
def matrix_ieee_of (m : gs_matrix) : gs_matrix_ieee :=
  { xx := .fin m.xx, xy := .fin m.xy, yx := .fin m.yx, yy := .fin m.yy }

/-- The C library on doubles with the special values that agrees with the
scanners and the printer of `E` on finite numbers. -/
def border_env_of (E : Env) : border_env :=
  { sscanf_border := fun s =>
      (E.sscanf_border s).map (fun v => (c_double.fin v.1, c_double.fin v.2.1, c_double.fin v.2.2)),
    sscanf_lg := fun s => (E.sscanf_lg s).map c_double.fin,
    pprintg := fun v =>
      match v with
      | .fin q => E.pprintg q
      | .inf n => if n then "-inf".toList else "inf".toList
      | .nan => "nan".toList }

/-- The text is `[`, four numbers and `]`, followed by `tail`. -/
def rect_brackets (lg : Str → Option (double × Str)) (s tail : Str) : Prop :=
  ∃ r vs, s = '[' :: r ∧ lg_directives lg 4 r = some (vs, ']' :: tail)

/-- A sample of the `%lg` conversion for decimal integers. -/
def sample_lg (s : Str) : Option (double × Str) :=
  (scan_int_conv s).map (fun p => ((p.1 : ℚ), p.2))

/-- The sample environment whose /Rect scanner is the `sscanf` format run with the
integer conversion. -/
def sample_env_rect : Env := { sample_env with sscanf_rect := sscanf_rect_fmt sample_lg }

/-- The digits of a `%d` conversion after the white space and the sign (the local
function of `scan_int_conv`). -/
def scan_body (neg : Bool) (r : Str) : Option (Int × Str) :=
  match r with
  | [] => none
  | c :: _ =>
    if isdigit c then
      some ((if neg then - ((scan_digits r 0).1 : Int) else ((scan_digits r 0).1 : Int)),
        (scan_digits r 0).2)
    else none

/-- The device apart from the two fields that the first loop of
`pdfmark_put_ao_pairs` changes: the allocation count and `max_referred_page`. -/
def dev_frame (pdev : gx_device_pdf) : gx_device_pdf :=
  { pdev with allocs := 0, max_referred_page := 0 }
/-- The keys that the first loop of `pdfmark_put_ao_pairs` never writes to the
dictionary: the deferred keys, and for an annotation /Color and /Title, which are
renamed. -/
def ao_loop_reserved (for_outline : Bool) : List Str :=
  ["/Action".toList, "/A".toList, "/File".toList, "/Dest".toList, "/URI".toList,
    "/Page".toList, "/View".toList, "/Subtype".toList] ++
  (if for_outline then [] else ["/Color".toList, "/Title".toList])

/-- The dictionary `d1` is `d` or `d` with one scalar put under a key that is not
in `reserved`. -/
def scalar_update (reserved : List Str) (d d1 : List (Str × cos_value_t)) : Prop :=
  d1 = d ∨ ∃ k v, k ∉ reserved ∧ d1 = cos_dict_put d k (cos_value_t.scalar v)

/-- The variables of `pdfmark_put_ao_pairs` at the start of the first loop. -/
def ao_init (pdev : gx_device_pdf) (pcd : cos_dict_t) (params : ao_params_t) : ao_vars :=
  { Subtype := params.subtype, src_pg := params.src_pg, pcd := pcd.elements, pdev := pdev }

/-- A call that changes the outline level stack: an OUT mark with its pairs and CTM,
or `pdfmark_close_outline`. -/
inductive outline_call where
  | OUT (pairs : List Str) (pctm : gs_matrix)
  | close

/-- A sequence of OUT marks and `pdfmark_close_outline` calls, one after the other;
a mark that fails does not stop the run. -/
def run_outline_calls (E : Env) : List outline_call → gx_device_pdf → gx_device_pdf
  | [], pdev => pdev
  | outline_call.OUT pairs pctm :: rest, pdev =>
    run_outline_calls E rest (pdfmark_OUT E pdev pairs pctm none).2
  | outline_call.close :: rest, pdev =>
    run_outline_calls E rest (pdfmark_close_outline pdev).2

/-- A sample of `pdf_scan_token` and `pdf_scan_token_composite` for a text whose
tokens are separated by blanks: the blanks are skipped and the code is 1 with the
run of bytes up to the next blank, or 0 at the end of the text. -/
def sample_scan_token (s : Str) : Int × Str × Str :=
  if (s.dropWhile isspace).isEmpty then (0, [], [])
  else (1, (s.dropWhile isspace).takeWhile (fun c => !isspace c),
    (s.dropWhile isspace).dropWhile (fun c => !isspace c))

/-- The sample environment with the token scanners for blank-separated tokens. -/
def sample_env_tokens : Env :=
  { sample_env with pdf_scan_token := sample_scan_token,
                    pdf_scan_token_composite := sample_scan_token }

/-- The reference substitution (`pdf_replace_names`) applied at the listed
positions of the parameters, one after the other; the first failing substitution
ends the run with its code. -/
def replace_names_at (E : Env) : List Nat → List Str → gx_device_pdf →
    Int × List Str × gx_device_pdf
  | [], pairs, pdev => (0, pairs, pdev)
  | j :: rest, pairs, pdev =>
    let r := E.pdf_replace_names pdev (pairs.getD j [])
    if r.1 < 0 then (r.1, pairs, r.2.2)
    else replace_names_at E rest (pairs.set j r.2.1) r.2.2

/-- Whether position `i` of the parameters of a mark type with the given options
is a position where references are substituted: none with PDFMARK_NO_REFS; the
value positions 1, 3, 5, ... for a type that requires an even count; every position
for a type with PDFMARK_ODD_OK, but for position 0 when PDFMARK_KEEP_NAME is set. -/
def ref_position (options i : Nat) : Bool :=
  decide (options &&& PDFMARK_NO_REFS = 0) &&
  (if options &&& PDFMARK_ODD_OK = 0 then decide (i % 2 = 1)
   else !(decide (i = 0) && decide (options &&& PDFMARK_KEEP_NAME ≠ 0)))

/-- The positions below `size` where references are substituted, in rising order. -/
def ref_positions (options size : Nat) : List Nat :=
  (List.range size).filter (ref_position options)

/-- The body of the dispatch loop of `pdfmark_process` with the substitution loop
replaced by the substitution at the positions `ref_positions`. -/
def process_entry_at (E : Env) (pdev : gx_device_pdf) (data : List Str) (ctm : gs_matrix)
    (pmn : pdfmark_name) : Int × gx_device_pdf :=
  let odd_ok : Nat := if pmn.options &&& PDFMARK_ODD_OK ≠ 0 then 1 else 0
  let ctm1 : gs_matrix :=
    if pmn.options &&& PDFMARK_TRUECTM ≠ 0 then ctm
    else
      let xscale := 72 / pdev.HWResolution.1
      let yscale := 72 / pdev.HWResolution.2
      { xx := ctm.xx * xscale, xy := ctm.xy * yscale, yx := ctm.yx * xscale,
        yy := ctm.yy * yscale, tx := ctm.tx * xscale, ty := ctm.ty * yscale }
  if data.length &&& (if odd_ok = 0 then 1 else 0) ≠ 0 then (gs_error_rangecheck, pdev)
  else
    let found : Option Nat :=
      if pmn.options &&& PDFMARK_NAMEABLE ≠ 0 then find_objdef data 0 else none
    let objname : Option Str := found.map (fun j => data.getD (j + 1) [])
    if (match objname with
        | some n => !E.pdf_objname_is_valid n
        | none => false) then (gs_error_rangecheck, pdev)
    else
      let a := alloc E pdev
      if !a.1 then (gs_error_VMerror, a.2)
      else
        let pairs : List Str :=
          match found with
          | some j => data.take j ++ data.drop (j + 2)
          | none => data
        let r := replace_names_at E (ref_positions pmn.options pairs.length) pairs a.2
        if r.1 < 0 then (r.1, r.2.2)
        else pmn.proc r.2.2 r.2.1 ctm1 objname

/-- A substitution that marks what it has visited: it puts `@` in front of the
parameter. -/
def sample_replace_names (pdev : gx_device_pdf) (s : Str) : Int × Str × gx_device_pdf :=
  (0, '@' :: s, pdev)

/-- The sample environment with the marking substitution. -/
def sample_env_names : Env := { sample_env with pdf_replace_names := sample_replace_names }

/-- An underlying stream for examples: the bytes it still holds; `sfread` delivers
as many of them as asked for and reports EOFC (-1) when there are none. -/
def sample_sfread (data : List Nat) (n : Nat) : Int × List Nat × List Nat :=
  if data = [] then (-1, [], data) else ((data.take n).length, data.take n, data.drop n)

/-- The file environment for examples: an unread buffer of 8 bytes. -/
def sample_file_env : file_env (List Nat) :=
  { UNREAD_BUFFER_SIZE := 8, sfread := sample_sfread }

/-- The sample environment with border scanners and a `%g` printer that prints the
integer part of a number in decimal. -/
def sample_env_dashes : Env :=
  { sample_env_border with pprintg := fun v => sprintf_d ⌊v⌋ }

/-- The lower-case letter of an upper-case ASCII letter, as a code. -/
def sample_lower (c : Char) : Nat :=
  if 65 ≤ c.toNat ∧ c.toNat ≤ 90 then c.toNat + 32 else c.toNat

/-- Whether `sub` starts `s`, ignoring the case of ASCII letters. -/
def sample_starts : Str → Str → Bool
  | _, [] => true
  | [], _ :: _ => false
  | c :: s, d :: sub => decide (sample_lower c = sample_lower d) && sample_starts s sub

/-- Whether `sub` occurs in `s`, ignoring the case of ASCII letters. -/
def sample_occurs : Str → Str → Bool
  | [], sub => sample_starts [] sub
  | c :: s, sub => sample_starts (c :: s) sub || sample_occurs s sub

/-- A sample of `string_match` with `ignore_case` for patterns of the form
`*text*`: whether the text occurs in the value. -/
def sample_string_match (s pattern : Str) : Bool :=
  sample_occurs s (pattern.filter (fun c => c ≠ '*'))

/-- The sample environment of `pdfmark_DOCINFO`. -/
def sample_producer_env : producer_env :=
  { string_match := sample_string_match, default_Producer := "(GPL Ghostscript 9.27)".toList }

/-! # Properties -/

set_option maxRecDepth 10000

/-! ## C3: outline count propagation -/

/-- C3 (counterexample): a closed child (count -2) under a parent with count 3
leaves the parent's count at 3 (the claim says it is decremented to 1), and an
open child (count 2) under a closed parent (count -3) gives -5 (the claim says
it is incremented, to -1). -/
theorem C3_counterexample :
    ((pdfmark_adjust_parent_count
        (fun d => if d = 0 then { last := { count := 3 } } else { last := { count := -2 } })
        1) 0).last.count = 3 ∧
    ((pdfmark_adjust_parent_count
        (fun d => if d = 0 then { last := { count := -3 } } else { last := { count := 2 } })
        1) 0).last.count = -5 := by
  constructor <;> decide

/-- C3 (amended): `pdfmark_adjust_parent_count` changes nothing but the count of the
parent's last node; a child whose count `c` is positive moves that count away from
zero by `c` (`p - c` for a negative, closed parent count `p`, `p + c` otherwise),
the result being stored in a C `int` (`int32_of`, which leaves every value in the
range of `int` as it is); and a child whose count is negative or zero leaves the
parent's count unchanged. -/
theorem C3_adjust_parent_count (levels : Nat → pdf_outline_level_t) (depth : Nat) :
    pdfmark_adjust_parent_count levels depth =
      Function.update levels (depth - 1)
        { levels (depth - 1) with
          last := { (levels (depth - 1)).last with
            count :=
              if (levels depth).last.count > 0 then
                (if (levels (depth - 1)).last.count < 0 then
                  int32_of ((levels (depth - 1)).last.count - (levels depth).last.count)
                 else int32_of ((levels (depth - 1)).last.count + (levels depth).last.count))
              else (levels (depth - 1)).last.count } } ∧
    (∀ n : Int, -2147483648 ≤ n → n ≤ 2147483647 → int32_of n = n) := by
  constructor
  · unfold pdfmark_adjust_parent_count
    by_cases hc : (levels depth).last.count > 0
    · by_cases hp : (levels (depth - 1)).last.count < 0
      · simp [hc, hp]
      · simp [hc, hp]
    · simp [hc]
  · intro n h1 h2
    unfold int32_of
    omega

/-- C3 (witness): a closed parent with count -3 and an open child with count 2;
the count -5 is in the range of `int`. -/
theorem C3_adjust_parent_count_witness :
    pdfmark_adjust_parent_count
        (fun d => if d = 0 then { last := { count := -3 } } else { last := { count := 2 } }) 1 =
      Function.update
        (fun d => if d = 0 then ({ last := { count := -3 } } : pdf_outline_level_t)
          else { last := { count := 2 } }) (1 - 1)
        { last := { count := int32_of (-3 - 2) } } ∧
    int32_of (-3 - 2) = -3 - 2 :=
  ⟨(C3_adjust_parent_count
      (fun d => if d = 0 then { last := { count := -3 } } else { last := { count := 2 } }) 1).1,
    (C3_adjust_parent_count
      (fun d => if d = 0 then { last := { count := -3 } } else { last := { count := 2 } }) 1).2
      (-3 - 2) (by decide) (by decide)⟩

/-! ## C7: unknown mark types -/

/-- A value in the range of `int` is stored as it is by `sscanf` with `%d`. -/
theorem int32_of_long_of (p : Int) (h1 : -2147483648 ≤ p) (h2 : p ≤ 2147483647) :
    int32_of (long_of p) = p := by
  unfold int32_of long_of
  rw [if_neg (by omega), if_neg (by omega)]
  omega

/-- A page string that scans as a number is neither /Next nor /Prev and within
the width limit and the range of `int` gives that number as the page. -/
theorem page_number_of_scan (pdev : gx_device_pdf) (ps : Str) (p : Int)
    (hlen : ps.length ≤ 20) (hscan : sscanf_d ps = some p)
    (hmin : -2147483648 ≤ p) (hmax : p ≤ 2147483647) :
    (pdfmark_page_number pdev (some ps)).1 = p ∧
    (pdfmark_page_number pdev (some ps)).2 =
      { pdev with max_referred_page :=
          if pdev.max_referred_page < p then p else pdev.max_referred_page } := by
  have hn : pdf_key_eq ps "/Next".toList = false := by
    simp only [pdf_key_eq, decide_eq_false_iff_not]
    intro h
    have h0 : sscanf_d "/Next".toList = none := by decide
    rw [h, h0] at hscan
    cases hscan
  have hp : pdf_key_eq ps "/Prev".toList = false := by
    simp only [pdf_key_eq, decide_eq_false_iff_not]
    intro h
    have h0 : sscanf_d "/Prev".toList = none := by decide
    rw [h, h0] at hscan
    cases hscan
  have hs : pdfmark_scan_int ps (pdev.next_page + 1) = (0, p) := by
    unfold pdfmark_scan_int
    rw [if_neg (Nat.not_lt.mpr hlen), hscan]
    dsimp only
    rw [int32_of_long_of p hmin hmax]
  unfold pdfmark_page_number
  simp only [hn, hp, hs, Bool.false_eq_true, if_false, lt_self_iff_false]
  exact ⟨trivial, trivial⟩

/-- C8 (counterexample): with no page window, /Page 0 /View [/Fit] gives the
destination `[null /Fit]`, which references no page object; and /Page 3 with a
bracketed view of 82 bytes is refused with limitcheck. -/
theorem C8_counterexample :
    pdfmark_make_dest sample_env {} "/Page".toList "/View".toList
        ["/Page".toList, "0".toList, "/View".toList, "[/Fit]".toList] 0
      = (2, "[null /Fit]".toList, {}) ∧
    (pdfmark_make_dest sample_env {} "/Page".toList "/View".toList
        ["/Page".toList, "3".toList, "/View".toList,
          '[' :: (List.replicate 80 'x' ++ [']'])] 0).1
      = gs_error_limitcheck := by
  constructor
  · rfl
  · decide

/-- C8 (amended): for a /Page value of at most 20 bytes that holds a number `p`
in the range of `int` (-2147483648 .. 2147483647), inside the page window and not
page 0 of a window with FirstPage = 0, and a bracketed /View value that fits the
destination buffer together with the page reference, with no /Action /GoToR among
the pairs, `pdfmark_make_dest` returns 2 and produces
`[<id> 0 R <view contents>]`, where `<id>` is the object id of page `p` renumbered
into the window. -/
theorem C8_make_dest_page_view (E : Env) (pdev : gx_device_pdf) (pairs : List Str)
    (ps vs : Str) (p : Int) (RequirePage : Nat)
    (hpage : pdfmark_find_key "/Page".toList pairs = some ps)
    (hlen : ps.length ≤ 20) (hscan : sscanf_d ps = some p)
    (hmin : -2147483648 ≤ p) (hmax : p ≤ 2147483647)
    (hview : pdfmark_find_key "/View".toList pairs = some vs)
    (hopen : vs.head? = some '[') (hclose : vs.getLast? = some ']')
    (haction : pdfmark_find_key "/Action".toList pairs ≠ some "/GoToR".toList)
    (hfirst : pdev.FirstPage ≤ p) (hlast : pdev.LastPage ≠ 0 → p ≤ pdev.LastPage)
    (hzero : pdev.FirstPage = 0 → p ≠ 0)
    (hfit : ("[".toList ++
        sprintf_d (pdf_page_id pdev (if pdev.FirstPage ≠ 0 then p - pdev.FirstPage + 1 else p))
        ++ " 0 R ".toList).length + vs.length ≤ E.MAX_DEST_STRING) :
    pdfmark_make_dest E pdev "/Page".toList "/View".toList pairs RequirePage =
      (2,
       "[".toList ++
        sprintf_d (pdf_page_id pdev (if pdev.FirstPage ≠ 0 then p - pdev.FirstPage + 1 else p))
        ++ " 0 R ".toList ++ vs.drop 1,
       { pdev with max_referred_page :=
           if pdev.max_referred_page < p then p else pdev.max_referred_page }) := by
  obtain ⟨hp1, hp2⟩ := page_number_of_scan pdev ps p hlen hscan hmin hmax
  have hvs : vs.length ≠ 0 := by
    intro h
    rw [List.length_eq_zero] at h
    rw [h] at hopen
    simp at hopen
  have hI : ∀ (m n : Int), pdf_page_id { pdev with max_referred_page := m } n =
      pdf_page_id pdev n := fun _ _ => rfl
  have hwin : ¬ (p < pdev.FirstPage ∨ (pdev.LastPage ≠ 0 ∧ p > pdev.LastPage)) := by
    intro h
    rcases h with h | ⟨h1, h2⟩
    · omega
    · have := hlast h1; omega
  have hpz : (if pdev.FirstPage ≠ 0 then p - pdev.FirstPage + 1 else p) ≠ 0 := by
    by_cases h : pdev.FirstPage = 0
    · simp [h, hzero h]
    · simp [h]; omega
  have hact : (match pdfmark_find_key "/Action".toList pairs with
               | some action => pdf_key_eq action "/GoToR".toList
               | none => false) = false := by
    cases h : pdfmark_find_key "/Action".toList pairs with
    | none => rfl
    | some a =>
      simp only [pdf_key_eq, decide_eq_false_iff_not]
      intro h1
      apply haction
      rw [h, h1]
  unfold pdfmark_make_dest
  simp only [hpage, hview, Option.isSome_some, if_true, Option.getD_some]
  simp only [show ((1 : Int) + 1 ≠ 0 ∨ RequirePage ≠ 0) = True from by simp, if_true]
  simp only [hp1, hp2, hI, hwin, if_false, hvs, hpz, hact]
  simp only [Bool.false_eq_true, if_false]
  rw [if_neg (by omega)]
  rw [if_neg (by simp [hopen, hclose])]
  rfl

/-- C8 (witness): /Page 3 /View [/Fit] with FirstPage = 1, LastPage = 0. -/
theorem C8_make_dest_page_view_witness :
    pdfmark_make_dest sample_env { FirstPage := 1, page_ids := fun n => 10 + n }
        "/Page".toList "/View".toList
        ["/Page".toList, "3".toList, "/View".toList, "[/Fit]".toList] 0 =
      (2, "[13 0 R /Fit]".toList,
        { FirstPage := 1, page_ids := fun n => 10 + n, max_referred_page := 3 }) :=
  C8_make_dest_page_view sample_env { FirstPage := 1, page_ids := fun n => 10 + n }
    ["/Page".toList, "3".toList, "/View".toList, "[/Fit]".toList] "3".toList "[/Fit]".toList 3 0
    (by decide) (by decide) (by decide) (by decide) (by decide) (by decide) (by decide)
    (by decide) (by decide) (by decide) (by decide) (by decide) (by decide)

/-- C9 (counterexample): on a device with FirstPage = 0 and LastPage = 5, the
/Page value `000000000000000000011`, the number 11 written with 21 digits, is
above the window; the value is longer than the 20 bytes that `pdfmark_scan_int`
takes, so the page number is "invalid" and page 0 is used: `pdfmark_make_dest`
returns 2 with the destination `[null /Fit]`, and the DEST mark is accepted. -/
theorem C9_counterexample :
    sscanf_d "000000000000000000011".toList = some 11 ∧
    pdfmark_make_dest sample_env { LastPage := 5 } "/Page".toList "/View".toList
        ["/Dest".toList, "/d".toList, "/Page".toList, "000000000000000000011".toList,
          "/View".toList, "[/Fit]".toList] 1
      = (2, "[null /Fit]".toList, { LastPage := 5 }) ∧
    (pdfmark_DEST sample_env { LastPage := 5 }
        ["/Dest".toList, "/d".toList, "/Page".toList, "000000000000000000011".toList,
          "/View".toList, "[/Fit]".toList] {} none).1 = 0 := by
  refine ⟨by decide, by rfl, by decide⟩

/-- C9 (amended): for a /Page value of at most 20 bytes that holds a number in the
range of `int` (-2147483648 .. 2147483647) outside the page window (below
FirstPage, or above a non-zero LastPage) `pdfmark_make_dest` fails (it returns -1
and leaves the buffer untouched), and the DEST handler built on it returns
rangecheck. -/
theorem C9_page_outside_window (E : Env) (pdev : gx_device_pdf) (pairs : List Str)
    (ps : Str) (p : Int) (RequirePage : Nat)
    (hpage : pdfmark_find_key "/Page".toList pairs = some ps)
    (hlen : ps.length ≤ 20) (hscan : sscanf_d ps = some p)
    (hmin : -2147483648 ≤ p) (hmax : p ≤ 2147483647)
    (hout : p < pdev.FirstPage ∨ (pdev.LastPage ≠ 0 ∧ pdev.LastPage < p)) :
    (pdfmark_make_dest E pdev "/Page".toList "/View".toList pairs RequirePage).1 = -1 ∧
    (pdfmark_make_dest E pdev "/Page".toList "/View".toList pairs RequirePage).2.1 = [] ∧
    ∀ (pctm : gs_matrix) (objname : Option Str),
      (pdfmark_DEST E pdev pairs pctm objname).1 = gs_error_rangecheck := by
  obtain ⟨hp1, hp2⟩ := page_number_of_scan pdev ps p hlen hscan hmin hmax
  have hwin : (p < pdev.FirstPage ∨ (pdev.LastPage ≠ 0 ∧ p > pdev.LastPage)) := hout
  have hmd : ∀ R : Nat, pdfmark_make_dest E pdev "/Page".toList "/View".toList pairs R =
      (-1, [], { pdev with max_referred_page :=
          if pdev.max_referred_page < p then p else pdev.max_referred_page }) := by
    intro R
    have hpres : ((1 : Int) + (if (pdfmark_find_key "/View".toList pairs).isSome = true
        then 1 else 0) ≠ 0 ∨ R ≠ 0) := by
      left
      split <;> decide
    unfold pdfmark_make_dest
    simp only [hpage, Option.isSome_some, if_true, if_pos hpres, hp1, hp2, hwin]
  refine ⟨by rw [hmd], by rw [hmd], ?_⟩
  intro pctm objname
  unfold pdfmark_DEST
  cases hd : pdfmark_find_key "/Dest".toList pairs with
  | none => rfl
  | some key =>
    simp only [hmd]
    rfl

/-- C9 (witness): /Page 3 /View [/Fit] with FirstPage = 5. -/
theorem C9_page_outside_window_witness :
    (pdfmark_make_dest sample_env { FirstPage := 5 } "/Page".toList "/View".toList
      ["/Dest".toList, "/d".toList, "/Page".toList, "3".toList, "/View".toList,
        "[/Fit]".toList] 1).1 = -1 ∧
    (pdfmark_make_dest sample_env { FirstPage := 5 } "/Page".toList "/View".toList
      ["/Dest".toList, "/d".toList, "/Page".toList, "3".toList, "/View".toList,
        "[/Fit]".toList] 1).2.1 = [] ∧
    ∀ (pctm : gs_matrix) (objname : Option Str),
      (pdfmark_DEST sample_env { FirstPage := 5 }
        ["/Dest".toList, "/d".toList, "/Page".toList, "3".toList, "/View".toList,
          "[/Fit]".toList] pctm objname).1 = gs_error_rangecheck :=
  C9_page_outside_window sample_env { FirstPage := 5 }
    ["/Dest".toList, "/d".toList, "/Page".toList, "3".toList, "/View".toList, "[/Fit]".toList]
    "3".toList 3 1 (by decide) (by decide) (by decide) (by decide) (by decide) (by decide)

/-! ## C10: page labels -/

theorem label_entries_array (es : List (Int × List (Str × Str))) :
    label_entries (label_array es) = es := by
  induction es with
  | nil => rfl
  | cons e rest ih => simp [label_array, label_entries, ih]

theorem label_array_append (es fs : List (Int × List (Str × Str))) :
    label_array (es ++ fs) = label_array es ++ label_array fs := by
  induction es with
  | nil => rfl
  | cons e rest ih => simp [label_array, ih]

/-- The first label of a session: the array is created; when the page is not page
0 the initial empty label is flushed at page 0 and a gap is filled at page 1. -/
theorem add_pagelabel_first (E : Env) (halloc : ∀ k, E.alloc_ok k = true)
    (pdev : gx_device_pdf) (l : Str) (hnone : pdev.PageLabels = none) :
    ∃ arr, (pdfmark_add_pagelabel E pdev (some l)).2.PageLabels = some arr ∧
      arr.elements = label_array
        ((if pdev.next_page ≠ 0 then [((0 : Int), ([] : List (Str × Str)))] else []) ++
         (if pdev.next_page > 1 then [((1 : Int), ([] : List (Str × Str)))] else [])) ∧
      (pdfmark_add_pagelabel E pdev (some l)).2.PageLabels_current_label =
        some [("/P".toList, l)] ∧
      (pdfmark_add_pagelabel E pdev (some l)).2.PageLabels_current_page = pdev.next_page := by
  unfold pdfmark_add_pagelabel
  simp only [hnone, alloc, halloc, pdf_obj_ref, Option.isNone_none, Option.isNone_some,
    Bool.not_true, Bool.false_eq_true, if_false, if_true]
  by_cases h0 : pdev.next_page = 0
  · simp [h0, label_array, cos_dict_put]
  · by_cases h1 : pdev.next_page > 1
    · simp [h0, h1, label_array, cos_dict_put, halloc]
    · simp [h0, h1, label_array, cos_dict_put, halloc]

/-- A later label at another page: the pending label is flushed at its page and a
gap of more than one page is filled with one empty label. -/
theorem add_pagelabel_next (E : Env) (halloc : ∀ k, E.alloc_ok k = true)
    (pdev : gx_device_pdf) (l : Str) (arr : cos_array_t) (cur : List (Str × Str))
    (harr : pdev.PageLabels = some arr) (hcur : pdev.PageLabels_current_label = some cur)
    (hne : pdev.next_page ≠ pdev.PageLabels_current_page) :
    ∃ arr1, (pdfmark_add_pagelabel E pdev (some l)).2.PageLabels = some arr1 ∧
      arr1.elements = arr.elements ++ label_array
        ([(pdev.PageLabels_current_page, cur)] ++
         (if pdev.next_page - pdev.PageLabels_current_page > 1
          then [(pdev.PageLabels_current_page + 1, ([] : List (Str × Str)))] else [])) ∧
      (pdfmark_add_pagelabel E pdev (some l)).2.PageLabels_current_label =
        some [("/P".toList, l)] ∧
      (pdfmark_add_pagelabel E pdev (some l)).2.PageLabels_current_page = pdev.next_page := by
  unfold pdfmark_add_pagelabel
  simp only [harr, hcur, alloc, halloc, Option.isNone_some,
    Bool.not_true, Bool.false_eq_true, if_false, if_true]
  by_cases h1 : pdev.next_page - pdev.PageLabels_current_page > 1
  · simp [hne, h1, label_array, cos_dict_put, halloc]
  · simp [hne, h1, label_array, cos_dict_put, halloc]

/-- The run after the first label: the empty labels are those already in the array
followed by one per gap of the remaining pages. -/
theorem run_pagelabels_gaps (E : Env) (halloc : ∀ k, E.alloc_ok k = true)
    (labels : List (Int × Str)) :
    ∀ (pdev : gx_device_pdf) (arr : cos_array_t) (es : List (Int × List (Str × Str)))
      (cur : List (Str × Str)),
      pdev.PageLabels = some arr → arr.elements = label_array es →
      pdev.PageLabels_current_label = some cur → cur ≠ [] →
      List.Chain (fun a b => a < b) pdev.PageLabels_current_page (labels.map Prod.fst) →
      empty_label_pages (run_pagelabels E labels pdev) =
        (es.filter (fun e => e.2.isEmpty)).map Prod.fst ++
          label_gaps (pdev.PageLabels_current_page :: labels.map Prod.fst) := by
  induction labels with
  | nil =>
    intro pdev arr es cur harr hes _ _ _
    simp [run_pagelabels, empty_label_pages, harr, hes, label_entries_array, label_gaps]
  | cons pl rest ih =>
    intro pdev arr es cur harr hes hcur hcne hchain
    simp only [List.map_cons, List.chain_cons] at hchain
    obtain ⟨hlt, hchain1⟩ := hchain
    have hne : ({ pdev with next_page := pl.1 } : gx_device_pdf).next_page ≠
        ({ pdev with next_page := pl.1 } : gx_device_pdf).PageLabels_current_page := by
      show pl.1 ≠ pdev.PageLabels_current_page
      omega
    obtain ⟨arr1, h1, h2, h3, h4⟩ := add_pagelabel_next E halloc
      { pdev with next_page := pl.1 } pl.2 arr cur harr hcur hne
    have h4a : (pdfmark_add_pagelabel E { pdev with next_page := pl.1 }
        (some pl.2)).2.PageLabels_current_page = pl.1 := h4
    have hes1 : arr1.elements = label_array (es ++
        ([(pdev.PageLabels_current_page, cur)] ++
         (if pl.1 - pdev.PageLabels_current_page > 1
          then [(pdev.PageLabels_current_page + 1, ([] : List (Str × Str)))] else []))) := by
      rw [label_array_append, ← hes]
      exact h2
    have := ih _ arr1 _ _ h1 hes1 h3 (by simp) (by rw [h4a]; exact hchain1)
    simp only [run_pagelabels, List.map_cons]
    rw [this, h4a]
    have hcemp : cur.isEmpty = false := by
      cases cur with
      | nil => exact absurd rfl hcne
      | cons a b => rfl
    by_cases hg : pl.1 - pdev.PageLabels_current_page > 1
    · simp [hg, hcemp, label_gaps, List.filter_append]
    · simp [hg, hcemp, label_gaps, List.filter_append]

/-- C10 (counterexample): labels at pages 5 and 10 only give three empty labels, at
pages 0, 1 and 6, where one per gap would be the single page 6. -/
theorem C10_counterexample :
    empty_label_pages (run_pagelabels sample_env [(5, "v".toList), (10, "x".toList)] {})
      = [0, 1, 6] ∧
    label_gaps [5, 10] = [6] := by
  constructor <;> decide

/-- C10 (amended): starting from an empty label list, for every strictly increasing
sequence of labelled page indices (allocations succeeding), the auto-filled empty
labels are exactly one per gap, at page `p + 1` for each labelled page `p` whose
next labelled page is more than one page later, where page 0 counts as a page
labelled with an empty label when the first labelled page is not page 0; there are
no other empty-label entries. -/
theorem C10_pagelabel_gaps (E : Env) (halloc : ∀ k, E.alloc_ok k = true)
    (pdev : gx_device_pdf) (labels : List (Int × Str)) (hnone : pdev.PageLabels = none)
    (hinc : List.Chain' (fun a b => a < b) (labels.map Prod.fst))
    (hpos : ∀ p ∈ labels.map Prod.fst, 0 ≤ p) :
    empty_label_pages (run_pagelabels E labels pdev) =
      expected_empty_labels (labels.map Prod.fst) := by
  cases labels with
  | nil => simp [run_pagelabels, empty_label_pages, hnone, expected_empty_labels, label_entries]
  | cons pl rest =>
    have hf : 0 ≤ pl.1 := hpos pl.1 (by simp)
    obtain ⟨arr, h1, h2, h3, h4⟩ := add_pagelabel_first E halloc
      { pdev with next_page := pl.1 } pl.2 hnone
    have h4a : (pdfmark_add_pagelabel E { pdev with next_page := pl.1 }
        (some pl.2)).2.PageLabels_current_page = pl.1 := h4
    have h2a : arr.elements = label_array
        ((if pl.1 ≠ 0 then [((0 : Int), ([] : List (Str × Str)))] else []) ++
         (if pl.1 > 1 then [((1 : Int), ([] : List (Str × Str)))] else [])) := h2
    have hchain : List.Chain (fun a b => a < b) pl.1 (rest.map Prod.fst) := hinc
    have := run_pagelabels_gaps E halloc rest _ arr _ _ h1 h2a h3 (by simp)
      (by rw [h4a]; exact hchain)
    simp only [run_pagelabels, List.map_cons, expected_empty_labels]
    rw [this, h4a]
    by_cases h0 : pl.1 = 0
    · simp [h0]
    · by_cases hg : pl.1 > 1
      · simp [h0, hg, label_gaps]
      · have : pl.1 = 1 := by omega
        simp [this, label_gaps]

/-- C10 (witness): labels at pages 0, 5 and 10 give exactly two empty labels, at
pages 1 and 6. -/
theorem C10_pagelabel_gaps_witness :
    empty_label_pages (run_pagelabels sample_env
        [(0, "i".toList), (5, "v".toList), (10, "x".toList)] {}) = [1, 6] :=
  C10_pagelabel_gaps sample_env (fun _ => rfl) {}
    [(0, "i".toList), (5, "v".toList), (10, "x".toList)] rfl (by simp) (by decide)

/-! ## C5: an article with one bead -/

/-- C5: an ARTICLE mark that succeeds and whose title matches no existing article
creates an article that holds exactly this bead (its id is the next object id);
`pdfmark_write_article`, on any device, then writes that bead once, with
`prev_id` and `next_id` both equal to the bead's own id (the other fields are those
of the article's first bead), followed by the article object. -/
theorem C5_single_bead_article (E : Env) (pdev : gx_device_pdf) (pairs : List Str)
    (pctm : gs_matrix) (objname : Option Str) (title : Str)
    (htitle : pdfmark_find_key "/Title".toList pairs = some title)
    (hnew : find_article title pdev.articles = none)
    (hok : (pdfmark_ARTICLE E pdev pairs pctm objname).1 = 0) :
    ∃ part : pdf_article_t,
      (pdfmark_ARTICLE E pdev pairs pctm objname).2.articles = part :: pdev.articles ∧
      part.first.id = pdev.next_id ∧
      part.last.id = 0 ∧
      ∀ dev : gx_device_pdf,
        (pdfmark_write_article dev part).2.strm =
          dev.strm ++
            [pdf_object.bead
              { part.first with prev_id := pdev.next_id, next_id := pdev.next_id },
             pdf_object.article part.contents.id pdev.next_id part.contents.elements] := by
  unfold pdfmark_ARTICLE at hok ⊢
  rw [htitle] at hok ⊢
  cases hrect : pdfmark_find_key "/Rect".toList pairs with
  | none =>
    rw [hrect] at hok
    simp [gs_error_rangecheck] at hok
  | some rectstr =>
    rw [hrect] at hok
    simp only [] at hok ⊢
    by_cases hsr : (pdfmark_scan_rect E rectstr pctm).1 < 0
    · rw [if_pos hsr] at hok
      omega
    · rw [if_neg hsr] at hok ⊢
      have hfa : find_article title (pdf_obj_ref pdev).2.articles = none := hnew
      rw [hfa] at hok ⊢
      simp only [] at hok ⊢
      by_cases ha1 : (alloc E (pdf_obj_ref pdev).2).1 = true
      · by_cases ha2 : (alloc E (alloc E (pdf_obj_ref pdev).2).2).1 = true
        · simp only [ha1, ha2, Bool.not_true, Bool.false_eq_true, if_false]
          refine ⟨_, rfl, rfl, rfl, ?_⟩
          intro dev
          simp [pdfmark_write_article, pdfmark_write_bead, article_add_bead, pdf_obj_ref]
        · simp [ha1, ha2, gs_error_VMerror] at hok
      · simp [ha1, gs_error_VMerror] at hok

/-- C5 (witness): one ARTICLE mark /Title (T) /Rect [0 0 1 1] on a fresh device. -/
theorem C5_single_bead_article_witness :
    ∃ part : pdf_article_t,
      (pdfmark_ARTICLE sample_env {}
        ["/Title".toList, "(T)".toList, "/Rect".toList, "[0 0 1 1]".toList] {} none).2.articles
          = part :: [] ∧
      part.first.id = 1 ∧ part.last.id = 0 ∧
      ∀ dev : gx_device_pdf,
        (pdfmark_write_article dev part).2.strm =
          dev.strm ++
            [pdf_object.bead { part.first with prev_id := 1, next_id := 1 },
             pdf_object.article part.contents.id 1 part.contents.elements] :=
  C5_single_bead_article sample_env {}
    ["/Title".toList, "(T)".toList, "/Rect".toList, "[0 0 1 1]".toList] {} none "(T)".toList
    (by decide) (by decide) (by decide)

/-! ## C1: every outline node is written exactly once -/

/-- C1 (failing input): the OUT marks /Count 1 /Title (A), /Title (B),
/Count 1 /Title (C), then two calls of `pdfmark_close_outline` (the outline depth
is 1).  The nodes get the ids 2, 3 and 4; node 3 (B) is written twice: when its
level closes after B, and again when the level opened for the children of C is
closed, because that level still holds B as its last node. -/
theorem C1_failing_input :
    (run_marks (pdfmark_OUT sample_env)
      [(["/Count".toList, "1".toList, "/Title".toList, "(A)".toList], {}),
       (["/Title".toList, "(B)".toList], {}),
       (["/Count".toList, "1".toList, "/Title".toList, "(C)".toList], {})] {}).outline_depth = 1 ∧
    outline_writes (close_all_outlines (run_marks (pdfmark_OUT sample_env)
      [(["/Count".toList, "1".toList, "/Title".toList, "(A)".toList], {}),
       (["/Title".toList, "(B)".toList], {}),
       (["/Count".toList, "1".toList, "/Title".toList, "(C)".toList], {})] {})).strm
      = [(3, 0), (2, 4), (3, 0), (4, 0)] := by
  constructor <;> decide

/-! ## C6: the GoToR action subdictionary -/

/-- A destination of at most MAX_DEST_STRING bytes is coerced inside the buffer
`dest`: the call of `pdfmark_coerce_dest` on it is defined and gives the result of
the model. -/
theorem coerce_dest_buf_of_le (E : Env) (dstr : Str) (h : dstr.length ≤ E.MAX_DEST_STRING) :
    pdfmark_coerce_dest_buf E dstr = some (pdfmark_coerce_dest dstr) := by
  cases dstr with
  | nil => rfl
  | cons c rest =>
    by_cases hc : c = '('
    · have h1 : (c :: rest).length - 1 < E.MAX_DEST_STRING := by
        simp only [List.length_cons] at h ⊢
        omega
      subst hc
      simp only [pdfmark_coerce_dest_buf, ne_eq, not_true_eq_false, if_false, if_pos h1]
    · simp [pdfmark_coerce_dest_buf, pdfmark_coerce_dest, hc]

/-- A string destination `(body)` of at most MAX_DEST_STRING bytes is coerced inside
the buffer to the name `/body`. -/
theorem coerce_dest_buf_string (E : Env) (body : Str)
    (h : ('(' :: (body ++ [')'])).length ≤ E.MAX_DEST_STRING) :
    pdfmark_coerce_dest_buf E ('(' :: (body ++ [')'])) = some (1, '/' :: body) := by
  have h1 : ('(' :: (body ++ [')'])).length - 1 < E.MAX_DEST_STRING := by
    simp only [List.length_cons, List.length_append, List.length_nil] at h ⊢
    omega
  simp only [pdfmark_coerce_dest_buf, ne_eq, not_true_eq_false, if_false, if_pos h1,
    pdfmark_coerce_dest, if_true]
  rw [← List.cons_append, List.dropLast_concat]

theorem cos_dict_find_put_same {α : Type} (d : List (Str × α)) (k : Str) (v : α) :
    cos_dict_find (cos_dict_put d k v) k = some v := by
  induction d with
  | nil => simp [cos_dict_put, cos_dict_find]
  | cons e rest ih =>
    obtain ⟨k0, v0⟩ := e
    by_cases h : k0 = k
    · simp [cos_dict_put, cos_dict_find, h]
    · simp [cos_dict_put, cos_dict_find, h, ih]

theorem cos_dict_find_put_other {α : Type} (d : List (Str × α)) (k k1 : Str) (v : α)
    (hne : k ≠ k1) : cos_dict_find (cos_dict_put d k v) k1 = cos_dict_find d k1 := by
  induction d with
  | nil => simp [cos_dict_put, cos_dict_find, hne]
  | cons e rest ih =>
    obtain ⟨k0, v0⟩ := e
    by_cases h : k0 = k
    · subst h
      simp [cos_dict_put, cos_dict_find, hne]
    · by_cases h1 : k0 = k1
      · subst h1
        simp [cos_dict_put, cos_dict_find, h]
      · simp [cos_dict_put, cos_dict_find, h, h1, ih]

/-- Induction over a flat pair list, two elements at a time. -/
theorem pair_list_induction {P : List Str → Prop} (h0 : P []) (h1 : ∀ k, P [k])
    (h2 : ∀ k v rest, P rest → P (k :: v :: rest)) : ∀ l, P l
  | [] => h0
  | [k] => h1 k
  | k :: v :: rest => h2 k v rest (pair_list_induction h0 h1 h2 rest)

theorem make_dest_frame (E : Env) (pdev : gx_device_pdf) (pk vk : Str) (pairs : List Str)
    (R : Nat) : dev_frame (pdfmark_make_dest E pdev pk vk pairs R).2.2 = dev_frame pdev := by
  unfold pdfmark_make_dest pdfmark_page_number
  dsimp only
  split_ifs <;> rfl

set_option linter.unreachableTactic false in
set_option linter.unusedTactic false in
set_option linter.unnecessarySeqFocus false in
set_option maxHeartbeats 1000000 in
/-- One round of the first loop of `pdfmark_put_ao_pairs` changes the device only
in the allocation count and in `max_referred_page`. -/
theorem ao_pair_frame (E : Env) (pairs : List Str) (pctm : gs_matrix) (fo : Bool) (k v : Str)
    (st : ao_vars) : dev_frame (ao_pair E pairs pctm fo k v st).2.pdev = dev_frame st.pdev := by
  have hmd := make_dest_frame E st.pdev "/Page".toList "/View".toList pairs 0
  have hal : dev_frame (alloc E st.pdev).2 = dev_frame st.pdev := rfl
  by_cases h0 : k = "/SrcPg".toList
  · subst h0
    cases fo <;> simp [ao_pair, pdf_key_eq] <;> split_ifs <;> first | rfl | exact hmd | exact hal
  by_cases h1 : k = "/Color".toList
  · subst h1
    cases fo <;> simp [ao_pair, pdf_key_eq] <;> split_ifs <;> first | rfl | exact hmd | exact hal
  by_cases h2 : k = "/Title".toList
  · subst h2
    cases fo <;> simp [ao_pair, pdf_key_eq] <;> split_ifs <;> first | rfl | exact hmd | exact hal
  by_cases h3 : k = "/Action".toList
  · subst h3
    cases fo <;> simp [ao_pair, pdf_key_eq] <;> split_ifs <;> first | rfl | exact hmd | exact hal
  by_cases h4 : k = "/A".toList
  · subst h4
    cases fo <;> simp [ao_pair, pdf_key_eq] <;> split_ifs <;> first | rfl | exact hmd | exact hal
  by_cases h5 : k = "/File".toList
  · subst h5
    cases fo <;> simp [ao_pair, pdf_key_eq] <;> split_ifs <;> first | rfl | exact hmd | exact hal
  by_cases h6 : k = "/Dest".toList
  · subst h6
    cases fo <;> simp [ao_pair, pdf_key_eq] <;> split_ifs <;> first | rfl | exact hmd | exact hal
  by_cases h7 : k = "/URI".toList
  · subst h7
    cases fo <;> simp [ao_pair, pdf_key_eq] <;> split_ifs <;> first | rfl | exact hmd | exact hal
  by_cases h8 : k = "/Page".toList
  · subst h8
    cases fo <;> simp [ao_pair, pdf_key_eq] <;> split_ifs <;> first | rfl | exact hmd | exact hal
  by_cases h9 : k = "/View".toList
  · subst h9
    cases fo <;> simp [ao_pair, pdf_key_eq] <;> split_ifs <;> first | rfl | exact hmd | exact hal
  by_cases h10 : k = "/Subtype".toList
  · subst h10
    cases fo <;> simp [ao_pair, pdf_key_eq] <;> split_ifs <;> first | rfl | exact hmd | exact hal
  by_cases h11 : k = "/Contents".toList
  · subst h11
    cases fo <;> simp [ao_pair, pdf_key_eq] <;> split_ifs <;> first | rfl | exact hmd | exact hal
  by_cases h12 : k = "/Rect".toList
  · subst h12
    cases fo <;> simp [ao_pair, pdf_key_eq] <;> split_ifs <;> first | rfl | exact hmd | exact hal
  by_cases h13 : k = "/Border".toList
  · subst h13
    cases fo <;> simp [ao_pair, pdf_key_eq] <;> split_ifs <;> first | rfl | exact hmd | exact hal
  by_cases h14 : k = "/Count".toList
  · subst h14
    cases fo <;> simp [ao_pair, pdf_key_eq] <;> split_ifs <;> first | rfl | exact hmd | exact hal
  cases fo <;> simp only [ao_pair, pdf_key_eq, h0, h1, h2, h3, h4, h5, h6, h7, h8, h9, h10, h11, h12, h13, h14, decide_False, Bool.false_and, Bool.and_false, Bool.or_false, Bool.false_eq_true, if_false, Bool.not_true, Bool.not_false, Bool.and_self] <;> split_ifs <;> first | rfl | exact hmd | exact hal
set_option linter.unreachableTactic false in
set_option linter.unusedTactic false in
set_option linter.unnecessarySeqFocus false in
set_option maxHeartbeats 2000000 in
/-- One round of the first loop of `pdfmark_put_ao_pairs`, for an annotation or an
outline, whatever its return code: the round records an Action, File or URI pair
and a Subtype value; a /Dest pair sets the Dest and the coercion flag; a Dest that
is set is kept by every other pair, and a pair other than /Dest, /Page and /View
leaves the Dest alone; a /Page or /View pair leaves a null Dest null when
`pdfmark_make_dest` fails. -/
theorem ao_pair_vars (E : Env) (pairs : List Str) (pctm : gs_matrix) (fo : Bool) (k v : Str)
    (st : ao_vars) :
    (ao_pair E pairs pctm fo k v st).2.Action =
      (if k ∈ ["/Action".toList, "/A".toList] then some (k, v) else st.Action) ∧
    (ao_pair E pairs pctm fo k v st).2.File =
      (if k ∈ ["/File".toList] then some (k, v) else st.File) ∧
    (ao_pair E pairs pctm fo k v st).2.URI =
      (if k ∈ ["/URI".toList] then some (k, v) else st.URI) ∧
    (ao_pair E pairs pctm fo k v st).2.Subtype =
      (if k = "/Subtype".toList then some v else st.Subtype) ∧
    (k = "/Dest".toList → (ao_pair E pairs pctm fo k v st).2.Dest = some v ∧
      (ao_pair E pairs pctm fo k v st).2.coerce_dest = true) ∧
    (k ≠ "/Dest".toList → st.Dest.isSome = true →
      (ao_pair E pairs pctm fo k v st).2.Dest = st.Dest ∧
      (ao_pair E pairs pctm fo k v st).2.coerce_dest = st.coerce_dest) ∧
    (k ≠ "/Dest".toList → k ≠ "/Page".toList → k ≠ "/View".toList →
      (ao_pair E pairs pctm fo k v st).2.Dest = st.Dest ∧
      (ao_pair E pairs pctm fo k v st).2.coerce_dest = st.coerce_dest) ∧
    (k ≠ "/Dest".toList → st.Dest = none →
      (pdfmark_make_dest E st.pdev "/Page".toList "/View".toList pairs 0).1 < 0 →
      (ao_pair E pairs pctm fo k v st).2.Dest = none) := by
  by_cases h0 : k = "/SrcPg".toList
  · subst h0
    cases fo <;> simp [ao_pair, pdf_key_eq] <;> first | (split_ifs <;> simp_all) | simp_all
  by_cases h1 : k = "/Color".toList
  · subst h1
    cases fo <;> simp [ao_pair, pdf_key_eq] <;> first | (split_ifs <;> simp_all) | simp_all
  by_cases h2 : k = "/Title".toList
  · subst h2
    cases fo <;> simp [ao_pair, pdf_key_eq] <;> first | (split_ifs <;> simp_all) | simp_all
  by_cases h3 : k = "/Action".toList
  · subst h3
    cases fo <;> simp [ao_pair, pdf_key_eq] <;> first | (split_ifs <;> simp_all) | simp_all
  by_cases h4 : k = "/A".toList
  · subst h4
    cases fo <;> simp [ao_pair, pdf_key_eq] <;> first | (split_ifs <;> simp_all) | simp_all
  by_cases h5 : k = "/File".toList
  · subst h5
    cases fo <;> simp [ao_pair, pdf_key_eq] <;> first | (split_ifs <;> simp_all) | simp_all
  by_cases h6 : k = "/Dest".toList
  · subst h6
    cases fo <;> simp [ao_pair, pdf_key_eq] <;> first | (split_ifs <;> simp_all) | simp_all
  by_cases h7 : k = "/URI".toList
  · subst h7
    cases fo <;> simp [ao_pair, pdf_key_eq] <;> first | (split_ifs <;> simp_all) | simp_all
  by_cases h8 : k = "/Page".toList
  · subst h8
    cases fo <;> simp [ao_pair, pdf_key_eq] <;> first | (split_ifs <;> simp_all) | simp_all
  by_cases h9 : k = "/View".toList
  · subst h9
    cases fo <;> simp [ao_pair, pdf_key_eq] <;> first | (split_ifs <;> simp_all) | simp_all
  by_cases h10 : k = "/Subtype".toList
  · subst h10
    cases fo <;> simp [ao_pair, pdf_key_eq] <;> first | (split_ifs <;> simp_all) | simp_all
  by_cases h11 : k = "/Contents".toList
  · subst h11
    cases fo <;> simp [ao_pair, pdf_key_eq] <;> first | (split_ifs <;> simp_all) | simp_all
  by_cases h12 : k = "/Rect".toList
  · subst h12
    cases fo <;> simp [ao_pair, pdf_key_eq] <;> first | (split_ifs <;> simp_all) | simp_all
  by_cases h13 : k = "/Border".toList
  · subst h13
    cases fo <;> simp [ao_pair, pdf_key_eq] <;> first | (split_ifs <;> simp_all) | simp_all
  by_cases h14 : k = "/Count".toList
  · subst h14
    cases fo <;> simp [ao_pair, pdf_key_eq] <;> first | (split_ifs <;> simp_all) | simp_all
  cases fo <;> simp_all [ao_pair, pdf_key_eq] <;> first | (split_ifs <;> simp_all) | simp_all
set_option linter.unreachableTactic false in
set_option linter.unusedTactic false in
set_option linter.unnecessarySeqFocus false in
set_option maxHeartbeats 2000000 in
/-- One round of the first loop of `pdfmark_put_ao_pairs` leaves the dictionary as
it is or puts one scalar under a key that is not reserved. -/
theorem ao_pair_pcd (E : Env) (pairs : List Str) (pctm : gs_matrix) (fo : Bool) (k v : Str)
    (st : ao_vars) :
    scalar_update (ao_loop_reserved fo) st.pcd (ao_pair E pairs pctm fo k v st).2.pcd := by
  have hid : ∀ F, scalar_update F st.pcd st.pcd := fun F => Or.inl rfl
  have hput : ∀ (F : List Str) (k1 v1 : Str), k1 ∉ F →
      scalar_update F st.pcd (cos_dict_put st.pcd k1 (cos_value_t.scalar v1)) :=
    fun F k1 v1 h => Or.inr ⟨k1, v1, h, rfl⟩
  by_cases h0 : k = "/SrcPg".toList
  · subst h0
    cases fo <;> simp [ao_pair, pdf_key_eq] <;> (try split_ifs) <;>
      first | exact hid _ | exact hput _ _ _ (by decide)
  by_cases h1 : k = "/Color".toList
  · subst h1
    cases fo <;> simp [ao_pair, pdf_key_eq] <;> (try split_ifs) <;>
      first | exact hid _ | exact hput _ _ _ (by decide)
  by_cases h2 : k = "/Title".toList
  · subst h2
    cases fo <;> simp [ao_pair, pdf_key_eq] <;> (try split_ifs) <;>
      first | exact hid _ | exact hput _ _ _ (by decide)
  by_cases h3 : k = "/Action".toList
  · subst h3
    cases fo <;> simp [ao_pair, pdf_key_eq] <;> (try split_ifs) <;>
      first | exact hid _ | exact hput _ _ _ (by decide)
  by_cases h4 : k = "/A".toList
  · subst h4
    cases fo <;> simp [ao_pair, pdf_key_eq] <;> (try split_ifs) <;>
      first | exact hid _ | exact hput _ _ _ (by decide)
  by_cases h5 : k = "/File".toList
  · subst h5
    cases fo <;> simp [ao_pair, pdf_key_eq] <;> (try split_ifs) <;>
      first | exact hid _ | exact hput _ _ _ (by decide)
  by_cases h6 : k = "/Dest".toList
  · subst h6
    cases fo <;> simp [ao_pair, pdf_key_eq] <;> (try split_ifs) <;>
      first | exact hid _ | exact hput _ _ _ (by decide)
  by_cases h7 : k = "/URI".toList
  · subst h7
    cases fo <;> simp [ao_pair, pdf_key_eq] <;> (try split_ifs) <;>
      first | exact hid _ | exact hput _ _ _ (by decide)
  by_cases h8 : k = "/Page".toList
  · subst h8
    cases fo <;> simp [ao_pair, pdf_key_eq] <;> (try split_ifs) <;>
      first | exact hid _ | exact hput _ _ _ (by decide)
  by_cases h9 : k = "/View".toList
  · subst h9
    cases fo <;> simp [ao_pair, pdf_key_eq] <;> (try split_ifs) <;>
      first | exact hid _ | exact hput _ _ _ (by decide)
  by_cases h10 : k = "/Subtype".toList
  · subst h10
    cases fo <;> simp [ao_pair, pdf_key_eq] <;> (try split_ifs) <;>
      first | exact hid _ | exact hput _ _ _ (by decide)
  by_cases h11 : k = "/Contents".toList
  · subst h11
    cases fo <;> simp [ao_pair, pdf_key_eq] <;> (try split_ifs) <;>
      first | exact hid _ | exact hput _ _ _ (by decide)
  by_cases h12 : k = "/Rect".toList
  · subst h12
    cases fo <;> simp [ao_pair, pdf_key_eq] <;> (try split_ifs) <;>
      first | exact hid _ | exact hput _ _ _ (by decide)
  by_cases h13 : k = "/Border".toList
  · subst h13
    cases fo <;> simp [ao_pair, pdf_key_eq] <;> (try split_ifs) <;>
      first | exact hid _ | exact hput _ _ _ (by decide)
  by_cases h14 : k = "/Count".toList
  · subst h14
    cases fo <;> simp [ao_pair, pdf_key_eq] <;> (try split_ifs) <;>
      first | exact hid _ | exact hput _ _ _ (by decide)
  have hk : ∀ fo1, k ∉ ao_loop_reserved fo1 := by
    intro fo1 hmem
    cases fo1 <;>
      simp only [ao_loop_reserved, List.mem_cons, List.mem_singleton, List.mem_append,
        List.mem_nil_iff, or_false, if_true, if_false, Bool.false_eq_true] at hmem <;>
      tauto
  cases fo <;> simp only [ao_pair, pdf_key_eq, h0, h1, h2, h3, h4, h5, h6, h7, h8, h9, h10, h11, h12, h13, h14, decide_False, Bool.false_and, Bool.and_false, Bool.or_false, Bool.false_eq_true, if_false, Bool.not_true, Bool.not_false, Bool.and_self] <;> (try split_ifs) <;>
      first | exact hid _ | exact hput _ _ _ (hk _)
theorem cos_dict_find_put {α : Type} (d : List (Str × α)) (k k1 : Str) (v : α) :
    cos_dict_find (cos_dict_put d k v) k1 = if k = k1 then some v else cos_dict_find d k1 := by
  by_cases h : k = k1
  · subst h
    rw [if_pos rfl]
    exact cos_dict_find_put_same d k v
  · rw [if_neg h]
    exact cos_dict_find_put_other d k k1 v h

theorem scalar_update_find (F : List Str) (d d1 : List (Str × cos_value_t)) (key : Str)
    (h : scalar_update F d d1) (hk : key ∈ F) : cos_dict_find d1 key = cos_dict_find d key := by
  rcases h with h | ⟨k, v, hkF, h⟩
  · rw [h]
  · rw [h, cos_dict_find_put, if_neg]
    intro e
    exact hkF (e ▸ hk)

theorem scalar_update_object (F : List Str) (d d1 : List (Str × cos_value_t)) (key : Str)
    (id : Int) (ad : List (Str × Str)) (h : scalar_update F d d1)
    (hf : cos_dict_find d1 key = some (cos_value_t.object id ad)) :
    cos_dict_find d key = some (cos_value_t.object id ad) := by
  rcases h with h | ⟨k, v, _, h⟩
  · rw [← h]
    exact hf
  · rw [h, cos_dict_find_put] at hf
    by_cases e : k = key
    · rw [if_pos e] at hf
      cases hf
    · rw [if_neg e] at hf
      exact hf

/-- The outline view does not depend on the allocation count or on
`max_referred_page`. -/
theorem view_of_frame (p q : gx_device_pdf) (h : dev_frame p = dev_frame q) :
    view p = view q := by
  have := congrArg view h
  exact this

/-- One round of the first loop for an annotation (`for_outline` false): with
allocations succeeding and a well-formed /Rect or /Border value the round does
not fail; it records an Action, File or URI pair, a /Dest pair sets the Dest and
the coercion flag, any other pair leaves a Dest that is set alone; and the keys
/Dest, /File and /A of the dictionary are not touched. -/
theorem ao_pair_annot (E : Env) (halloc : ∀ k, E.alloc_ok k = true) (pairs : List Str)
    (pctm : gs_matrix) (k v : Str) (st : ao_vars)
    (hok : rect_border_ok E pctm [(k, v)] = true) :
    (ao_pair E pairs pctm false k v st).1 = 0 ∧
    (ao_pair E pairs pctm false k v st).2.Action =
      (if k ∈ ["/Action".toList, "/A".toList] then some (k, v) else st.Action) ∧
    (ao_pair E pairs pctm false k v st).2.File =
      (if k ∈ ["/File".toList] then some (k, v) else st.File) ∧
    (ao_pair E pairs pctm false k v st).2.URI =
      (if k ∈ ["/URI".toList] then some (k, v) else st.URI) ∧
    (k = "/Dest".toList → (ao_pair E pairs pctm false k v st).2.Dest = some v ∧
      (ao_pair E pairs pctm false k v st).2.coerce_dest = true) ∧
    (k ≠ "/Dest".toList → st.Dest.isSome = true →
      (ao_pair E pairs pctm false k v st).2.Dest = st.Dest ∧
      (ao_pair E pairs pctm false k v st).2.coerce_dest = st.coerce_dest) ∧
    (∀ key ∈ ["/Dest".toList, "/File".toList, "/A".toList],
      cos_dict_find (ao_pair E pairs pctm false k v st).2.pcd key = cos_dict_find st.pcd key) := by
  have hc : (ao_pair E pairs pctm false k v st).1 = 0 := by
    simp only [rect_border_ok, List.all_cons, List.all_nil, Bool.and_true, pdf_key_eq] at hok
    by_cases h0 : k = "/SrcPg".toList
    · subst h0
      simp_all [ao_pair, pdf_key_eq, alloc]
      split_ifs <;> simp_all
    by_cases h1 : k = "/Color".toList
    · subst h1
      simp_all [ao_pair, pdf_key_eq, alloc]
    by_cases h2 : k = "/Title".toList
    · subst h2
      simp_all [ao_pair, pdf_key_eq, alloc]
    by_cases h3 : k = "/Action".toList
    · subst h3
      simp_all [ao_pair, pdf_key_eq, alloc]
    by_cases h4 : k = "/A".toList
    · subst h4
      simp_all [ao_pair, pdf_key_eq, alloc]
    by_cases h5 : k = "/File".toList
    · subst h5
      simp_all [ao_pair, pdf_key_eq, alloc]
    by_cases h6 : k = "/Dest".toList
    · subst h6
      simp_all [ao_pair, pdf_key_eq, alloc]
    by_cases h7 : k = "/URI".toList
    · subst h7
      simp_all [ao_pair, pdf_key_eq, alloc]
    by_cases h8 : k = "/Page".toList
    · subst h8
      simp_all [ao_pair, pdf_key_eq, alloc]
      split_ifs <;> simp_all
    by_cases h9 : k = "/View".toList
    · subst h9
      simp_all [ao_pair, pdf_key_eq, alloc]
      split_ifs <;> simp_all
    by_cases h10 : k = "/Subtype".toList
    · subst h10
      simp_all [ao_pair, pdf_key_eq, alloc]
    by_cases h11 : k = "/Contents".toList
    · subst h11
      simp_all [ao_pair, pdf_key_eq, alloc]
    by_cases h12 : k = "/Rect".toList
    · subst h12
      simp_all [ao_pair, pdf_key_eq, alloc]
      split_ifs <;> simp_all
      omega
    by_cases h13 : k = "/Border".toList
    · subst h13
      simp_all [ao_pair, pdf_key_eq, alloc]
      split_ifs <;> simp_all <;> omega
    simp_all [ao_pair, pdf_key_eq, alloc]
  obtain ⟨v1, v2, v3, _, v5, v6, _, _⟩ := ao_pair_vars E pairs pctm false k v st
  refine ⟨hc, v1, v2, v3, v5, v6, ?_⟩
  · intro key hkey
    refine scalar_update_find _ _ _ key (ao_pair_pcd E pairs pctm false k v st) ?_
    simp only [List.mem_cons, List.mem_singleton, List.mem_nil_iff, or_false] at hkey
    rcases hkey with rfl | rfl | rfl <;> decide

theorem last_pair_acc (keys : List Str) (ps : List (Str × Str)) :
    ∀ acc : Option (Str × Str), last_pair keys ps acc =
      (match last_pair keys ps none with
       | some x => some x
       | none => acc) := by
  induction ps with
  | nil => intro acc; rfl
  | cons p rest ih =>
    intro acc
    simp only [last_pair]
    by_cases hp : p.1 ∈ keys
    · simp only [hp, if_true]
      rw [ih (some p)]
      cases last_pair keys rest none <;> rfl
    · simp only [hp, if_false]
      exact ih acc

theorem last_pair_cons_none (key : Str) (p : Str × Str) (rest : List (Str × Str)) :
    last_pair [key] (p :: rest) none =
      (match last_pair [key] rest none with
       | some x => some x
       | none => if p.1 = key then some p else none) := by
  simp only [last_pair, List.mem_singleton]
  rw [last_pair_acc]

/-- The first loop of `pdfmark_put_ao_pairs` for an annotation, from any state of
the variables: it does not fail, Action, File and URI end as the last such pair,
a /Dest pair ends as the Dest with the coercion flag set, and the keys /Dest,
/File and /A of the dictionary keep their values. -/
theorem ao_loop_annot (E : Env) (halloc : ∀ k, E.alloc_ok k = true) (pairs : List Str)
    (pctm : gs_matrix) :
    ∀ (l : List Str) (st : ao_vars), rect_border_ok E pctm (pairs_of l) = true →
      (ao_loop E pairs pctm false l st).1 = 0 ∧
      (ao_loop E pairs pctm false l st).2.Action =
        last_pair ["/Action".toList, "/A".toList] (pairs_of l) st.Action ∧
      (ao_loop E pairs pctm false l st).2.File =
        last_pair ["/File".toList] (pairs_of l) st.File ∧
      (ao_loop E pairs pctm false l st).2.URI =
        last_pair ["/URI".toList] (pairs_of l) st.URI ∧
      (∀ d, last_pair ["/Dest".toList] (pairs_of l) none = some d →
        (ao_loop E pairs pctm false l st).2.Dest = some d.2 ∧
        (ao_loop E pairs pctm false l st).2.coerce_dest = true) ∧
      (last_pair ["/Dest".toList] (pairs_of l) none = none → st.Dest.isSome = true →
        (ao_loop E pairs pctm false l st).2.Dest = st.Dest ∧
        (ao_loop E pairs pctm false l st).2.coerce_dest = st.coerce_dest) ∧
      (∀ key ∈ ["/Dest".toList, "/File".toList, "/A".toList],
        cos_dict_find (ao_loop E pairs pctm false l st).2.pcd key = cos_dict_find st.pcd key) := by
  have hstep : ∀ (k v : Str) (st : ao_vars) (rest : List (Str × Str)) (r : ao_vars),
      rect_border_ok E pctm [(k, v)] = true →
      (∀ d, last_pair ["/Dest".toList] rest none = some d →
        r.Dest = some d.2 ∧ r.coerce_dest = true) →
      (last_pair ["/Dest".toList] rest none = none →
        (ao_pair E pairs pctm false k v st).2.Dest.isSome = true →
        r.Dest = (ao_pair E pairs pctm false k v st).2.Dest ∧
        r.coerce_dest = (ao_pair E pairs pctm false k v st).2.coerce_dest) →
      (∀ d, last_pair ["/Dest".toList] ((k, v) :: rest) none = some d →
        r.Dest = some d.2 ∧ r.coerce_dest = true) ∧
      (last_pair ["/Dest".toList] ((k, v) :: rest) none = none → st.Dest.isSome = true →
        r.Dest = st.Dest ∧ r.coerce_dest = st.coerce_dest) := by
    intro k v st rest r hok1 i5 i6
    obtain ⟨_, _, _, _, h5, h6, _⟩ := ao_pair_annot E halloc pairs pctm k v st hok1
    constructor
    · intro d hd
      rw [last_pair_cons_none] at hd
      cases hr : last_pair ["/Dest".toList] rest none with
      | some x =>
        rw [hr] at hd
        cases hd
        exact i5 _ hr
      | none =>
        rw [hr] at hd
        by_cases hk : k = "/Dest".toList
        · simp only [hk, if_true] at hd
          cases hd
          obtain ⟨e1, e2⟩ := h5 hk
          have := i6 hr (by rw [e1]; rfl)
          rw [this.1, this.2, e1, e2]
          exact ⟨rfl, rfl⟩
        · simp only [hk, if_false] at hd
          cases hd
    · intro hd hst
      rw [last_pair_cons_none] at hd
      cases hr : last_pair ["/Dest".toList] rest none with
      | some x =>
        rw [hr] at hd
        cases hd
      | none =>
        rw [hr] at hd
        by_cases hk : k = "/Dest".toList
        · simp only [hk, if_true] at hd
          cases hd
        · obtain ⟨e1, e2⟩ := h6 hk hst
          have := i6 hr (by rw [e1]; exact hst)
          rw [this.1, this.2, e1, e2]
          exact ⟨rfl, rfl⟩
  intro l
  induction l using pair_list_induction with
  | h0 =>
    intro st _
    refine ⟨rfl, rfl, rfl, rfl, ?_, ?_, ?_⟩
    · intro d hd
      cases hd
    · intro _ _
      exact ⟨rfl, rfl⟩
    · intro key _
      rfl
  | h1 k =>
    intro st hok
    obtain ⟨h1, h2, h3, h4, _, _, h7⟩ := ao_pair_annot E halloc pairs pctm k [] st hok
    have hs := hstep k [] st [] (ao_pair E pairs pctm false k [] st).2 hok
      (by intro d hd; cases hd) (by intro _ _; exact ⟨rfl, rfl⟩)
    exact ⟨h1, h2, h3, h4, hs.1, hs.2, h7⟩
  | h2 k v rest ih =>
    intro st hok
    have hok1 : rect_border_ok E pctm [(k, v)] = true := by
      simp only [pairs_of, rect_border_ok, List.all_cons, Bool.and_eq_true] at hok
      simp only [rect_border_ok, List.all_cons, List.all_nil, Bool.and_true, Bool.and_eq_true]
      exact hok.1
    have hok2 : rect_border_ok E pctm (pairs_of rest) = true := by
      simp only [pairs_of, rect_border_ok, List.all_cons, Bool.and_eq_true] at hok
      exact hok.2
    obtain ⟨h1, h2, h3, h4, _, _, h7⟩ := ao_pair_annot E halloc pairs pctm k v st hok1
    obtain ⟨i1, i2, i3, i4, i5, i6, i7⟩ := ih (ao_pair E pairs pctm false k v st).2 hok2
    have hlp : ao_loop E pairs pctm false (k :: v :: rest) st =
        ao_loop E pairs pctm false rest (ao_pair E pairs pctm false k v st).2 := by
      simp only [ao_loop]
      rw [if_neg (by omega)]
    have hs := hstep k v st (pairs_of rest) _ hok1 i5 i6
    rw [hlp]
    refine ⟨i1, ?_, ?_, ?_, hs.1, hs.2, ?_⟩
    · rw [i2, h2]; rfl
    · rw [i3, h3]; rfl
    · rw [i4, h4]; rfl
    · intro key hkey
      rw [i7 key hkey, h7 key hkey]

/-- C6 (counterexample): an annotation mark with /Action /GoToR, /File (other.pdf)
and /Dest (chapter1) that also carries a /URI pair gets an /A subdictionary whose
/S is /URI, not /GoToR; and one with a malformed /Rect is refused with
rangecheck. -/
theorem C6_counterexample :
    cos_dict_find (pdfmark_put_ao_pairs sample_env {} {}
      ["/Action".toList, "/GoToR".toList, "/File".toList, "(other.pdf)".toList,
       "/Dest".toList, "(chapter1)".toList, "/URI".toList, "(http://x)".toList]
      {} { subtype := some "/Link".toList } false).2.pcd "/A".toList =
      some (cos_value_t.object 0
        [("/Type".toList, "/Action".toList), ("/S".toList, "/URI".toList),
         ("/D".toList, "/chapter1".toList), ("/F".toList, "(other.pdf)".toList),
         ("/URI".toList, "(http://x)".toList)]) ∧
    (pdfmark_put_ao_pairs sample_env {} {}
      ["/Action".toList, "/GoToR".toList, "/File".toList, "(other.pdf)".toList,
       "/Dest".toList, "(chapter1)".toList, "/Rect".toList, "[0 0 1]".toList]
      {} { subtype := some "/Link".toList } false).1 = gs_error_rangecheck := by
  constructor <;> decide

/-- C6 (amended): for an annotation (`for_outline` false) whose last /Action or /A
pair is /GoToR, whose last /File pair has the value `f` and whose last /Dest pair
is the string `(body)` of at most MAX_DEST_STRING bytes, that carries no /URI pair
and whose /Rect and /Border values are well-formed, with allocations succeeding:
the coercion of the destination stays inside its buffer and gives the name
`/body`, and `pdfmark_put_ao_pairs` returns 0 and stores under /A the
subdictionary /Type /Action, /S /GoToR, /D /body, /F f; a dictionary that had no
/Dest and no /File at the top level has none afterwards. -/
theorem C6_gotor_action (E : Env) (halloc : ∀ k, E.alloc_ok k = true) (pdev : gx_device_pdf)
    (pcd : cos_dict_t) (pairs : List Str) (pctm : gs_matrix) (params : ao_params_t)
    (f body ka kf kd : Str)
    (hA : last_pair ["/Action".toList, "/A".toList] (pairs_of pairs) none =
      some (ka, "/GoToR".toList))
    (hF : last_pair ["/File".toList] (pairs_of pairs) none = some (kf, f))
    (hD : last_pair ["/Dest".toList] (pairs_of pairs) none = some (kd, '(' :: (body ++ [')'])))
    (hlen : ('(' :: (body ++ [')'])).length ≤ E.MAX_DEST_STRING)
    (hU : last_pair ["/URI".toList] (pairs_of pairs) none = none)
    (hok : rect_border_ok E pctm (pairs_of pairs) = true)
    (hpcd1 : cos_dict_find pcd.elements "/Dest".toList = none)
    (hpcd2 : cos_dict_find pcd.elements "/File".toList = none) :
    pdfmark_coerce_dest_buf E ('(' :: (body ++ [')'])) = some (1, '/' :: body) ∧
    (pdfmark_put_ao_pairs E pdev pcd pairs pctm params false).1 = 0 ∧
    cos_dict_find (pdfmark_put_ao_pairs E pdev pcd pairs pctm params false).2.pcd "/A".toList =
      some (cos_value_t.object 0
        [("/Type".toList, "/Action".toList), ("/S".toList, "/GoToR".toList),
         ("/D".toList, '/' :: body), ("/F".toList, f)]) ∧
    cos_dict_find (pdfmark_put_ao_pairs E pdev pcd pairs pctm params false).2.pcd "/Dest".toList
      = none ∧
    cos_dict_find (pdfmark_put_ao_pairs E pdev pcd pairs pctm params false).2.pcd "/File".toList
      = none := by
  refine ⟨coerce_dest_buf_string E body hlen, ?_⟩
  obtain ⟨l1, l2, l3, l4, l5, _, l7⟩ := ao_loop_annot E halloc pairs pctm pairs
    ({ Subtype := params.subtype, src_pg := params.src_pg, pcd := pcd.elements,
       pdev := pdev } : ao_vars) hok
  have l5a := l5 _ hD
  have l7a := l7 "/Dest".toList (by simp)
  have l7b := l7 "/File".toList (by simp)
  rw [hA] at l2
  rw [hF] at l3
  rw [hU] at l4
  unfold pdfmark_put_ao_pairs
  simp only []
  rw [if_neg (by omega)]
  generalize (ao_loop E pairs pctm false pairs
    ({ Subtype := params.subtype, src_pg := params.src_pg, pcd := pcd.elements,
       pdev := pdev } : ao_vars)).2 = st at *
  obtain ⟨Action, File, URI, Dest, Subtype, coerce, src_pg, pcd1, pdev1⟩ := st
  simp only at l2 l3 l4 l5a l7a l7b
  obtain ⟨l5b, l5c⟩ := l5a
  subst l2 l3 l4 l5b l5c
  rw [hpcd1] at l7a
  rw [hpcd2] at l7b
  have hlink : ∀ x : ao_vars, x.Action = some (ka, "/GoToR".toList) → x.File = some (kf, f) →
      ao_link false x = x := by
    intro x hx1 hx2
    unfold ao_link
    simp [pdf_key_eq, hx1, hx2]
  rw [hlink _ rfl rfl]
  have hdrop : (('/' :: (body ++ [')'])).dropLast) = '/' :: body := by
    simp [List.dropLast]
  simp only [String.toList] at l7a l7b
  cases Subtype <;>
    simp [ao_action, ao_finish, pdf_key_eq, alloc, halloc, pdfmark_coerce_dest, hdrop,
      cos_dict_put, cos_dict_find_put_same, cos_dict_find_put_other, l7a, l7b]

/-- C6 (witness): the Link annotation /Action /GoToR /File (other.pdf)
/Dest (chapter1). -/
theorem C6_gotor_action_witness :
    pdfmark_coerce_dest_buf sample_env ('(' :: ("chapter1".toList ++ [')'])) =
      some (1, '/' :: "chapter1".toList) ∧
    (pdfmark_put_ao_pairs sample_env {} {}
      ["/Action".toList, "/GoToR".toList, "/File".toList, "(other.pdf)".toList,
       "/Dest".toList, "(chapter1)".toList]
      {} { subtype := some "/Link".toList } false).1 = 0 ∧
    cos_dict_find (pdfmark_put_ao_pairs sample_env {} {}
      ["/Action".toList, "/GoToR".toList, "/File".toList, "(other.pdf)".toList,
       "/Dest".toList, "(chapter1)".toList]
      {} { subtype := some "/Link".toList } false).2.pcd "/A".toList =
      some (cos_value_t.object 0
        [("/Type".toList, "/Action".toList), ("/S".toList, "/GoToR".toList),
         ("/D".toList, '/' :: "chapter1".toList), ("/F".toList, "(other.pdf)".toList)]) ∧
    cos_dict_find (pdfmark_put_ao_pairs sample_env {} {}
      ["/Action".toList, "/GoToR".toList, "/File".toList, "(other.pdf)".toList,
       "/Dest".toList, "(chapter1)".toList]
      {} { subtype := some "/Link".toList } false).2.pcd "/Dest".toList = none ∧
    cos_dict_find (pdfmark_put_ao_pairs sample_env {} {}
      ["/Action".toList, "/GoToR".toList, "/File".toList, "(other.pdf)".toList,
       "/Dest".toList, "(chapter1)".toList]
      {} { subtype := some "/Link".toList } false).2.pcd "/File".toList = none :=
  C6_gotor_action sample_env (fun _ => rfl) {} {}
    ["/Action".toList, "/GoToR".toList, "/File".toList, "(other.pdf)".toList,
     "/Dest".toList, "(chapter1)".toList]
    {} { subtype := some "/Link".toList } "(other.pdf)".toList "chapter1".toList
    "/Action".toList "/File".toList "/Dest".toList
    (by decide) (by decide) (by decide) (by decide) (by decide) (by decide) (by decide)
    (by decide)

/-! ## C2: the /Next link of every written outline item -/

theorem make_dest_view (E : Env) (pdev : gx_device_pdf) (pk vk : Str) (pairs : List Str)
    (R : Nat) : view (pdfmark_make_dest E pdev pk vk pairs R).2.2 = view pdev := by
  unfold pdfmark_make_dest
  dsimp only
  split_ifs <;> rfl

theorem ao_pair_view (E : Env) (pairs : List Str) (pctm : gs_matrix) (fo : Bool) (k v : Str)
    (st : ao_vars) : view (ao_pair E pairs pctm fo k v st).2.pdev = view st.pdev :=
  view_of_frame _ _ (ao_pair_frame E pairs pctm fo k v st)

theorem ao_loop_view (E : Env) (pairs : List Str) (pctm : gs_matrix) (fo : Bool) :
    ∀ (l : List Str) (st : ao_vars),
      view (ao_loop E pairs pctm fo l st).2.pdev = view st.pdev := by
  intro l
  induction l using pair_list_induction with
  | h0 => intro st; rfl
  | h1 k => intro st; exact ao_pair_view _ _ _ _ _ _ _
  | h2 k v rest ih =>
    intro st
    rw [ao_loop]
    by_cases h : (ao_pair E pairs pctm fo k v st).1 < 0
    · simp only [h, if_true]
      exact ao_pair_view _ _ _ _ _ _ _
    · simp only [h, if_false]
      rw [ih]
      exact ao_pair_view _ _ _ _ _ _ _

theorem ao_link_pdev (fo : Bool) (x : ao_vars) : (ao_link fo x).pdev = x.pdev := by
  unfold ao_link
  split_ifs
  · cases x.Action with
    | none => rfl
    | some act =>
      dsimp only
      split_ifs <;> rfl
  · rfl

theorem ao_action_view (E : Env) (fo : Bool) (st : ao_vars) :
    view (ao_action E fo st).2.pdev = view st.pdev := by
  unfold ao_action
  cases st.Action with
  | none => rfl
  | some act =>
    dsimp only
    split_ifs <;> rfl

theorem put_ao_pairs_view (E : Env) (pdev : gx_device_pdf) (pcd : cos_dict_t)
    (pairs : List Str) (pctm : gs_matrix) (params : ao_params_t) (fo : Bool) :
    view (pdfmark_put_ao_pairs E pdev pcd pairs pctm params fo).2.pdev = view pdev := by
  unfold pdfmark_put_ao_pairs
  dsimp only
  split_ifs
  · exact ao_loop_view _ _ _ _ _ _
  · rw [ao_action_view, ao_link_pdev]
    exact ao_loop_view _ _ _ _ _ _
  · show view (ao_finish fo _).pdev = view pdev
    have h2 : ∀ x : ao_vars, (ao_finish fo x).pdev = x.pdev := fun _ => rfl
    rw [h2, ao_action_view, ao_link_pdev]
    exact ao_loop_view _ _ _ _ _ _

theorem outline_writes_append (s t : List pdf_object) :
    outline_writes (s ++ t) = outline_writes s ++ outline_writes t := by
  induction s with
  | nil => rfl
  | cons o rest ih =>
    cases o with
    | outline node next_id => simp [outline_writes, ih]
    | bead b => simp [outline_writes, ih]
    | article id first_id contents => simp [outline_writes, ih]

/-- Replacing a level by one with the same node ids does not change the ids seen
in the view. -/
theorem update_level_ids (f : Nat → pdf_outline_level_t) (i : Nat) (v : pdf_outline_level_t)
    (h : level_ids v = level_ids (f i)) (d : Nat) :
    level_ids (Function.update f i v d) = level_ids (f d) := by
  by_cases hd : d = i
  · subst hd
    simp [h]
  · simp [hd]

theorem adjust_parent_count_ids (f : Nat → pdf_outline_level_t) (depth d : Nat) :
    level_ids (pdfmark_adjust_parent_count f depth d) = level_ids (f d) := by
  unfold pdfmark_adjust_parent_count
  dsimp only
  split_ifs
  · apply update_level_ids
    rfl
  · apply update_level_ids
    rfl
  · rfl

theorem view_of_level_ids (p q : gx_device_pdf) (h1 : q.next_id = p.next_id)
    (h2 : q.outlines_id = p.outlines_id) (h3 : q.outline_depth = p.outline_depth)
    (h4 : ∀ d, level_ids (q.outline_levels d) = level_ids (p.outline_levels d))
    (h5 : outline_writes q.strm = outline_writes p.strm) : view q = view p := by
  have h4a : ∀ d, (q.outline_levels d).first.id = (p.outline_levels d).first.id :=
    fun d => congrArg Prod.fst (h4 d)
  have h4b : ∀ d, (q.outline_levels d).last.id = (p.outline_levels d).last.id :=
    fun d => congrArg (fun t => t.2.1) (h4 d)
  have h4c : ∀ d, (q.outline_levels d).last.parent_id = (p.outline_levels d).last.parent_id :=
    fun d => congrArg (fun t => t.2.2) (h4 d)
  refine outline_view.ext h1 h2 h3 (funext h4a) (funext h4b) (funext h4c) h5

theorem close_outline_levels (pdev : gx_device_pdf) (d : Nat) :
    level_ids ((pdfmark_close_outline pdev).2.outline_levels d) =
      level_ids (pdev.outline_levels d) := by
  unfold pdfmark_close_outline
  dsimp only
  by_cases hd : pdev.outline_depth > 0
  · rw [if_pos hd]
    dsimp only
    rw [adjust_parent_count_ids, update_level_ids, update_level_ids]
    · split_ifs <;> rfl
    · rfl
  · rw [if_neg hd]
    dsimp only
    rw [update_level_ids]
    split_ifs <;> rfl

/-- `pdfmark_close_outline` acts on the view as `view_close`. -/
theorem close_outline_view (pdev : gx_device_pdf) :
    view (pdfmark_close_outline pdev).2 = view_close (view pdev) := by
  have hl := close_outline_levels pdev
  have h4a : ∀ d, ((pdfmark_close_outline pdev).2.outline_levels d).first.id =
      (pdev.outline_levels d).first.id := fun d => congrArg Prod.fst (hl d)
  have h4b : ∀ d, ((pdfmark_close_outline pdev).2.outline_levels d).last.id =
      (pdev.outline_levels d).last.id := fun d => congrArg (fun t => t.2.1) (hl d)
  have h4c : ∀ d, ((pdfmark_close_outline pdev).2.outline_levels d).last.parent_id =
      (pdev.outline_levels d).last.parent_id := fun d => congrArg (fun t => t.2.2) (hl d)
  have hw : ∀ c : Prop, ∀ [Decidable c],
      (if c then pdfmark_write_outline pdev (pdev.outline_levels pdev.outline_depth).last 0
       else (0, (pdev.outline_levels pdev.outline_depth).last, pdev)).2.2 =
      { pdev with strm := pdev.strm ++
          (if c then [pdf_object.outline
            { (pdev.outline_levels pdev.outline_depth).last with
              action := (pdev.outline_levels pdev.outline_depth).last.action.map
                (fun a => { a with id := (pdev.outline_levels pdev.outline_depth).last.id }) } 0]
           else []) } := by
    intro c _
    by_cases hc : c
    · simp only [hc, if_true]
      rfl
    · simp only [hc, if_false, List.append_nil]
  refine outline_view.ext ?_ ?_ ?_ (funext h4a) (funext h4b) (funext h4c) ?_
  · show (pdfmark_close_outline pdev).2.next_id = pdev.next_id
    unfold pdfmark_close_outline
    dsimp only
    rw [hw]
    split_ifs <;> rfl
  · show (pdfmark_close_outline pdev).2.outlines_id = pdev.outlines_id
    unfold pdfmark_close_outline
    dsimp only
    rw [hw]
    split_ifs <;> rfl
  · show (pdfmark_close_outline pdev).2.outline_depth = pdev.outline_depth - 1
    unfold pdfmark_close_outline
    dsimp only
    rw [hw]
    by_cases hd : pdev.outline_depth > 0
    · rw [if_pos hd]
    · rw [if_neg hd]
      show pdev.outline_depth = pdev.outline_depth - 1
      omega
  · show outline_writes (pdfmark_close_outline pdev).2.strm =
      outline_writes pdev.strm ++
        (if (pdev.outline_levels pdev.outline_depth).last.id ≠ 0 then
          [((pdev.outline_levels pdev.outline_depth).last.id, 0)] else [])
    unfold pdfmark_close_outline
    dsimp only
    rw [hw]
    by_cases hd : pdev.outline_depth > 0
    · rw [if_pos hd]
      dsimp only
      rw [outline_writes_append]
      split_ifs <;> simp [outline_writes]
    · rw [if_neg hd]
      dsimp only
      rw [outline_writes_append]
      split_ifs <;> simp [outline_writes]

theorem out_add_node_levels (p : gx_device_pdf) (node : pdf_outline_node_t) (d : Nat) :
    level_ids ((out_add_node p node).outline_levels d) =
      (if d = p.outline_depth then
        ((if (p.outline_levels d).first.id = 0 then node.id else (p.outline_levels d).first.id),
          node.id, node.parent_id)
       else level_ids (p.outline_levels d)) := by
  unfold out_add_node
  dsimp only
  by_cases hf : (p.outline_levels p.outline_depth).first.id = 0
  · rw [if_pos hf]
    dsimp only
    by_cases hd : d = p.outline_depth
    · subst hd
      rw [Function.update_same, if_pos rfl, if_pos hf]
      rfl
    · rw [Function.update_noteq hd, if_neg hd]
      split_ifs
      · apply update_level_ids
        rfl
      · rfl
  · rw [if_neg hf]
    dsimp only
    by_cases hd : d = p.outline_depth
    · subst hd
      rw [Function.update_same, if_pos rfl, if_neg hf]
      have := adjust_parent_count_ids p.outline_levels p.outline_depth p.outline_depth
      split_ifs
      · have h1 : (pdfmark_adjust_parent_count p.outline_levels p.outline_depth
            p.outline_depth).first.id = (p.outline_levels p.outline_depth).first.id :=
          congrArg Prod.fst this
        show ((pdfmark_adjust_parent_count p.outline_levels p.outline_depth
            p.outline_depth).first.id, node.id, node.parent_id) = _
        rw [h1]
      · rfl
    · rw [Function.update_noteq hd, if_neg hd]
      split_ifs
      · exact adjust_parent_count_ids _ _ _
      · rfl

theorem out_add_node_writes (p : gx_device_pdf) (node : pdf_outline_node_t) :
    outline_writes (out_add_node p node).strm =
      outline_writes p.strm ++
        (if (p.outline_levels p.outline_depth).first.id = 0 then []
         else [((p.outline_levels p.outline_depth).last.id, node.id)]) := by
  unfold out_add_node
  dsimp only
  by_cases hf : (p.outline_levels p.outline_depth).first.id = 0
  · rw [if_pos hf, if_pos hf, List.append_nil]
  · rw [if_neg hf, if_neg hf]
    dsimp only
    have hl : ∀ c : Prop, ∀ [Decidable c],
        ((if c then pdfmark_adjust_parent_count p.outline_levels p.outline_depth
          else p.outline_levels) p.outline_depth).last.id =
        (p.outline_levels p.outline_depth).last.id := by
      intro c _
      split_ifs
      · exact congrArg (fun t => t.2.1) (adjust_parent_count_ids _ _ _)
      · rfl
    simp only [pdfmark_write_outline, outline_writes_append, outline_writes, hl]

theorem out_add_node_other (p : gx_device_pdf) (node : pdf_outline_node_t) :
    (out_add_node p node).next_id = p.next_id ∧
    (out_add_node p node).outlines_id = p.outlines_id ∧
    (out_add_node p node).outline_depth = p.outline_depth := by
  unfold out_add_node
  dsimp only
  split_ifs <;> exact ⟨rfl, rfl, rfl⟩

/-- The closing loop at the end of `pdfmark_OUT` is a sequence of `view_close`
steps, each taken at a depth above 0. -/
theorem out_close_loop_view (n : Nat) :
    ∀ pdev : gx_device_pdf, view_closes (view pdev) (view (out_close_loop n pdev)) := by
  induction n with
  | zero => intro pdev; exact view_closes.done _
  | succ n ih =>
    intro pdev
    rw [out_close_loop]
    split_ifs with h
    · refine view_closes.step _ _ h.1 ?_
      rw [← close_outline_view]
      exact ih _
    · exact view_closes.done _

/-- The closing loop of `pdfmark_OUT` ends because its condition fails, not because
the fuel `outline_depth` runs out. -/
theorem out_close_loop_done (n : Nat) :
    ∀ pdev : gx_device_pdf, pdev.outline_depth ≤ n →
      ¬ ((out_close_loop n pdev).outline_depth > 0 ∧
        ((out_close_loop n pdev).outline_levels (out_close_loop n pdev).outline_depth).left = 0)
    := by
  induction n with
  | zero =>
    intro pdev h
    rw [out_close_loop]
    omega
  | succ n ih =>
    intro pdev h
    rw [out_close_loop]
    split_ifs with hc
    · apply ih
      have := congrArg outline_view.depth (close_outline_view pdev)
      simp only [view, view_close] at this
      omega
    · exact hc

theorem out_node_id_spec (p : gx_device_pdf) :
    (out_node_id p).2.outline_depth = p.outline_depth ∧
    (out_node_id p).2.outline_levels = p.outline_levels ∧
    (out_node_id p).2.strm = p.strm ∧
    (out_node_id p).1 = (if p.outlines_id = 0 then p.next_id + 1 else p.next_id) ∧
    (out_node_id p).2.next_id = (if p.outlines_id = 0 then p.next_id + 1 else p.next_id) + 1 ∧
    (out_node_id p).2.outlines_id = (if p.outlines_id = 0 then p.next_id else p.outlines_id) := by
  unfold out_node_id pdf_obj_ref
  dsimp only
  split_ifs <;> exact ⟨rfl, rfl, rfl, rfl, rfl, rfl⟩

/-- The id allocation and `out_add_node` of a successful `pdfmark_OUT` act on the
view as `view_append`. -/
theorem out_append_view (p1 : gx_device_pdf) (node : pdf_outline_node_t)
    (hid : node.id = (out_node_id p1).1)
    (hpar : node.parent_id =
      if p1.outline_depth = 0 then (out_node_id p1).2.outlines_id
      else ((out_node_id p1).2.outline_levels (p1.outline_depth - 1)).last.id) :
    view (out_add_node (out_node_id p1).2 node) = view_append (view p1) := by
  obtain ⟨n1, n2, n3, n4, n5, n6⟩ := out_node_id_spec p1
  obtain ⟨o1, o2, o3⟩ := out_add_node_other (out_node_id p1).2 node
  have hlv := out_add_node_levels (out_node_id p1).2 node
  have hwr := out_add_node_writes (out_node_id p1).2 node
  rw [n1, n2] at hlv
  rw [n1, n2, n3] at hwr
  rw [n2, n6] at hpar
  rw [n4] at hid
  rw [n5] at o1
  rw [n6] at o2
  rw [n1] at o3
  generalize (out_add_node (out_node_id p1).2 node) = q at *
  have hf : ∀ d, (q.outline_levels d).first.id =
      (if d = p1.outline_depth then
        (if (p1.outline_levels d).first.id = 0 then node.id else (p1.outline_levels d).first.id)
       else (p1.outline_levels d).first.id) := by
    intro d
    have := congrArg Prod.fst (hlv d)
    simp only [level_ids] at this
    rw [this]
    split_ifs <;> rfl
  have hl : ∀ d, (q.outline_levels d).last.id =
      (if d = p1.outline_depth then node.id else (p1.outline_levels d).last.id) := by
    intro d
    have := congrArg (fun t => t.2.1) (hlv d)
    simp only [level_ids] at this
    rw [this]
    split_ifs <;> rfl
  have hp : ∀ d, (q.outline_levels d).last.parent_id =
      (if d = p1.outline_depth then node.parent_id
       else (p1.outline_levels d).last.parent_id) := by
    intro d
    have := congrArg (fun t => t.2.2) (hlv d)
    simp only [level_ids] at this
    rw [this]
    split_ifs <;> rfl
  refine outline_view.ext ?_ ?_ ?_ (funext fun d => ?_) (funext fun d => ?_)
    (funext fun d => ?_) ?_
  · show q.next_id = _
    rw [o1]
    simp only [view_append, view]
    split_ifs <;> rfl
  · show q.outlines_id = _
    rw [o2]
    simp only [view_append, view]
    split_ifs <;> rfl
  · show q.outline_depth = _
    rw [o3]
    simp only [view_append, view]
    split_ifs <;> rfl
  · show (q.outline_levels d).first.id = _
    rw [hf, hid]
    simp only [view_append, view]
    by_cases h0 : p1.outlines_id = 0 <;> by_cases hd : d = p1.outline_depth <;>
      by_cases hz : (p1.outline_levels p1.outline_depth).first.id = 0 <;>
      simp [h0, hd, hz, Function.update_apply]
  · show (q.outline_levels d).last.id = _
    rw [hl, hid]
    simp only [view_append, view]
    by_cases h0 : p1.outlines_id = 0 <;> by_cases hd : d = p1.outline_depth <;>
      simp [h0, hd, Function.update_apply]
  · show (q.outline_levels d).last.parent_id = _
    rw [hp, hpar]
    simp only [view_append, view, view_parent]
    by_cases h0 : p1.outlines_id = 0 <;> by_cases hd : d = p1.outline_depth <;>
      by_cases hz : p1.outline_depth = 0 <;>
      simp [h0, hd, hz, Function.update_apply]
  · show outline_writes q.strm = _
    rw [hwr, hid]
    simp only [view_append, view]
    by_cases h0 : p1.outlines_id = 0 <;>
      by_cases hz : (p1.outline_levels p1.outline_depth).first.id = 0 <;>
      simp [h0, hz]

/-- The descent of `pdfmark_OUT` acts on the view as `view_descend`. -/
theorem out_descend_view (p : gx_device_pdf) (v : pdf_outline_level_t) (c : Int)
    (h1 : v.first.id = 0) (h2 : v.last.id = (p.outline_levels (p.outline_depth + 1)).last.id)
    (h3 : v.last.parent_id = (p.outline_levels (p.outline_depth + 1)).last.parent_id) :
    view { p with outline_depth := p.outline_depth + 1,
                  outline_levels := Function.update p.outline_levels (p.outline_depth + 1) v,
                  closed_outline_depth := c } = view_descend (view p) := by
  refine outline_view.ext rfl rfl rfl (funext fun d => ?_) (funext fun d => ?_)
    (funext fun d => ?_) rfl
  · show (Function.update p.outline_levels (p.outline_depth + 1) v d).first.id =
      Function.update (fun d => (p.outline_levels d).first.id) (p.outline_depth + 1) 0 d
    by_cases hd : d = p.outline_depth + 1
    · subst hd
      simp [h1]
    · simp [hd]
  · show (Function.update p.outline_levels (p.outline_depth + 1) v d).last.id =
      (p.outline_levels d).last.id
    by_cases hd : d = p.outline_depth + 1
    · subst hd
      simp [h2]
    · simp [hd]
  · show (Function.update p.outline_levels (p.outline_depth + 1) v d).last.parent_id =
      (p.outline_levels d).last.parent_id
    by_cases hd : d = p.outline_depth + 1
    · subst hd
      simp [h3]
    · simp [hd]

/-- What `pdfmark_OUT` does to the view: nothing when it fails; when it returns 0,
an append followed by a descent or by closing steps at depths above 0. -/
theorem OUT_view (E : Env) (pdev : gx_device_pdf) (pairs : List Str) (pctm : gs_matrix)
    (objname : Option Str) :
    ((pdfmark_OUT E pdev pairs pctm objname).1 < 0 ∧
      view (pdfmark_OUT E pdev pairs pctm objname).2 = view pdev) ∨
    ((pdfmark_OUT E pdev pairs pctm objname).1 = 0 ∧
      (view (pdfmark_OUT E pdev pairs pctm objname).2 = view_descend (view_append (view pdev)) ∨
       view_closes (view_append (view pdev)) (view (pdfmark_OUT E pdev pairs pctm objname).2)))
    := by
  unfold pdfmark_OUT
  dsimp only
  by_cases h1 : out_sub_count pairs 0 ≠ 0 ∧
      (pdev.outline_depth : Int) = (E.MAX_OUTLINE_DEPTH : Int) - 1
  · rw [if_pos h1]
    left
    exact ⟨show gs_error_limitcheck < 0 by decide, rfl⟩
  rw [if_neg h1]
  by_cases h2 : (!(alloc E pdev).1) = true
  · rw [if_pos h2]
    left
    exact ⟨show gs_error_VMerror < 0 by decide, rfl⟩
  rw [if_neg h2]
  have hv : view (pdfmark_put_ao_pairs E (alloc E pdev).2 {} pairs pctm {} true).2.pdev =
      view pdev := by
    rw [put_ao_pairs_view]
    rfl
  by_cases h3 : (pdfmark_put_ao_pairs E (alloc E pdev).2 {} pairs pctm {} true).1 < 0
  · rw [if_pos h3]
    left
    exact ⟨h3, hv⟩
  rw [if_neg h3]
  right
  generalize (pdfmark_put_ao_pairs E (alloc E pdev).2 {} pairs pctm {} true).2 = r at *
  have hD : r.pdev.outline_depth = pdev.outline_depth := congrArg outline_view.depth hv
  rw [← hD]
  have ha := out_append_view r.pdev
    { id := (out_node_id r.pdev).1,
      parent_id :=
        if r.pdev.outline_depth = 0 then (out_node_id r.pdev).2.outlines_id
        else ((out_node_id r.pdev).2.outline_levels (r.pdev.outline_depth - 1)).last.id,
      prev_id := ((out_node_id r.pdev).2.outline_levels r.pdev.outline_depth).last.id,
      first_id := 0, last_id := 0, count := out_sub_count pairs 0,
      action := some { elements := r.pcd } } rfl rfl
  rw [hv] at ha
  generalize (out_add_node (out_node_id r.pdev).2
    { id := (out_node_id r.pdev).1,
      parent_id :=
        if r.pdev.outline_depth = 0 then (out_node_id r.pdev).2.outlines_id
        else ((out_node_id r.pdev).2.outline_levels (r.pdev.outline_depth - 1)).last.id,
      prev_id := ((out_node_id r.pdev).2.outline_levels r.pdev.outline_depth).last.id,
      first_id := 0, last_id := 0, count := out_sub_count pairs 0,
      action := some { elements := r.pcd } }) = p4 at *
  have h5 : ∀ p5 : gx_device_pdf,
      p5 = (if p4.closed_outline_depth = 0 then
        { p4 with outlines_open := p4.outlines_open + 1 } else p4) →
      view p5 = view_append (view pdev) ∧ p5.outline_depth = r.pdev.outline_depth := by
    intro p5 hp5
    have hv5 : view p5 = view p4 := by
      rw [hp5]
      split_ifs <;> rfl
    have hva : view p5 = view_append (view pdev) := by rw [hv5, ha]
    refine ⟨hva, ?_⟩
    have h6 : (view p5).depth = (view_append (view pdev)).depth := by rw [hva]
    have h7 : (view_append (view pdev)).depth = pdev.outline_depth := by
      simp only [view_append, view]
      split_ifs <;> rfl
    rw [hD]
    exact h6.trans h7
  generalize (if p4.closed_outline_depth = 0 then
        { p4 with outlines_open := p4.outlines_open + 1 } else p4) = p5 at *
  obtain ⟨h5a, h5b⟩ := h5 p5 rfl
  by_cases h4 : out_sub_count pairs 0 ≠ 0
  · rw [if_pos h4]
    refine ⟨rfl, Or.inl ?_⟩
    rw [← h5a, ← h5b]
    exact out_descend_view p5 _ _ rfl rfl rfl
  · rw [if_neg h4]
    refine ⟨rfl, Or.inr ?_⟩
    rw [← h5a]
    exact out_close_loop_view _ _

theorem fwp_none (T : List (Int × Int)) (p : Int) (h : ∀ z ∈ T, z.2 ≠ p) :
    first_with_parent T p = 0 := by
  induction T with
  | nil => rfl
  | cons y T ih =>
    have hy : y.2 ≠ p := h y (List.mem_cons_self _ _)
    simp only [first_with_parent, hy, if_false]
    exact ih (fun z hz => h z (List.mem_cons_of_mem _ hz))

theorem fwp_append_none (T : List (Int × Int)) (i p : Int) (h : ∀ z ∈ T, z.2 ≠ p) :
    first_with_parent (T ++ [(i, p)]) p = i := by
  induction T with
  | nil => simp [first_with_parent]
  | cons y T ih =>
    have hy : y.2 ≠ p := h y (List.mem_cons_self _ _)
    simp only [List.cons_append, first_with_parent, hy, if_false]
    exact ih (fun z hz => h z (List.mem_cons_of_mem _ hz))

theorem fwp_append_ne (T : List (Int × Int)) (x : Int × Int) (p : Int) (h : x.2 ≠ p) :
    first_with_parent (T ++ [x]) p = first_with_parent T p := by
  induction T with
  | nil => simp [first_with_parent, h]
  | cons y T ih =>
    show (if y.2 = p then y.1 else first_with_parent (T ++ [x]) p) =
      (if y.2 = p then y.1 else first_with_parent T p)
    rw [ih]

theorem fwp_append_of_ne_zero (T : List (Int × Int)) (x : Int × Int) (p : Int)
    (h : first_with_parent T p ≠ 0) :
    first_with_parent (T ++ [x]) p = first_with_parent T p := by
  induction T with
  | nil => exact absurd rfl h
  | cons y T ih =>
    simp only [List.cons_append, first_with_parent] at h ⊢
    by_cases hy : y.2 = p
    · simp only [hy, if_true]
    · simp only [hy, if_false] at h ⊢
      exact ih h

/-- The newest node under its parent has no next sibling. -/
theorem next_sibling_newest (T : List (Int × Int)) (n q : Int)
    (hs : T.Pairwise (fun x y => x.1 < y.1)) (hm : (n, q) ∈ T)
    (hn : ∀ x ∈ T, x.2 = q → x.1 ≤ n) : next_sibling T n = 0 := by
  induction T with
  | nil => rfl
  | cons y T ih =>
    rw [List.pairwise_cons] at hs
    simp only [next_sibling]
    by_cases hy : y.1 = n
    · simp only [hy, if_true]
      have hyq : y = (n, q) := by
        rcases List.mem_cons.mp hm with h | h
        · exact h.symm
        · have := hs.1 _ h
          simp only at this
          omega
      rw [hyq]
      apply fwp_none
      intro z hz hzq
      have h1 := hs.1 z hz
      have h2 := hn z (List.mem_cons_of_mem _ hz) hzq
      omega
    · simp only [hy, if_false]
      apply ih hs.2
      · rcases List.mem_cons.mp hm with h | h
        · rw [← h] at hy
          exact absurd rfl hy
        · exact h
      · exact fun x hx => hn x (List.mem_cons_of_mem _ hx)

/-- Appending a node under the same parent makes it the next sibling of the newest
node under that parent. -/
theorem next_sibling_append_newest (T : List (Int × Int)) (n q i : Int)
    (hs : T.Pairwise (fun x y => x.1 < y.1)) (hm : (n, q) ∈ T)
    (hn : ∀ x ∈ T, x.2 = q → x.1 ≤ n) : next_sibling (T ++ [(i, q)]) n = i := by
  induction T with
  | nil => cases hm
  | cons y T ih =>
    rw [List.pairwise_cons] at hs
    simp only [List.cons_append, next_sibling]
    by_cases hy : y.1 = n
    · simp only [hy, if_true]
      have hyq : y = (n, q) := by
        rcases List.mem_cons.mp hm with h | h
        · exact h.symm
        · have := hs.1 _ h
          simp only at this
          omega
      rw [hyq]
      apply fwp_append_none
      intro z hz hzq
      have h1 := hs.1 z hz
      have h2 := hn z (List.mem_cons_of_mem _ hz) hzq
      omega
    · simp only [hy, if_false]
      apply ih hs.2
      · rcases List.mem_cons.mp hm with h | h
        · rw [← h] at hy
          exact absurd rfl hy
        · exact h
      · exact fun x hx => hn x (List.mem_cons_of_mem _ hx)

/-- Appending a node under another parent does not change the next sibling. -/
theorem next_sibling_append_other (T : List (Int × Int)) (n q : Int) (x : Int × Int)
    (hs : T.Pairwise (fun x y => x.1 < y.1)) (hm : (n, q) ∈ T) (hx : x.2 ≠ q) :
    next_sibling (T ++ [x]) n = next_sibling T n := by
  induction T with
  | nil => cases hm
  | cons y T ih =>
    rw [List.pairwise_cons] at hs
    simp only [List.cons_append, next_sibling]
    by_cases hy : y.1 = n
    · simp only [hy, if_true]
      have hyq : y = (n, q) := by
        rcases List.mem_cons.mp hm with h | h
        · exact h.symm
        · have := hs.1 _ h
          simp only at this
          omega
      rw [hyq]
      exact fwp_append_ne _ _ _ hx
    · simp only [hy, if_false]
      apply ih hs.2
      rcases List.mem_cons.mp hm with h | h
      · rw [← h] at hy
        exact absurd rfl hy
      · exact h

/-- A next sibling, once there, stays. -/
theorem next_sibling_append_of_ne_zero (T : List (Int × Int)) (n : Int) (x : Int × Int)
    (h : next_sibling T n ≠ 0) : next_sibling (T ++ [x]) n = next_sibling T n := by
  induction T with
  | nil => exact absurd rfl h
  | cons y T ih =>
    simp only [List.cons_append, next_sibling] at h ⊢
    by_cases hy : y.1 = n
    · simp only [hy, if_true] at h ⊢
      exact fwp_append_of_ne_zero _ _ _ h
    · simp only [hy, if_false] at h ⊢
      exact ih h

/-- Under the invariant the parents of the open levels have increasing ids. -/
theorem view_parent_lt (a : outline_view) (T : List (Int × Int)) (h : view_inv a T) :
    ∀ k d, d + k + 1 ≤ a.depth → view_parent a d < view_parent a (d + k + 1) := by
  have step : ∀ d, d + 1 ≤ a.depth → view_parent a d < view_parent a (d + 1) := by
    intro d hd
    have h1 := (h.active d (by omega) (h.below d (by omega))).1
    have h2 := h.bounds _ h1
    simp only [view_parent, Nat.add_sub_cancel, Nat.succ_ne_zero, if_false] at h2 ⊢
    exact h2.2.1
  intro k
  induction k with
  | zero => intro d hd; exact step d hd
  | succ k ih =>
    intro d hd
    have h1 := ih d (by omega)
    have h2 := step (d + k + 1) (by omega)
    have h3 : d + (k + 1) + 1 = d + k + 1 + 1 := by omega
    rw [h3]
    omega

theorem view_parent_ne (a : outline_view) (T : List (Int × Int)) (h : view_inv a T)
    (d e : Nat) (hde : d < e) (he : e ≤ a.depth) : view_parent a d ≠ view_parent a e := by
  have := view_parent_lt a T h (e - d - 1) d (by omega)
  have h3 : d + (e - d - 1) + 1 = e := by omega
  rw [h3] at this
  omega

/-- The invariant survives `view_close` at a depth above 0 when the current level
has nodes, and the level below then has nodes. -/
theorem view_inv_close (a : outline_view) (T : List (Int × Int)) (h : view_inv a T)
    (hd : 0 < a.depth) (hf : a.first a.depth ≠ 0) :
    view_inv (view_close a) T ∧ (view_close a).first (view_close a).depth ≠ 0 := by
  have hpar : ∀ d, view_parent (view_close a) d = view_parent a d := fun _ => rfl
  have hdead : ∀ n, view_dead a T n → view_dead (view_close a) T n := by
    intro n hn
    obtain ⟨h1, p, h2, h3⟩ := hn
    refine ⟨h1, p, h2, ?_⟩
    intro d hd'
    rw [hpar]
    apply h3
    simp only [view_close] at hd'
    omega
  have hact := h.active a.depth (le_refl _) hf
  have hlast : view_dead (view_close a) T (a.last a.depth) := by
    refine ⟨next_sibling_newest T _ _ h.sorted hact.1 hact.2, _, hact.1, ?_⟩
    intro d hd'
    simp only [view_close] at hd'
    rw [hpar]
    exact (view_parent_ne a T h d a.depth (by omega) (le_refl _)).symm
  refine ⟨⟨h.ids_pos, h.sorted, h.bounds, ?_, ?_, ?_, ?_⟩, ?_⟩
  · intro d hd'
    simp only [view_close] at hd' ⊢
    exact h.below d (by omega)
  · intro d hd' hfd
    simp only [view_close] at hd'
    exact h.active d (by omega) hfd
  · intro w hw
    simp only [view_close, List.mem_append] at hw
    rcases hw with hw | hw
    · rcases h.written w hw with h1 | h1
      · exact Or.inl h1
      · exact Or.inr ⟨h1.1, hdead _ h1.2⟩
    · split_ifs at hw with hl
      · simp only [List.mem_singleton] at hw
        rw [hw]
        exact Or.inr ⟨rfl, hlast⟩
      · cases hw
  · intro d hd'
    simp only [view_close] at hd'
    have hb := h.below (a.depth - 1) (by omega)
    have hge : a.depth ≤ d := by
      rcases hd' with h1 | h1
      · omega
      · exact absurd h1.2 (by rw [h1.1]; exact hb)
    by_cases hdd : d = a.depth
    · rw [hdd]
      exact Or.inr hlast
    · rcases h.stale d (Or.inl (by omega)) with h1 | h1
      · exact Or.inl h1
      · exact Or.inr (hdead _ h1)
  · simp only [view_close]
    exact h.below (a.depth - 1) (by omega)

/-- The invariant survives any closing steps at depths above 0, starting at a
level with nodes. -/
theorem view_inv_closes (a b : outline_view) (T : List (Int × Int)) (hc : view_closes a b) :
    view_inv a T → a.first a.depth ≠ 0 → view_inv b T := by
  induction hc with
  | done a => intro h _; exact h
  | step a b hd _ ih =>
    intro h hf
    obtain ⟨h1, h2⟩ := view_inv_close a T h hd hf
    exact ih h1 h2

theorem view_closes_last (a b : outline_view) (hc : view_closes a b) :
    b.last = a.last ∧ b.last_parent = a.last_parent := by
  induction hc with
  | done a => exact ⟨rfl, rfl⟩
  | step a b _ _ ih => exact ih

/-- The invariant survives the descent below a node that is newer than every
parent. -/
theorem view_inv_descend (a : outline_view) (T : List (Int × Int)) (h : view_inv a T)
    (hf : a.first a.depth ≠ 0) (hnew : ∀ x ∈ T, x.2 < a.last a.depth) :
    view_inv (view_descend a) T := by
  have hpar : ∀ d, view_parent (view_descend a) d = view_parent a d := fun _ => rfl
  have hdead : ∀ n, view_dead a T n → view_dead (view_descend a) T n := by
    intro n hn
    obtain ⟨h1, p, h2, h3⟩ := hn
    refine ⟨h1, p, h2, ?_⟩
    intro d hd'
    rw [hpar]
    simp only [view_descend] at hd'
    by_cases hdd : d = a.depth + 1
    · rw [hdd]
      simp only [view_parent, Nat.add_sub_cancel, Nat.succ_ne_zero, if_false]
      have := hnew _ h2
      simp only at this
      omega
    · exact h3 d (by omega)
  refine ⟨h.ids_pos, h.sorted, h.bounds, ?_, ?_, ?_, ?_⟩
  · intro d hd'
    simp only [view_descend] at hd' ⊢
    rw [Function.update_noteq (by omega)]
    by_cases hdd : d = a.depth
    · rw [hdd]; exact hf
    · exact h.below d (by omega)
  · intro d hd' hfd
    simp only [view_descend] at hd' hfd
    by_cases hdd : d = a.depth + 1
    · rw [hdd, Function.update_same] at hfd
      exact absurd rfl hfd
    · rw [Function.update_noteq hdd] at hfd
      exact h.active d (by omega) hfd
  · intro w hw
    rcases h.written w hw with h1 | h1
    · exact Or.inl h1
    · exact Or.inr ⟨h1.1, hdead _ h1.2⟩
  · intro d hd'
    simp only [view_descend] at hd'
    have hgt : a.depth < d := by
      rcases hd' with h1 | h1
      · omega
      · omega
    rcases h.stale d (Or.inl hgt) with h1 | h1
    · exact Or.inl h1
    · exact Or.inr (hdead _ h1)

/-- While the outline root has no id, the outline is at depth 0 and has no node at
that level. -/
theorem view_inv_no_root (a : outline_view) (T : List (Int × Int)) (h : view_inv a T)
    (h0 : a.outlines_id = 0) : a.depth = 0 ∧ a.first 0 = 0 := by
  have hf : a.first 0 = 0 := by
    by_contra hne
    have h1 := (h.active 0 (Nat.zero_le _) hne).1
    have h2 := (h.bounds _ h1).1
    simp only [view_parent, if_true, h0] at h2
    omega
  refine ⟨?_, hf⟩
  by_contra hd
  exact h.below 0 (by omega) hf

/-- The invariant survives the append of a node, with the new node added to the
created nodes; afterwards the current level has nodes and its last node is newer
than every parent. -/
theorem view_inv_append (a : outline_view) (T : List (Int × Int)) (h : view_inv a T) :
    view_inv (view_append a)
      (T ++ [((view_append a).last a.depth, (view_append a).last_parent a.depth)]) ∧
    (view_append a).depth = a.depth ∧
    (view_append a).first a.depth ≠ 0 ∧
    (∀ x ∈ T ++ [((view_append a).last a.depth, (view_append a).last_parent a.depth)],
      x.2 < (view_append a).last a.depth) := by
  obtain ⟨hp1, hp2, hp3⟩ := h.ids_pos
  -- the id of the new node and of the outline root
  have hi : ∃ i o, i = (if a.outlines_id = 0 then a.next_id + 1 else a.next_id) ∧
      o = (if a.outlines_id = 0 then a.next_id else a.outlines_id) ∧
      a.next_id ≤ i ∧ 0 < o ∧ o < i := by
    refine ⟨_, _, rfl, rfl, ?_, ?_, ?_⟩ <;> split_ifs <;> omega
  obtain ⟨i, o, hi1, ho1, hi2, ho2, ho3⟩ := hi
  have e_next : (view_append a).next_id = i + 1 := by
    rw [hi1]; simp only [view_append]; split_ifs <;> rfl
  have e_root : (view_append a).outlines_id = o := by
    rw [ho1]; simp only [view_append]; split_ifs <;> rfl
  have e_depth : (view_append a).depth = a.depth := by
    simp only [view_append]; split_ifs <;> rfl
  have e_first : (view_append a).first =
      (if a.first a.depth = 0 then Function.update a.first a.depth i else a.first) := by
    rw [hi1]; simp only [view_append]; split_ifs <;> rfl
  have e_last : (view_append a).last = Function.update a.last a.depth i := by
    rw [hi1]; simp only [view_append]; split_ifs <;> rfl
  have e_par : ∀ d, d ≤ a.depth → view_parent (view_append a) d =
      (if d = 0 then o else a.last (d - 1)) := by
    intro d hd
    simp only [view_parent, e_root, e_last]
    split_ifs with hd0
    · rfl
    · rw [Function.update_noteq (by omega)]
  have e_lp : (view_append a).last_parent a.depth = view_parent (view_append a) a.depth := by
    rw [e_par _ (le_refl _), ho1]
    simp only [view_append, view_parent]
    split_ifs <;> simp
  have e_writes : (view_append a).writes =
      a.writes ++ (if a.first a.depth = 0 then [] else [(a.last a.depth, i)]) := by
    rw [hi1]; simp only [view_append]; split_ifs <;> rfl
  -- the parent of an open level is as before, or is the fresh id of the root
  have hpar : ∀ d, d ≤ a.depth → view_parent (view_append a) d = view_parent a d ∨
      (a.next_id ≤ view_parent (view_append a) d) := by
    intro d hd
    rw [e_par d hd]
    by_cases h0 : a.outlines_id = 0
    · by_cases hd0 : d = 0
      · right
        rw [ho1]
        simp [hd0, h0]
      · left
        simp [view_parent, hd0]
    · left
      rw [ho1]
      simp [view_parent, h0]
  have hparD : a.first a.depth ≠ 0 → ∀ d, d ≤ a.depth →
      view_parent (view_append a) d = view_parent a d := by
    intro hf d hd
    have h0 : a.outlines_id ≠ 0 := by
      intro h0
      obtain ⟨h1, h2⟩ := view_inv_no_root a T h h0
      rw [h1] at hf
      exact hf h2
    rw [e_par d hd, ho1]
    simp [view_parent, h0]
  have hparlt : ∀ d, d < a.depth → view_parent (view_append a) d = view_parent a d := by
    intro d hd
    have h0 : a.outlines_id ≠ 0 := by
      intro h0
      have := (view_inv_no_root a T h h0).1
      omega
    rw [e_par d (by omega), ho1]
    simp [view_parent, h0]
  generalize hP : (view_append a).last_parent a.depth = P at *
  have e_lastD : (view_append a).last a.depth = i := by
    rw [e_last, Function.update_same]
  rw [e_lastD]
  -- bounds of the new node
  have hPpos : 0 < P ∧ P < i := by
    rw [e_lp, e_par _ (le_refl _)]
    split_ifs with hd0
    · exact ⟨ho2, ho3⟩
    · have h1 := (h.active (a.depth - 1) (by omega) (h.below _ (by omega))).1
      have h2 := h.bounds _ h1
      simp only at h2
      omega
  have hmem : ∀ x, x ∈ T ++ [(i, P)] ↔ x ∈ T ∨ x = (i, P) := by
    intro x
    simp
  have hdead : ∀ n, view_dead a T n → view_dead (view_append a) (T ++ [(i, P)]) n := by
    intro n hn
    obtain ⟨h1, p, h2, h3⟩ := hn
    have hb := h.bounds _ h2
    simp only at hb
    have hne : ∀ d, d ≤ a.depth → p ≠ view_parent (view_append a) d := by
      intro d hd
      rcases hpar d hd with h4 | h4
      · rw [h4]; exact h3 d hd
      · omega
    refine ⟨?_, p, (hmem _).mpr (Or.inl h2), ?_⟩
    · rw [next_sibling_append_other T n p (i, P) h.sorted h2]
      · exact h1
      · show P ≠ p
        rw [e_lp]
        exact (hne _ (le_refl _)).symm
    · intro d hd
      rw [e_depth] at hd
      exact hne d hd
  refine ⟨⟨?_, ?_, ?_, ?_, ?_, ?_, ?_⟩, e_depth, ?_, ?_⟩
  · rw [e_next, e_root]
    omega
  · rw [List.pairwise_append]
    refine ⟨h.sorted, List.pairwise_singleton _ _, ?_⟩
    intro x hx y hy
    simp only [List.mem_singleton] at hy
    rw [hy]
    have := (h.bounds x hx).2.2
    show x.1 < i
    omega
  · intro x hx
    rw [e_next]
    rcases (hmem x).mp hx with hx | hx
    · have := h.bounds x hx
      omega
    · rw [hx]
      simp only
      omega
  · intro d hd
    rw [e_depth] at hd
    rw [e_first]
    split_ifs
    · rw [Function.update_noteq (by omega)]
      exact h.below d hd
    · exact h.below d hd
  · intro d hd hfd
    rw [e_depth] at hd
    by_cases hdd : d = a.depth
    · rw [hdd, e_lastD, ← e_lp]
      refine ⟨(hmem _).mpr (Or.inr rfl), ?_⟩
      intro x hx _
      rcases (hmem x).mp hx with hx | hx
      · have := (h.bounds x hx).2.2
        omega
      · rw [hx]
    · have hlt : d < a.depth := by omega
      have hfd' : a.first d ≠ 0 := h.below d hlt
      have hact := h.active d (by omega) hfd'
      rw [hparlt d hlt, e_last, Function.update_noteq hdd]
      refine ⟨(hmem _).mpr (Or.inl hact.1), ?_⟩
      intro x hx hxp
      rcases (hmem x).mp hx with hx | hx
      · exact hact.2 x hx hxp
      · exfalso
        rw [hx] at hxp
        simp only at hxp
        have h7 := view_parent_ne a T h d a.depth hlt (le_refl _)
        have h8 : view_parent (view_append a) a.depth = view_parent a a.depth := by
          rw [e_par a.depth (le_refl _)]
          have h0 : a.outlines_id ≠ 0 := by
            intro h0
            have := (view_inv_no_root a T h h0).1
            omega
          rw [ho1]
          simp [view_parent, h0]
        exact h7 (hxp.symm.trans (e_lp.trans h8))
  · intro w hw
    rw [e_writes, List.mem_append] at hw
    rcases hw with hw | hw
    · rcases h.written w hw with h1 | h1
      · left
        refine ⟨h1.1, ?_⟩
        rw [next_sibling_append_of_ne_zero T w.1 (i, P) (by rw [h1.2]; exact h1.1)]
        exact h1.2
      · exact Or.inr ⟨h1.1, hdead _ h1.2⟩
    · split_ifs at hw with hf
      · cases hw
      · simp only [List.mem_singleton] at hw
        rw [hw]
        left
        refine ⟨by simp only; omega, ?_⟩
        have hact := h.active a.depth (le_refl _) hf
        have hPe : P = view_parent a a.depth := e_lp.trans (hparD hf _ (le_refl _))
        rw [hPe]
        exact next_sibling_append_newest T _ _ i h.sorted hact.1 hact.2
  · intro d hd
    rw [e_depth] at hd
    have hgt : a.depth < d := by
      rcases hd with h1 | h1
      · exact h1
      · exfalso
        have h2 := h1.2
        rw [h1.1, e_first] at h2
        split_ifs at h2 with hf
        · rw [Function.update_same] at h2
          omega
        · exact hf h2
    rw [e_last, Function.update_noteq (by omega)]
    rcases h.stale d (Or.inl hgt) with h1 | h1
    · exact Or.inl h1
    · exact Or.inr (hdead _ h1)
  · rw [e_first]
    split_ifs with hf
    · rw [Function.update_same]
      omega
    · exact hf
  · intro x hx
    rcases (hmem x).mp hx with hx | hx
    · have := h.bounds x hx
      omega
    · rw [hx]
      exact hPpos.2

/-- A node with a next sibling is one of the created nodes. -/
theorem next_sibling_mem (T : List (Int × Int)) (n : Int) (h : next_sibling T n ≠ 0) :
    ∃ p, (n, p) ∈ T := by
  induction T with
  | nil => exact absurd rfl h
  | cons x T ih =>
    by_cases hx : x.1 = n
    · exact ⟨x.2, by rw [← hx]; exact List.mem_cons_self _ _⟩
    · simp only [next_sibling, if_neg hx] at h
      obtain ⟨p, hp⟩ := ih h
      exact ⟨p, List.mem_cons_of_mem _ hp⟩

/-- The invariant holds before the first OUT mark. -/
theorem view_inv_fresh (pdev : gx_device_pdf) (hdepth : pdev.outline_depth = 0)
    (hlevels : ∀ d, (pdev.outline_levels d).first.id = 0 ∧ (pdev.outline_levels d).last.id = 0)
    (hid : 0 < pdev.next_id) (hroot : 0 ≤ pdev.outlines_id ∧ pdev.outlines_id < pdev.next_id)
    (hstrm : outline_writes pdev.strm = []) : view_inv (view pdev) [] := by
  refine ⟨⟨hid, hroot.1, hroot.2⟩, List.Pairwise.nil, ?_, ?_, ?_, ?_, ?_⟩
  · intro x hx
    cases hx
  · intro d hd
    have : (view pdev).depth = 0 := hdepth
    omega
  · intro d _ hf
    exact absurd (hlevels d).1 hf
  · intro w hw
    have : (view pdev).writes = [] := hstrm
    rw [this] at hw
    cases hw
  · intro d _
    exact Or.inl (hlevels d).2

/-- The invariant of the run gives the invariant of the closing phase. -/
theorem view_final_of_inv (a : outline_view) (T : List (Int × Int)) (h : view_inv a T) :
    view_final a T := by
  constructor
  · intro w hw
    rcases h.written w hw with h1 | h1
    · exact ⟨h1.2.symm, next_sibling_mem T w.1 (by rw [h1.2]; exact h1.1)⟩
    · obtain ⟨h2, h3, p, h4, _⟩ := h1
      exact ⟨by rw [h2, h3], p, h4⟩
  · intro d hd hl
    by_cases hf : a.first d = 0
    · have hdd : d = a.depth := by
        by_contra hne
        exact h.below d (by omega) hf
      rcases h.stale d (Or.inr ⟨hdd, hf⟩) with h1 | h1
      · exact absurd h1 hl
      · obtain ⟨h3, p, h4, _⟩ := h1
        exact ⟨h3, p, h4⟩
    · have hact := h.active d hd hf
      exact ⟨next_sibling_newest T _ _ h.sorted hact.1 hact.2, _, hact.1⟩

/-- The invariant of the closing phase survives `view_close`. -/
theorem view_final_close (a : outline_view) (T : List (Int × Int)) (h : view_final a T) :
    view_final (view_close a) T := by
  constructor
  · intro w hw
    simp only [view_close, List.mem_append] at hw
    rcases hw with hw | hw
    · exact h.written w hw
    · split_ifs at hw with hl
      · simp only [List.mem_singleton] at hw
        rw [hw]
        obtain ⟨h1, h2⟩ := h.lasts a.depth (le_refl _) hl
        exact ⟨h1.symm, h2⟩
      · cases hw
  · intro d hd hl
    have hd1 : d ≤ a.depth := by
      have : (view_close a).depth = a.depth - 1 := rfl
      omega
    exact h.lasts d hd1 hl

/-- The invariant of the closing phase survives any number of calls of
`pdfmark_close_outline`. -/
theorem view_final_close_times (T : List (Int × Int)) (n : Nat) :
    ∀ pdev, view_final (view pdev) T → view_final (view (close_outline_times n pdev)) T := by
  induction n with
  | zero => intro pdev h; exact h
  | succ n ih =>
    intro pdev h
    apply ih
    rw [close_outline_view]
    exact view_final_close _ T h

/-- The invariant survives a run of OUT marks, with the nodes the run creates added
to the created nodes. -/
theorem view_inv_run (E : Env) (marks : List (List Str × gs_matrix)) :
    ∀ (pdev : gx_device_pdf) (T : List (Int × Int)), view_inv (view pdev) T →
      view_inv (view (run_marks (pdfmark_OUT E) marks pdev)) (T ++ out_created E marks pdev) := by
  induction marks with
  | nil =>
    intro pdev T h
    simp only [run_marks, out_created, List.append_nil]
    exact h
  | cons m rest ih =>
    intro pdev T h
    simp only [run_marks, out_created]
    rw [← List.append_assoc]
    apply ih
    obtain ⟨ha, hdep, hf, hnew⟩ := view_inv_append (view pdev) T h
    have hnode : ∀ b : gx_device_pdf, (view b).last = (view_append (view pdev)).last →
        (view b).last_parent = (view_append (view pdev)).last_parent →
        ((b.outline_levels pdev.outline_depth).last.id,
          (b.outline_levels pdev.outline_depth).last.parent_id) =
        ((view_append (view pdev)).last (view pdev).depth,
          (view_append (view pdev)).last_parent (view pdev).depth) := by
      intro b h1 h2
      rw [← h1, ← h2]
      rfl
    rcases OUT_view E pdev m.1 m.2 none with ⟨hneg, hv⟩ | ⟨hz, hv⟩
    · have hne : (pdfmark_OUT E pdev m.1 m.2 none).1 ≠ 0 := by omega
      rw [if_neg hne, List.append_nil, hv]
      exact h
    · rw [if_pos hz]
      rcases hv with hv | hv
      · rw [hnode _ (by rw [hv]; rfl) (by rw [hv]; rfl), hv]
        exact view_inv_descend _ _ ha (by rw [hdep]; exact hf) (by rw [hdep]; exact hnew)
      · obtain ⟨h1, h2⟩ := view_closes_last _ _ hv
        rw [hnode _ h1 h2]
        exact view_inv_closes _ _ _ hv ha (by rw [hdep]; exact hf)

/-! ## C2: the `/Next` link of every outline item written -/

/-- C2: start from a device whose outline is untouched (depth 0, no node in any
level, no outline item written, ids allocated from a positive `next_id` above the
id of the outline root, if it has one).  After any sequence of OUT marks followed
by closing all levels, every outline item in the output is one of the nodes the
marks created and is written with the id of its next sibling as `/Next`: the id of
the first node created after it under the same parent, and no `/Next` (0) when no
node was created after it under that parent. -/
theorem C2_outline_next_sibling (E : Env) (marks : List (List Str × gs_matrix))
    (pdev : gx_device_pdf) (hdepth : pdev.outline_depth = 0)
    (hlevels : ∀ d, (pdev.outline_levels d).first.id = 0 ∧ (pdev.outline_levels d).last.id = 0)
    (hid : 0 < pdev.next_id) (hroot : 0 ≤ pdev.outlines_id ∧ pdev.outlines_id < pdev.next_id)
    (hstrm : outline_writes pdev.strm = []) :
    ∀ w ∈ outline_writes (close_all_outlines (run_marks (pdfmark_OUT E) marks pdev)).strm,
      w.2 = next_sibling (out_created E marks pdev) w.1 ∧
      ∃ p, (w.1, p) ∈ out_created E marks pdev := by
  have h := view_inv_run E marks pdev [] (view_inv_fresh pdev hdepth hlevels hid hroot hstrm)
  rw [List.nil_append] at h
  exact (view_final_close_times _ _ _ (view_final_of_inv _ _ h)).written

/-- C2 (witness): the marks /Count 1 /Title (A), /Title (B), /Count 1 /Title (C) on
a new device create the nodes 2 (under the root 1), 3 (under 2) and 4 (under the
root); the items written are 3, 2 with `/Next` 4, 3 again and 4. -/
theorem C2_outline_next_sibling_witness :
    out_created sample_env
      [(["/Count".toList, "1".toList, "/Title".toList, "(A)".toList], {}),
       (["/Title".toList, "(B)".toList], {}),
       (["/Count".toList, "1".toList, "/Title".toList, "(C)".toList], {})] {}
      = [(2, 1), (3, 2), (4, 1)] ∧
    ∀ w ∈ outline_writes (close_all_outlines (run_marks (pdfmark_OUT sample_env)
      [(["/Count".toList, "1".toList, "/Title".toList, "(A)".toList], {}),
       (["/Title".toList, "(B)".toList], {}),
       (["/Count".toList, "1".toList, "/Title".toList, "(C)".toList], {})] {})).strm,
      w.2 = next_sibling (out_created sample_env
        [(["/Count".toList, "1".toList, "/Title".toList, "(A)".toList], {}),
         (["/Title".toList, "(B)".toList], {}),
         (["/Count".toList, "1".toList, "/Title".toList, "(C)".toList], {})] {}) w.1 ∧
      ∃ p, (w.1, p) ∈ out_created sample_env
        [(["/Count".toList, "1".toList, "/Title".toList, "(A)".toList], {}),
         (["/Title".toList, "(B)".toList], {}),
         (["/Count".toList, "1".toList, "/Title".toList, "(C)".toList], {})] {} :=
  ⟨by decide,
   C2_outline_next_sibling sample_env
    [(["/Count".toList, "1".toList, "/Title".toList, "(A)".toList], {}),
     (["/Title".toList, "(B)".toList], {}),
     (["/Count".toList, "1".toList, "/Title".toList, "(C)".toList], {})] {}
    rfl (fun _ => ⟨rfl, rfl⟩) (by decide) (by decide) rfl⟩

/-! ## C4: the bead ring of an article -/

theorem bead_writes_append (s t : List pdf_object) :
    bead_writes (s ++ t) = bead_writes s ++ bead_writes t := by
  induction s with
  | nil => rfl
  | cons o s ih =>
    cases o <;> simp [bead_writes, ih]

/-- An article found by `find_article` is in the list. -/
theorem find_article_some (title : Str) (arts : List pdf_article_t) :
    ∀ i : Nat, find_article title arts = some i →
      ∃ p, arts[i]? = some p ∧ arts.getD i {} = p := by
  induction arts with
  | nil => intro i h; cases h
  | cons a rest ih =>
    intro i h
    simp only [find_article] at h
    split_ifs at h with hc
    · cases h
      exact ⟨a, by simp, by simp⟩
    · cases hf : find_article title rest with
      | none => rw [hf] at h; cases h
      | some j =>
        rw [hf] at h
        cases h
        obtain ⟨p, h1, h2⟩ := ih j hf
        exact ⟨p, by simpa using h1, by simpa using h2⟩

/-- What `article_add_bead` does for an article that has a first bead: the article
at index `i` is replaced, the contents id and the first bead stay (the first bead
gets its `next_id` when the article had one bead), the new bead is the last bead,
and the old last bead is written with the new bead as `next_id`. -/
theorem article_add_bead_found (pdev : gx_device_pdf) (pairs : List Str) (i : Nat)
    (p : pdf_article_t) (b : Int) (rect : gs_rect) (hf : p.first.id ≠ 0) :
    (article_add_bead pdev pairs i p b rect).1 = 0 ∧
    (article_add_bead pdev pairs i p b rect).2.next_id = pdev.next_id ∧
    bead_writes (article_add_bead pdev pairs i p b rect).2.strm =
      bead_writes pdev.strm ++ (if p.last.id = 0 then [] else [(p.last.id, b)]) ∧
    ∃ q : pdf_article_t,
      (article_add_bead pdev pairs i p b rect).2.articles = pdev.articles.set i q ∧
      q.contents.id = p.contents.id ∧ q.first.id = p.first.id ∧
      q.first.next_id = (if p.last.id = 0 then b else p.first.next_id) ∧
      q.last.id = b ∧ q.last.article_id = p.contents.id := by
  unfold article_add_bead
  dsimp only
  by_cases hl : p.last.id = 0
  · simp only [hl, if_true, hf, if_false, List.append_nil, pdfmark_page_number]
    exact ⟨trivial, trivial, trivial, _, rfl, rfl, rfl, rfl, rfl, rfl⟩
  · simp only [hl, if_false, hf, pdfmark_page_number, pdfmark_write_bead, bead_writes_append,
      bead_writes]
    exact ⟨trivial, trivial, trivial, _, rfl, rfl, rfl, rfl, rfl, rfl⟩

/-- What `article_add_bead` does for a new article (no first bead): the new bead is
its first bead, it has no last bead, and nothing is written. -/
theorem article_add_bead_new (pdev : gx_device_pdf) (pairs : List Str) (i : Nat)
    (p : pdf_article_t) (b : Int) (rect : gs_rect) (hf : p.first.id = 0) (hl : p.last.id = 0) :
    (article_add_bead pdev pairs i p b rect).1 = 0 ∧
    (article_add_bead pdev pairs i p b rect).2.next_id = pdev.next_id ∧
    bead_writes (article_add_bead pdev pairs i p b rect).2.strm = bead_writes pdev.strm ∧
    ∃ q : pdf_article_t,
      (article_add_bead pdev pairs i p b rect).2.articles = pdev.articles.set i q ∧
      q.contents.id = p.contents.id ∧ q.first.id = b ∧ q.last.id = 0 ∧
      q.first.article_id = p.contents.id := by
  unfold article_add_bead
  dsimp only
  simp only [hl, if_true, hf, pdfmark_page_number]
  exact ⟨trivial, trivial, trivial, _, rfl, rfl, rfl, rfl, rfl⟩

/-- What `pdfmark_ARTICLE` does to the articles: nothing when it fails (an object
id may be used up); when it returns 0 it has added the bead `pdev.next_id` to an
article of the list, or to a new article put in front of the list. -/
theorem ARTICLE_step (E : Env) (pdev : gx_device_pdf) (pairs : List Str) (pctm : gs_matrix)
    (objname : Option Str)
    (hfirst : ∀ (i : Nat) (p : pdf_article_t), pdev.articles[i]? = some p → p.first.id ≠ 0) :
    ((pdfmark_ARTICLE E pdev pairs pctm objname).1 < 0 ∧
      (pdfmark_ARTICLE E pdev pairs pctm objname).2.articles = pdev.articles ∧
      (pdfmark_ARTICLE E pdev pairs pctm objname).2.strm = pdev.strm ∧
      pdev.next_id ≤ (pdfmark_ARTICLE E pdev pairs pctm objname).2.next_id) ∨
    ((pdfmark_ARTICLE E pdev pairs pctm objname).1 = 0 ∧
      (pdfmark_ARTICLE E pdev pairs pctm objname).2.next_id = pdev.next_id + 1 ∧
      ∃ (i : Nat) (p q : pdf_article_t), pdev.articles[i]? = some p ∧
        (pdfmark_ARTICLE E pdev pairs pctm objname).2.articles = pdev.articles.set i q ∧
        bead_writes (pdfmark_ARTICLE E pdev pairs pctm objname).2.strm =
          bead_writes pdev.strm ++ (if p.last.id = 0 then [] else [(p.last.id, pdev.next_id)]) ∧
        q.contents.id = p.contents.id ∧ q.first.id = p.first.id ∧
        q.first.next_id = (if p.last.id = 0 then pdev.next_id else p.first.next_id) ∧
        q.last.id = pdev.next_id ∧ q.last.article_id = p.contents.id) ∨
    ((pdfmark_ARTICLE E pdev pairs pctm objname).1 = 0 ∧
      (pdfmark_ARTICLE E pdev pairs pctm objname).2.next_id = pdev.next_id + 2 ∧
      ∃ q : pdf_article_t,
        (pdfmark_ARTICLE E pdev pairs pctm objname).2.articles = q :: pdev.articles ∧
        bead_writes (pdfmark_ARTICLE E pdev pairs pctm objname).2.strm = bead_writes pdev.strm ∧
        q.contents.id = pdev.next_id + 1 ∧ q.first.id = pdev.next_id ∧ q.last.id = 0 ∧
        q.first.article_id = pdev.next_id + 1) := by
  unfold pdfmark_ARTICLE
  dsimp only
  split
  · rename_i title rectstr _ _
    by_cases hsr : (pdfmark_scan_rect E rectstr pctm).1 < 0
    · rw [if_pos hsr]
      exact Or.inl ⟨hsr, rfl, rfl, le_refl _⟩
    rw [if_neg hsr]
    cases hfa : find_article title (pdf_obj_ref pdev).2.articles with
    | some i =>
      dsimp only
      obtain ⟨p, hp1, hp2⟩ := find_article_some _ _ i hfa
      have hp1b : pdev.articles[i]? = some p := hp1
      rw [hp2]
      obtain ⟨h1, h2, h3, q, h4, h5, h6, h7, h8, h9⟩ :=
        article_add_bead_found (pdf_obj_ref pdev).2 pairs i p (pdf_obj_ref pdev).1
          (pdfmark_scan_rect E rectstr pctm).2 (hfirst i p hp1b)
      right; left
      exact ⟨h1, h2, i, p, q, hp1b, h4, h3, h5, h6, h7, h8, h9⟩
    | none =>
      dsimp only
      by_cases ha1 : (!(alloc E (pdf_obj_ref pdev).2).1) = true
      · rw [if_pos ha1]
        left
        refine ⟨show gs_error_VMerror < 0 by decide, rfl, rfl, ?_⟩
        show pdev.next_id ≤ pdev.next_id + 1
        omega
      rw [if_neg ha1]
      by_cases ha2 : (!(alloc E (alloc E (pdf_obj_ref pdev).2).2).1) = true
      · rw [if_pos ha2]
        left
        refine ⟨show gs_error_VMerror < 0 by decide, rfl, rfl, ?_⟩
        show pdev.next_id ≤ pdev.next_id + 1
        omega
      rw [if_neg ha2]
      right; right
      obtain ⟨h1, h2, h3, q, h4, h5, h6, h7, h8⟩ :=
        article_add_bead_new
          { (pdf_obj_ref (alloc E (alloc E (pdf_obj_ref pdev).2).2).2).2 with
            articles :=
              ({ contents := { id := (pdf_obj_ref (alloc E (alloc E (pdf_obj_ref pdev).2).2).2).1,
                               elements := cos_dict_put [] "/Title".toList (.scalar title) },
                 first := {}, last := {} } : pdf_article_t) ::
              (pdf_obj_ref (alloc E (alloc E (pdf_obj_ref pdev).2).2).2).2.articles }
          pairs 0
          ({ contents := { id := (pdf_obj_ref (alloc E (alloc E (pdf_obj_ref pdev).2).2).2).1,
                           elements := cos_dict_put [] "/Title".toList (.scalar title) },
             first := {}, last := {} } : pdf_article_t)
          (pdf_obj_ref pdev).1 (pdfmark_scan_rect E rectstr pctm).2 rfl rfl
      refine ⟨h1, ?_, q, ?_, h3, ?_, h6, h7, ?_⟩
      · rw [h2]
        show pdev.next_id + 1 + 1 = pdev.next_id + 2
        omega
      · rw [h4]
        rfl
      · rw [h5]
        rfl
      · rw [h8]
        rfl
  · left
    exact ⟨show gs_error_rangecheck < 0 by decide, rfl, rfl, le_refl _⟩

theorem article_beads_mem (T : List (Int × Int)) (a x : Int) :
    x ∈ article_beads T a ↔ (x, a) ∈ T := by
  unfold article_beads
  simp only [List.mem_map, List.mem_filter, decide_eq_true_eq]
  constructor
  · rintro ⟨y, ⟨hy, hya⟩, hyx⟩
    have : y = (x, a) := Prod.ext hyx hya
    rw [← this]
    exact hy
  · intro h
    exact ⟨(x, a), ⟨h, rfl⟩, rfl⟩

theorem article_beads_sorted (T : List (Int × Int)) (a : Int)
    (hs : T.Pairwise (fun x y => x.1 < y.1)) :
    (article_beads T a).Pairwise (fun x y => x < y) := by
  unfold article_beads
  rw [List.pairwise_map]
  exact List.Pairwise.sublist (List.filter_sublist _) hs

theorem article_beads_cons (z : Int × Int) (T : List (Int × Int)) (a : Int) :
    article_beads (z :: T) a =
      if z.2 = a then z.1 :: article_beads T a else article_beads T a := by
  unfold article_beads
  by_cases h : z.2 = a
  · simp [List.filter_cons, h]
  · simp [List.filter_cons, h]

/-- The first bead of an article is the head of its list of beads. -/
theorem article_beads_head (T : List (Int × Int)) (a : Int) :
    (article_beads T a = [] ∧ ∀ z ∈ T, z.2 ≠ a) ∨
    ∃ L, article_beads T a = first_with_parent T a :: L := by
  induction T with
  | nil =>
    left
    exact ⟨rfl, fun z hz => by cases hz⟩
  | cons z T ih =>
    rw [article_beads_cons]
    by_cases h : z.2 = a
    · right
      rw [if_pos h]
      exact ⟨article_beads T a, by simp [first_with_parent, h]⟩
    · rw [if_neg h]
      rcases ih with ⟨h1, h2⟩ | ⟨L, hL⟩
      · left
        refine ⟨h1, ?_⟩
        intro y hy
        rcases List.mem_cons.mp hy with hy | hy
        · rw [hy]; exact h
        · exact h2 y hy
      · right
        exact ⟨L, by simp [first_with_parent, h, hL]⟩

/-- Along the list of beads of an article, each bead has the following one as its
next sibling among the created beads. -/
theorem article_beads_chain (T : List (Int × Int)) (a : Int)
    (hs : T.Pairwise (fun x y => x.1 < y.1)) :
    (article_beads T a).Chain'
      (fun x y => (x, a) ∈ T ∧ (y, a) ∈ T ∧ next_sibling T x = y) := by
  induction T with
  | nil => exact List.chain'_nil
  | cons z T ih =>
    rw [List.pairwise_cons] at hs
    have ih1 := ih hs.2
    have himp : (article_beads T a).Chain'
        (fun x y => (x, a) ∈ z :: T ∧ (y, a) ∈ z :: T ∧ next_sibling (z :: T) x = y) := by
      refine List.Chain'.imp ?_ ih1
      intro x y hxy
      have hlt := hs.1 _ hxy.1
      have hne : ¬ z.1 = x := by
        intro h
        rw [h] at hlt
        exact lt_irrefl _ hlt
      simp only [next_sibling, if_neg hne]
      exact ⟨List.mem_cons_of_mem _ hxy.1, List.mem_cons_of_mem _ hxy.2.1, hxy.2.2⟩
    rw [article_beads_cons]
    by_cases h : z.2 = a
    · rw [if_pos h]
      rcases article_beads_head T a with ⟨h1, _⟩ | ⟨L, hL⟩
      · rw [h1]
        exact List.chain'_singleton _
      · have hc : (first_with_parent T a, a) ∈ T := by
          rw [← article_beads_mem, hL]
          exact List.mem_cons_self _ _
        rw [hL] at himp ⊢
        rw [List.chain'_cons]
        refine ⟨⟨?_, List.mem_cons_of_mem _ hc, ?_⟩, himp⟩
        · rw [← h]
          exact List.mem_cons_self _ _
        · simp only [next_sibling, if_true, h]
    · rw [if_neg h]
      exact himp

/-- Following `f` along a chain stays in the chain. -/
theorem iterate_chain_mem (f : Int → Int) :
    ∀ (L : List Int) (b : Int), (b :: L).Chain' (fun x y => f x = y) →
      ∀ k, 0 < k → k ≤ L.length → f^[k] b ∈ L := by
  intro L
  induction L with
  | nil =>
    intro b _ k hk hk2
    simp only [List.length_nil] at hk2
    omega
  | cons c L ih =>
    intro b hc k hk hk2
    rw [List.chain'_cons] at hc
    obtain ⟨k1, rfl⟩ : ∃ k1, k = k1 + 1 := ⟨k - 1, by omega⟩
    rw [Function.iterate_succ_apply, hc.1]
    by_cases hk1 : k1 = 0
    · rw [hk1]
      exact List.mem_cons_self _ _
    · simp only [List.length_cons] at hk2
      exact List.mem_cons_of_mem _ (ih c hc.2 k1 (by omega) (by omega))

/-- Following `f` along a chain for the length of its tail ends at a bead that is
not below any bead of the chain, when the chain is increasing. -/
theorem iterate_chain_last (f : Int → Int) :
    ∀ (L : List Int) (b : Int), (b :: L).Chain' (fun x y => f x = y) →
      (b :: L).Pairwise (fun x y => x < y) →
      f^[L.length] b ∈ b :: L ∧ ∀ x ∈ b :: L, x ≤ f^[L.length] b := by
  intro L
  induction L with
  | nil =>
    intro b _ _
    refine ⟨List.mem_cons_self _ _, ?_⟩
    intro x hx
    simp only [List.mem_singleton] at hx
    rw [hx]
    exact le_refl _
  | cons c L ih =>
    intro b hc hp
    rw [List.chain'_cons] at hc
    rw [List.pairwise_cons] at hp
    obtain ⟨h1, h2⟩ := ih c hc.2 hp.2
    rw [List.length_cons, Function.iterate_succ_apply, hc.1]
    refine ⟨List.mem_cons_of_mem _ h1, ?_⟩
    intro x hx
    rcases List.mem_cons.mp hx with hx | hx
    · rw [hx]
      have := hp.1 c (List.mem_cons_self _ _)
      have := h2 c (List.mem_cons_self _ _)
      omega
    · exact h2 x hx

/-- The first node with a given parent is in the list when some node has that
parent. -/
theorem fwp_mem (T : List (Int × Int)) (a : Int) (h : ∃ z ∈ T, z.2 = a) :
    (first_with_parent T a, a) ∈ T := by
  rcases article_beads_head T a with ⟨_, h2⟩ | ⟨L, hL⟩
  · obtain ⟨z, hz, hza⟩ := h
    exact absurd hza (h2 z hz)
  · rw [← article_beads_mem, hL]
    exact List.mem_cons_self _ _

/-- A node without next sibling is the newest under its parent. -/
theorem next_sibling_zero_newest (T : List (Int × Int)) (n a : Int)
    (hs : T.Pairwise (fun x y => x.1 < y.1)) (hpos : ∀ x ∈ T, 0 < x.1)
    (hm : (n, a) ∈ T) (hz : next_sibling T n = 0) : ∀ x ∈ T, x.2 = a → x.1 ≤ n := by
  induction T with
  | nil => cases hm
  | cons y T ih =>
    rw [List.pairwise_cons] at hs
    have hpos1 : ∀ x ∈ T, 0 < x.1 := fun x hx => hpos x (List.mem_cons_of_mem _ hx)
    rcases List.mem_cons.mp hm with hm | hm
    · have hy1 : y.1 = n := by rw [← hm]
      have hy2 : y.2 = a := by rw [← hm]
      simp only [next_sibling, if_pos hy1, hy2] at hz
      intro x hx hxa
      rcases List.mem_cons.mp hx with hx | hx
      · rw [hx, hy1]
      · exfalso
        have h1 := fwp_mem T a ⟨x, hx, hxa⟩
        rw [hz] at h1
        have := hpos1 _ h1
        simp only at this
        omega
    · have hlt := hs.1 _ hm
      have hne : ¬ y.1 = n := by
        intro h
        rw [h] at hlt
        exact lt_irrefl _ hlt
      simp only [next_sibling, if_neg hne] at hz
      intro x hx hxa
      rcases List.mem_cons.mp hx with hx | hx
      · rw [hx]
        exact le_of_lt hlt
      · exact ih hs.2 hpos1 hm hz x hx hxa

/-- The lookup among the beads written, when every bead written has the wanted
`next_id`. -/
theorem bead_next_of_mem (W : List (Int × Int)) (n v : Int) (h1 : ∃ w ∈ W, w.1 = n)
    (h2 : ∀ w ∈ W, w.1 = n → w.2 = v) : bead_next W n = v := by
  induction W with
  | nil =>
    obtain ⟨w, hw, _⟩ := h1
    cases hw
  | cons y W ih =>
    by_cases hy : y.1 = n
    · simp only [bead_next, if_pos hy]
      exact h2 y (List.mem_cons_self _ _) hy
    · simp only [bead_next, if_neg hy]
      apply ih
      · obtain ⟨w, hw, hwn⟩ := h1
        rcases List.mem_cons.mp hw with hw | hw
        · rw [hw] at hwn
          exact absurd hwn hy
        · exact ⟨w, hw, hwn⟩
      · intro w hw
        exact h2 w (List.mem_cons_of_mem _ hw)

theorem getElem?_set_cases {α : Type} (l : List α) (i j : Nat) (q r : α)
    (h : (l.set i q)[j]? = some r) :
    (j = i ∧ r = q ∧ ∃ r0, l[j]? = some r0) ∨ (j ≠ i ∧ l[j]? = some r) := by
  rw [List.getElem?_set] at h
  split_ifs at h with h1 h2
  · left
    subst h1
    refine ⟨rfl, by simpa using h.symm, ?_⟩
    exact ⟨l[i], by simp [h2]⟩
  · right
    exact ⟨fun h3 => h1 h3.symm, h⟩

/-- The article invariant depends on the next object id, the articles and the beads
written only, and survives the use of object ids. -/
theorem article_inv_frame (pdev dev : gx_device_pdf) (T : List (Int × Int))
    (h : article_inv pdev T) (ha : dev.articles = pdev.articles)
    (hs : bead_writes dev.strm = bead_writes pdev.strm) (hn : pdev.next_id ≤ dev.next_id) :
    article_inv dev T := by
  refine ⟨?_, h.sorted, ?_, ?_, ?_, ?_, ?_⟩
  · have := h.next_pos
    omega
  · intro x hx
    have := h.bounds x hx
    omega
  · rw [ha]
    exact h.ids
  · rw [ha]
    exact h.parts
  · rw [hs]
    exact h.written
  · rw [hs]
    exact h.complete

/-- The invariant of an article survives a new bead of another article. -/
theorem part_inv_append_other (T : List (Int × Int)) (r : pdf_article_t) (x : Int × Int)
    (hs : T.Pairwise (fun x y => x.1 < y.1)) (h : part_inv T r) (hx : x.2 ≠ r.contents.id) :
    part_inv (T ++ [x]) r := by
  have hmem : ∀ y, y ∈ T ++ [x] → y.2 = r.contents.id → y ∈ T := by
    intro y hy hya
    rcases List.mem_append.mp hy with hy | hy
    · exact hy
    · simp only [List.mem_singleton] at hy
      rw [hy] at hya
      exact absurd hya hx
  refine ⟨h.first_ne, List.mem_append_left _ h.first_mem, ?_, ?_, ?_, ?_, ?_⟩
  · rw [fwp_append_ne T x _ hx]
    exact h.first_fwp
  · intro hl y hy hya
    exact h.single hl y (hmem y hy hya) hya
  · intro hl
    rw [next_sibling_append_other T _ _ x hs h.first_mem hx]
    exact h.first_next hl
  · intro hl
    exact List.mem_append_left _ (h.last_mem hl)
  · intro hl y hy hya
    exact h.last_newest hl y (hmem y hy hya) hya

/-- The parts of the invariant that every new bead keeps: the created beads stay
sorted and bounded, and the beads written keep their next bead. -/
theorem article_inv_append_common (pdev : gx_device_pdf) (T : List (Int × Int))
    (h : article_inv pdev T) (a n : Int) (hn : pdev.next_id < n) (ha : a < n) :
    (T ++ [(pdev.next_id, a)]).Pairwise (fun x y => x.1 < y.1) ∧
    (∀ x ∈ T ++ [(pdev.next_id, a)], 0 < x.1 ∧ x.1 < n ∧ x.2 < n) ∧
    (∀ w ∈ bead_writes pdev.strm,
      w.2 ≠ 0 ∧ next_sibling (T ++ [(pdev.next_id, a)]) w.1 = w.2) ∧
    next_sibling (T ++ [(pdev.next_id, a)]) pdev.next_id = 0 := by
  have hsorted : (T ++ [(pdev.next_id, a)]).Pairwise (fun x y => x.1 < y.1) := by
    rw [List.pairwise_append]
    refine ⟨h.sorted, List.pairwise_singleton _ _, ?_⟩
    intro x hx y hy
    simp only [List.mem_singleton] at hy
    rw [hy]
    exact (h.bounds x hx).2.1
  refine ⟨hsorted, ?_, ?_, ?_⟩
  · intro x hx
    rcases List.mem_append.mp hx with hx | hx
    · have := h.bounds x hx
      omega
    · simp only [List.mem_singleton] at hx
      rw [hx]
      have := h.next_pos
      exact ⟨this, hn, ha⟩
  · intro w hw
    obtain ⟨h1, h2⟩ := h.written w hw
    refine ⟨h1, ?_⟩
    rw [next_sibling_append_of_ne_zero T w.1 _ (by rw [h2]; exact h1)]
    exact h2
  · apply next_sibling_newest _ _ a hsorted (List.mem_append_right _ (List.mem_singleton_self _))
    intro x hx _
    rcases List.mem_append.mp hx with hx | hx
    · exact le_of_lt (h.bounds x hx).2.1
    · simp only [List.mem_singleton] at hx
      rw [hx]

/-- The invariant survives the addition of a bead to an article of the list. -/
theorem article_inv_found (pdev dev : gx_device_pdf) (T : List (Int × Int))
    (h : article_inv pdev T) (i : Nat) (p q : pdf_article_t)
    (hp : pdev.articles[i]? = some p)
    (hnext : dev.next_id = pdev.next_id + 1)
    (harts : dev.articles = pdev.articles.set i q)
    (hw : bead_writes dev.strm =
      bead_writes pdev.strm ++ (if p.last.id = 0 then [] else [(p.last.id, pdev.next_id)]))
    (hc : q.contents.id = p.contents.id) (hf : q.first.id = p.first.id)
    (hfn : q.first.next_id = (if p.last.id = 0 then pdev.next_id else p.first.next_id))
    (hl : q.last.id = pdev.next_id) :
    article_inv dev (T ++ [(pdev.next_id, p.contents.id)]) := by
  have hpi := h.parts i p hp
  have hpos := h.next_pos
  have hab : p.contents.id < pdev.next_id := (h.bounds _ hpi.first_mem).2.2
  obtain ⟨hsorted, hbounds, hwritten, hnew⟩ :=
    article_inv_append_common pdev T h p.contents.id (pdev.next_id + 1) (by omega) (by omega)
  have hfwp : ∀ c, (∃ z ∈ T, z.2 = c) →
      first_with_parent (T ++ [(pdev.next_id, p.contents.id)]) c = first_with_parent T c := by
    intro c hz
    apply fwp_append_of_ne_zero
    have := (h.bounds _ (fwp_mem T c hz)).1
    simp only at this
    omega
  -- the old last bead, or the first bead when it is the only one, gets the new bead
  have hlast : p.last.id ≠ 0 →
      next_sibling (T ++ [(pdev.next_id, p.contents.id)]) p.last.id = pdev.next_id :=
    fun hl0 => next_sibling_append_newest T _ _ _ h.sorted (hpi.last_mem hl0) (hpi.last_newest hl0)
  refine ⟨by omega, hsorted, ?_, ?_, ?_, ?_, ?_⟩
  · rw [hnext]
    exact hbounds
  · intro j1 j2 r1 r2 h1 h2 h12
    rw [harts] at h1 h2
    have e1 : ∃ s1, pdev.articles[j1]? = some s1 ∧ s1.contents.id = r1.contents.id := by
      rcases getElem?_set_cases _ _ _ _ _ h1 with ⟨e, e2, _⟩ | ⟨_, e2⟩
      · exact ⟨p, by rw [e]; exact hp, by rw [e2, hc]⟩
      · exact ⟨r1, e2, rfl⟩
    have e2 : ∃ s2, pdev.articles[j2]? = some s2 ∧ s2.contents.id = r2.contents.id := by
      rcases getElem?_set_cases _ _ _ _ _ h2 with ⟨e, e2, _⟩ | ⟨_, e2⟩
      · exact ⟨p, by rw [e]; exact hp, by rw [e2, hc]⟩
      · exact ⟨r2, e2, rfl⟩
    obtain ⟨s1, hs1, hs1c⟩ := e1
    obtain ⟨s2, hs2, hs2c⟩ := e2
    exact h.ids j1 j2 s1 s2 hs1 hs2 (by rw [hs1c, hs2c]; exact h12)
  · intro j r hr
    rw [harts] at hr
    rcases getElem?_set_cases _ _ _ _ _ hr with ⟨_, e2, _⟩ | ⟨e1, e2⟩
    · rw [e2]
      have hq0 : q.last.id ≠ 0 := by rw [hl]; omega
      refine ⟨by rw [hf]; exact hpi.first_ne, ?_, ?_, fun h0 => absurd h0 hq0, ?_, ?_, ?_⟩
      · rw [hf, hc]
        exact List.mem_append_left _ hpi.first_mem
      · rw [hf, hc, hfwp _ ⟨_, hpi.first_mem, rfl⟩]
        exact hpi.first_fwp
      · intro _
        rw [hfn, hf]
        by_cases hl0 : p.last.id = 0
        · rw [if_pos hl0]
          refine ⟨by omega, ?_⟩
          apply next_sibling_append_newest T _ _ _ h.sorted hpi.first_mem
          intro x hx hxa
          rw [hpi.single hl0 x hx hxa]
        · rw [if_neg hl0]
          obtain ⟨h1, h2⟩ := hpi.first_next hl0
          refine ⟨h1, ?_⟩
          rw [next_sibling_append_of_ne_zero T _ _ (by rw [h2]; exact h1)]
          exact h2
      · intro _
        rw [hl, hc]
        exact List.mem_append_right _ (List.mem_singleton_self _)
      · intro _ x hx _
        rw [hl]
        have := (hbounds x hx).2.1
        omega
    · apply part_inv_append_other T r _ h.sorted (h.parts j r e2)
      intro hcc
      exact e1 (h.ids j i r p e2 hp hcc.symm)
  · intro w hw1
    rw [hw] at hw1
    rcases List.mem_append.mp hw1 with hw1 | hw1
    · exact hwritten w hw1
    · split_ifs at hw1 with hl0
      · cases hw1
      · simp only [List.mem_singleton] at hw1
        rw [hw1]
        exact ⟨by simp only; omega, hlast hl0⟩
  · intro x hx hns hfx
    rw [hw]
    rcases List.mem_append.mp hx with hx | hx
    · have hfx1 : first_with_parent T x.2 ≠ x.1 := by
        rw [← hfwp x.2 ⟨x, hx, rfl⟩]
        exact hfx
      by_cases hns0 : next_sibling T x.1 = 0
      · have hxa : x.2 = p.contents.id := by
          by_contra hne
          rw [next_sibling_append_other T x.1 x.2 _ h.sorted hx (fun e => hne e.symm)] at hns
          exact hns hns0
        have hxnew := next_sibling_zero_newest T x.1 x.2 h.sorted
          (fun y hy => (h.bounds y hy).1) hx hns0
        by_cases hl0 : p.last.id = 0
        · exfalso
          apply hfx1
          rw [hxa, hpi.first_fwp]
          exact (hpi.single hl0 x hx hxa).symm
        · rw [if_neg hl0]
          refine ⟨(p.last.id, pdev.next_id),
            List.mem_append_right _ (List.mem_singleton_self _), ?_⟩
          have h1 := hpi.last_newest hl0 x hx hxa
          have h2 := hxnew _ (hpi.last_mem hl0) hxa.symm
          simp only at h2 ⊢
          omega
      · obtain ⟨w, hw1, hw2⟩ := h.complete x hx hns0 hfx1
        exact ⟨w, List.mem_append_left _ hw1, hw2⟩
    · simp only [List.mem_singleton] at hx
      rw [hx] at hns
      exact absurd hnew hns

/-- The invariant survives the addition of the first bead of a new article. -/
theorem article_inv_new (pdev dev : gx_device_pdf) (T : List (Int × Int))
    (h : article_inv pdev T) (q : pdf_article_t)
    (hnext : dev.next_id = pdev.next_id + 2)
    (harts : dev.articles = q :: pdev.articles)
    (hw : bead_writes dev.strm = bead_writes pdev.strm)
    (hc : q.contents.id = pdev.next_id + 1) (hf : q.first.id = pdev.next_id)
    (hl : q.last.id = 0) :
    article_inv dev (T ++ [(pdev.next_id, pdev.next_id + 1)]) := by
  have hpos := h.next_pos
  obtain ⟨hsorted, hbounds, hwritten, hnew⟩ :=
    article_inv_append_common pdev T h (pdev.next_id + 1) (pdev.next_id + 2) (by omega) (by omega)
  have hfresh : ∀ z ∈ T, z.2 ≠ pdev.next_id + 1 := by
    intro z hz
    have := (h.bounds z hz).2.2
    omega
  have hother : ∀ (j : Nat) (r : pdf_article_t), pdev.articles[j]? = some r →
      r.contents.id ≠ pdev.next_id + 1 := by
    intro j r hr
    exact hfresh _ (h.parts j r hr).first_mem
  refine ⟨by omega, hsorted, ?_, ?_, ?_, ?_, ?_⟩
  · rw [hnext]
    exact hbounds
  · intro j1 j2 r1 r2 h1 h2 h12
    rw [harts] at h1 h2
    cases j1 with
    | zero =>
      cases j2 with
      | zero => rfl
      | succ j2 =>
        exfalso
        simp only [List.getElem?_cons_zero, Option.some.injEq] at h1
        rw [List.getElem?_cons_succ] at h2
        apply hother j2 r2 h2
        rw [← h12, ← h1, hc]
    | succ j1 =>
      rw [List.getElem?_cons_succ] at h1
      cases j2 with
      | zero =>
        exfalso
        simp only [List.getElem?_cons_zero, Option.some.injEq] at h2
        apply hother j1 r1 h1
        rw [h12, ← h2, hc]
      | succ j2 =>
        rw [List.getElem?_cons_succ] at h2
        rw [h.ids j1 j2 r1 r2 h1 h2 h12]
  · intro j r hr
    rw [harts] at hr
    cases j with
    | zero =>
      simp only [List.getElem?_cons_zero, Option.some.injEq] at hr
      rw [← hr]
      refine ⟨by rw [hf]; omega, ?_, ?_, ?_, fun h0 => absurd hl h0, fun h0 => absurd hl h0,
        fun h0 => absurd hl h0⟩
      · rw [hf, hc]
        exact List.mem_append_right _ (List.mem_singleton_self _)
      · rw [hf, hc]
        exact fwp_append_none T _ _ hfresh
      · intro _ x hx hxa
        rw [hc] at hxa
        rcases List.mem_append.mp hx with hx | hx
        · exact absurd hxa (hfresh x hx)
        · simp only [List.mem_singleton] at hx
          rw [hx, hf]
    | succ j =>
      rw [List.getElem?_cons_succ] at hr
      apply part_inv_append_other T r _ h.sorted (h.parts j r hr)
      exact fun e => hother j r hr e.symm
  · rw [hw]
    exact hwritten
  · intro x hx hns hfx
    rw [hw]
    rcases List.mem_append.mp hx with hx | hx
    · have hxa : (pdev.next_id, pdev.next_id + 1).2 ≠ x.2 := fun e => hfresh x hx e.symm
      rw [next_sibling_append_other T x.1 x.2 _ h.sorted hx hxa] at hns
      rw [fwp_append_ne T _ _ hxa] at hfx
      exact h.complete x hx hns hfx
    · simp only [List.mem_singleton] at hx
      rw [hx] at hns
      exact absurd hnew hns

theorem find?_set_of {α : Type} (P : α → Bool) (q : α) (hq : P q = true) :
    ∀ (l : List α) (i : Nat), i < l.length → (∀ r ∈ l, P r = false) →
      (l.set i q).find? P = some q := by
  intro l
  induction l with
  | nil =>
    intro i hi _
    simp only [List.length_nil] at hi
    omega
  | cons x l ih =>
    intro i hi hno
    cases i with
    | zero => simp [List.find?_cons, hq]
    | succ i =>
      have hx : P x = false := hno x (List.mem_cons_self _ _)
      simp only [List.set_cons_succ, List.find?_cons, hx]
      simp only [List.length_cons] at hi
      exact ih i (by omega) (fun r hr => hno r (List.mem_cons_of_mem _ hr))

/-- The beads that the articles hold are created beads: their ids are below the
next object id. -/
theorem article_inv_held (pdev : gx_device_pdf) (T : List (Int × Int))
    (h : article_inv pdev T) (r : pdf_article_t) (hr : r ∈ pdev.articles) :
    (decide (r.first.id = pdev.next_id) || decide (r.last.id = pdev.next_id)) = false := by
  obtain ⟨j, hj⟩ := List.mem_iff_getElem?.mp hr
  have hp := h.parts j r hj
  have h1 := (h.bounds _ hp.first_mem).2.1
  have h2 : r.last.id ≠ pdev.next_id := by
    by_cases hl : r.last.id = 0
    · have := h.next_pos
      omega
    · have := (h.bounds _ (hp.last_mem hl)).2.1
      simp only at this
      omega
  simp only at h1
  have h3 : r.first.id ≠ pdev.next_id := by omega
  simp [h2, h3]

/-- The invariant survives a run of ARTICLE marks, with the beads the run creates
added to the created beads. -/
theorem article_inv_run (E : Env) (marks : List (List Str × gs_matrix)) :
    ∀ (pdev : gx_device_pdf) (T : List (Int × Int)), article_inv pdev T →
      article_inv (run_marks (pdfmark_ARTICLE E) marks pdev)
        (T ++ article_created E marks pdev) := by
  induction marks with
  | nil =>
    intro pdev T h
    simp only [run_marks, article_created, List.append_nil]
    exact h
  | cons m rest ih =>
    intro pdev T h
    simp only [run_marks, article_created]
    rw [← List.append_assoc]
    apply ih
    rcases ARTICLE_step E pdev m.1 m.2 none (fun i p hp => (h.parts i p hp).first_ne) with
      ⟨hneg, ha, hs, hn⟩ | ⟨hz, hn, i, p, q, hp, ha, hw, hc, hf, hfn, hl, _⟩ |
      ⟨hz, hn, q, ha, hw, hc, hf, hl, _⟩
    · have hne : (pdfmark_ARTICLE E pdev m.1 m.2 none).1 ≠ 0 := by omega
      rw [if_neg hne, List.append_nil]
      exact article_inv_frame pdev _ T h ha (by rw [hs]) hn
    · rw [if_pos hz]
      have hba : bead_article pdev.next_id (pdfmark_ARTICLE E pdev m.1 m.2 none).2.articles =
          p.contents.id := by
        unfold bead_article
        rw [ha, find?_set_of _ q (by simp [hl]) pdev.articles i
          (List.getElem?_eq_some.mp hp).1 (article_inv_held pdev T h)]
        exact hc
      rw [hba]
      exact article_inv_found pdev _ T h i p q hp hn ha hw hc hf hfn hl
    · rw [if_pos hz]
      have hba : bead_article pdev.next_id (pdfmark_ARTICLE E pdev m.1 m.2 none).2.articles =
          pdev.next_id + 1 := by
        unfold bead_article
        rw [ha]
        simp [List.find?_cons, hf, hc]
      rw [hba]
      exact article_inv_new pdev _ T h q hn ha hw hc hf hl

/-- The invariant holds before the first ARTICLE mark. -/
theorem article_inv_fresh (pdev : gx_device_pdf) (harts : pdev.articles = [])
    (hstrm : bead_writes pdev.strm = []) (hid : 0 < pdev.next_id) : article_inv pdev [] := by
  refine ⟨hid, List.Pairwise.nil, ?_, ?_, ?_, ?_, ?_⟩
  · intro x hx
    cases hx
  · intro i j p q hp
    rw [harts] at hp
    simp at hp
  · intro i p hp
    rw [harts] at hp
    simp at hp
  · intro w hw
    rw [hstrm] at hw
    cases hw
  · intro x hx
    cases hx

/-- The beads written by `pdfmark_write_article` for an article with a last bead:
the last bead with the first bead as `next_id`, then the first bead. -/
theorem write_article_beads (pdev : gx_device_pdf) (part : pdf_article_t)
    (hl : part.last.id ≠ 0) :
    bead_writes (pdfmark_write_article pdev part).2.strm =
      bead_writes pdev.strm ++
        [(part.last.id, part.first.id), (part.first.id, part.first.next_id)] := by
  unfold pdfmark_write_article
  simp [hl, pdfmark_write_bead, bead_writes_append, bead_writes]

/-- The ring of an article that satisfies the invariant and has more than one bead:
among the beads written after `pdfmark_write_article`, following `next_id` from the
first bead goes through the beads of the article and is back at the first bead
after as many steps as the article has beads, not earlier. -/
theorem article_ring (pdev : gx_device_pdf) (T : List (Int × Int)) (h : article_inv pdev T)
    (part : pdf_article_t) (hpart : part ∈ pdev.articles)
    (h1 : 1 < (article_beads T part.contents.id).length) :
    (bead_next (bead_writes (pdfmark_write_article pdev part).2.strm))^[
        (article_beads T part.contents.id).length] part.first.id = part.first.id ∧
    ∀ k, 0 < k → k < (article_beads T part.contents.id).length →
      (bead_next (bead_writes (pdfmark_write_article pdev part).2.strm))^[k] part.first.id ∈
        article_beads T part.contents.id ∧
      (bead_next (bead_writes (pdfmark_write_article pdev part).2.strm))^[k] part.first.id ≠
        part.first.id := by
  obtain ⟨j, hj⟩ := List.mem_iff_getElem?.mp hpart
  have hp := h.parts j part hj
  have hBs := article_beads_sorted T part.contents.id h.sorted
  have hBc := article_beads_chain T part.contents.id h.sorted
  -- the list of beads starts with the first bead
  obtain ⟨L, hL⟩ : ∃ L, article_beads T part.contents.id = part.first.id :: L := by
    rcases article_beads_head T part.contents.id with ⟨h2, _⟩ | ⟨L, hL⟩
    · rw [h2] at h1
      simp at h1
    · rw [hp.first_fwp] at hL
      exact ⟨L, hL⟩
  rw [hL] at h1 hBs hBc ⊢
  have hLlen : 0 < L.length := by
    simp only [List.length_cons] at h1
    omega
  have hnotin : ∀ x ∈ L, x ≠ part.first.id := by
    intro x hx
    have := (List.pairwise_cons.mp hBs).1 x hx
    omega
  -- the article has a last bead
  have hl : part.last.id ≠ 0 := by
    intro hl0
    cases L with
    | nil => simp at hLlen
    | cons c L1 =>
      have hc : c ∈ article_beads T part.contents.id := by
        rw [hL]
        exact List.mem_cons_of_mem _ (List.mem_cons_self _ _)
      have := hp.single hl0 (c, part.contents.id) ((article_beads_mem _ _ _).mp hc) rfl
      exact hnotin c (List.mem_cons_self _ _) this
  have hlast0 : next_sibling T part.last.id = 0 :=
    next_sibling_newest T _ _ h.sorted (hp.last_mem hl) (hp.last_newest hl)
  obtain ⟨hfn0, hfn⟩ := hp.first_next hl
  have hlf : part.last.id ≠ part.first.id := by
    intro e
    rw [e, hfn] at hlast0
    exact hfn0 hlast0
  rw [write_article_beads pdev part hl]
  generalize hW : bead_writes pdev.strm ++
    [(part.last.id, part.first.id), (part.first.id, part.first.next_id)] = W
  have hWmem : ∀ w, w ∈ W ↔ w ∈ bead_writes pdev.strm ∨ w = (part.last.id, part.first.id) ∨
      w = (part.first.id, part.first.next_id) := by
    intro w
    rw [← hW]
    simp
  -- the lookup gives the next bead of the article
  have hstep : ∀ x y, (x, part.contents.id) ∈ T → (y, part.contents.id) ∈ T →
      next_sibling T x = y → bead_next W x = y := by
    intro x y hx hy hxy
    have hy0 : y ≠ 0 := by
      have := (h.bounds _ hy).1
      simp only at this
      omega
    apply bead_next_of_mem
    · by_cases hxf : x = part.first.id
      · exact ⟨(part.first.id, part.first.next_id), (hWmem _).mpr (Or.inr (Or.inr rfl)), hxf.symm⟩
      · obtain ⟨w, hw1, hw2⟩ := h.complete (x, part.contents.id) hx (by rw [hxy]; exact hy0)
          (by rw [hp.first_fwp]; exact fun e => hxf e.symm)
        exact ⟨w, (hWmem _).mpr (Or.inl hw1), hw2⟩
    · intro w hw hwx
      rcases (hWmem w).mp hw with hw | hw | hw
      · rw [← (h.written w hw).2, hwx]
        exact hxy
      · exfalso
        rw [hw] at hwx
        simp only at hwx
        rw [← hwx, hlast0] at hxy
        exact hy0 hxy.symm
      · rw [hw] at hwx ⊢
        simp only at hwx ⊢
        rw [← hfn, hwx]
        exact hxy
  have hback : bead_next W part.last.id = part.first.id := by
    apply bead_next_of_mem
    · exact ⟨(part.last.id, part.first.id), (hWmem _).mpr (Or.inr (Or.inl rfl)), rfl⟩
    · intro w hw hwx
      rcases (hWmem w).mp hw with hw | hw | hw
      · exfalso
        obtain ⟨h2, h3⟩ := h.written w hw
        rw [hwx, hlast0] at h3
        exact h2 h3.symm
      · rw [hw]
      · exfalso
        rw [hw] at hwx
        exact hlf hwx.symm
  have hchain : (part.first.id :: L).Chain' (fun x y => bead_next W x = y) := by
    refine List.Chain'.imp ?_ hBc
    intro x y hxy
    exact hstep x y hxy.1 hxy.2.1 hxy.2.2
  constructor
  · obtain ⟨h2, h3⟩ := iterate_chain_last (bead_next W) L part.first.id hchain hBs
    have h4 : (bead_next W)^[L.length] part.first.id = part.last.id := by
      have h5 : part.last.id ∈ part.first.id :: L := by
        rw [← hL]
        exact (article_beads_mem _ _ _).mpr (hp.last_mem hl)
      have h6 := h3 _ h5
      have h7 : ((bead_next W)^[L.length] part.first.id, part.contents.id) ∈ T := by
        rw [← article_beads_mem, hL]
        exact h2
      have h8 := hp.last_newest hl _ h7 rfl
      simp only at h8
      omega
    rw [List.length_cons, Function.iterate_succ_apply', h4]
    exact hback
  · intro k hk hk2
    simp only [List.length_cons] at hk2
    have := iterate_chain_mem (bead_next W) L part.first.id hchain k hk (by omega)
    exact ⟨List.mem_cons_of_mem _ this, hnotin _ this⟩

/-- C4: start from a device without articles and without beads written, with a
positive next object id, and process any sequence of ARTICLE marks.  For every
article of the device that has received N > 1 beads (N marks that returned 0 added
their bead, each with a fresh object id, to this article), after
`pdfmark_write_article` the beads written form one ring: following `next_id` from
the first bead of the article is back at the first bead after exactly N steps, and
every earlier step is at another bead of the article. -/
theorem C4_bead_ring (E : Env) (marks : List (List Str × gs_matrix)) (pdev : gx_device_pdf)
    (harts : pdev.articles = []) (hstrm : bead_writes pdev.strm = []) (hid : 0 < pdev.next_id)
    (part : pdf_article_t)
    (hpart : part ∈ (run_marks (pdfmark_ARTICLE E) marks pdev).articles)
    (N : Nat)
    (hN : (article_beads (article_created E marks pdev) part.contents.id).length = N)
    (h1 : 1 < N) :
    (bead_next (bead_writes (pdfmark_write_article
        (run_marks (pdfmark_ARTICLE E) marks pdev) part).2.strm))^[N] part.first.id =
      part.first.id ∧
    ∀ k, 0 < k → k < N →
      (bead_next (bead_writes (pdfmark_write_article
          (run_marks (pdfmark_ARTICLE E) marks pdev) part).2.strm))^[k] part.first.id ∈
        article_beads (article_created E marks pdev) part.contents.id ∧
      (bead_next (bead_writes (pdfmark_write_article
          (run_marks (pdfmark_ARTICLE E) marks pdev) part).2.strm))^[k] part.first.id ≠
        part.first.id := by
  have h := article_inv_run E marks pdev [] (article_inv_fresh pdev harts hstrm hid)
  rw [List.nil_append] at h
  subst hN
  exact article_ring _ _ h part hpart h1

/-- C4 (witness): three ARTICLE marks titled (T) on a new device create the beads
1, 3 and 4 of the article with contents id 2; the beads written are 3 (next 4), 4
(next 1) and 1 (next 3), a ring of 3 steps. -/
theorem C4_bead_ring_witness :
    article_created sample_env sample_article_marks {} = [(1, 2), (3, 2), (4, 2)] ∧
    bead_writes (pdfmark_write_article
      (run_marks (pdfmark_ARTICLE sample_env) sample_article_marks {})
      ((run_marks (pdfmark_ARTICLE sample_env) sample_article_marks {}).articles.getD 0 {})).2.strm
      = [(3, 4), (4, 1), (1, 3)] ∧
    ((bead_next (bead_writes (pdfmark_write_article
        (run_marks (pdfmark_ARTICLE sample_env) sample_article_marks {})
        ((run_marks (pdfmark_ARTICLE sample_env) sample_article_marks {}).articles.getD 0
          {})).2.strm))^[3]
        ((run_marks (pdfmark_ARTICLE sample_env) sample_article_marks {}).articles.getD 0
          {}).first.id =
      ((run_marks (pdfmark_ARTICLE sample_env) sample_article_marks {}).articles.getD 0
          {}).first.id ∧
    ∀ k, 0 < k → k < 3 →
      (bead_next (bead_writes (pdfmark_write_article
          (run_marks (pdfmark_ARTICLE sample_env) sample_article_marks {})
          ((run_marks (pdfmark_ARTICLE sample_env) sample_article_marks {}).articles.getD 0
            {})).2.strm))^[k]
          ((run_marks (pdfmark_ARTICLE sample_env) sample_article_marks {}).articles.getD 0
            {}).first.id ∈
        article_beads (article_created sample_env sample_article_marks {})
          ((run_marks (pdfmark_ARTICLE sample_env) sample_article_marks {}).articles.getD 0
            {}).contents.id ∧
      (bead_next (bead_writes (pdfmark_write_article
          (run_marks (pdfmark_ARTICLE sample_env) sample_article_marks {})
          ((run_marks (pdfmark_ARTICLE sample_env) sample_article_marks {}).articles.getD 0
            {})).2.strm))^[k]
          ((run_marks (pdfmark_ARTICLE sample_env) sample_article_marks {}).articles.getD 0
            {}).first.id ≠
        ((run_marks (pdfmark_ARTICLE sample_env) sample_article_marks {}).articles.getD 0
          {}).first.id) :=
  ⟨by decide, by decide,
   C4_bead_ring sample_env sample_article_marks {} rfl rfl (by decide)
    ((run_marks (pdfmark_ARTICLE sample_env) sample_article_marks {}).articles.getD 0 {})
    (List.mem_iff_getElem?.mpr ⟨0, show (run_marks (pdfmark_ARTICLE sample_env) sample_article_marks
      {}).articles[0]? = some ((run_marks (pdfmark_ARTICLE sample_env) sample_article_marks
      {}).articles.getD 0 {}) by rfl⟩)
    3 (by decide) (by decide)⟩

/-! ## C11: repeated labels for one page -/

theorem set_take_succ {α : Type} (l : List α) (j : Nat) (a : α) (h : j < l.length) :
    (l.set j a).take (j + 1) = l.take j ++ [a] := by
  induction l generalizing j with
  | nil => simp at h
  | cons x l ih =>
    cases j with
    | zero => simp
    | succ j =>
      simp only [List.length_cons] at h
      simp [ih j (by omega)]

theorem take_set_ge {α : Type} (l : List α) (j k : Nat) (a : α) (h : k ≤ j) :
    (l.set j a).take k = l.take k := by
  induction l generalizing j k with
  | nil => simp
  | cons x l ih =>
    cases k with
    | zero => simp
    | succ k =>
      cases j with
      | zero => omega
      | succ j => simp [ih j k (by omega)]

/-- What a suffix of a list tells about the list. -/
theorem drop_eq_cons {α : Type} (l : List α) (i : Nat) (c : α) (rest : List α)
    (h : l.drop i = c :: rest) :
    i < l.length ∧ l[i]? = some c ∧ l.drop (i + 1) = rest := by
  have hlt : i < l.length := by
    by_contra hge
    rw [List.drop_eq_nil_of_le (by omega)] at h
    cases h
  rw [List.drop_eq_getElem_cons hlt] at h
  injection h with h1 h2
  exact ⟨hlt, by rw [List.getElem?_eq_getElem hlt, h1], h2⟩

/-- The write index of the rewrite loop never passes the read index. -/
theorem contents_loop_le : ∀ (fuel : Nat) (cstr : Str) (i j : Nat), j ≤ i →
    (contents_loop fuel cstr i j).2.2 ≤ (contents_loop fuel cstr i j).2.1 := by
  intro fuel
  induction fuel with
  | zero => intro cstr i j h; exact h
  | succ fuel ih =>
    intro cstr i j h
    unfold contents_loop
    dsimp only
    split_ifs
    · exact ih _ _ _ (by omega)
    · exact ih _ _ _ (by omega)
    · exact ih _ _ _ (by omega)
    · exact h

/-- The in-place loop against the pure rewrite.  With the bytes from the read index
on still those of the original `v`, the write index not past the read index, and
`pb` telling whether the byte before the read index is a backslash, the loop ends
with the read index at the end, the bytes before the write index being those
written before followed by the pure rewrite of the rest of `v`, and the write index
short of the read index by two more for each long escape. -/
theorem contents_loop_spec (v : Str) : ∀ (fuel : Nat) (cstr : Str) (i j : Nat) (pb : Bool),
    cstr.length = v.length → j ≤ i → i ≤ v.length → cstr.drop i = v.drop i →
    (pb = false ↔ (i = 0 ∨ cstr[i - 1]? ≠ some '\\')) → v.length - i ≤ fuel →
    (contents_loop fuel cstr i j).2.1 = v.length ∧
    (contents_loop fuel cstr i j).1.length = v.length ∧
    (contents_loop fuel cstr i j).1.take (contents_loop fuel cstr i j).2.2 =
      cstr.take j ++ contents_rewrite_pure pb (v.drop i) ∧
    (contents_loop fuel cstr i j).2.2 + 2 * contents_long_escapes pb (v.drop i) + i =
      v.length + j := by
  intro fuel
  induction fuel with
  | zero =>
    intro cstr i j pb hlen hji hi hd hpb hf
    have hiv : i = v.length := by omega
    have hnil : v.drop i = [] := List.drop_eq_nil_of_le (by omega)
    rw [hnil]
    refine ⟨hiv, hlen, ?_, ?_⟩
    · simp [contents_loop, contents_rewrite_pure]
    · simp only [contents_loop, contents_long_escapes]
      omega
  | succ fuel ih =>
    intro cstr i j pb hlen hji hi hd hpb hf
    unfold contents_loop
    dsimp only
    by_cases hlt : i < cstr.length
    swap
    · have hiv : i = v.length := by omega
      have hnil : v.drop i = [] := List.drop_eq_nil_of_le (by omega)
      rw [if_neg hlt, hnil]
      refine ⟨hiv, hlen, ?_, ?_⟩
      · simp [contents_rewrite_pure]
      · simp only [contents_long_escapes]
        omega
    rw [if_pos hlt]
    -- the rest of the original is not empty
    obtain ⟨c, rest, hs⟩ : ∃ c rest, v.drop i = c :: rest := by
      cases hv : v.drop i with
      | nil =>
        have := congrArg List.length hv
        simp only [List.length_drop, List.length_nil] at this
        omega
      | cons c rest => exact ⟨c, rest, rfl⟩
    have hcs : cstr.drop i = c :: rest := by rw [hd, hs]
    obtain ⟨_, hci, hcd1⟩ := drop_eq_cons cstr i c rest hcs
    obtain ⟨_, _, hvd1⟩ := drop_eq_cons v i c rest hs
    have hjl : j < cstr.length := by omega
    by_cases h1 : cstr.length - i ≥ 2 ∧ (cstr.drop i).take 2 = ['\\', 'n'] ∧
        (i = 0 ∨ cstr[i - 1]? ≠ some '\\')
    · -- the short escape
      rw [if_pos h1]
      obtain ⟨h1a, h1b, h1c⟩ := h1
      have hpbf : pb = false := hpb.mpr h1c
      obtain ⟨rest1, hrest⟩ : ∃ rest1, c = '\\' ∧ rest = 'n' :: rest1 := by
        rw [hcs] at h1b
        cases rest with
        | nil => simp at h1b
        | cons d rest1 =>
          simp only [List.take_succ_cons, List.take_zero, List.cons.injEq, and_true] at h1b
          exact ⟨rest1, h1b.1, by rw [h1b.2]⟩
      obtain ⟨hc, hrest⟩ := hrest
      subst hc hrest hpbf
      obtain ⟨hl1, hci1, hcd2⟩ := drop_eq_cons cstr (i + 1) 'n' rest1 hcd1
      obtain ⟨_, _, hvd2⟩ := drop_eq_cons v (i + 1) 'n' rest1 hvd1
      have hnew := ih ((cstr.set j '\\').set (j + 1) 'r') (i + 2) (j + 2) false
        (by simp [hlen]) (by omega) (by omega)
        (by
          rw [List.drop_set_of_lt _ _ (by omega), List.drop_set_of_lt _ _ (by omega), hcd2, hvd2])
        (by
          constructor
          · intro _
            right
            show ((cstr.set j '\\').set (j + 1) 'r')[i + 1]? ≠ some '\\'
            rw [List.getElem?_set]
            by_cases e1 : j + 1 = i + 1
            · rw [if_pos e1]
              split_ifs <;> simp
            · rw [if_neg e1, List.getElem?_set, if_neg (by omega), hci1]
              simp
          · intro _
            rfl)
        (by omega)
      obtain ⟨n1, n2, n3, n4⟩ := hnew
      rw [hs, contents_rewrite_pure, contents_long_escapes]
      rw [hvd2] at n3 n4
      refine ⟨n1, n2, ?_, by omega⟩
      rw [n3, set_take_succ (cstr.set j '\\') (j + 1) 'r' (by simp; omega),
        set_take_succ cstr j '\\' hjl]
      simp
    rw [if_neg h1]
    have hdl : cstr.length - i = (c :: rest).length := by
      rw [← hcs, List.length_drop]
    by_cases h2 : cstr.length - i ≥ 4 ∧ (cstr.drop i).take 4 = ['\\', '0', '1', '2'] ∧
        (i = 0 ∨ cstr[i - 1]? ≠ some '\\')
    · -- the long escape
      rw [if_pos h2]
      obtain ⟨h2a, h2b, h2c⟩ := h2
      have hpbf : pb = false := hpb.mpr h2c
      obtain ⟨rest3, hc, hrest⟩ : ∃ rest3, c = '\\' ∧ rest = '0' :: '1' :: '2' :: rest3 := by
        rw [hcs] at h2b
        match rest, h2b with
        | d1 :: d2 :: d3 :: rest3, h2b =>
          simp only [List.take_succ_cons, List.take_zero, List.cons.injEq, and_true] at h2b
          obtain ⟨e0, e1, e2, e3⟩ := h2b
          exact ⟨rest3, e0, by rw [e1, e2, e3]⟩
        | [], h2b => simp at h2b
        | [_], h2b => simp at h2b
        | [_, _], h2b => simp at h2b
      subst hc hrest hpbf
      obtain ⟨hl1, _, hcd2⟩ := drop_eq_cons cstr (i + 1) '0' _ hcd1
      obtain ⟨_, _, hvd2⟩ := drop_eq_cons v (i + 1) '0' _ hvd1
      obtain ⟨hl2, _, hcd3⟩ := drop_eq_cons cstr (i + 2) '1' _ hcd2
      obtain ⟨_, _, hvd3⟩ := drop_eq_cons v (i + 2) '1' _ hvd2
      obtain ⟨hl3, hci3, hcd4⟩ := drop_eq_cons cstr (i + 3) '2' _ hcd3
      obtain ⟨_, _, hvd4⟩ := drop_eq_cons v (i + 3) '2' _ hvd3
      have hnew := ih ((cstr.set j '\\').set (j + 1) 'r') (i + 4) (j + 2) false
        (by simp [hlen]) (by omega) (by omega)
        (by
          rw [List.drop_set_of_lt _ _ (by omega), List.drop_set_of_lt _ _ (by omega), hcd4, hvd4])
        (by
          constructor
          · intro _
            right
            show ((cstr.set j '\\').set (j + 1) 'r')[i + 3]? ≠ some '\\'
            rw [List.getElem?_set, if_neg (by omega), List.getElem?_set, if_neg (by omega), hci3]
            simp
          · intro _
            rfl)
        (by omega)
      obtain ⟨n1, n2, n3, n4⟩ := hnew
      rw [hs, contents_rewrite_pure, contents_long_escapes]
      rw [hvd4] at n3 n4
      refine ⟨n1, n2, ?_, by omega⟩
      rw [n3, set_take_succ (cstr.set j '\\') (j + 1) 'r' (by simp; omega),
        set_take_succ cstr j '\\' hjl]
      simp
    -- a byte is copied
    rw [if_neg h2]
    have hget : cstr.getD i ' ' = c := by
      rw [List.getD_eq_getElem?_getD, hci]
      rfl
    rw [hget]
    have side1 : ∀ rest_1 : List Char, pb = false → c = '\\' → rest = 'n' :: rest_1 → False := by
      intro r e1 e2 e3
      apply h1
      refine ⟨?_, ?_, hpb.mp e1⟩
      · rw [hdl, e3]
        simp
      · rw [hcs, e2, e3]
        rfl
    have side2 : ∀ rest_1 : List Char, pb = false → c = '\\' →
        rest = '0' :: '1' :: '2' :: rest_1 → False := by
      intro r e1 e2 e3
      apply h2
      refine ⟨?_, ?_, hpb.mp e1⟩
      · rw [hdl, e3]
        simp
      · rw [hcs, e2, e3]
        rfl
    have hnew := ih (cstr.set j c) (i + 1) (j + 1) (decide (c = '\\'))
      (by simp [hlen]) (by omega) (by omega)
      (by rw [List.drop_set_of_lt _ _ (by omega), hcd1, hvd1])
      (by
        have hci' : (cstr.set j c)[i]? = some c := by
          rw [List.getElem?_set]
          by_cases e1 : j = i
          · rw [if_pos e1, if_pos hjl]
          · rw [if_neg e1]
            exact hci
        constructor
        · intro hdec
          right
          show (cstr.set j c)[i]? ≠ some '\\'
          rw [hci']
          simpa using hdec
        · intro hor
          rcases hor with hor | hor
          · omega
          · have hor : (cstr.set j c)[i]? ≠ some '\\' := hor
            rw [hci'] at hor
            simpa using hor)
      (by omega)
    obtain ⟨n1, n2, n3, n4⟩ := hnew
    rw [hs, contents_rewrite_pure.eq_4 pb c rest side1 side2]
    rw [hvd1] at n3 n4
    refine ⟨n1, n2, ?_, ?_⟩
    · rw [n3, set_take_succ cstr j c hjl]
      simp
    · have hcount : contents_long_escapes pb (c :: rest) =
          contents_long_escapes (decide (c = '\\')) rest := by
        rw [contents_long_escapes.eq_4 pb c rest side1 side2]
      rw [hcount]
      omega

/-- The stored /Contents value is the pure rewrite of the original, and the rewrite
is shorter than the original by two bytes for each long escape. -/
theorem contents_rewrite_eq_pure (value : Str) :
    contents_rewrite value = contents_rewrite_pure false value ∧
    (contents_rewrite value).length + 2 * contents_long_escapes false value = value.length := by
  obtain ⟨h1, h2, h3, h4⟩ := contents_loop_spec value value.length value 0 0 false rfl
    (le_refl _) (Nat.zero_le _) rfl (by simp) (by omega)
  simp only [List.drop_zero, List.take_zero, List.nil_append] at h3 h4
  have hstored : contents_rewrite value =
      (contents_loop value.length value 0 0).1.take (contents_loop value.length value 0 0).2.2 := by
    unfold contents_rewrite
    dsimp only
    split_ifs with hne
    · rfl
    · have hj := not_not.mp hne
      exact (List.take_of_length_le (by omega)).symm
  rw [hstored, h3]
  refine ⟨rfl, ?_⟩
  have hl := congrArg List.length h3
  rw [List.length_take, h2] at hl
  have hle := contents_loop_le value.length value 0 0 (le_refl _)
  rw [h1] at hle
  omega

/-- The pure rewrite starts with the byte the original starts with. -/
theorem contents_rewrite_pure_head (pb : Bool) (s : Str) :
    (contents_rewrite_pure pb s).head? = s.head? := by
  induction pb, s using contents_rewrite_pure.induct with
  | case1 x => rw [contents_rewrite_pure]
  | case2 rest _ => rw [contents_rewrite_pure]; rfl
  | case3 rest _ => rw [contents_rewrite_pure]; rfl
  | case4 x c rest s1 s2 _ => rw [contents_rewrite_pure.eq_4 x c rest s1 s2]; rfl

/-- A byte other than a backslash is copied. -/
theorem contents_rewrite_pure_copy (pb : Bool) (d : Char) (r : Str) (hd : d ≠ '\\') :
    contents_rewrite_pure pb (d :: r) = d :: contents_rewrite_pure false r := by
  rw [contents_rewrite_pure.eq_4 pb d r (fun _ _ h _ => hd h) (fun _ _ h _ => hd h)]
  simp [hd]

/-- After a backslash of the original, the bytes `n` and `012` at the start of the
rewrite are bytes of the original. -/
theorem contents_rewrite_pure_after (rest : Str) :
    ((contents_rewrite_pure true rest).take 1 = ['n'] → ∃ r, rest = 'n' :: r) ∧
    ((contents_rewrite_pure true rest).take 3 = ['0', '1', '2'] →
      ∃ r, rest = '0' :: '1' :: '2' :: r) := by
  have hhead : ∀ (pb : Bool) (s : Str) (a : Char) (t : Str),
      contents_rewrite_pure pb s = a :: t → a ≠ '\\' →
      ∃ r, s = a :: r ∧ t = contents_rewrite_pure false r := by
    intro pb s a t h ha
    cases s with
    | nil => rw [contents_rewrite_pure] at h; cases h
    | cons d r =>
      have h1 := contents_rewrite_pure_head pb (d :: r)
      rw [h] at h1
      simp only [List.head?_cons, Option.some.injEq] at h1
      subst h1
      rw [contents_rewrite_pure_copy pb a r ha] at h
      injection h with _ h2
      exact ⟨r, rfl, h2.symm⟩
  constructor
  · intro h
    cases ho : contents_rewrite_pure true rest with
    | nil => rw [ho] at h; simp at h
    | cons a t =>
      rw [ho] at h
      simp only [List.take_succ_cons, List.take_zero, List.cons.injEq, and_true] at h
      subst h
      obtain ⟨r, hr, _⟩ := hhead true rest 'n' t ho (by decide)
      exact ⟨r, hr⟩
  · intro h
    cases ho : contents_rewrite_pure true rest with
    | nil => rw [ho] at h; simp at h
    | cons a t =>
      rw [ho] at h
      match t, h with
      | b :: c :: t2, h =>
        simp only [List.take_succ_cons, List.take_zero, List.cons.injEq, and_true] at h
        obtain ⟨e0, e1, e2⟩ := h
        subst e0 e1 e2
        obtain ⟨r, hr, ht⟩ := hhead true rest '0' _ ho (by decide)
        obtain ⟨r1, hr1, ht1⟩ := hhead false r '1' _ ht.symm (by decide)
        obtain ⟨r2, hr2, _⟩ := hhead false r1 '2' _ ht1.symm (by decide)
        exact ⟨r2, by rw [hr, hr1, hr2]⟩
      | [], h => simp at h
      | [_], h => simp at h

/-- In the pure rewrite, an escape `\n` or `\012` is left only directly after a
backslash (`pb`: the rewrite itself follows a backslash). -/
theorem contents_rewrite_pure_guarded (pb : Bool) (s : Str) :
    ∀ k, (((contents_rewrite_pure pb s).drop k).take 2 = ['\\', 'n'] ∨
        ((contents_rewrite_pure pb s).drop k).take 4 = ['\\', '0', '1', '2']) →
      (k = 0 ∧ pb = true) ∨
      (k ≠ 0 ∧ (contents_rewrite_pure pb s)[k - 1]? = some '\\') := by
  induction pb, s using contents_rewrite_pure.induct with
  | case1 x =>
    intro k h
    rw [contents_rewrite_pure] at h
    simp at h
  | case2 rest ih =>
    intro k h
    rw [contents_rewrite_pure] at h ⊢
    match k, h with
    | 0, h => simp at h
    | 1, h => simp at h
    | k + 2, h =>
      simp only [List.drop_succ_cons] at h
      rcases ih k h with ⟨_, h2⟩ | ⟨h1, h2⟩
      · cases h2
      · right
        refine ⟨by omega, ?_⟩
        obtain ⟨k1, rfl⟩ : ∃ k1, k = k1 + 1 := ⟨k - 1, by omega⟩
        simpa using h2
  | case3 rest ih =>
    intro k h
    rw [contents_rewrite_pure] at h ⊢
    match k, h with
    | 0, h => simp at h
    | 1, h => simp at h
    | k + 2, h =>
      simp only [List.drop_succ_cons] at h
      rcases ih k h with ⟨_, h2⟩ | ⟨h1, h2⟩
      · cases h2
      · right
        refine ⟨by omega, ?_⟩
        obtain ⟨k1, rfl⟩ : ∃ k1, k = k1 + 1 := ⟨k - 1, by omega⟩
        simpa using h2
  | case4 x c rest s1 s2 ih =>
    intro k h
    rw [contents_rewrite_pure.eq_4 x c rest s1 s2] at h ⊢
    match k, h with
    | 0, h =>
      left
      refine ⟨rfl, ?_⟩
      by_contra hx
      have hx : x = false := by simpa using hx
      simp only [List.drop_zero, List.take_succ_cons, List.cons.injEq] at h
      rcases h with ⟨hc, h⟩ | ⟨hc, h⟩
      · have h' : (contents_rewrite_pure true rest).take 1 = ['n'] := by
          simpa [hc] using h
        obtain ⟨r, hr⟩ := (contents_rewrite_pure_after rest).1 h'
        exact s1 r hx hc hr
      · have h' : (contents_rewrite_pure true rest).take 3 = ['0', '1', '2'] := by
          simpa [hc] using h
        obtain ⟨r, hr⟩ := (contents_rewrite_pure_after rest).2 h'
        exact s2 r hx hc hr
    | k + 1, h =>
      simp only [List.drop_succ_cons] at h
      right
      refine ⟨by omega, ?_⟩
      rcases ih k h with ⟨h1, h2⟩ | ⟨h1, h2⟩
      · subst h1
        have : c = '\\' := by simpa using h2
        simp [this]
      · obtain ⟨k1, rfl⟩ : ∃ k1, k = k1 + 1 := ⟨k - 1, by omega⟩
        simpa using h2

/-- C12 (failing input): the /Contents value `(\\\n)`, an escaped backslash
followed by the escape `\n`.  The guard `cstr[i - 1] != '\\'` of the rewrite finds a
backslash before the `\n`, the second byte of the escaped backslash, and leaves
the escape in place: `pdfmark_put_ao_pairs` stores the value unchanged, and the
stored string still contains the escape `\n`, which the rewrite is there to replace
with `\r`.  So it is with `(\\\012)`. -/
theorem C12_failing_input :
    cos_dict_find (pdfmark_put_ao_pairs sample_env {} {}
        ["/Contents".toList, "(\\\\\\n)".toList] {} {} false).2.pcd "/Contents".toList =
      some (cos_value_t.scalar "(\\\\\\n)".toList) ∧
    cos_dict_find (pdfmark_put_ao_pairs sample_env {} {}
        ["/Contents".toList, "(\\\\\\012)".toList] {} {} false).2.pcd "/Contents".toList =
      some (cos_value_t.scalar "(\\\\\\012)".toList) := by
  constructor <;> decide

/-- C13: the in-place rewrite of a /Contents value with a read index and a write
index gives the pure left-to-right rewrite of the original string (an escape that
is rewritten becomes `\r`, every other byte is copied in order); after any number
of rounds the write index is not past the read index; and the stored string is
shorter than the original by 2 for each four-character escape rewritten. -/
theorem C13_contents_rewrite_refines (value : Str) :
    contents_rewrite value = contents_rewrite_pure false value ∧
    (∀ n, (contents_loop n value 0 0).2.2 ≤ (contents_loop n value 0 0).2.1) ∧
    (contents_rewrite value).length + 2 * contents_long_escapes false value = value.length :=
  ⟨(contents_rewrite_eq_pure value).1, fun n => contents_loop_le n value 0 0 (le_refl _),
   (contents_rewrite_eq_pure value).2⟩

/-! ## C14: short escapes in generic string values -/

/-- C14 (failing input): the generic pair /Subject `(\b\f\n\r\t)`.  The stored value
is `(\007\014\012\015\011)`: the escapes `\f`, `\n`, `\r`, `\t` get the octal codes
of their characters, but `\b` (backspace, octal 010) is stored as `\007` (bell). -/
theorem C14_failing_input :
    cos_dict_find (pdfmark_put_ao_pairs sample_env {} {}
        ["/Subject".toList, "(\\b\\f\\n\\r\\t)".toList] {} {} false).2.pcd "/Subject".toList =
      some (cos_value_t.scalar "(\\007\\014\\012\\015\\011)".toList) ∧
    escape_expand "\\b".toList = "\\007".toList := by
  constructor <;> decide

/-! ## C15: string destinations -/

/-- What `pdfmark_coerce_dest` does within its buffer: a value `(body)` of at most
MAX_DEST_STRING bytes becomes the name `/body`, one byte shorter, with return value
1; an empty value and a value that does not begin with `(` are left unchanged,
with return value 0. -/
theorem coerce_dest_in_buffer (E : Env) (body : Str) (dstr : Str) :
    (('(' :: (body ++ [')'])).length ≤ E.MAX_DEST_STRING →
      pdfmark_coerce_dest_buf E ('(' :: (body ++ [')'])) = some (1, '/' :: body) ∧
      ('/' :: body).length = ('(' :: (body ++ [')'])).length - 1) ∧
    (dstr.head? ≠ some '(' → pdfmark_coerce_dest_buf E dstr = some (0, dstr)) := by
  constructor
  · intro hlen
    have h1 : ('(' :: (body ++ [')'])).length - 1 < E.MAX_DEST_STRING := by
      simp only [List.length_cons, List.length_append, List.length_nil] at hlen ⊢
      omega
    refine ⟨?_, by simp⟩
    simp only [pdfmark_coerce_dest_buf, ne_eq, not_true_eq_false, if_false, if_pos h1,
      pdfmark_coerce_dest, if_true]
    rw [← List.cons_append, List.dropLast_concat]
  · intro hhead
    cases dstr with
    | nil => rfl
    | cons c rest =>
      have hc : c ≠ '(' := by simpa using hhead
      simp [pdfmark_coerce_dest_buf, hc]

/-- C15 (failing input): a destination of 81 bytes, `(` followed by 79 letters and
`)`.  `pdfmark_coerce_dest` copies 80 bytes into `dest` and then writes
`dest[80]`, one byte past the end of the buffer of MAX_DEST_STRING = 80 bytes: the
call has no defined result.  Also, for the value `(` alone the function returns 1
with an empty name, not the name token `/`. -/
theorem C15_failing_input :
    ('(' :: (List.replicate 79 'a' ++ [')'])).length = 81 ∧
    pdfmark_coerce_dest_buf sample_env ('(' :: (List.replicate 79 'a' ++ [')'])) = none ∧
    pdfmark_coerce_dest_buf sample_env ['('] = some (1, []) := by
  refine ⟨by decide, by decide, by decide⟩

/-! ## C16, C17: the parameter checks of `pdfmark_process` -/

/-- The option bits of the dispatch table: an entry that allows an odd count is not
nameable, and a nameable entry has reference substitution in all values. -/
theorem mark_names_flags (E : Env) (p : pdfmark_name) (hp : p ∈ mark_names E) :
    (p.options &&& PDFMARK_ODD_OK ≠ 0 → p.options &&& PDFMARK_NAMEABLE = 0) ∧
    (p.options &&& PDFMARK_NAMEABLE ≠ 0 →
      p.options &&& PDFMARK_ODD_OK = 0 ∧ p.options &&& PDFMARK_KEEP_NAME = 0 ∧
      p.options &&& PDFMARK_NO_REFS = 0) := by
  have hall : ∀ o ∈ (mark_names E).map pdfmark_name.options,
      (o &&& PDFMARK_ODD_OK ≠ 0 → o &&& PDFMARK_NAMEABLE = 0) ∧
      (o &&& PDFMARK_NAMEABLE ≠ 0 →
        o &&& PDFMARK_ODD_OK = 0 ∧ o &&& PDFMARK_KEEP_NAME = 0 ∧ o &&& PDFMARK_NO_REFS = 0) := by
    simp only [mark_names, List.map]
    decide
  exact hall _ (List.mem_map_of_mem _ hp)

/-- C16: for a known mark type and an odd number of parameters, `pdfmark_process`
returns rangecheck and leaves the device unchanged (no handler is called) when the
table entry lacks PDFMARK_ODD_OK.  When the entry has PDFMARK_ODD_OK the odd count
is not rejected: with a valid transform string, the allocation of the pairs
succeeding and the reference substitution (in every parameter, or in every
parameter but the first with PDFMARK_KEEP_NAME) not failing, the result is that of
the handler, called with all the parameters and no object name. -/
theorem C16_odd_count (E : Env) (pdev : gx_device_pdf) (data : List Str) (ctm name : Str)
    (pmn : pdfmark_name)
    (hknown : (mark_names E).find? (fun p => pdf_key_eq name p.mname) = some pmn)
    (hodd : data.length % 2 = 1) :
    (pmn.options &&& PDFMARK_ODD_OK = 0 →
      pdfmark_process E pdev data ctm name = (gs_error_rangecheck, pdev)) ∧
    (pmn.options &&& PDFMARK_ODD_OK ≠ 0 → ctm.length ≤ 199 →
      (E.sscanf_ctm (c_string ctm)).length = 6 → E.alloc_ok pdev.allocs = true →
      ∀ refs : Int × List Str × gx_device_pdf,
        refs = (if pmn.options &&& PDFMARK_NO_REFS = 0 then
            process_refs E 1 data.length (if pmn.options &&& PDFMARK_KEEP_NAME ≠ 0 then 1 else 0)
              data (alloc E pdev).2
          else (0, data, (alloc E pdev).2)) →
        0 ≤ refs.1 →
        ∃ ctm1, pdfmark_process E pdev data ctm name = pmn.proc refs.2.2 refs.2.1 ctm1 none) := by
  have hmem : pmn ∈ mark_names E := List.mem_of_find?_eq_some hknown
  have hand : data.length &&& 1 = 1 := by rw [Nat.and_one_is_mod]; exact hodd
  constructor
  · intro hno
    unfold pdfmark_process
    by_cases h1 : ctm.length > 199
    · rw [if_pos h1]
    rw [if_neg h1]
    dsimp only
    by_cases h2 : (E.sscanf_ctm (c_string ctm)).length ≠ 6
    · rw [if_pos h2]
    rw [if_neg h2, hknown]
    simp only [process_entry, hno, ne_eq, not_true_eq_false, if_false, if_true, hand,
      one_ne_zero, not_false_eq_true]
  · intro hok hlen hscan halloc refs hrefs hcode
    have hnn := (mark_names_flags E pmn hmem).1 hok
    unfold pdfmark_process
    rw [if_neg (by omega)]
    dsimp only
    rw [if_neg (by rw [hscan]; simp), hknown]
    have hcode' : ¬ refs.1 < 0 := by omega
    rw [hrefs] at hcode' ⊢
    simp only [process_entry, hok, hnn, ne_eq, not_false_eq_true, not_true_eq_false, if_true,
      if_false, one_ne_zero, Nat.and_zero, Option.map_none', alloc, halloc, Bool.not_true,
      Bool.false_eq_true, Nat.sub_self]
    simp only [alloc, Nat.reduceSub] at hcode'
    simp only [hcode', if_false]
    exact ⟨_, rfl⟩

/-- C16 (witness): an OUT mark (no PDFMARK_ODD_OK) with one parameter is a
rangecheck error. -/
theorem C16_odd_count_witness :
    pdfmark_process sample_env {} ["/Title".toList] "[1 0 0 1 0 0]".toList "OUT".toList =
      (gs_error_rangecheck, {}) :=
  (C16_odd_count sample_env {} ["/Title".toList] "[1 0 0 1 0 0]".toList "OUT".toList
    ⟨"OUT".toList, pdfmark_OUT sample_env, 0⟩ rfl (by decide)).1 (by decide)

/-- The search for /_objdef in a parameter list of even length, in terms of pairs:
it finds the first pair with that key; the pairs copied around it are the pair
list without that pair. -/
theorem find_objdef_pairs : ∀ (n : Nat) (data : List Str) (j0 : Nat) (value : Str),
    data.length = 2 * n → first_objdef (pairs_of data) = some value →
    ∃ k, find_objdef data j0 = some (j0 + 2 * k) ∧ data.getD (2 * k + 1) [] = value ∧
      pairs_of (data.take (2 * k) ++ data.drop (2 * k + 2)) =
        remove_first_objdef (pairs_of data) ∧
      2 * k + 2 ≤ data.length := by
  intro n
  induction n with
  | zero =>
    intro data j0 value hlen hf
    have : data = [] := List.length_eq_zero.mp (by omega)
    subst this
    cases hf
  | succ n ih =>
    intro data j0 value hlen hf
    match data, hlen with
    | k :: v :: rest, hlen =>
      simp only [List.length_cons] at hlen
      have hpo : pairs_of (k :: v :: rest) = (k, v) :: pairs_of rest := rfl
      rw [hpo] at hf ⊢
      by_cases hk : pdf_key_eq k "/_objdef".toList = true
      · refine ⟨0, ?_, ?_, ?_, ?_⟩
        · simp only [find_objdef, hk, if_true]
          rfl
        · simp only [first_objdef, hk, if_true, Option.some.injEq] at hf
          exact hf
        · show pairs_of rest = remove_first_objdef ((k, v) :: pairs_of rest)
          simp only [remove_first_objdef, hk, if_true]
        · simp only [List.length_cons]
          omega
      · have hk : pdf_key_eq k "/_objdef".toList = false := (Bool.not_eq_true _).mp hk
        simp only [first_objdef, hk, Bool.false_eq_true, if_false] at hf
        obtain ⟨k1, h1, h2, h3, h4⟩ := ih rest (j0 + 2) value (by omega) hf
        refine ⟨k1 + 1, ?_, ?_, ?_, ?_⟩
        · simp only [find_objdef, hk, Bool.false_eq_true, if_false]
          rw [h1]
          exact congrArg some (by omega)
        · show (k :: v :: rest).getD (2 * k1 + 1 + 2) [] = value
          exact h2
        · show pairs_of (k :: v :: (rest.take (2 * k1) ++ rest.drop (2 * k1 + 2))) =
            remove_first_objdef ((k, v) :: pairs_of rest)
          simp only [remove_first_objdef, hk, Bool.false_eq_true, if_false, pairs_of]
          rw [h3]
        · simp only [List.length_cons]
          omega
    | [], hlen => simp at hlen
    | [_], hlen =>
      simp only [List.length_singleton] at hlen
      omega

/-- The reference substitution in the values (every second parameter from index 1)
leaves the number of parameters and the keys as they are. -/
theorem process_refs_keys (E : Env) : ∀ (fuel j : Nat) (pairs : List Str) (pdev : gx_device_pdf),
    j % 2 = 1 →
    (process_refs E 2 fuel j pairs pdev).2.1.length = pairs.length ∧
    ∀ i, i % 2 = 0 → (process_refs E 2 fuel j pairs pdev).2.1[i]? = pairs[i]? := by
  intro fuel
  induction fuel with
  | zero =>
    intro j pairs pdev _
    exact ⟨rfl, fun _ _ => rfl⟩
  | succ fuel ih =>
    intro j pairs pdev hj
    unfold process_refs
    dsimp only
    split_ifs
    · exact ⟨rfl, fun _ _ => rfl⟩
    · obtain ⟨h1, h2⟩ := ih (j + 2) (pairs.set j (E.pdf_replace_names pdev (pairs.getD j [])).2.1)
        (E.pdf_replace_names pdev (pairs.getD j [])).2.2 (by omega)
      refine ⟨by rw [h1, List.length_set], ?_⟩
      intro i hi
      rw [h2 i hi, List.getElem?_set_ne (by omega)]
    · exact ⟨rfl, fun _ _ => rfl⟩

/-- The body of the dispatch loop for a nameable entry and an even number of
parameters that hold an /_objdef pair with the value `value`. -/
theorem process_entry_objdef (E : Env) (pdev : gx_device_pdf) (data : List Str) (m : gs_matrix)
    (pmn : pdfmark_name) (value : Str) (hmem : pmn ∈ mark_names E)
    (hnameable : pmn.options &&& PDFMARK_NAMEABLE ≠ 0) (heven : data.length % 2 = 0)
    (hdef : first_objdef (pairs_of data) = some value) :
    ∃ pairs : List Str, pairs_of pairs = remove_first_objdef (pairs_of data) ∧
      pairs.length + 2 = data.length ∧
      process_entry E pdev data m pmn =
        (if (!E.pdf_objname_is_valid value) = true then (gs_error_rangecheck, pdev)
         else if (!(alloc E pdev).1) = true then (gs_error_VMerror, (alloc E pdev).2)
         else if (process_refs E 2 pairs.length 1 pairs (alloc E pdev).2).1 < 0 then
           ((process_refs E 2 pairs.length 1 pairs (alloc E pdev).2).1,
            (process_refs E 2 pairs.length 1 pairs (alloc E pdev).2).2.2)
         else pmn.proc (process_refs E 2 pairs.length 1 pairs (alloc E pdev).2).2.2
           (process_refs E 2 pairs.length 1 pairs (alloc E pdev).2).2.1
           (if pmn.options &&& PDFMARK_TRUECTM ≠ 0 then m
            else
              { xx := m.xx * (72 / pdev.HWResolution.1), xy := m.xy * (72 / pdev.HWResolution.2),
                yx := m.yx * (72 / pdev.HWResolution.1), yy := m.yy * (72 / pdev.HWResolution.2),
                tx := m.tx * (72 / pdev.HWResolution.1),
                ty := m.ty * (72 / pdev.HWResolution.2) })
           (some value)) := by
  obtain ⟨hodd, hkeep, hnorefs⟩ := (mark_names_flags E pmn hmem).2 hnameable
  obtain ⟨k, h1, h2, h3, h4⟩ := find_objdef_pairs (data.length / 2) data 0 value (by omega) hdef
  have h1 : find_objdef data 0 = some (2 * k) := by rw [h1, Nat.zero_add]
  have hand : data.length &&& 1 = 0 := by rw [Nat.and_one_is_mod]; exact heven
  refine ⟨data.take (2 * k) ++ data.drop (2 * k + 2), h3, ?_, ?_⟩
  · simp only [List.length_append, List.length_take, List.length_drop]
    omega
  · unfold process_entry
    simp only [hodd, hkeep, hnorefs, hnameable, ne_eq, not_true_eq_false, not_false_eq_true,
      if_true, if_false, hand, h1, Option.map_some', h2, Nat.sub_zero]

/-- C17: a mark of a nameable type with an even number of parameters that hold a
pair with the key /_objdef, `value` being the value of the first such pair.  If
`value` is not a valid object name, `pdfmark_process` returns rangecheck and leaves
the device unchanged (no handler is called).  If it is valid, the transform string
is valid, the allocation of the pairs succeeds and the reference substitution does
not fail, the result is that of the handler, called with `value` as the object name
and with the parameters that are the pair list without its first /_objdef pair
(the other pairs in their order), after reference substitution in the values,
which changes neither the number of parameters nor the keys. -/
theorem C17_objdef (E : Env) (pdev : gx_device_pdf) (data : List Str) (ctm name : Str)
    (pmn : pdfmark_name) (value : Str)
    (hknown : (mark_names E).find? (fun p => pdf_key_eq name p.mname) = some pmn)
    (hnameable : pmn.options &&& PDFMARK_NAMEABLE ≠ 0) (heven : data.length % 2 = 0)
    (hdef : first_objdef (pairs_of data) = some value) :
    (E.pdf_objname_is_valid value = false →
      pdfmark_process E pdev data ctm name = (gs_error_rangecheck, pdev)) ∧
    (E.pdf_objname_is_valid value = true → ctm.length ≤ 199 →
      (E.sscanf_ctm (c_string ctm)).length = 6 → E.alloc_ok pdev.allocs = true →
      ∃ pairs : List Str, pairs_of pairs = remove_first_objdef (pairs_of data) ∧
        pairs.length + 2 = data.length ∧
        (process_refs E 2 pairs.length 1 pairs (alloc E pdev).2).2.1.length = pairs.length ∧
        (∀ i, i % 2 = 0 →
          (process_refs E 2 pairs.length 1 pairs (alloc E pdev).2).2.1[i]? = pairs[i]?) ∧
        (0 ≤ (process_refs E 2 pairs.length 1 pairs (alloc E pdev).2).1 →
          ∃ ctm1, pdfmark_process E pdev data ctm name =
            pmn.proc (process_refs E 2 pairs.length 1 pairs (alloc E pdev).2).2.2
              (process_refs E 2 pairs.length 1 pairs (alloc E pdev).2).2.1 ctm1 (some value))) := by
  have hmem : pmn ∈ mark_names E := List.mem_of_find?_eq_some hknown
  constructor
  · intro hinv
    unfold pdfmark_process
    by_cases h1 : ctm.length > 199
    · rw [if_pos h1]
    rw [if_neg h1]
    dsimp only
    by_cases h2 : (E.sscanf_ctm (c_string ctm)).length ≠ 6
    · rw [if_pos h2]
    rw [if_neg h2, hknown]
    dsimp only
    obtain ⟨pairs, _, _, he⟩ := process_entry_objdef E pdev data
      { xx := (E.sscanf_ctm (c_string ctm)).getD 0 0, xy := (E.sscanf_ctm (c_string ctm)).getD 1 0,
        yx := (E.sscanf_ctm (c_string ctm)).getD 2 0, yy := (E.sscanf_ctm (c_string ctm)).getD 3 0,
        tx := (E.sscanf_ctm (c_string ctm)).getD 4 0, ty := (E.sscanf_ctm (c_string ctm)).getD 5 0 }
      pmn value hmem hnameable heven hdef
    rw [he, hinv]
    rfl
  · intro hval hlen hscan halloc
    obtain ⟨pairs, hp1, hp2, he⟩ := process_entry_objdef E pdev data
      { xx := (E.sscanf_ctm (c_string ctm)).getD 0 0, xy := (E.sscanf_ctm (c_string ctm)).getD 1 0,
        yx := (E.sscanf_ctm (c_string ctm)).getD 2 0, yy := (E.sscanf_ctm (c_string ctm)).getD 3 0,
        tx := (E.sscanf_ctm (c_string ctm)).getD 4 0, ty := (E.sscanf_ctm (c_string ctm)).getD 5 0 }
      pmn value hmem hnameable heven hdef
    obtain ⟨hk1, hk2⟩ := process_refs_keys E pairs.length 1 pairs (alloc E pdev).2 rfl
    refine ⟨pairs, hp1, hp2, hk1, hk2, ?_⟩
    intro hcode
    unfold pdfmark_process
    rw [if_neg (by omega)]
    dsimp only
    rw [if_neg (by rw [hscan]; simp), hknown]
    dsimp only
    rw [he, hval]
    have ha : (alloc E pdev).1 = true := halloc
    rw [ha, if_neg (by simp), if_neg (by simp), if_neg (by omega)]
    exact ⟨_, rfl⟩

/-- C17 (witness): a DEST mark with the pairs /Dest /d, /_objdef {n}, /Page 1: the
parameters for the handler are the pairs /Dest /d, /Page 1. -/
theorem C17_objdef_witness :
    remove_first_objdef (pairs_of ["/Dest".toList, "/d".toList, "/_objdef".toList,
      "\x7bn\x7d".toList, "/Page".toList, "1".toList]) =
      [("/Dest".toList, "/d".toList), ("/Page".toList, "1".toList)] ∧
    ∃ pairs : List Str,
      pairs_of pairs = remove_first_objdef (pairs_of ["/Dest".toList, "/d".toList,
        "/_objdef".toList, "\x7bn\x7d".toList, "/Page".toList, "1".toList]) ∧
      pairs.length + 2 = 6 := by
  refine ⟨by decide, ?_⟩
  obtain ⟨pairs, h1, h2, _⟩ :=
    (C17_objdef sample_env {} ["/Dest".toList, "/d".toList, "/_objdef".toList,
      "\x7bn\x7d".toList, "/Page".toList, "1".toList] "[1 0 0 1 0 0]".toList "DEST".toList
      ⟨"DEST".toList, pdfmark_DEST sample_env, PDFMARK_NAMEABLE⟩ "\x7bn\x7d".toList rfl
      (by decide) (by decide) (by decide)).2 rfl (by decide) (by decide) rfl
  exact ⟨pairs, h1, h2⟩

/-! ## C18: the /Rect scanner -/

theorem dropWhile_append_of_mem (p : Char → Bool) (c : Char) (hc : p c = false) :
    ∀ (s t : Str), c ∈ s → (s ++ t).dropWhile p = s.dropWhile p ++ t ∧ c ∈ s.dropWhile p := by
  intro s
  induction s with
  | nil =>
    intro t h
    cases h
  | cons a r ih =>
    intro t h
    by_cases ha : p a = true
    · have hne : c ≠ a := by
        intro e
        rw [e, ha] at hc
        cases hc
      have hr : c ∈ r := by
        rcases List.mem_cons.mp h with h1 | h1
        · exact absurd h1 hne
        · exact h1
      simp only [List.cons_append, List.dropWhile_cons, ha, if_true]
      exact ih t hr
    · simp only [List.cons_append, List.dropWhile_cons, ha, Bool.false_eq_true, if_false]
      exact ⟨trivial, h⟩

theorem dropWhile_suffix_str (p : Char → Bool) : ∀ s : Str, s.dropWhile p <:+ s := by
  intro s
  induction s with
  | nil => exact List.suffix_refl _
  | cons a r ih =>
    rw [List.dropWhile_cons]
    split_ifs
    · exact ih.trans (List.suffix_cons a r)
    · exact List.suffix_refl _

/-- The `%lg` directive on a text with a closing bracket does not depend on what
follows the text. -/
theorem lg_directive_append (lg : Str → Option (double × Str))
    (H1 : ∀ s t, ']' ∈ s → lg (s ++ t) = (lg s).map (fun p => (p.1, p.2 ++ t)))
    (s t : Str) (h : ']' ∈ s) :
    lg_directive lg (s ++ t) = (lg_directive lg s).map (fun p => (p.1, p.2 ++ t)) := by
  obtain ⟨e1, e2⟩ := dropWhile_append_of_mem isspace ']' (by decide) s t h
  unfold lg_directive
  rw [e1, H1 _ t e2]

theorem lg_directive_suffix (lg : Str → Option (double × Str))
    (H2 : ∀ s p, lg s = some p → p.2 <:+ s) (s : Str) (p : double × Str)
    (h : lg_directive lg s = some p) : p.2 <:+ s :=
  (H2 _ p h).trans (dropWhile_suffix_str isspace s)

theorem lg_directives_suffix (lg : Str → Option (double × Str))
    (H2 : ∀ s p, lg s = some p → p.2 <:+ s) :
    ∀ (n : Nat) (s : Str) (q : List double × Str), lg_directives lg n s = some q → q.2 <:+ s := by
  intro n
  induction n with
  | zero =>
    intro s q h
    simp only [lg_directives, Option.some.injEq] at h
    rw [← h]
  | succ n ih =>
    intro s q h
    rw [lg_directives] at h
    cases hp : lg_directive lg s with
    | none =>
      rw [hp] at h
      cases h
    | some p =>
      rw [hp] at h
      dsimp only at h
      cases hq : lg_directives lg n p.2 with
      | none =>
        rw [hq] at h
        cases h
      | some q1 =>
        rw [hq] at h
        simp only [Option.some.injEq] at h
        rw [← h]
        exact (ih p.2 q1 hq).trans (lg_directive_suffix lg H2 s p hp)

/-- A row of `%lg` directives that ends before a closing bracket reads the same
numbers when a text is appended. -/
theorem lg_directives_append (lg : Str → Option (double × Str))
    (H1 : ∀ s t, ']' ∈ s → lg (s ++ t) = (lg s).map (fun p => (p.1, p.2 ++ t)))
    (H2 : ∀ s p, lg s = some p → p.2 <:+ s) (t : Str) :
    ∀ (n : Nat) (s : Str) (q : List double × Str), lg_directives lg n s = some q →
      ']' ∈ q.2 → lg_directives lg n (s ++ t) = some (q.1, q.2 ++ t) := by
  intro n
  induction n with
  | zero =>
    intro s q h hm
    simp only [lg_directives, Option.some.injEq] at h ⊢
    rw [← h]
  | succ n ih =>
    intro s q h hm
    rw [lg_directives] at h
    cases hp : lg_directive lg s with
    | none =>
      rw [hp] at h
      cases h
    | some p =>
      rw [hp] at h
      dsimp only at h
      cases hq : lg_directives lg n p.2 with
      | none =>
        rw [hq] at h
        cases h
      | some q1 =>
        rw [hq] at h
        simp only [Option.some.injEq] at h
        subst h
        have hm1 : ']' ∈ q1.2 := hm
        have hs : ']' ∈ s :=
          ((lg_directives_suffix lg H2 n p.2 q1 hq).trans
            (lg_directive_suffix lg H2 s p hp)).subset hm1
        rw [lg_directives, lg_directive_append lg H1 s t hs, hp]
        dsimp only [Option.map_some']
        rw [ih p.2 q1 hq hm1]

/-- A row of `%lg` directives on a text with an appended tail that has no closing
bracket, when it ends before a closing bracket, has read the text only. -/
theorem lg_directives_of_append (lg : Str → Option (double × Str))
    (H1 : ∀ s t, ']' ∈ s → lg (s ++ t) = (lg s).map (fun p => (p.1, p.2 ++ t)))
    (H2 : ∀ s p, lg s = some p → p.2 <:+ s) (t : Str) (ht : ']' ∉ t) :
    ∀ (n : Nat) (s : Str) (q1 : List double × Str), lg_directives lg n (s ++ t) = some q1 →
      ']' ∈ q1.2 →
      ∃ r, q1.2 = r ++ t ∧ ']' ∈ r ∧ lg_directives lg n s = some (q1.1, r) := by
  intro n
  induction n with
  | zero =>
    intro s q1 h hm
    simp only [lg_directives, Option.some.injEq] at h
    subst h
    refine ⟨s, rfl, ?_, rfl⟩
    rcases List.mem_append.mp hm with h1 | h1
    · exact h1
    · exact absurd h1 ht
  | succ n ih =>
    intro s q1 h hm
    rw [lg_directives] at h
    cases hp : lg_directive lg (s ++ t) with
    | none =>
      rw [hp] at h
      cases h
    | some p =>
      rw [hp] at h
      dsimp only at h
      cases hq : lg_directives lg n p.2 with
      | none =>
        rw [hq] at h
        cases h
      | some q2 =>
        rw [hq] at h
        simp only [Option.some.injEq] at h
        subst h
        have hm1 : ']' ∈ q2.2 := hm
        have hst : ']' ∈ s ++ t :=
          ((lg_directives_suffix lg H2 n p.2 q2 hq).trans
            (lg_directive_suffix lg H2 (s ++ t) p hp)).subset hm1
        have hs : ']' ∈ s := by
          rcases List.mem_append.mp hst with h1 | h1
          · exact h1
          · exact absurd h1 ht
        rw [lg_directive_append lg H1 s t hs] at hp
        cases hp0 : lg_directive lg s with
        | none =>
          rw [hp0] at hp
          cases hp
        | some p0 =>
          rw [hp0] at hp
          simp only [Option.map_some', Option.some.injEq] at hp
          subst hp
          obtain ⟨r, e1, e2, e3⟩ := ih p0.2 q2 hq hm1
          refine ⟨r, e1, e2, ?_⟩
          rw [lg_directives, hp0]
          dsimp only
          rw [e3]

theorem scan_int_conv_nil (s : Str) (h : s.dropWhile isspace = []) : scan_int_conv s = none := by
  simp only [scan_int_conv, h]

theorem scan_int_conv_cons (s : Str) (c : Char) (r : Str) (h : s.dropWhile isspace = c :: r) :
    scan_int_conv s =
      if c = '-' then scan_body true r
      else if c = '+' then scan_body false r
      else scan_body false (c :: r) := by
  simp only [scan_int_conv, h, scan_body, Bool.false_eq_true, if_true, if_false]

theorem scan_digits_suffix : ∀ (r : Str) (acc : Nat), (scan_digits r acc).2 <:+ r := by
  intro r
  induction r with
  | nil =>
    intro acc
    exact List.suffix_refl _
  | cons c r ih =>
    intro acc
    rw [scan_digits]
    split_ifs
    · exact (ih _).trans (List.suffix_cons c r)
    · exact List.suffix_refl _

theorem scan_digits_append (t : Str) (c0 : Char) (h0 : isdigit c0 = false) :
    ∀ (r : Str) (acc : Nat), c0 ∈ r →
      scan_digits (r ++ t) acc = ((scan_digits r acc).1, (scan_digits r acc).2 ++ t) := by
  intro r
  induction r with
  | nil =>
    intro acc h
    cases h
  | cons c r ih =>
    intro acc h
    rw [List.cons_append, scan_digits, scan_digits]
    by_cases hc : isdigit c = true
    · rw [if_pos hc, if_pos hc]
      have hne : c0 ≠ c := by
        intro e
        rw [e, hc] at h0
        cases h0
      rcases List.mem_cons.mp h with h1 | h1
      · exact absurd h1 hne
      · exact ih _ h1
    · rw [if_neg hc, if_neg hc]
      rfl

theorem scan_body_suffix (neg : Bool) (r : Str) (p : Int × Str) (h : scan_body neg r = some p) :
    p.2 <:+ r := by
  cases r with
  | nil => cases h
  | cons c r1 =>
    rw [scan_body] at h
    by_cases hc : isdigit c = true
    · rw [if_pos hc] at h
      cases h
      exact scan_digits_suffix _ _
    · rw [if_neg hc] at h
      cases h

theorem scan_body_append (neg : Bool) (r t : Str) (h : ']' ∈ r) :
    scan_body neg (r ++ t) = (scan_body neg r).map (fun p => (p.1, p.2 ++ t)) := by
  cases r with
  | nil => cases h
  | cons c r1 =>
    rw [List.cons_append, scan_body, scan_body]
    by_cases hc : isdigit c = true
    · rw [if_pos hc, if_pos hc, ← List.cons_append,
        scan_digits_append t ']' (by decide) (c :: r1) 0 h]
      rfl
    · rw [if_neg hc, if_neg hc]
      rfl

/-- Whether the digits convert depends on the first byte only. -/
theorem scan_body_isSome (neg : Bool) (r : Str) :
    (scan_body neg r).isSome = (match r.head? with
      | some c => isdigit c
      | none => false) := by
  cases r with
  | nil => rfl
  | cons c r1 =>
    rw [scan_body]
    by_cases hc : isdigit c = true
    · rw [if_pos hc]
      simp [hc]
    · rw [if_neg hc]
      simp [hc]

/-- The unread rest of a `%d` conversion is a rest of the text. -/
theorem scan_int_conv_suffix (s : Str) (p : Int × Str) (h : scan_int_conv s = some p) :
    p.2 <:+ s := by
  cases hd : s.dropWhile isspace with
  | nil =>
    rw [scan_int_conv_nil s hd] at h
    cases h
  | cons c r =>
    have hs : (c :: r) <:+ s := hd ▸ dropWhile_suffix_str isspace s
    rw [scan_int_conv_cons s c r hd] at h
    split_ifs at h
    · exact ((scan_body_suffix _ _ p h).trans (List.suffix_cons c r)).trans hs
    · exact ((scan_body_suffix _ _ p h).trans (List.suffix_cons c r)).trans hs
    · exact (scan_body_suffix _ _ p h).trans hs

/-- A `%d` conversion on a text with a closing bracket does not depend on what
follows the text. -/
theorem scan_int_conv_append (s t : Str) (h : ']' ∈ s) :
    scan_int_conv (s ++ t) = (scan_int_conv s).map (fun p => (p.1, p.2 ++ t)) := by
  obtain ⟨e1, e2⟩ := dropWhile_append_of_mem isspace ']' (by decide) s t h
  cases hd : s.dropWhile isspace with
  | nil =>
    rw [hd] at e2
    cases e2
  | cons c r =>
    rw [hd] at e1 e2
    rw [scan_int_conv_cons (s ++ t) c (r ++ t) e1, scan_int_conv_cons s c r hd]
    by_cases h1 : c = '-'
    · have hr : ']' ∈ r := by
        rcases List.mem_cons.mp e2 with h2 | h2
        · rw [h1] at h2
          exact absurd h2 (by decide)
        · exact h2
      rw [if_pos h1, if_pos h1, scan_body_append true r t hr]
    · rw [if_neg h1, if_neg h1]
      by_cases h3 : c = '+'
      · have hr : ']' ∈ r := by
          rcases List.mem_cons.mp e2 with h2 | h2
          · rw [h3] at h2
            exact absurd h2 (by decide)
          · exact h2
        rw [if_pos h3, if_pos h3, scan_body_append false r t hr]
      · rw [if_neg h3, if_neg h3, ← List.cons_append, scan_body_append false (c :: r) t e2]

theorem dropWhile_append_of_all (p : Char → Bool) :
    ∀ (s t : Str), s.all p = true → (s ++ t).dropWhile p = t.dropWhile p := by
  intro s
  induction s with
  | nil =>
    intro t _
    rfl
  | cons a r ih =>
    intro t h
    rw [List.all_cons, Bool.and_eq_true] at h
    rw [List.cons_append, List.dropWhile_cons, if_pos h.1]
    exact ih t h.2

theorem dropWhile_nil_of_all (p : Char → Bool) :
    ∀ (s : Str), s.all p = true → s.dropWhile p = [] := by
  intro s h
  have := dropWhile_append_of_all p s [] h
  simpa using this

theorem exists_not_of_all_false (p : Char → Bool) :
    ∀ (s : Str), s.all p ≠ true → ∃ c ∈ s, p c = false := by
  intro s
  induction s with
  | nil =>
    intro h
    exact absurd rfl h
  | cons a r ih =>
    intro h
    by_cases ha : p a = true
    · have hr : r.all p ≠ true := by
        intro e
        apply h
        rw [List.all_cons, ha, e]
        rfl
      obtain ⟨c, hc1, hc2⟩ := ih hr
      exact ⟨c, List.mem_cons_of_mem _ hc1, hc2⟩
    · exact ⟨a, List.mem_cons_self _ _, by simpa using ha⟩

/-- The end check of `pdfmark_scan_rect`: with ` 0` appended, the `%d` conversion
succeeds exactly when the text is blank or starts, after blanks, with an integer. -/
theorem scan_int_conv_end_check (s : Str) :
    (scan_int_conv (s ++ " 0".toList)).isSome = true ↔
      s.all isspace = true ∨ (scan_int_conv s).isSome = true := by
  by_cases hall : s.all isspace = true
  · have e : (s ++ " 0".toList).dropWhile isspace = ['0'] := by
      rw [dropWhile_append_of_all isspace s _ hall]
      decide
    rw [scan_int_conv_cons _ '0' [] e]
    exact ⟨fun _ => Or.inl hall, fun _ => by decide⟩
  · obtain ⟨c0, hc1, hc2⟩ := exists_not_of_all_false isspace s hall
    obtain ⟨e1, e2⟩ := dropWhile_append_of_mem isspace c0 hc2 s " 0".toList hc1
    have key : (scan_int_conv (s ++ " 0".toList)).isSome = (scan_int_conv s).isSome := by
      cases hd : s.dropWhile isspace with
      | nil =>
        rw [hd] at e2
        cases e2
      | cons c r =>
        rw [hd] at e1
        rw [scan_int_conv_cons _ c _ e1, scan_int_conv_cons s c r hd]
        have hb : ∀ neg, (scan_body neg (r ++ " 0".toList)).isSome = (scan_body neg r).isSome := by
          intro neg
          rw [scan_body_isSome, scan_body_isSome]
          cases r with
          | nil => rfl
          | cons d r1 => rfl
        have hb2 : (scan_body false (c :: (r ++ " 0".toList))).isSome =
            (scan_body false (c :: r)).isSome := by
          rw [scan_body_isSome, scan_body_isSome]
          rfl
        split_ifs
        · exact hb true
        · exact hb false
        · exact hb2
    rw [key]
    exact ⟨fun h => Or.inr h, fun h => h.resolve_left hall⟩

theorem c_string_append_full : ∀ (s t : Str), c_string s = s →
    c_string (s ++ t) = s ++ c_string t := by
  intro s
  induction s with
  | nil =>
    intro t _
    rfl
  | cons a r ih =>
    intro t h
    unfold c_string at h ih ⊢
    rw [List.cons_append, List.takeWhile_cons]
    rw [List.takeWhile_cons] at h
    by_cases ha : (a.toNat != 0) = true
    · rw [if_pos ha] at h ⊢
      rw [ih t (List.cons.inj h).2]
      rfl
    · rw [if_neg ha] at h
      cases h

theorem c_string_append_cut : ∀ (s t : Str), c_string s ≠ s → c_string (s ++ t) = c_string s := by
  intro s
  induction s with
  | nil =>
    intro t h
    exact absurd rfl h
  | cons a r ih =>
    intro t h
    unfold c_string at h ih ⊢
    rw [List.cons_append, List.takeWhile_cons, List.takeWhile_cons]
    rw [List.takeWhile_cons] at h
    by_cases ha : (a.toNat != 0) = true
    · simp only [ha, if_true] at h ⊢
      rw [ih t (fun e => h (by rw [e]))]
    · simp only [ha, Bool.false_eq_true, if_false]

/-- The conversions of the format `[%lg %lg %lg %lg]%d` are all made exactly when
the text is four numbers in brackets followed by a text that starts, after
blanks, with an integer. -/
theorem sscanf_rect_fmt_isSome (lg : Str → Option (double × Str)) (X : Str) :
    (sscanf_rect_fmt lg X).isSome = true ↔
      ∃ tail, rect_brackets lg X tail ∧ (scan_int_conv tail).isSome = true := by
  cases X with
  | nil =>
    constructor
    · intro h
      cases h
    · rintro ⟨tail, ⟨r, vs, e, _⟩, _⟩
      cases e
  | cons c r =>
    rw [sscanf_rect_fmt]
    by_cases hc : c = '['
    · rw [if_pos hc]
      cases hq : lg_directives lg 4 r with
      | none =>
        constructor
        · intro h
          cases h
        · rintro ⟨tail, ⟨r1, vs, e, e2⟩, _⟩
          rw [(List.cons.inj e).2, e2] at hq
          cases hq
      | some q =>
        dsimp only
        constructor
        · intro h
          by_cases hcond : q.2.head? = some ']' ∧ (scan_int_conv (q.2.drop 1)).isSome = true
          · obtain ⟨q1, q2⟩ := q
            cases q2 with
            | nil => cases hcond.1
            | cons e r4 =>
              have he : e = ']' := by simpa using hcond.1
              subst he
              exact ⟨r4, ⟨r, q1, by rw [hc], hq⟩, hcond.2⟩
          · rw [if_neg hcond] at h
            cases h
        · rintro ⟨tail, ⟨r1, vs, e, e2⟩, h3⟩
          rw [(List.cons.inj e).2, e2] at hq
          cases hq
          rw [if_pos ⟨rfl, h3⟩]
          rfl
    · rw [if_neg hc]
      constructor
      · intro h
        cases h
      · rintro ⟨tail, ⟨r1, vs, e, _⟩, _⟩
        exact absurd (List.cons.inj e).1 hc

/-- The scan of `pdfmark_scan_rect`, on the value with ` 0` appended: all five
conversions are made exactly when the value (up to a NUL byte) is four numbers in
brackets and what follows the closing bracket is blank (and the value has no NUL
byte) or starts, after blanks, with an integer. -/
theorem scan_rect_accepts (lg : Str → Option (double × Str))
    (H1 : ∀ s t, ']' ∈ s → lg (s ++ t) = (lg s).map (fun p => (p.1, p.2 ++ t)))
    (H2 : ∀ s p, lg s = some p → p.2 <:+ s) (str : Str) :
    (sscanf_rect_fmt lg (c_string (str ++ " 0".toList))).isSome = true ↔
      ∃ tail, rect_brackets lg (c_string str) tail ∧
        ((c_string str = str ∧ tail.all isspace = true) ∨
          (scan_int_conv tail).isSome = true) := by
  by_cases hnul : c_string str = str
  · have hX : c_string (str ++ " 0".toList) = str ++ " 0".toList := by
      rw [c_string_append_full str _ hnul]
      rfl
    rw [hX, hnul, sscanf_rect_fmt_isSome]
    constructor
    · rintro ⟨tail1, ⟨r1, vs, e, e2⟩, h3⟩
      cases str with
      | nil => cases e
      | cons c r =>
        rw [List.cons_append] at e
        obtain ⟨ec, er⟩ := List.cons.inj e
        subst ec er
        obtain ⟨rr, f1, f2, f3⟩ := lg_directives_of_append lg H1 H2 " 0".toList (by decide) 4 r
          (vs, ']' :: tail1) e2 (List.mem_cons_self _ _)
        cases rr with
        | nil => cases f2
        | cons e4 r4 =>
          have f1a : ']' :: tail1 = e4 :: (r4 ++ " 0".toList) := f1
          obtain ⟨g1, g2⟩ := List.cons.inj f1a
          subst g1 g2
          refine ⟨r4, ⟨r, vs, rfl, f3⟩, ?_⟩
          rcases (scan_int_conv_end_check r4).mp h3 with h4 | h4
          · exact Or.inl ⟨rfl, h4⟩
          · exact Or.inr h4
    · rintro ⟨tail, ⟨r, vs, e, e2⟩, h3⟩
      subst e
      refine ⟨tail ++ " 0".toList, ⟨r ++ " 0".toList, vs, rfl, ?_⟩, ?_⟩
      · exact lg_directives_append lg H1 H2 " 0".toList 4 r (vs, ']' :: tail) e2
          (List.mem_cons_self _ _)
      · rcases h3 with ⟨_, h4⟩ | h4
        · exact (scan_int_conv_end_check tail).mpr (Or.inl h4)
        · exact (scan_int_conv_end_check tail).mpr (Or.inr h4)
  · rw [c_string_append_cut str _ hnul, sscanf_rect_fmt_isSome]
    constructor
    · rintro ⟨tail, h1, h2⟩
      exact ⟨tail, h1, Or.inr h2⟩
    · rintro ⟨tail, h1, h2⟩
      rcases h2 with ⟨h3, _⟩ | h3
      · exact absurd h3 hnul
      · exact ⟨tail, h1, h3⟩

/-- C18 (counterexample): with the integer scanner, the value `[0 0 1 1]5`, which
has the non-blank byte `5` after the closing bracket, is accepted (the `%d` of the
end check converts the `5`); so is `[0 0 1 1] 7 junk`.  A value of more than 100
bytes is a limitcheck error, not a rangecheck error. -/
theorem C18_counterexample :
    (pdfmark_scan_rect sample_env "[0 0 1 1]5".toList {}).1 = 0 ∧
    (pdfmark_scan_rect sample_env "[0 0 1 1] 7 junk".toList {}).1 = 0 ∧
    (pdfmark_scan_rect sample_env (List.replicate 101 'x') {}).1 = gs_error_limitcheck ∧
    (pdfmark_scan_rect sample_env "[0 0 1 1]x".toList {}).1 = gs_error_rangecheck := by
  refine ⟨by decide, by decide, by decide, by decide⟩

/-- C18 (amended): for a C library whose `sscanf` runs the format
`[%lg %lg %lg %lg]%d` directive by directive with a `%lg` conversion that does not
read past a closing bracket and leaves a rest of the text unread,
`pdfmark_scan_rect` accepts a value exactly when it is at most 100 bytes long, the
value (up to a NUL byte) is four numbers in brackets, and what follows the closing
bracket is blank (in a value without NUL byte) or starts, after blanks, with an
integer.  A longer value is a limitcheck error; any other value that is not
accepted is a rangecheck error. -/
theorem C18_scan_rect (E : Env) (lg : Str → Option (double × Str)) (str : Str)
    (pctm : gs_matrix)
    (hE : ∀ s, E.sscanf_rect s = sscanf_rect_fmt lg s)
    (H1 : ∀ s t, ']' ∈ s → lg (s ++ t) = (lg s).map (fun p => (p.1, p.2 ++ t)))
    (H2 : ∀ s p, lg s = some p → p.2 <:+ s) :
    ((pdfmark_scan_rect E str pctm).1 = 0 ↔
      str.length ≤ 100 ∧
      ∃ tail, rect_brackets lg (c_string str) tail ∧
        ((c_string str = str ∧ tail.all isspace = true) ∨
          (scan_int_conv tail).isSome = true)) ∧
    (100 < str.length → (pdfmark_scan_rect E str pctm).1 = gs_error_limitcheck) ∧
    (str.length ≤ 100 → (pdfmark_scan_rect E str pctm).1 ≠ 0 →
      (pdfmark_scan_rect E str pctm).1 = gs_error_rangecheck) := by
  have hacc := scan_rect_accepts lg H1 H2 str
  unfold pdfmark_scan_rect
  by_cases hlen : str.length > 100
  · rw [if_pos hlen]
    refine ⟨⟨fun h => absurd h (show gs_error_limitcheck ≠ 0 by decide),
      fun h => absurd h.1 (by omega)⟩, fun _ => rfl, fun h => absurd h (by omega)⟩
  · rw [if_neg hlen, hE]
    cases hs : sscanf_rect_fmt lg (c_string (str ++ " 0".toList)) with
    | none =>
      rw [hs] at hacc
      refine ⟨⟨fun h => absurd h (show gs_error_rangecheck ≠ 0 by decide), fun h => ?_⟩,
        fun h => absurd h hlen, fun _ _ => rfl⟩
      have := hacc.mpr h.2
      cases this
    | some v =>
      rw [hs] at hacc
      refine ⟨⟨fun _ => ⟨by omega, hacc.mp rfl⟩, fun _ => rfl⟩, fun h => absurd h hlen,
        fun _ h => ?_⟩
      exact absurd rfl h

/-- The sample `%lg` conversion does not read past a closing bracket. -/
theorem sample_lg_append (s t : Str) (h : ']' ∈ s) :
    sample_lg (s ++ t) = (sample_lg s).map (fun p => (p.1, p.2 ++ t)) := by
  unfold sample_lg
  rw [scan_int_conv_append s t h]
  cases scan_int_conv s <;> rfl

/-- The sample `%lg` conversion leaves a rest of the text unread. -/
theorem sample_lg_suffix (s : Str) (p : double × Str) (h : sample_lg s = some p) : p.2 <:+ s := by
  unfold sample_lg at h
  cases hs : scan_int_conv s with
  | none =>
    rw [hs] at h
    cases h
  | some q =>
    rw [hs] at h
    cases h
    exact scan_int_conv_suffix s q hs

/-- C18 (witness): with the integer conversion, the value `[0 0 1 1]` is accepted:
it is four numbers in brackets followed by nothing. -/
theorem C18_scan_rect_witness :
    (pdfmark_scan_rect sample_env_rect "[0 0 1 1]".toList {}).1 = 0 :=
  (C18_scan_rect sample_env_rect sample_lg "[0 0 1 1]".toList {} (fun _ => rfl)
    sample_lg_append sample_lg_suffix).1.mpr
    ⟨by decide, [], ⟨"0 0 1 1]".toList,
        [((0 : Int) : ℚ), ((0 : Int) : ℚ), ((1 : Int) : ℚ), ((1 : Int) : ℚ)],
        by decide, by decide⟩,
      Or.inl ⟨by decide, rfl⟩⟩

/-! ## C19: the numbers of a border -/

theorem dash_text_append (E : Env) (ds es : List double) :
    dash_text E (ds ++ es) = dash_text E ds ++ dash_text E es := by
  induction ds with
  | nil => rfl
  | cons v ds ih => simp [dash_text, ih]

/-- The distance transform of finite numbers by a matrix with finite entries. -/
theorem distance_transform_ieee_fin (a b : ℚ) (m : gs_matrix) :
    gs_distance_transform_ieee (.fin a) (.fin b) (matrix_ieee_of m) =
      (.fin (a * m.xx + b * m.yx), .fin (a * m.xy + b * m.yy)) := rfl

/-- On finite numbers the translation of `pdfmark_write_border` on C doubles with
the special values agrees with the one on rationals. -/
theorem write_border_dashes_ieee_finite (E : Env) (pctm : gs_matrix) :
    ∀ (fuel : Nat) (next : Option Str) (out : Str),
      write_border_dashes_ieee (border_env_of E) (matrix_ieee_of pctm) fuel next out =
        write_border_dashes E pctm fuel next out := by
  intro fuel
  induction fuel with
  | zero =>
    intro next out
    rfl
  | succ fuel ih =>
    intro next out
    cases next with
    | none => rfl
    | some s =>
      cases hs : E.sscanf_lg (s.drop 1) with
      | none =>
        have h1 : (border_env_of E).sscanf_lg (s.drop 1) = none := by
          show (E.sscanf_lg (s.drop 1)).map c_double.fin = none
          rw [hs]
          rfl
        simp only [write_border_dashes_ieee, write_border_dashes, hs, h1]
      | some v =>
        have h1 : (border_env_of E).sscanf_lg (s.drop 1) = some (.fin v) := by
          show (E.sscanf_lg (s.drop 1)).map c_double.fin = _
          rw [hs]
          rfl
        simp only [write_border_dashes_ieee, write_border_dashes, hs, h1,
          distance_transform_ieee_fin, c_add, c_fabs]
        rw [ih]
        rfl

theorem write_border_ieee_finite (E : Env) (str : Str) (pctm : gs_matrix) :
    pdfmark_write_border_ieee (border_env_of E) str (matrix_ieee_of pctm) =
      pdfmark_write_border E str pctm := by
  unfold pdfmark_write_border_ieee pdfmark_write_border
  by_cases hlen : str.length > 100
  · rw [if_pos hlen, if_pos hlen]
  rw [if_neg hlen, if_neg hlen]
  dsimp only
  cases hs : E.sscanf_border (c_string str) with
  | none =>
    have h1 : (border_env_of E).sscanf_border (c_string str) = none := by
      show (E.sscanf_border (c_string str)).map _ = none
      rw [hs]
      rfl
    rw [h1]
  | some v =>
    have h1 : (border_env_of E).sscanf_border (c_string str) =
        some (.fin v.1, .fin v.2.1, .fin v.2.2) := by
      show (E.sscanf_border (c_string str)).map _ = _
      rw [hs]
      rfl
    rw [h1]
    dsimp only
    simp only [distance_transform_ieee_fin, c_add, c_fabs]
    cases hn : strchr ((c_string str).drop 1) ']' with
    | none => rfl
    | some next =>
      dsimp only
      by_cases hd1 : next.drop 1 ≠ []
      · rw [if_pos hd1, if_pos hd1, write_border_dashes_ieee_finite]
        rfl
      · rw [if_neg hd1, if_neg hd1]
        rfl

/-! ## C20: named objects and forward references -/

/-- The binding of the name at the end of `pdfmark_bind_named_object`: when it
succeeds the name is bound to the object of the resource. -/
theorem bind_put_find (E : Env) (name : Str) (pres : pdf_resource_t) (pdev : gx_device_pdf) :
    (bind_put E name pres pdev).2.1 = pres ∧
    ((bind_put E name pres pdev).1 = 0 →
      cos_dict_find (bind_put E name pres pdev).2.2.local_named_objects name =
        some (cos_named_value.object pres.object)) := by
  unfold bind_put
  dsimp only
  by_cases ha : (!(alloc E pdev).1) = true
  · rw [if_pos ha]
    exact ⟨rfl, fun h => absurd h (show gs_error_VMerror ≠ 0 by decide)⟩
  · rw [if_neg ha]
    exact ⟨rfl, fun _ => cos_dict_find_put_same _ _ _⟩

/-- After a successful binding of a name, the name is bound to the object of the
resource. -/
theorem bind_registers (E : Env) (pdev : gx_device_pdf) (name : Str) (pres : pdf_resource_t)
    (hname : name ≠ [])
    (hok : (pdfmark_bind_named_object E pdev (some name) pres).1 = 0) :
    cos_dict_find (pdfmark_bind_named_object E pdev (some name) pres).2.2.local_named_objects
      name = some (cos_named_value.object
        (pdfmark_bind_named_object E pdev (some name) pres).2.1.object) := by
  have hlen : name.length ≠ 0 := fun h => hname (List.length_eq_zero.mp h)
  have hnamed : decide (name.length ≠ 0) = true := by simpa using hlen
  unfold pdfmark_bind_named_object at hok ⊢
  simp only [hnamed, if_true, Option.getD_some] at hok ⊢
  by_cases h1 : (bind_lookup E pdev name pres).1 < 0
  · rw [if_pos h1] at hok
    omega
  rw [if_neg h1] at hok ⊢
  by_cases h2 : (bind_substitute E true (bind_lookup E pdev name pres).2.1
      (bind_lookup E pdev name pres).2.2).1 < 0
  · rw [if_pos h2] at hok
    omega
  rw [if_neg h2] at hok ⊢
  obtain ⟨e1, e2⟩ := bind_put_find E name
    (bind_substitute E true (bind_lookup E pdev name pres).2.1
      (bind_lookup E pdev name pres).2.2).2.1
    (bind_substitute E true (bind_lookup E pdev name pres).2.1
      (bind_lookup E pdev name pres).2.2).2.2
  rw [e2 hok, e1]

/-- Binding a name that has a placeholder (a generic object with the positive
identifier of an earlier reference): the object of the resource gets that
identifier, whatever identifier it had. -/
theorem bind_after_reference (E : Env) (pdev : gx_device_pdf) (name : Str)
    (pres : pdf_resource_t) (o : cos_object_t) (hname : name ≠ [])
    (hfind : cos_dict_find pdev.local_named_objects name = some (cos_named_value.object o))
    (hgen : o.is_generic = true) (hid : 0 < o.id) :
    (pdfmark_bind_named_object E pdev (some name) pres).2.1.object.id = o.id := by
  have hlen : name.length ≠ 0 := fun h => hname (List.length_eq_zero.mp h)
  have hnamed : decide (name.length ≠ 0) = true := by simpa using hlen
  have h0 : o.id ≠ 0 := by omega
  have hl : bind_lookup E pdev name pres =
      (0, ({ pres with object := { pres.object with id := o.id } } : pdf_resource_t), pdev) := by
    unfold bind_lookup
    rw [hfind]
    simp only [hgen, if_true, pdf_reserve_object_id, h0, if_false]
  have hs : bind_substitute E true
      ({ pres with object := { pres.object with id := o.id } } : pdf_resource_t) pdev =
      (0, ({ pres with object := { pres.object with id := o.id } } : pdf_resource_t), pdev) := by
    unfold bind_substitute
    rw [if_neg]
    show ¬ o.id = -1
    omega
  unfold pdfmark_bind_named_object
  simp only [hnamed, if_true, Option.getD_some, hl, hs, lt_self_iff_false, if_false]
  rw [(bind_put_find E name _ pdev).1]

/-- After a reference that returns an object, the name is bound to that object. -/
theorem refer_named_find (pdev : gx_device_pdf) (name : Str) (o : cos_object_t)
    (href : (pdf_refer_named pdev name).2.1 = some o) :
    cos_dict_find (pdf_refer_named pdev name).2.2.local_named_objects name =
      some (cos_named_value.object o) := by
  unfold pdf_refer_named at href ⊢
  cases hf : cos_dict_find pdev.local_named_objects name with
  | none =>
    rw [hf] at href
    simp only [Option.some.injEq] at href
    subst href
    exact cos_dict_find_put_same _ _ _
  | some v =>
    cases v with
    | object o1 =>
      rw [hf] at href
      simp only [Option.some.injEq] at href
      subst href
      exact hf
    | other =>
      rw [hf] at href
      cases href

/-- A reference to a name that is bound to an object returns that object and
changes nothing. -/
theorem refer_named_bound (pdev : gx_device_pdf) (name : Str) (o : cos_object_t)
    (hfind : cos_dict_find pdev.local_named_objects name = some (cos_named_value.object o)) :
    pdf_refer_named pdev name = (0, some o, pdev) := by
  unfold pdf_refer_named
  rw [hfind]

/-- Binding a name that is not bound yet: the object of the resource keeps its
identifier, or, having none (-1), gets the one that `pdf_substitute_resource` gives
it. -/
theorem bind_before_reference (E : Env) (pdev : gx_device_pdf) (name : Str)
    (pres : pdf_resource_t) (hname : name ≠ [])
    (hfree : cos_dict_find pdev.local_named_objects name = none) :
    (pdfmark_bind_named_object E pdev (some name) pres).2.1.object.id =
      (if pres.object.id = -1 then (E.pdf_substitute_resource pdev pres false).2.1.object.id
       else pres.object.id) := by
  have hlen : name.length ≠ 0 := fun h => hname (List.length_eq_zero.mp h)
  have hnamed : decide (name.length ≠ 0) = true := by simpa using hlen
  have hl : bind_lookup E pdev name pres = (0, pres, pdev) := by
    unfold bind_lookup
    rw [hfree]
  unfold pdfmark_bind_named_object
  simp only [hnamed, if_true, Option.getD_some, hl, lt_self_iff_false, if_false]
  by_cases h2 : (bind_substitute E true pres pdev).1 < 0
  · rw [if_pos h2]
    unfold bind_substitute
    split_ifs <;> rfl
  · rw [if_neg h2, (bind_put_find E name _ _).1]
    unfold bind_substitute
    split_ifs <;> rfl

/-- C20 (counterexample): on a device whose next identifier is 10, an object that
has the identifier 7 is bound to the name `{n}`.  After a reference to `{n}`,
which creates the placeholder with the identifier 10, the binding gives the object
the identifier 10; bound before any reference the object keeps the identifier 7,
and a later reference returns the object with 7.  The final identifiers of the two
orders differ. -/
theorem C20_counterexample :
    (pdf_refer_named { next_id := 10 } "\x7bn\x7d".toList).2.1 =
      some { id := 10, is_generic := true } ∧
    (pdfmark_bind_named_object sample_env
      (pdf_refer_named { next_id := 10 } "\x7bn\x7d".toList).2.2
      (some "\x7bn\x7d".toList) { object := { id := 7 } }).1 = 0 ∧
    (pdfmark_bind_named_object sample_env
      (pdf_refer_named { next_id := 10 } "\x7bn\x7d".toList).2.2
      (some "\x7bn\x7d".toList) { object := { id := 7 } }).2.1.object.id = 10 ∧
    (pdfmark_bind_named_object sample_env { next_id := 10 }
      (some "\x7bn\x7d".toList) { object := { id := 7 } }).1 = 0 ∧
    (pdfmark_bind_named_object sample_env { next_id := 10 }
      (some "\x7bn\x7d".toList) { object := { id := 7 } }).2.1.object.id = 7 ∧
    (pdf_refer_named
      (pdfmark_bind_named_object sample_env { next_id := 10 }
        (some "\x7bn\x7d".toList) { object := { id := 7 } }).2.2
      "\x7bn\x7d".toList).2.1 = some { id := 7 } := by
  refine ⟨by decide, by decide, by decide, by decide, by decide, by decide⟩

/-- C20 (amended): a name that is not empty and not bound yet, on a device whose
next identifier is positive.  (1) Order reference, then binding: the reference
`pdf_refer_named` returns a placeholder with the next identifier, and
`pdfmark_bind_named_object` gives the object of the resource that identifier,
whatever identifier it had.  (2) Order binding first: the object keeps its
identifier, or, having none (-1), gets the one that `pdf_substitute_resource`
gives it; so for an object with an identifier other than the next one the two
orders end with different identifiers.  (3) In both orders, after a binding that
succeeds a reference returns the bound object, and so does a second reference:
resolving the name twice gives the same identifier. -/
theorem C20_named_object_identifier (E : Env) (pdev : gx_device_pdf) (name : Str)
    (pres : pdf_resource_t) (hname : name ≠ [])
    (hfree : cos_dict_find pdev.local_named_objects name = none)
    (hnext : 0 < pdev.next_id) :
    ((pdf_refer_named pdev name).2.1.map cos_object_t.id = some pdev.next_id ∧
      (pdfmark_bind_named_object E (pdf_refer_named pdev name).2.2 (some name)
        pres).2.1.object.id = pdev.next_id) ∧
    ((pdfmark_bind_named_object E pdev (some name) pres).2.1.object.id =
        (if pres.object.id = -1 then (E.pdf_substitute_resource pdev pres false).2.1.object.id
         else pres.object.id) ∧
      (pres.object.id ≠ -1 → pres.object.id ≠ pdev.next_id →
        (pdfmark_bind_named_object E (pdf_refer_named pdev name).2.2 (some name)
          pres).2.1.object.id ≠
        (pdfmark_bind_named_object E pdev (some name) pres).2.1.object.id)) ∧
    (∀ pdev0 : gx_device_pdf,
      pdev0 = pdev ∨ pdev0 = (pdf_refer_named pdev name).2.2 →
      (pdfmark_bind_named_object E pdev0 (some name) pres).1 = 0 →
      (pdf_refer_named (pdfmark_bind_named_object E pdev0 (some name) pres).2.2 name).2.1 =
        some (pdfmark_bind_named_object E pdev0 (some name) pres).2.1.object ∧
      (pdf_refer_named
        (pdf_refer_named (pdfmark_bind_named_object E pdev0 (some name) pres).2.2 name).2.2
        name).2.1 =
        some (pdfmark_bind_named_object E pdev0 (some name) pres).2.1.object) := by
  have href : (pdf_refer_named pdev name).2.1 =
      some { id := pdev.next_id, is_generic := true } := by
    unfold pdf_refer_named
    rw [hfree]
    rfl
  have hf := refer_named_find pdev name _ href
  have hA := bind_after_reference E _ name pres _ hname hf rfl hnext
  have hB := bind_before_reference E pdev name pres hname hfree
  refine ⟨⟨by rw [href]; rfl, hA⟩, ⟨hB, ?_⟩, ?_⟩
  · intro h1 h2
    rw [hA, hB, if_neg h1]
    exact fun h => h2 h.symm
  · intro pdev0 _ hok
    have hb := refer_named_bound _ name _ (bind_registers E pdev0 name pres hname hok)
    constructor
    · rw [hb]
    · rw [hb, hb]

/-- C20 (witness): on a new device the reference to `{n}` creates the placeholder
with the identifier 1, and the binding of `{n}` to an object that has the
identifier 7 gives the object the identifier 1; bound first, the object keeps 7. -/
theorem C20_named_object_identifier_witness :
    (pdfmark_bind_named_object sample_env (pdf_refer_named {} "\x7bn\x7d".toList).2.2
      (some "\x7bn\x7d".toList) { object := { id := 7 } }).2.1.object.id = 1 ∧
    (pdfmark_bind_named_object sample_env (pdf_refer_named {} "\x7bn\x7d".toList).2.2
      (some "\x7bn\x7d".toList) { object := { id := 7 } }).2.1.object.id ≠
    (pdfmark_bind_named_object sample_env {} (some "\x7bn\x7d".toList)
      { object := { id := 7 } }).2.1.object.id ∧
    (pdf_refer_named (pdfmark_bind_named_object sample_env {} (some "\x7bn\x7d".toList)
      { object := { id := 7 } }).2.2 "\x7bn\x7d".toList).2.1 =
      some (pdfmark_bind_named_object sample_env {} (some "\x7bn\x7d".toList)
        { object := { id := 7 } }).2.1.object :=
  ⟨(C20_named_object_identifier sample_env {} "\x7bn\x7d".toList { object := { id := 7 } }
      (by decide) (by decide) (by decide)).1.2,
    (C20_named_object_identifier sample_env {} "\x7bn\x7d".toList { object := { id := 7 } }
      (by decide) (by decide) (by decide)).2.1.2 (by decide) (by decide),
    ((C20_named_object_identifier sample_env {} "\x7bn\x7d".toList { object := { id := 7 } }
      (by decide) (by decide) (by decide)).2.2 {} (Or.inl rfl) (by decide)).1⟩

/-! ## The loop and the deferred keys of `pdfmark_put_ao_pairs` -/

/-- Induction over the rounds of a first loop of `pdfmark_put_ao_pairs` that does
not fail: a relation between the pairs visited, the variables before and the
variables after holds when it holds for no pair and is carried over one round. -/
theorem ao_loop_induct (E : Env) (pairs : List Str) (pctm : gs_matrix) (fo : Bool)
    (P : List (Str × Str) → ao_vars → ao_vars → Prop) (hnil : ∀ st, P [] st st)
    (hcons : ∀ k v ps st r, P ps (ao_pair E pairs pctm fo k v st).2 r → P ((k, v) :: ps) st r) :
    ∀ (l : List Str) (st : ao_vars), 0 ≤ (ao_loop E pairs pctm fo l st).1 →
      P (pairs_of l) st (ao_loop E pairs pctm fo l st).2 := by
  intro l
  induction l using pair_list_induction with
  | h0 => intro st _; exact hnil st
  | h1 k => intro st _; exact hcons k [] [] st _ (hnil _)
  | h2 k v rest ih =>
    intro st h
    by_cases hc : (ao_pair E pairs pctm fo k v st).1 < 0
    · exfalso
      rw [ao_loop] at h
      simp only [hc, if_true] at h
      omega
    · have hlp : ao_loop E pairs pctm fo (k :: v :: rest) st =
          ao_loop E pairs pctm fo rest (ao_pair E pairs pctm fo k v st).2 := by
        rw [ao_loop]
        simp only [hc, if_false]
      rw [hlp] at h ⊢
      exact hcons k v _ st _ (ih _ h)

/-- The first loop of `pdfmark_put_ao_pairs` changes the device only in the
allocation count and in `max_referred_page`, whatever its return code. -/
theorem ao_loop_frame (E : Env) (pairs : List Str) (pctm : gs_matrix) (fo : Bool) :
    ∀ (l : List Str) (st : ao_vars),
      dev_frame (ao_loop E pairs pctm fo l st).2.pdev = dev_frame st.pdev := by
  intro l
  induction l using pair_list_induction with
  | h0 => intro st; rfl
  | h1 k => intro st; exact ao_pair_frame _ _ _ _ _ _ _
  | h2 k v rest ih =>
    intro st
    rw [ao_loop]
    by_cases h : (ao_pair E pairs pctm fo k v st).1 < 0
    · simp only [h, if_true]
      exact ao_pair_frame _ _ _ _ _ _ _
    · simp only [h, if_false]
      rw [ih]
      exact ao_pair_frame _ _ _ _ _ _ _

theorem ao_action_frame (E : Env) (fo : Bool) (st : ao_vars) :
    dev_frame (ao_action E fo st).2.pdev = dev_frame st.pdev := by
  unfold ao_action
  cases st.Action with
  | none => rfl
  | some act =>
    dsimp only
    split_ifs <;> rfl

/-- The device after `pdfmark_put_ao_pairs` differs from the device before only in
the allocation count and in `max_referred_page`, whatever the return code. -/
theorem put_ao_pairs_frame (E : Env) (pdev : gx_device_pdf) (pcd : cos_dict_t)
    (pairs : List Str) (pctm : gs_matrix) (params : ao_params_t) (fo : Bool) :
    dev_frame (pdfmark_put_ao_pairs E pdev pcd pairs pctm params fo).2.pdev = dev_frame pdev := by
  unfold pdfmark_put_ao_pairs
  dsimp only
  split_ifs
  · exact ao_loop_frame _ _ _ _ _ _
  · rw [ao_action_frame, ao_link_pdev]
    exact ao_loop_frame _ _ _ _ _ _
  · show dev_frame (ao_finish fo _).pdev = dev_frame pdev
    have h2 : ∀ x : ao_vars, (ao_finish fo x).pdev = x.pdev := fun _ => rfl
    rw [h2, ao_action_frame, ao_link_pdev]
    exact ao_loop_frame _ _ _ _ _ _

/-- The code and the text of `pdfmark_make_dest` do not depend on the allocation
count or on `max_referred_page`. -/
theorem make_dest_of_frame (E : Env) (p q : gx_device_pdf) (pk vk : Str) (pairs : List Str)
    (R : Nat) (h : dev_frame p = dev_frame q) :
    (pdfmark_make_dest E p pk vk pairs R).1 = (pdfmark_make_dest E q pk vk pairs R).1 ∧
    (pdfmark_make_dest E p pk vk pairs R).2.1 = (pdfmark_make_dest E q pk vk pairs R).2.1 := by
  have e1 : p.next_page = q.next_page := by
    have := congrArg gx_device_pdf.next_page h
    exact this
  have e2 : p.FirstPage = q.FirstPage := by
    have := congrArg gx_device_pdf.FirstPage h
    exact this
  have e3 : p.LastPage = q.LastPage := by
    have := congrArg gx_device_pdf.LastPage h
    exact this
  have e4 : p.page_ids = q.page_ids := by
    have := congrArg gx_device_pdf.page_ids h
    exact this
  have key : ∀ (c : Prop) [Decidable c] (s : Option Str),
      (if c then pdfmark_page_number p s else (0, p)).1 =
        (if c then pdfmark_page_number q s else (0, q)).1 ∧
      (if c then pdfmark_page_number p s else (0, p)).2.FirstPage =
        (if c then pdfmark_page_number q s else (0, q)).2.FirstPage ∧
      (if c then pdfmark_page_number p s else (0, p)).2.LastPage =
        (if c then pdfmark_page_number q s else (0, q)).2.LastPage ∧
      (if c then pdfmark_page_number p s else (0, p)).2.page_ids =
        (if c then pdfmark_page_number q s else (0, q)).2.page_ids := by
    intro c _ s
    by_cases hc : c
    · simp only [hc, if_true, pdfmark_page_number, e1]
      exact ⟨trivial, e2, e3, e4⟩
    · simp only [hc, if_false]
      exact ⟨trivial, e2, e3, e4⟩
  unfold pdfmark_make_dest pdf_page_id
  dsimp only
  obtain ⟨k1, k2, k3, k4⟩ := key
    (((if (pdfmark_find_key pk pairs).isSome then (1 : Int) else 0) +
      (if (pdfmark_find_key vk pairs).isSome then 1 else 0)) ≠ 0 ∨ R ≠ 0)
    (pdfmark_find_key pk pairs)
  rw [k1, k2, k3, k4]
  exact ⟨rfl, rfl⟩

/-- The variables after a first loop of `pdfmark_put_ao_pairs` that does not fail:
Action, File and URI are the last such pair, the Subtype is the value of the last
/Subtype pair; the last /Dest pair gives the Dest, with the coercion flag set;
pairs other than /Dest, /Page and /View leave the Dest alone; a null Dest stays
null when there is no /Dest pair and `pdfmark_make_dest` fails; reserved keys of
the dictionary keep their values, and every object value of the dictionary was
there before. -/
theorem ao_loop_vars (E : Env) (pairs : List Str) (pctm : gs_matrix) (fo : Bool)
    (l : List Str) (st : ao_vars) (h : 0 ≤ (ao_loop E pairs pctm fo l st).1) :
    (ao_loop E pairs pctm fo l st).2.Action =
      last_pair ["/Action".toList, "/A".toList] (pairs_of l) st.Action ∧
    (ao_loop E pairs pctm fo l st).2.File =
      last_pair ["/File".toList] (pairs_of l) st.File ∧
    (ao_loop E pairs pctm fo l st).2.URI =
      last_pair ["/URI".toList] (pairs_of l) st.URI ∧
    (ao_loop E pairs pctm fo l st).2.Subtype =
      (last_pair ["/Subtype".toList] (pairs_of l)
        (st.Subtype.map (fun s => ("/Subtype".toList, s)))).map Prod.snd ∧
    (∀ d, last_pair ["/Dest".toList] (pairs_of l) none = some d →
      (ao_loop E pairs pctm fo l st).2.Dest = some d.2 ∧
      (ao_loop E pairs pctm fo l st).2.coerce_dest = true) ∧
    ((∀ p ∈ pairs_of l, p.1 ≠ "/Dest".toList ∧ p.1 ≠ "/Page".toList ∧ p.1 ≠ "/View".toList) →
      (ao_loop E pairs pctm fo l st).2.Dest = st.Dest ∧
      (ao_loop E pairs pctm fo l st).2.coerce_dest = st.coerce_dest) ∧
    ((∀ p ∈ pairs_of l, p.1 ≠ "/Dest".toList) → st.Dest = none →
      (pdfmark_make_dest E st.pdev "/Page".toList "/View".toList pairs 0).1 < 0 →
      (ao_loop E pairs pctm fo l st).2.Dest = none) ∧
    (∀ key ∈ ao_loop_reserved fo,
      cos_dict_find (ao_loop E pairs pctm fo l st).2.pcd key = cos_dict_find st.pcd key) ∧
    (∀ key id ad,
      cos_dict_find (ao_loop E pairs pctm fo l st).2.pcd key = some (cos_value_t.object id ad) →
      cos_dict_find st.pcd key = some (cos_value_t.object id ad)) := by
  refine ⟨?_, ?_, ?_, ?_, ?_, ?_, ?_, ?_, ?_⟩
  · refine ao_loop_induct E pairs pctm fo
      (fun ps s r => r.Action = last_pair ["/Action".toList, "/A".toList] ps s.Action)
      (fun _ => rfl) ?_ l st h
    intro k v ps s r ih
    rw [ih, (ao_pair_vars E pairs pctm fo k v s).1]
    rfl
  · refine ao_loop_induct E pairs pctm fo
      (fun ps s r => r.File = last_pair ["/File".toList] ps s.File)
      (fun _ => rfl) ?_ l st h
    intro k v ps s r ih
    rw [ih, (ao_pair_vars E pairs pctm fo k v s).2.1]
    rfl
  · refine ao_loop_induct E pairs pctm fo
      (fun ps s r => r.URI = last_pair ["/URI".toList] ps s.URI)
      (fun _ => rfl) ?_ l st h
    intro k v ps s r ih
    rw [ih, (ao_pair_vars E pairs pctm fo k v s).2.2.1]
    rfl
  · refine ao_loop_induct E pairs pctm fo
      (fun ps s r => r.Subtype = (last_pair ["/Subtype".toList] ps
        (s.Subtype.map (fun s => ("/Subtype".toList, s)))).map Prod.snd)
      ?_ ?_ l st h
    · intro s
      cases hs : s.Subtype <;> simp [last_pair]
    · intro k v ps s r ih
      rw [ih, (ao_pair_vars E pairs pctm fo k v s).2.2.2.1]
      by_cases hk : k = "/Subtype".toList
      · subst hk
        simp only [last_pair, List.mem_singleton, if_true, Option.map]
      · simp only [last_pair, List.mem_singleton, hk, if_false]
  · refine ao_loop_induct E pairs pctm fo
      (fun ps s r => (∀ d, last_pair ["/Dest".toList] ps none = some d →
          r.Dest = some d.2 ∧ r.coerce_dest = true) ∧
        (last_pair ["/Dest".toList] ps none = none → s.Dest.isSome = true →
          r.Dest = s.Dest ∧ r.coerce_dest = s.coerce_dest))
      ?_ ?_ l st h |>.1
    · intro s
      exact ⟨(fun d hd => by cases hd), fun _ _ => ⟨rfl, rfl⟩⟩
    · intro k v ps s r ⟨i5, i6⟩
      obtain ⟨_, _, _, _, h5, h6, _, _⟩ := ao_pair_vars E pairs pctm fo k v s
      constructor
      · intro d hd
        rw [last_pair_cons_none] at hd
        cases hr : last_pair ["/Dest".toList] ps none with
        | some x =>
          rw [hr] at hd
          cases hd
          exact i5 _ hr
        | none =>
          rw [hr] at hd
          by_cases hk : k = "/Dest".toList
          · simp only [hk, if_true] at hd
            cases hd
            obtain ⟨e1, e2⟩ := h5 hk
            have := i6 hr (by rw [e1]; rfl)
            rw [this.1, this.2, e1, e2]
            exact ⟨rfl, rfl⟩
          · simp only [hk, if_false] at hd
            cases hd
      · intro hd hst
        rw [last_pair_cons_none] at hd
        cases hr : last_pair ["/Dest".toList] ps none with
        | some x =>
          rw [hr] at hd
          cases hd
        | none =>
          rw [hr] at hd
          by_cases hk : k = "/Dest".toList
          · simp only [hk, if_true] at hd
            cases hd
          · obtain ⟨e1, e2⟩ := h6 hk hst
            have := i6 hr (by rw [e1]; exact hst)
            rw [this.1, this.2, e1, e2]
            exact ⟨rfl, rfl⟩
  · refine ao_loop_induct E pairs pctm fo
      (fun ps s r => (∀ p ∈ ps, p.1 ≠ "/Dest".toList ∧ p.1 ≠ "/Page".toList ∧
          p.1 ≠ "/View".toList) → r.Dest = s.Dest ∧ r.coerce_dest = s.coerce_dest)
      (fun _ _ => ⟨rfl, rfl⟩) ?_ l st h
    intro k v ps s r ih hps
    obtain ⟨_, _, _, _, _, _, h7, _⟩ := ao_pair_vars E pairs pctm fo k v s
    have hk := hps (k, v) (List.mem_cons_self _ _)
    obtain ⟨e1, e2⟩ := h7 hk.1 hk.2.1 hk.2.2
    obtain ⟨e3, e4⟩ := ih (fun p hp => hps p (List.mem_cons_of_mem _ hp))
    exact ⟨e3.trans e1, e4.trans e2⟩
  · refine ao_loop_induct E pairs pctm fo
      (fun ps s r => (∀ p ∈ ps, p.1 ≠ "/Dest".toList) → s.Dest = none →
        (pdfmark_make_dest E s.pdev "/Page".toList "/View".toList pairs 0).1 < 0 →
        r.Dest = none)
      (fun _ _ hs _ => hs) ?_ l st h
    intro k v ps s r ih hps hs hmd
    obtain ⟨_, _, _, _, _, _, _, h8⟩ := ao_pair_vars E pairs pctm fo k v s
    have hk := hps (k, v) (List.mem_cons_self _ _)
    refine ih (fun p hp => hps p (List.mem_cons_of_mem _ hp)) (h8 hk hs hmd) ?_
    rw [(make_dest_of_frame E _ s.pdev _ _ pairs 0 (ao_pair_frame E pairs pctm fo k v s)).1]
    exact hmd
  · refine ao_loop_induct E pairs pctm fo
      (fun _ s r => ∀ key ∈ ao_loop_reserved fo,
        cos_dict_find r.pcd key = cos_dict_find s.pcd key)
      (fun _ _ _ => rfl) ?_ l st h
    intro k v ps s r ih key hkey
    rw [ih key hkey]
    exact scalar_update_find _ _ _ _ (ao_pair_pcd E pairs pctm fo k v s) hkey
  · refine ao_loop_induct E pairs pctm fo
      (fun _ s r => ∀ key id ad, cos_dict_find r.pcd key = some (cos_value_t.object id ad) →
        cos_dict_find s.pcd key = some (cos_value_t.object id ad))
      (fun _ _ _ _ hf => hf) ?_ l st h
    intro k v ps s r ih key id ad hf
    exact scalar_update_object _ _ _ _ _ _ (ao_pair_pcd E pairs pctm fo k v s) (ih key id ad hf)

/-- A `pdfmark_put_ao_pairs` that does not fail has run its three parts: the first
loop, the deferred Action and the final puts. -/
theorem put_ao_pairs_ok (E : Env) (pdev : gx_device_pdf) (pcd : cos_dict_t)
    (pairs : List Str) (pctm : gs_matrix) (params : ao_params_t) (fo : Bool)
    (h : 0 ≤ (pdfmark_put_ao_pairs E pdev pcd pairs pctm params fo).1) :
    0 ≤ (ao_loop E pairs pctm fo pairs (ao_init pdev pcd params)).1 ∧
    0 ≤ (ao_action E fo (ao_link fo
      (ao_loop E pairs pctm fo pairs (ao_init pdev pcd params)).2)).1 ∧
    (pdfmark_put_ao_pairs E pdev pcd pairs pctm params fo).2 =
      ao_finish fo (ao_action E fo (ao_link fo
        (ao_loop E pairs pctm fo pairs (ao_init pdev pcd params)).2)).2 := by
  have hdef : pdfmark_put_ao_pairs E pdev pcd pairs pctm params fo =
      (if (ao_loop E pairs pctm fo pairs (ao_init pdev pcd params)).1 < 0 then
        ao_loop E pairs pctm fo pairs (ao_init pdev pcd params)
       else if (ao_action E fo (ao_link fo
          (ao_loop E pairs pctm fo pairs (ao_init pdev pcd params)).2)).1 < 0 then
        ao_action E fo (ao_link fo (ao_loop E pairs pctm fo pairs (ao_init pdev pcd params)).2)
       else (0, ao_finish fo (ao_action E fo (ao_link fo
          (ao_loop E pairs pctm fo pairs (ao_init pdev pcd params)).2)).2)) := rfl
  rw [hdef] at h ⊢
  by_cases h1 : (ao_loop E pairs pctm fo pairs (ao_init pdev pcd params)).1 < 0
  · rw [if_pos h1] at h
    omega
  · rw [if_neg h1] at h ⊢
    by_cases h2 : (ao_action E fo (ao_link fo
        (ao_loop E pairs pctm fo pairs (ao_init pdev pcd params)).2)).1 < 0
    · rw [if_pos h2] at h
      omega
    · rw [if_neg h2]
      exact ⟨by omega, by omega, rfl⟩

theorem last_pair_mem (keys : List Str) (ps : List (Str × Str)) :
    ∀ (acc : Option (Str × Str)) (p : Str × Str), last_pair keys ps acc = some p →
      (p.1 ∈ keys ∧ p ∈ ps) ∨ acc = some p := by
  induction ps with
  | nil => intro acc p h; exact Or.inr h
  | cons q rest ih =>
    intro acc p h
    rw [last_pair] at h
    rcases ih _ p h with h1 | h1
    · exact Or.inl ⟨h1.1, List.mem_cons_of_mem _ h1.2⟩
    · by_cases hq : q.1 ∈ keys
      · rw [if_pos hq] at h1
        cases h1
        exact Or.inl ⟨hq, List.mem_cons_self _ _⟩
      · rw [if_neg hq] at h1
        exact Or.inr h1

theorem last_pair_none (keys : List Str) (ps : List (Str × Str))
    (h : ∀ p ∈ ps, p.1 ∉ keys) : ∀ acc, last_pair keys ps acc = acc := by
  induction ps with
  | nil => intro acc; rfl
  | cons q rest ih =>
    intro acc
    rw [last_pair, if_neg (h q (List.mem_cons_self _ _))]
    exact ih (fun p hp => h p (List.mem_cons_of_mem _ hp)) acc

/-- The deferred Action handling of `pdfmark_put_ao_pairs` keeps the Action and the
Subtype, and writes to the dictionary only under /A or under the key of the Action
pair. -/
theorem ao_action_keeps (E : Env) (fo : Bool) (x : ao_vars) :
    (ao_action E fo x).2.Action = x.Action ∧
    (ao_action E fo x).2.Subtype = x.Subtype ∧
    (∀ f, (ao_action E fo x).2.File = some f → x.File = some f) ∧
    (∀ key, key ≠ "/A".toList → (∀ act, x.Action = some act → act.1 ≠ key) →
      cos_dict_find (ao_action E fo x).2.pcd key = cos_dict_find x.pcd key) := by
  unfold ao_action
  cases hA : x.Action with
  | none => exact ⟨hA, rfl, fun _ h => h, fun _ _ _ => rfl⟩
  | some act =>
    dsimp only
    split_ifs
    all_goals first
      | exact ⟨(by first | exact hA | rfl), rfl, fun _ h => h, fun _ _ _ => rfl⟩
      | exact ⟨(by first | exact hA | rfl), rfl, (fun _ h => by cases h), fun key h1 _ => cos_dict_find_put_other _ _ _ _ h1.symm⟩
      | exact ⟨(by first | exact hA | rfl), rfl, fun _ h => h, fun key h1 _ => cos_dict_find_put_other _ _ _ _ h1.symm⟩
      | exact ⟨(by first | exact hA | rfl), rfl, fun _ h => h, fun key _ h2 => cos_dict_find_put_other _ _ _ _ (h2 act rfl)⟩

/-- The final puts of `pdfmark_put_ao_pairs` write only under /Dest, /Subtype and
the key of the File pair. -/
theorem ao_finish_find (fo : Bool) (x : ao_vars) (key : Str) (h1 : key ≠ "/Dest".toList)
    (h2 : key ≠ "/Subtype".toList) (h3 : ∀ f, x.File = some f → f.1 ≠ key) :
    cos_dict_find (ao_finish fo x).pcd key = cos_dict_find x.pcd key := by
  unfold ao_finish
  rcases hS : x.Subtype with _ | t <;> rcases hF : x.File with _ | f <;>
    rcases hD : x.Dest with _ | d <;> dsimp only <;> (try split_ifs) <;>
    (try simp only [cos_dict_find_put, if_neg h2.symm, if_neg h1.symm]) <;>
    (try rw [if_neg (h3 f hF)])

/-- The /Dest entry after the final puts of `pdfmark_put_ao_pairs`, when the File
pair (if any) has the key /File. -/
theorem ao_finish_dest (fo : Bool) (x : ao_vars)
    (h3 : ∀ f, x.File = some f → f.1 = "/File".toList) :
    cos_dict_find (ao_finish fo x).pcd "/Dest".toList =
      (match x.Dest with
       | some d =>
         some (cos_value_t.scalar (if x.coerce_dest then (pdfmark_coerce_dest d).2 else d))
       | none =>
         if fo && x.Action.isNone then
           some (cos_value_t.scalar ("[".toList ++
             sprintf_d (pdf_page_id x.pdev (x.pdev.next_page + 1)) ++
             " 0 R /XYZ null null null]".toList))
         else cos_dict_find x.pcd "/Dest".toList) := by
  have n1 : "/Subtype".toList ≠ "/Dest".toList := by decide
  have n2 : "/File".toList ≠ "/Dest".toList := by decide
  unfold ao_finish
  rcases hS : x.Subtype with _ | t <;> rcases hF : x.File with _ | f <;>
    rcases hD : x.Dest with _ | d <;> dsimp only <;> (try rw [h3 f hF]) <;>
    (try split_ifs) <;>
    (try simp only [cos_dict_find_put, if_neg n1, if_neg n2, if_true])

/-- Every object value in the dictionary after the final puts of
`pdfmark_put_ao_pairs` was there before. -/
theorem ao_finish_object (fo : Bool) (x : ao_vars) (key : Str) (id : Int)
    (ad : List (Str × Str))
    (h : cos_dict_find (ao_finish fo x).pcd key = some (cos_value_t.object id ad)) :
    cos_dict_find x.pcd key = some (cos_value_t.object id ad) := by
  unfold ao_finish at h
  rcases hS : x.Subtype with _ | t <;> rcases hF : x.File with _ | f <;>
    rcases hD : x.Dest with _ | d <;> rw [hS, hF, hD] at h <;> dsimp only at h <;>
    (try split_ifs at h) <;> (try simp only [cos_dict_find_put] at h) <;>
    (try split_ifs at h) <;> first | exact h | cases h

/-! ## C29: an Action /GoTo is copied as it is -/

/-- The File pair after the first loop of `pdfmark_put_ao_pairs` has the key /File. -/
theorem ao_loop_file_key (E : Env) (pdev : gx_device_pdf) (pcd : cos_dict_t)
    (pairs : List Str) (pctm : gs_matrix) (params : ao_params_t) (fo : Bool)
    (h : 0 ≤ (ao_loop E pairs pctm fo pairs (ao_init pdev pcd params)).1) (f : Str × Str)
    (hf : (ao_loop E pairs pctm fo pairs (ao_init pdev pcd params)).2.File = some f) :
    f.1 = "/File".toList := by
  rw [(ao_loop_vars E pairs pctm fo pairs _ h).2.1] at hf
  rcases last_pair_mem _ _ _ _ hf with h1 | h1
  · exact List.mem_singleton.mp h1.1
  · cases h1

/-- The Link rule leaves the variables alone when the Action is /GoTo. -/
theorem ao_link_goto (fo : Bool) (x : ao_vars) (k : Str)
    (hx : x.Action = some (k, "/GoTo".toList)) : ao_link fo x = x := by
  unfold ao_link
  rw [hx]
  have e : pdf_key_eq "/GoTo".toList "/GoTo".toList = true := by decide
  dsimp only
  rw [e, Bool.true_or, if_pos rfl]
  split_ifs <;> rfl

/-- The deferred Action handling for an Action /GoTo: the pair is put into the
dictionary as it is. -/
theorem ao_action_goto (E : Env) (fo : Bool) (x : ao_vars) (k : Str)
    (hx : x.Action = some (k, "/GoTo".toList)) :
    ao_action E fo x =
      (0, { x with pcd := cos_dict_put x.pcd k (cos_value_t.scalar "/GoTo".toList) }) := by
  unfold ao_action
  rw [hx]
  have e1 : pdf_key_eq "/GoTo".toList "/Launch".toList = false := by decide
  have e2 : pdf_key_eq "/GoTo".toList "/GoToR".toList = false := by decide
  have e3 : pdf_key_eq "/GoTo".toList "/Article".toList = false := by decide
  have e4 : pdf_key_eq "/GoTo".toList "/GoTo".toList = true := by decide
  have e5 : ¬ ("/GoTo".toList.length ≥ 4 ∧ "/GoTo".toList.take 2 = "<<".toList) := by decide
  dsimp only
  rw [e1, e2, e3, e4, if_neg e5, if_pos rfl, if_neg]
  simp

/-- C29: for every mark (annotation or outline) whose /Action value is exactly
/GoTo (the last /Action or /A pair, with key `k`), a `pdfmark_put_ao_pairs` that
does not fail leaves the pair in the output dictionary unchanged, under the same
key `k` and with the scalar value /GoTo, and builds no action subdictionary:
every object value of the output dictionary was in the dictionary passed in. -/
theorem C29_goto_action (E : Env) (pdev : gx_device_pdf) (pcd : cos_dict_t)
    (pairs : List Str) (pctm : gs_matrix) (params : ao_params_t) (fo : Bool) (k : Str)
    (hcode : 0 ≤ (pdfmark_put_ao_pairs E pdev pcd pairs pctm params fo).1)
    (hA : last_pair ["/Action".toList, "/A".toList] (pairs_of pairs) none =
      some (k, "/GoTo".toList)) :
    cos_dict_find (pdfmark_put_ao_pairs E pdev pcd pairs pctm params fo).2.pcd k =
      some (cos_value_t.scalar "/GoTo".toList) ∧
    (∀ key id ad,
      cos_dict_find (pdfmark_put_ao_pairs E pdev pcd pairs pctm params fo).2.pcd key =
        some (cos_value_t.object id ad) →
      cos_dict_find pcd.elements key = some (cos_value_t.object id ad)) := by
  obtain ⟨h1, _, heq⟩ := put_ao_pairs_ok E pdev pcd pairs pctm params fo hcode
  obtain ⟨lA, _, _, _, _, _, _, _, lO⟩ := ao_loop_vars E pairs pctm fo pairs _ h1
  have hF := ao_loop_file_key E pdev pcd pairs pctm params fo h1
  have lA1 : (ao_loop E pairs pctm fo pairs (ao_init pdev pcd params)).2.Action =
      some (k, "/GoTo".toList) := lA.trans hA
  have hk : k ∈ ["/Action".toList, "/A".toList] := by
    rcases last_pair_mem _ _ _ _ hA with h | h
    · exact h.1
    · cases h
  rw [heq, ao_link_goto fo _ k lA1, ao_action_goto E fo _ k lA1]
  constructor
  · rw [ao_finish_find]
    · exact cos_dict_find_put_same _ _ _
    · intro e
      rw [e] at hk
      revert hk
      decide
    · intro e
      rw [e] at hk
      revert hk
      decide
    · intro f hf e
      have := hF f hf
      rw [e] at this
      rw [this] at hk
      revert hk
      decide
  · intro key id ad hf
    have h2 := ao_finish_object fo _ key id ad hf
    exact lO key id ad (scalar_update_object [] _ _ key id ad
      (Or.inr ⟨k, "/GoTo".toList, List.not_mem_nil _, rfl⟩) h2)

/-- C29 (witness): the outline mark /Title (A) /Action /GoTo /Dest (x). -/
theorem C29_goto_action_witness :
    cos_dict_find (pdfmark_put_ao_pairs sample_env {} {}
      ["/Title".toList, "(A)".toList, "/Action".toList, "/GoTo".toList, "/Dest".toList,
        "(x)".toList] {} {} true).2.pcd "/Action".toList =
      some (cos_value_t.scalar "/GoTo".toList) ∧
    (∀ key id ad,
      cos_dict_find (pdfmark_put_ao_pairs sample_env {} {}
        ["/Title".toList, "(A)".toList, "/Action".toList, "/GoTo".toList, "/Dest".toList,
          "(x)".toList] {} {} true).2.pcd key = some (cos_value_t.object id ad) →
      cos_dict_find ({} : cos_dict_t).elements key = some (cos_value_t.object id ad)) :=
  C29_goto_action sample_env {} {}
    ["/Title".toList, "(A)".toList, "/Action".toList, "/GoTo".toList, "/Dest".toList,
      "(x)".toList] {} {} true "/Action".toList (by decide) (by decide)

/-! ## C28: Action values that are copied through -/

/-- The Link rule of `pdfmark_put_ao_pairs` changes at most the Dest, which it
clears. -/
theorem ao_link_cases (fo : Bool) (x : ao_vars) :
    ao_link fo x = x ∨ ao_link fo x = { x with Dest := none } := by
  unfold ao_link
  split_ifs
  · cases x.Action with
    | none => exact Or.inl rfl
    | some act =>
      dsimp only
      split_ifs
      · exact Or.inl rfl
      · exact Or.inr rfl
  · exact Or.inl rfl

/-- The deferred Action handling leaves a null Dest null. -/
theorem ao_action_dest_none (E : Env) (fo : Bool) (x : ao_vars) (h : x.Dest = none) :
    (ao_action E fo x).2.Dest = none := by
  unfold ao_action
  cases x.Action with
  | none => exact h
  | some act =>
    dsimp only
    split_ifs <;> first | exact h | rfl

/-- C23 (counterexample): an outline mark /Title (A) /View (bad), which supplies a
/View key, still gets the implicit destination of the current page, because the
/View value is not bracketed and `pdfmark_make_dest` fails. -/
theorem C23_counterexample :
    cos_dict_find (pdfmark_put_ao_pairs sample_env { page_ids := fun _ => 7 } {}
      ["/Title".toList, "(A)".toList, "/View".toList, "bad".toList] {} {} true).2.pcd
      "/Dest".toList = some (cos_value_t.scalar "[7 0 R /XYZ null null null]".toList) ∧
    pdfmark_find_key "/View".toList
      ["/Title".toList, "(A)".toList, "/View".toList, "bad".toList] = some "bad".toList := by
  decide

/-- C23 (amended): for an outline (`for_outline` true) and a `pdfmark_put_ao_pairs`
that does not fail: (1) when the mark has no /Action, /A or /Dest pair, and has no
/Page or /View pair or `pdfmark_make_dest` fails on its /Page and /View, the
dictionary gets the /Dest `[<id> 0 R /XYZ null null null]` with the object id of
page `next_page + 1`; (2) when the mark has an /Action or /A pair and no /Dest,
/Page or /View pair, no /Dest is written: a dictionary without /Dest stays without;
(3) when the mark has a /Dest pair and no /Action or /A pair, and the value of the
last /Dest pair is at most MAX_DEST_STRING bytes long, the coercion of that value
stays inside its buffer and the /Dest of the dictionary is that value, a string
turned into a name. -/
theorem C23_implicit_dest (E : Env) (pdev : gx_device_pdf) (pcd : cos_dict_t)
    (pairs : List Str) (pctm : gs_matrix) (params : ao_params_t)
    (hcode : 0 ≤ (pdfmark_put_ao_pairs E pdev pcd pairs pctm params true).1) :
    ((∀ p ∈ pairs_of pairs, p.1 ∉ ["/Action".toList, "/A".toList]) →
      (∀ p ∈ pairs_of pairs, p.1 ≠ "/Dest".toList) →
      ((∀ p ∈ pairs_of pairs, p.1 ≠ "/Page".toList ∧ p.1 ≠ "/View".toList) ∨
        (pdfmark_make_dest E pdev "/Page".toList "/View".toList pairs 0).1 < 0) →
      cos_dict_find (pdfmark_put_ao_pairs E pdev pcd pairs pctm params true).2.pcd
        "/Dest".toList =
        some (cos_value_t.scalar ("[".toList ++
          sprintf_d (pdf_page_id pdev (pdev.next_page + 1)) ++
          " 0 R /XYZ null null null]".toList))) ∧
    (∀ act, last_pair ["/Action".toList, "/A".toList] (pairs_of pairs) none = some act →
      (∀ p ∈ pairs_of pairs, p.1 ≠ "/Dest".toList ∧ p.1 ≠ "/Page".toList ∧
        p.1 ≠ "/View".toList) →
      cos_dict_find pcd.elements "/Dest".toList = none →
      cos_dict_find (pdfmark_put_ao_pairs E pdev pcd pairs pctm params true).2.pcd
        "/Dest".toList = none) ∧
    (∀ d, last_pair ["/Dest".toList] (pairs_of pairs) none = some d →
      (∀ p ∈ pairs_of pairs, p.1 ∉ ["/Action".toList, "/A".toList]) →
      d.2.length ≤ E.MAX_DEST_STRING →
      pdfmark_coerce_dest_buf E d.2 = some (pdfmark_coerce_dest d.2) ∧
      cos_dict_find (pdfmark_put_ao_pairs E pdev pcd pairs pctm params true).2.pcd
        "/Dest".toList = some (cos_value_t.scalar (pdfmark_coerce_dest d.2).2)) := by
  obtain ⟨h1, _, heq⟩ := put_ao_pairs_ok E pdev pcd pairs pctm params true hcode
  obtain ⟨lA, _, _, _, lD1, lD2, lD3, lK, _⟩ := ao_loop_vars E pairs pctm true pairs _ h1
  have hF := ao_loop_file_key E pdev pcd pairs pctm params true h1
  have hfr := ao_loop_frame E pairs pctm true pairs (ao_init pdev pcd params)
  have hlink : ∀ x : ao_vars, ao_link true x = x := fun _ => rfl
  have hnp : (ao_loop E pairs pctm true pairs (ao_init pdev pcd params)).2.pdev.next_page =
      pdev.next_page := by
    have := congrArg gx_device_pdf.next_page hfr
    exact this
  have hpi : (ao_loop E pairs pctm true pairs (ao_init pdev pcd params)).2.pdev.page_ids =
      pdev.page_ids := by
    have := congrArg gx_device_pdf.page_ids hfr
    exact this
  rw [heq, hlink]
  refine ⟨?_, ?_, ?_⟩
  · intro hA hD hPV
    have lA1 : (ao_loop E pairs pctm true pairs (ao_init pdev pcd params)).2.Action = none := by
      rw [lA]
      exact last_pair_none _ _ hA _
    have lDn : (ao_loop E pairs pctm true pairs (ao_init pdev pcd params)).2.Dest = none := by
      rcases hPV with hPV | hPV
      · exact (lD2 (fun p hp => ⟨hD p hp, (hPV p hp).1, (hPV p hp).2⟩)).1
      · exact lD3 hD rfl hPV
    have hact : ao_action E true (ao_loop E pairs pctm true pairs (ao_init pdev pcd params)).2 =
        (0, (ao_loop E pairs pctm true pairs (ao_init pdev pcd params)).2) := by
      unfold ao_action
      rw [lA1]
    rw [hact, ao_finish_dest _ _ hF]
    rw [lDn, lA1]
    dsimp only
    unfold pdf_page_id
    rw [hnp, hpi]
    rfl
  · intro act hA hD hpcd
    have lA1 : (ao_loop E pairs pctm true pairs (ao_init pdev pcd params)).2.Action =
        some act := lA.trans hA
    have lDn : (ao_loop E pairs pctm true pairs (ao_init pdev pcd params)).2.Dest = none :=
      (lD2 hD).1
    obtain ⟨k1, _, k3, k4⟩ :=
      ao_action_keeps E true (ao_loop E pairs pctm true pairs (ao_init pdev pcd params)).2
    have hk : act.1 ∈ ["/Action".toList, "/A".toList] := by
      rcases last_pair_mem _ _ _ _ hA with h | h
      · exact h.1
      · cases h
    rw [ao_finish_dest _ _ (fun f hf => hF f (k3 f hf)), ao_action_dest_none E true _ lDn, k1,
      lA1]
    dsimp only
    rw [k4 "/Dest".toList (by decide), lK "/Dest".toList (by decide)]
    · exact hpcd
    · intro a ha e
      rw [lA1] at ha
      cases ha
      rw [e] at hk
      revert hk
      decide
  · intro d hD hA hlen
    refine ⟨coerce_dest_buf_of_le E d.2 hlen, ?_⟩
    have lA1 : (ao_loop E pairs pctm true pairs (ao_init pdev pcd params)).2.Action = none := by
      rw [lA]
      exact last_pair_none _ _ hA _
    obtain ⟨e1, e2⟩ := lD1 d hD
    have hact : ao_action E true (ao_loop E pairs pctm true pairs (ao_init pdev pcd params)).2 =
        (0, (ao_loop E pairs pctm true pairs (ao_init pdev pcd params)).2) := by
      unfold ao_action
      rw [lA1]
    rw [hact, ao_finish_dest _ _ hF]
    rw [e1, e2]
    rfl

/-- C23 (witness): on a device whose pages have the object id 7, the outline mark
/Title (A) gets the implicit destination, /Title (A) /Action /GoTo gets no /Dest,
and /Title (A) /Dest (x) gets the /Dest /x. -/
theorem C23_implicit_dest_witness :
    cos_dict_find (pdfmark_put_ao_pairs sample_env { page_ids := fun _ => 7 } {}
      ["/Title".toList, "(A)".toList] {} {} true).2.pcd "/Dest".toList =
      some (cos_value_t.scalar "[7 0 R /XYZ null null null]".toList) ∧
    cos_dict_find (pdfmark_put_ao_pairs sample_env { page_ids := fun _ => 7 } {}
      ["/Title".toList, "(A)".toList, "/Action".toList, "/GoTo".toList] {} {} true).2.pcd
      "/Dest".toList = none ∧
    (pdfmark_coerce_dest_buf sample_env "(x)".toList = some (pdfmark_coerce_dest "(x)".toList) ∧
      cos_dict_find (pdfmark_put_ao_pairs sample_env { page_ids := fun _ => 7 } {}
        ["/Title".toList, "(A)".toList, "/Dest".toList, "(x)".toList] {} {} true).2.pcd
        "/Dest".toList = some (cos_value_t.scalar (pdfmark_coerce_dest "(x)".toList).2)) ∧
    (pdfmark_coerce_dest "(x)".toList).2 = "/x".toList :=
  ⟨(C23_implicit_dest sample_env { page_ids := fun _ => 7 } {}
      ["/Title".toList, "(A)".toList] {} {} (by decide)).1 (by decide) (by decide)
      (Or.inl (by decide)),
    (C23_implicit_dest sample_env { page_ids := fun _ => 7 } {}
      ["/Title".toList, "(A)".toList, "/Action".toList, "/GoTo".toList] {} {}
      (by decide)).2.1 ("/Action".toList, "/GoTo".toList) (by decide) (by decide) (by decide),
    (C23_implicit_dest sample_env { page_ids := fun _ => 7 } {}
      ["/Title".toList, "(A)".toList, "/Dest".toList, "(x)".toList] {} {}
      (by decide)).2.2 ("/Dest".toList, "(x)".toList) (by decide) (by decide) (by decide),
    by decide⟩

/-! ## C30: /Color and /Title -/

/-- C30: one round of the first loop of `pdfmark_put_ao_pairs` stores a /Color pair
of an annotation under the key /C and a /Title pair under /T, the value unchanged;
for an outline the pair is stored under its own key /Color or /Title (the value
with its short escapes expanded), when the allocation of the buffer succeeds.  And
a `pdfmark_put_ao_pairs` for an annotation that does not fail writes no /Color and
no /Title key: a dictionary that has neither of them before has neither of them
afterwards. -/
theorem C30_color_title (E : Env) (pdev : gx_device_pdf) (pcd : cos_dict_t)
    (pairs : List Str) (pctm : gs_matrix) (params : ao_params_t) (v : Str) (st : ao_vars) :
    ao_pair E pairs pctm false "/Color".toList v st =
      (0, { st with pcd := cos_dict_put st.pcd "/C".toList (cos_value_t.scalar v) }) ∧
    ao_pair E pairs pctm false "/Title".toList v st =
      (0, { st with pcd := cos_dict_put st.pcd "/T".toList (cos_value_t.scalar v) }) ∧
    (E.alloc_ok st.pdev.allocs = true →
      ao_pair E pairs pctm true "/Color".toList v st =
        (0, { st with pcd := cos_dict_put st.pcd "/Color".toList
                        (cos_value_t.scalar (escape_expand v)),
                      pdev := (alloc E st.pdev).2 }) ∧
      ao_pair E pairs pctm true "/Title".toList v st =
        (0, { st with pcd := cos_dict_put st.pcd "/Title".toList
                        (cos_value_t.scalar (escape_expand v)),
                      pdev := (alloc E st.pdev).2 })) ∧
    (0 ≤ (pdfmark_put_ao_pairs E pdev pcd pairs pctm params false).1 →
      cos_dict_find pcd.elements "/Color".toList = none →
      cos_dict_find pcd.elements "/Title".toList = none →
      cos_dict_find (pdfmark_put_ao_pairs E pdev pcd pairs pctm params false).2.pcd
        "/Color".toList = none ∧
      cos_dict_find (pdfmark_put_ao_pairs E pdev pcd pairs pctm params false).2.pcd
        "/Title".toList = none) := by
  refine ⟨?_, ?_, ?_, ?_⟩
  · simp [ao_pair, pdf_key_eq]
  · simp [ao_pair, pdf_key_eq]
  · intro ha
    constructor <;> simp [ao_pair, pdf_key_eq, alloc, ha]
  · intro hcode hC hT
    obtain ⟨h1, _, heq⟩ := put_ao_pairs_ok E pdev pcd pairs pctm params false hcode
    obtain ⟨lA, _, _, _, _, _, _, lK, _⟩ := ao_loop_vars E pairs pctm false pairs _ h1
    have hF := ao_loop_file_key E pdev pcd pairs pctm params false h1
    have main : ∀ key : Str, key ∈ ao_loop_reserved false → key ≠ "/A".toList →
        key ≠ "/Action".toList → key ≠ "/Dest".toList → key ≠ "/Subtype".toList →
        key ≠ "/File".toList →
        cos_dict_find (pdfmark_put_ao_pairs E pdev pcd pairs pctm params false).2.pcd key =
          cos_dict_find pcd.elements key := by
      intro key hkey n1 n2 n3 n4 n5
      have hl : ∀ x : ao_vars, (ao_link false x).Action = x.Action ∧
          (ao_link false x).File = x.File ∧ (ao_link false x).pcd = x.pcd := by
        intro x
        rcases ao_link_cases false x with e | e <;> rw [e] <;> exact ⟨rfl, rfl, rfl⟩
      obtain ⟨l1, l2, l3⟩ := hl (ao_loop E pairs pctm false pairs (ao_init pdev pcd params)).2
      obtain ⟨_, _, k3, k4⟩ := ao_action_keeps E false
        (ao_link false (ao_loop E pairs pctm false pairs (ao_init pdev pcd params)).2)
      rw [heq, ao_finish_find _ _ _ n3 n4, k4 key n1, l3, lK key hkey]
      · rfl
      · intro act hact e
        rw [l1, lA] at hact
        rcases last_pair_mem _ _ _ _ hact with h | h
        · have h2 := h.1
          rw [e] at h2
          rcases List.mem_cons.mp h2 with e1 | e1
          · exact n2 e1
          · exact n1 (List.mem_singleton.mp e1)
        · cases h
      · intro f hf e
        have := hF f (l2 ▸ k3 f hf)
        exact n5 (e.symm.trans this)
    rw [main "/Color".toList (by decide) (by decide) (by decide) (by decide) (by decide)
        (by decide),
      main "/Title".toList (by decide) (by decide) (by decide) (by decide) (by decide)
        (by decide)]
    exact ⟨hC, hT⟩

/-- C30 (witness): the annotation /Color [1 0 0] /Title (T) has /C and /T and
neither /Color nor /Title; the outline /Color [1 0 0] /Title (T) has /Color and
/Title. -/
theorem C30_color_title_witness :
    (cos_dict_find (pdfmark_put_ao_pairs sample_env {} {}
        ["/Color".toList, "[1 0 0]".toList, "/Title".toList, "(T)".toList] {}
        { subtype := some "/Text".toList } false).2.pcd "/Color".toList = none ∧
      cos_dict_find (pdfmark_put_ao_pairs sample_env {} {}
        ["/Color".toList, "[1 0 0]".toList, "/Title".toList, "(T)".toList] {}
        { subtype := some "/Text".toList } false).2.pcd "/Title".toList = none) ∧
    (ao_pair sample_env [] {} true "/Color".toList "[1 0 0]".toList {} =
        (0, { ({} : ao_vars) with
                pcd := cos_dict_put ({} : ao_vars).pcd "/Color".toList
                  (cos_value_t.scalar (escape_expand "[1 0 0]".toList)),
                pdev := (alloc sample_env ({} : ao_vars).pdev).2 }) ∧
      ao_pair sample_env [] {} true "/Title".toList "[1 0 0]".toList {} =
        (0, { ({} : ao_vars) with
                pcd := cos_dict_put ({} : ao_vars).pcd "/Title".toList
                  (cos_value_t.scalar (escape_expand "[1 0 0]".toList)),
                pdev := (alloc sample_env ({} : ao_vars).pdev).2 })) ∧
    (pdfmark_put_ao_pairs sample_env {} {}
        ["/Color".toList, "[1 0 0]".toList, "/Title".toList, "(T)".toList] {}
        { subtype := some "/Text".toList } false).2.pcd =
      [("/C".toList, cos_value_t.scalar "[1 0 0]".toList),
       ("/T".toList, cos_value_t.scalar "(T)".toList),
       ("/Subtype".toList, cos_value_t.scalar "/Text".toList)] ∧
    (pdfmark_put_ao_pairs sample_env {} {}
        ["/Color".toList, "[1 0 0]".toList, "/Title".toList, "(T)".toList] {} {} true).2.pcd =
      [("/Color".toList, cos_value_t.scalar "[1 0 0]".toList),
       ("/Title".toList, cos_value_t.scalar "(T)".toList),
       ("/Dest".toList, cos_value_t.scalar "[0 0 R /XYZ null null null]".toList)] :=
  ⟨(C30_color_title sample_env {} {}
      ["/Color".toList, "[1 0 0]".toList, "/Title".toList, "(T)".toList] {}
      { subtype := some "/Text".toList } "[1 0 0]".toList {}).2.2.2 (by decide) (by decide)
      (by decide),
    (C30_color_title sample_env {} {} [] {} {} "[1 0 0]".toList {}).2.2.1 (by decide),
    by decide, by decide⟩

/-! ## C22: the Dest of a Link annotation -/

/-- The URI pair after the first loop of `pdfmark_put_ao_pairs` has the key /URI. -/
theorem ao_loop_uri_key (E : Env) (pdev : gx_device_pdf) (pcd : cos_dict_t)
    (pairs : List Str) (pctm : gs_matrix) (params : ao_params_t) (fo : Bool)
    (h : 0 ≤ (ao_loop E pairs pctm fo pairs (ao_init pdev pcd params)).1) (u : Str × Str)
    (hu : (ao_loop E pairs pctm fo pairs (ao_init pdev pcd params)).2.URI = some u) :
    u.1 = "/URI".toList := by
  rw [(ao_loop_vars E pairs pctm fo pairs _ h).2.2.1] at hu
  rcases last_pair_mem _ _ _ _ hu with h1 | h1
  · exact List.mem_singleton.mp h1.1
  · cases h1

/-- The Link rule for a Link annotation whose Action is neither /GoTo nor /GoToR
with a File: the Dest is cleared. -/
theorem ao_link_drop (x : ao_vars) (act : Str × Str) (hS : x.Subtype = some "/Link".toList)
    (hA : x.Action = some act)
    (hn : ¬ (act.2 = "/GoTo".toList ∨ (x.File.isSome = true ∧ act.2 = "/GoToR".toList))) :
    ao_link false x = { x with Dest := none } := by
  unfold ao_link
  rw [hS, hA]
  have e0 : pdf_key_eq "/Link".toList "/Link".toList = true := by decide
  have e1 : pdf_key_eq act.2 "/GoTo".toList = false :=
    decide_eq_false (fun h => hn (Or.inl h))
  dsimp only
  rw [e0, e1]
  by_cases hf : x.File.isSome = true
  · have e2 : pdf_key_eq act.2 "/GoToR".toList = false :=
      decide_eq_false (fun h => hn (Or.inr ⟨hf, h⟩))
    rw [e2]
    simp
  · rw [(Bool.not_eq_true _).mp hf]
    simp

/-- The Link rule keeps the variables when the Action is /GoTo, or /GoToR with a
File. -/
theorem ao_link_keep (fo : Bool) (x : ao_vars) (act : Str × Str) (hA : x.Action = some act)
    (hk : act.2 = "/GoTo".toList ∨ (x.File.isSome = true ∧ act.2 = "/GoToR".toList)) :
    ao_link fo x = x := by
  unfold ao_link
  rw [hA]
  dsimp only
  have e : (pdf_key_eq act.2 "/GoTo".toList ||
      (x.File.isSome && pdf_key_eq act.2 "/GoToR".toList)) = true := by
    rcases hk with h | ⟨h1, h2⟩
    · rw [h]
      rfl
    · rw [h1, h2]
      rfl
  rw [e, if_pos rfl]
  split_ifs <;> rfl

/-- The deferred Action handling with a null Dest, for an Action that is not an
inline dictionary: a subdictionary under /A that was not there before has no /D. -/
theorem ao_action_no_D (E : Env) (fo : Bool) (x : ao_vars) (hD : x.Dest = none)
    (hU : ∀ u, x.URI = some u → u.1 = "/URI".toList)
    (hI : ∀ act, x.Action = some act →
      ¬ (act.2.length ≥ 4 ∧ act.2.take 2 = "<<".toList))
    (id : Int) (ad : List (Str × Str))
    (h : cos_dict_find (ao_action E fo x).2.pcd "/A".toList =
      some (cos_value_t.object id ad)) :
    cos_dict_find x.pcd "/A".toList = some (cos_value_t.object id ad) ∨
      cos_dict_find ad "/D".toList = none := by
  have ha1 : ∀ (c1 c2 : Bool) (v : Str),
      cos_dict_find
        (if c2 = true then
          cos_dict_put (if c1 = true then cos_dict_put [] "/Type".toList "/Action".toList else [])
            "/S".toList "/Thread".toList
         else
          cos_dict_put (if c1 = true then cos_dict_put [] "/Type".toList "/Action".toList else [])
            "/S".toList v) "/D".toList = none := by
    intro c1 c2 v
    cases c1 <;> cases c2 <;> rfl
  have n2 : "/S".toList ≠ "/D".toList := by decide
  have n3 : "/F".toList ≠ "/D".toList := by decide
  have n4 : "/URI".toList ≠ "/D".toList := by decide
  unfold ao_action at h
  cases hA : x.Action with
  | none =>
    rw [hA] at h
    exact Or.inl h
  | some act =>
    rw [hA] at h
    dsimp only at h
    rw [if_neg (hI act hA), hD] at h
    dsimp only at h
    by_cases c1 : ((x.File.isSome || (none : Option Str).isSome || x.URI.isSome) &&
        (pdf_key_eq act.2 "/Launch".toList ||
          pdf_key_eq act.2 "/GoToR".toList && x.File.isSome ||
          pdf_key_eq act.2 "/Article".toList)) = true
    · rw [if_pos c1] at h
      by_cases c2 : (!(alloc E x.pdev).1) = true
      · rw [if_pos c2] at h
        exact Or.inl h
      · rw [if_neg c2] at h
        dsimp only at h
        rw [cos_dict_find_put_same] at h
        right
        have h2 := (cos_value_t.object.inj (Option.some.inj h)).2
        rw [← h2]
        rcases hF : x.File with _ | f <;> rcases hu : x.URI with _ | u <;> dsimp only <;>
          (try rw [hU u hu]) <;>
          (try simp only [cos_dict_find_put, if_neg n2, if_neg n3, if_neg n4]) <;>
          exact ha1 _ _ _
    · rw [if_neg c1] at h
      split_ifs at h
      · rw [cos_dict_find_put] at h
        split_ifs at h
        · cases h
        · exact Or.inl h
      · rw [cos_dict_find_put] at h
        split_ifs at h
        · cases h
        · exact Or.inl h
      · exact Or.inl h
      · exact Or.inl h

/-- The deferred Action handling for an annotation with Action /GoToR, a File and a
Dest, when it does not fail: the subdictionary under /A has the Dest as /D, and the
Dest and the File are used up. -/
theorem ao_action_gotor (E : Env) (x : ao_vars) (act f : Str × Str) (d : Str)
    (hA : x.Action = some act) (hv : act.2 = "/GoToR".toList) (hF : x.File = some f)
    (hD : x.Dest = some d) (hU : ∀ u, x.URI = some u → u.1 = "/URI".toList)
    (hok : 0 ≤ (ao_action E false x).1) :
    ∃ ad, cos_dict_find (ao_action E false x).2.pcd "/A".toList =
        some (cos_value_t.object 0 ad) ∧
      cos_dict_find ad "/D".toList =
        some (if x.coerce_dest then (pdfmark_coerce_dest d).2 else d) ∧
      (ao_action E false x).2.Dest = none ∧ (ao_action E false x).2.File = none := by
  have n2 : "/S".toList ≠ "/D".toList := by decide
  have n3 : "/F".toList ≠ "/D".toList := by decide
  have n4 : "/URI".toList ≠ "/D".toList := by decide
  have e3 : pdf_key_eq "/GoToR".toList "/Article".toList = false := by decide
  unfold ao_action at hok ⊢
  rw [hA] at hok ⊢
  dsimp only at hok ⊢
  rw [hF, hD, hv] at hok ⊢
  have c1 : (((some f).isSome || (some d).isSome || x.URI.isSome) &&
      (pdf_key_eq "/GoToR".toList "/Launch".toList ||
        pdf_key_eq "/GoToR".toList "/GoToR".toList && (some f).isSome ||
        pdf_key_eq "/GoToR".toList "/Article".toList)) = true := rfl
  rw [if_pos c1] at hok ⊢
  by_cases c2 : (!(alloc E x.pdev).1) = true
  · rw [if_pos c2] at hok
    exact absurd hok (show ¬ (0 : Int) ≤ gs_error_VMerror by decide)
  · rw [if_neg c2]
    dsimp only
    refine ⟨_, cos_dict_find_put_same _ _ _, ?_, rfl, rfl⟩
    rw [e3]
    rcases hu : x.URI with _ | u <;> dsimp only <;> (try rw [hU u hu]) <;>
      simp only [cos_dict_find_put, if_neg n2, if_neg n3, if_neg n4, if_true,
        Bool.false_eq_true, if_false]

/-- C22 (counterexample): the Link annotation with the inline Action
`<< /S /Launch /D /x >>` and the pair /Dest /y.  The Action is neither /GoTo nor
/GoToR with a File, and the Dest /y is dropped, but the action subdictionary has
a /D entry: the /D (or /Dest) token of the inline dictionary is copied into it. -/
theorem C22_counterexample :
    (pdfmark_put_ao_pairs sample_env_tokens {} {}
      ["/Action".toList, "<< /S /Launch /D /x >>".toList, "/Dest".toList, "/y".toList] {}
      { subtype := some "/Link".toList } false).1 = 0 ∧
    cos_dict_find (pdfmark_put_ao_pairs sample_env_tokens {} {}
      ["/Action".toList, "<< /S /Launch /D /x >>".toList, "/Dest".toList, "/y".toList] {}
      { subtype := some "/Link".toList } false).2.pcd "/Dest".toList = none ∧
    cos_dict_find (pdfmark_put_ao_pairs sample_env_tokens {} {}
      ["/Action".toList, "<< /S /Launch /D /x >>".toList, "/Dest".toList, "/y".toList] {}
      { subtype := some "/Link".toList } false).2.pcd "/A".toList =
      some (cos_value_t.object 0
        [("/S".toList, "/Launch".toList), ("/D".toList, "/x".toList)]) := by
  refine ⟨by decide, by decide, by decide⟩

/-- C22 (amended): for a Link annotation (the Subtype that results from the handler
and the /Subtype pairs is /Link) whose last /Action or /A pair has the value
`act.2`, and a `pdfmark_put_ao_pairs` that does not fail on a dictionary without
/Dest and /A: (1) when the Action is neither /GoTo nor /GoToR accompanied by a
/File pair, the dictionary gets no /Dest, and, when the Action is not an inline
`<< ... >>` dictionary, a subdictionary stored under /A has no /D; (2) when the
value of the last /Dest pair is at most MAX_DEST_STRING bytes long, its coercion
stays inside the buffer, and when the Action is /GoTo that value is stored as
/Dest (a string turned into a name), and when it is /GoToR with a /File pair it is
stored as /D of the subdictionary under /A. -/
theorem C22_link_dest (E : Env) (pdev : gx_device_pdf) (pcd : cos_dict_t)
    (pairs : List Str) (pctm : gs_matrix) (params : ao_params_t) (act : Str × Str)
    (hcode : 0 ≤ (pdfmark_put_ao_pairs E pdev pcd pairs pctm params false).1)
    (hS : (last_pair ["/Subtype".toList] (pairs_of pairs)
      (params.subtype.map (fun s => ("/Subtype".toList, s)))).map Prod.snd =
        some "/Link".toList)
    (hA : last_pair ["/Action".toList, "/A".toList] (pairs_of pairs) none = some act)
    (hpcd1 : cos_dict_find pcd.elements "/Dest".toList = none)
    (hpcd2 : cos_dict_find pcd.elements "/A".toList = none) :
    (¬ (act.2 = "/GoTo".toList ∨
        ((last_pair ["/File".toList] (pairs_of pairs) none).isSome = true ∧
          act.2 = "/GoToR".toList)) →
      cos_dict_find (pdfmark_put_ao_pairs E pdev pcd pairs pctm params false).2.pcd
        "/Dest".toList = none ∧
      (¬ (act.2.length ≥ 4 ∧ act.2.take 2 = "<<".toList) → ∀ id ad,
        cos_dict_find (pdfmark_put_ao_pairs E pdev pcd pairs pctm params false).2.pcd
          "/A".toList = some (cos_value_t.object id ad) →
        cos_dict_find ad "/D".toList = none)) ∧
    (∀ d, last_pair ["/Dest".toList] (pairs_of pairs) none = some d →
      d.2.length ≤ E.MAX_DEST_STRING →
      pdfmark_coerce_dest_buf E d.2 = some (pdfmark_coerce_dest d.2) ∧
      (act.2 = "/GoTo".toList →
        cos_dict_find (pdfmark_put_ao_pairs E pdev pcd pairs pctm params false).2.pcd
          "/Dest".toList = some (cos_value_t.scalar (pdfmark_coerce_dest d.2).2)) ∧
      ((last_pair ["/File".toList] (pairs_of pairs) none).isSome = true →
        act.2 = "/GoToR".toList →
        ∃ ad, cos_dict_find (pdfmark_put_ao_pairs E pdev pcd pairs pctm params false).2.pcd
            "/A".toList = some (cos_value_t.object 0 ad) ∧
          cos_dict_find ad "/D".toList = some (pdfmark_coerce_dest d.2).2)) := by
  obtain ⟨h1, h2, heq⟩ := put_ao_pairs_ok E pdev pcd pairs pctm params false hcode
  obtain ⟨lA, lF, _, lS, lD1, _, _, lK, _⟩ := ao_loop_vars E pairs pctm false pairs _ h1
  have hF := ao_loop_file_key E pdev pcd pairs pctm params false h1
  have hU := ao_loop_uri_key E pdev pcd pairs pctm params false h1
  have lA1 : (ao_loop E pairs pctm false pairs (ao_init pdev pcd params)).2.Action =
      some act := lA.trans hA
  have lS1 : (ao_loop E pairs pctm false pairs (ao_init pdev pcd params)).2.Subtype =
      some "/Link".toList := lS.trans hS
  have lF1 : (ao_loop E pairs pctm false pairs (ao_init pdev pcd params)).2.File =
      last_pair ["/File".toList] (pairs_of pairs) none := lF
  have hk : act.1 ∈ ["/Action".toList, "/A".toList] := by
    rcases last_pair_mem _ _ _ _ hA with h | h
    · exact h.1
    · cases h
  have hk1 : act.1 ≠ "/Dest".toList := by
    intro e
    rw [e] at hk
    revert hk
    decide
  have nA1 : "/A".toList ≠ "/Dest".toList := by decide
  have nA2 : "/A".toList ≠ "/Subtype".toList := by decide
  have nA3 : "/File".toList ≠ "/A".toList := by decide
  rw [heq]
  constructor
  · intro hn
    have hl := ao_link_drop (ao_loop E pairs pctm false pairs (ao_init pdev pcd params)).2 act
      lS1 lA1 (by rw [lF1]; exact hn)
    rw [hl] at h2 ⊢
    obtain ⟨k1, _, k3, k4⟩ := ao_action_keeps E false
      ({ (ao_loop E pairs pctm false pairs (ao_init pdev pcd params)).2 with Dest := none })
    have hF2 : ∀ f, (ao_action E false
        ({ (ao_loop E pairs pctm false pairs (ao_init pdev pcd params)).2 with
            Dest := none })).2.File = some f → f.1 = "/File".toList :=
      fun f hf => hF f (k3 f hf)
    constructor
    · rw [ao_finish_dest _ _ hF2, ao_action_dest_none E false _ rfl]
      dsimp only
      rw [if_neg (by simp), k4 "/Dest".toList (by decide)]
      · exact (lK "/Dest".toList (by decide)).trans hpcd1
      · intro a ha e
        have ha2 : some act = some a := lA1.symm.trans ha
        cases ha2
        exact hk1 e
    · intro hI id ad hf
      rw [ao_finish_find _ _ _ nA1 nA2] at hf
      · rcases ao_action_no_D E false
          ({ (ao_loop E pairs pctm false pairs (ao_init pdev pcd params)).2 with Dest := none })
          rfl (fun u hu => hU u hu)
          (fun a ha => by
            have ha2 : some act = some a := lA1.symm.trans ha
            cases ha2
            exact hI) id ad hf with h3 | h3
        · have h4 : cos_dict_find
              (ao_loop E pairs pctm false pairs (ao_init pdev pcd params)).2.pcd "/A".toList =
              some (cos_value_t.object id ad) := h3
          rw [lK "/A".toList (by decide)] at h4
          exact absurd (hpcd2.symm.trans h4) (by simp)
        · exact h3
      · intro f hf2 e
        exact nA3 ((hF2 f hf2).symm.trans e)
  · intro d hD hlen
    obtain ⟨e1, e2⟩ := lD1 d hD
    refine ⟨coerce_dest_buf_of_le E d.2 hlen, ?_, ?_⟩
    · intro hv
      have hA2 : (ao_loop E pairs pctm false pairs (ao_init pdev pcd params)).2.Action =
          some (act.1, "/GoTo".toList) := by
        rw [lA1, ← hv]
      rw [ao_link_goto false _ act.1 hA2, ao_action_goto E false _ act.1 hA2]
      refine Eq.trans (ao_finish_dest false _ ?_) ?_
      · exact fun f hf => hF f hf
      · dsimp only
        rw [e1, e2]
        rfl
    · intro hf hv
      obtain ⟨f, hf1⟩ := Option.isSome_iff_exists.mp hf
      have lF2 : (ao_loop E pairs pctm false pairs (ao_init pdev pcd params)).2.File =
          some f := lF1.trans hf1
      have hl := ao_link_keep false (ao_loop E pairs pctm false pairs (ao_init pdev pcd params)).2
        act lA1 (Or.inr ⟨by rw [lF2]; rfl, hv⟩)
      rw [hl] at h2 ⊢
      obtain ⟨ad, g1, g2, g3, g4⟩ := ao_action_gotor E _ act f d.2 lA1 hv lF2 e1 hU h2
      refine ⟨ad, ?_, ?_⟩
      · rw [ao_finish_find _ _ _ nA1 nA2]
        · exact g1
        · intro f2 hf2
          rw [g4] at hf2
          cases hf2
      · rw [g2, e2]
        rfl

/-- C22 (witness): the Link annotation /Action /Launch /File (a.exe) /Dest (x) has
no /Dest and no /D; with /Action /GoTo the /Dest is /x; with /Action /GoToR and
the File the /D of the subdictionary is /x. -/
theorem C22_link_dest_witness :
    (cos_dict_find (pdfmark_put_ao_pairs sample_env {} {}
        ["/Action".toList, "/Launch".toList, "/File".toList, "(a.exe)".toList,
          "/Dest".toList, "(x)".toList] {} { subtype := some "/Link".toList } false).2.pcd
        "/Dest".toList = none ∧
      (¬ ("/Launch".toList.length ≥ 4 ∧ "/Launch".toList.take 2 = "<<".toList) → ∀ id ad,
        cos_dict_find (pdfmark_put_ao_pairs sample_env {} {}
          ["/Action".toList, "/Launch".toList, "/File".toList, "(a.exe)".toList,
            "/Dest".toList, "(x)".toList] {} { subtype := some "/Link".toList } false).2.pcd
          "/A".toList = some (cos_value_t.object id ad) →
        cos_dict_find ad "/D".toList = none)) ∧
    cos_dict_find (pdfmark_put_ao_pairs sample_env {} {}
        ["/Action".toList, "/GoTo".toList, "/Dest".toList, "(x)".toList] {}
        { subtype := some "/Link".toList } false).2.pcd "/Dest".toList =
      some (cos_value_t.scalar (pdfmark_coerce_dest "(x)".toList).2) ∧
    (∃ ad, cos_dict_find (pdfmark_put_ao_pairs sample_env {} {}
        ["/Action".toList, "/GoToR".toList, "/File".toList, "(a.pdf)".toList,
          "/Dest".toList, "(x)".toList] {} { subtype := some "/Link".toList } false).2.pcd
        "/A".toList = some (cos_value_t.object 0 ad) ∧
      cos_dict_find ad "/D".toList = some (pdfmark_coerce_dest "(x)".toList).2) ∧
    pdfmark_coerce_dest_buf sample_env "(x)".toList = some (pdfmark_coerce_dest "(x)".toList) :=
  ⟨(C22_link_dest sample_env {} {}
      ["/Action".toList, "/Launch".toList, "/File".toList, "(a.exe)".toList,
        "/Dest".toList, "(x)".toList] {} { subtype := some "/Link".toList }
      ("/Action".toList, "/Launch".toList) (by decide) (by decide) (by decide) (by decide)
      (by decide)).1 (by decide),
    ((C22_link_dest sample_env {} {}
      ["/Action".toList, "/GoTo".toList, "/Dest".toList, "(x)".toList] {}
      { subtype := some "/Link".toList } ("/Action".toList, "/GoTo".toList) (by decide)
      (by decide) (by decide) (by decide) (by decide)).2 ("/Dest".toList, "(x)".toList)
      (by decide) (by decide)).2.1 (by decide),
    ((C22_link_dest sample_env {} {}
      ["/Action".toList, "/GoToR".toList, "/File".toList, "(a.pdf)".toList,
        "/Dest".toList, "(x)".toList] {} { subtype := some "/Link".toList }
      ("/Action".toList, "/GoToR".toList) (by decide) (by decide) (by decide) (by decide)
      (by decide)).2 ("/Dest".toList, "(x)".toList) (by decide) (by decide)).2.2 (by decide)
      (by decide),
    ((C22_link_dest sample_env {} {}
      ["/Action".toList, "/GoTo".toList, "/Dest".toList, "(x)".toList] {}
      { subtype := some "/Link".toList } ("/Action".toList, "/GoTo".toList) (by decide)
      (by decide) (by decide) (by decide) (by decide)).2 ("/Dest".toList, "(x)".toList)
      (by decide) (by decide)).1⟩

/-! ## C24, C25, C26: the depth and the remaining counts of the outline levels -/

/-- Replacing a level by one with the same `left` does not change the `left` of any
level. -/
theorem update_level_left (f : Nat → pdf_outline_level_t) (i : Nat) (v : pdf_outline_level_t)
    (h : v.left = (f i).left) (d : Nat) : (Function.update f i v d).left = (f d).left := by
  by_cases hd : d = i
  · subst hd
    simp [h]
  · simp [hd]

theorem adjust_parent_count_left (f : Nat → pdf_outline_level_t) (depth d : Nat) :
    (pdfmark_adjust_parent_count f depth d).left = (f d).left := by
  unfold pdfmark_adjust_parent_count
  dsimp only
  split_ifs
  · apply update_level_left
    rfl
  · apply update_level_left
    rfl
  · rfl

/-- Closing a level (`pdfmark_close_outline`) changes no `left`. -/
theorem close_outline_left (pdev : gx_device_pdf) (d : Nat) :
    ((pdfmark_close_outline pdev).2.outline_levels d).left = (pdev.outline_levels d).left := by
  unfold pdfmark_close_outline
  dsimp only
  by_cases hd : pdev.outline_depth > 0
  · rw [if_pos hd]
    dsimp only
    rw [adjust_parent_count_left, update_level_left, update_level_left]
    · split_ifs <;> rfl
    · rfl
  · rw [if_neg hd]
    dsimp only
    rw [update_level_left]
    split_ifs <;> rfl

theorem close_outline_depth (pdev : gx_device_pdf) :
    (pdfmark_close_outline pdev).2.outline_depth = pdev.outline_depth - 1 :=
  congrArg outline_view.depth (close_outline_view pdev)

/-- Adding a node (`out_add_node`) lowers the `left` of the current level by one and
changes no other `left`. -/
theorem out_add_node_left (p : gx_device_pdf) (node : pdf_outline_node_t) (d : Nat) :
    ((out_add_node p node).outline_levels d).left =
      (if d = p.outline_depth then (p.outline_levels d).left - 1
       else (p.outline_levels d).left) := by
  unfold out_add_node
  dsimp only
  by_cases hf : (p.outline_levels p.outline_depth).first.id = 0
  · rw [if_pos hf]
    dsimp only
    by_cases hd : d = p.outline_depth
    · subst hd
      rw [Function.update_same, if_pos rfl]
      dsimp only
      split_ifs
      · rw [update_level_left]
        rfl
      · rfl
    · rw [Function.update_noteq hd, if_neg hd]
      split_ifs
      · apply update_level_left
        rfl
      · rfl
  · rw [if_neg hf]
    dsimp only
    by_cases hd : d = p.outline_depth
    · subst hd
      rw [Function.update_same, if_pos rfl]
      dsimp only
      split_ifs
      · rw [adjust_parent_count_left]
      · rfl
    · rw [Function.update_noteq hd, if_neg hd]
      split_ifs
      · exact adjust_parent_count_left _ _ _
      · rfl

/-- The closing loop of `pdfmark_OUT` changes no `left` and does not raise the
depth. -/
theorem out_close_loop_left (n : Nat) :
    ∀ pdev : gx_device_pdf,
      (out_close_loop n pdev).outline_depth ≤ pdev.outline_depth ∧
      ∀ d, ((out_close_loop n pdev).outline_levels d).left = (pdev.outline_levels d).left := by
  induction n with
  | zero => intro pdev; exact ⟨le_refl _, fun _ => rfl⟩
  | succ n ih =>
    intro pdev
    rw [out_close_loop]
    split_ifs with h
    · obtain ⟨i1, i2⟩ := ih (pdfmark_close_outline pdev).2
      rw [close_outline_depth] at i1
      refine ⟨by omega, fun d => ?_⟩
      rw [i2 d, close_outline_left]
    · exact ⟨le_refl _, fun _ => rfl⟩

/-- What `pdfmark_OUT` does to the depth and to the `left` of the levels: nothing;
or (the mark has a /Count other than 0 and the depth is not MAX_OUTLINE_DEPTH - 1)
the current level loses one, the depth goes up by one and the new level expects
the count, or its negation as an `int` when it is negative; or (no /Count) the current level loses one and
levels are closed until the depth is 0 or the `left` of the current level is not 0. -/
theorem OUT_lefts (E : Env) (pdev : gx_device_pdf) (pairs : List Str) (pctm : gs_matrix)
    (objname : Option Str) :
    ((pdfmark_OUT E pdev pairs pctm objname).2.outline_depth = pdev.outline_depth ∧
      ∀ d, ((pdfmark_OUT E pdev pairs pctm objname).2.outline_levels d).left =
        (pdev.outline_levels d).left) ∨
    ((pdev.outline_depth : Int) ≠ (E.MAX_OUTLINE_DEPTH : Int) - 1 ∧
      (pdfmark_OUT E pdev pairs pctm objname).2.outline_depth = pdev.outline_depth + 1 ∧
      ((pdfmark_OUT E pdev pairs pctm objname).2.outline_levels
        (pdev.outline_depth + 1)).left =
        (if out_sub_count pairs 0 > 0 then out_sub_count pairs 0
         else int32_of (- out_sub_count pairs 0)) ∧
      ∀ d, d ≠ pdev.outline_depth + 1 →
        ((pdfmark_OUT E pdev pairs pctm objname).2.outline_levels d).left =
          (if d = pdev.outline_depth then (pdev.outline_levels d).left - 1
           else (pdev.outline_levels d).left)) ∨
    ((pdfmark_OUT E pdev pairs pctm objname).2.outline_depth ≤ pdev.outline_depth ∧
      (∀ d, ((pdfmark_OUT E pdev pairs pctm objname).2.outline_levels d).left =
        (if d = pdev.outline_depth then (pdev.outline_levels d).left - 1
         else (pdev.outline_levels d).left)) ∧
      ¬ ((pdfmark_OUT E pdev pairs pctm objname).2.outline_depth > 0 ∧
        ((pdfmark_OUT E pdev pairs pctm objname).2.outline_levels
          (pdfmark_OUT E pdev pairs pctm objname).2.outline_depth).left = 0)) := by
  unfold pdfmark_OUT
  dsimp only
  by_cases h1 : out_sub_count pairs 0 ≠ 0 ∧
      (pdev.outline_depth : Int) = (E.MAX_OUTLINE_DEPTH : Int) - 1
  · rw [if_pos h1]
    exact Or.inl ⟨rfl, fun _ => rfl⟩
  rw [if_neg h1]
  by_cases h2 : (!(alloc E pdev).1) = true
  · rw [if_pos h2]
    exact Or.inl ⟨rfl, fun _ => rfl⟩
  rw [if_neg h2]
  have hfr : dev_frame (pdfmark_put_ao_pairs E (alloc E pdev).2 {} pairs pctm {} true).2.pdev =
      dev_frame pdev := by
    rw [put_ao_pairs_frame]
    rfl
  have hD : (pdfmark_put_ao_pairs E (alloc E pdev).2 {} pairs pctm {} true).2.pdev.outline_depth =
      pdev.outline_depth := by
    have := congrArg gx_device_pdf.outline_depth hfr
    exact this
  have hL : (pdfmark_put_ao_pairs E (alloc E pdev).2 {} pairs pctm {} true).2.pdev.outline_levels =
      pdev.outline_levels := by
    have := congrArg gx_device_pdf.outline_levels hfr
    exact this
  by_cases h3 : (pdfmark_put_ao_pairs E (alloc E pdev).2 {} pairs pctm {} true).1 < 0
  · rw [if_pos h3]
    exact Or.inl ⟨hD, fun d => by rw [hL]⟩
  rw [if_neg h3]
  right
  generalize (pdfmark_put_ao_pairs E (alloc E pdev).2 {} pairs pctm {} true).2 = r at *
  obtain ⟨n1, n2, _, _, _, _⟩ := out_node_id_spec r.pdev
  have h4d : ∀ node, (out_add_node (out_node_id r.pdev).2 node).outline_depth =
      pdev.outline_depth := by
    intro node
    rw [(out_add_node_other _ _).2.2, n1, hD]
  have h4l : ∀ node d, ((out_add_node (out_node_id r.pdev).2 node).outline_levels d).left =
      (if d = pdev.outline_depth then (pdev.outline_levels d).left - 1
       else (pdev.outline_levels d).left) := by
    intro node d
    rw [out_add_node_left, n1, n2, hD, hL]
  have h5 : ∀ p4 p5 : gx_device_pdf,
      p5 = (if p4.closed_outline_depth = 0 then
        { p4 with outlines_open := p4.outlines_open + 1 } else p4) →
      p5.outline_depth = p4.outline_depth ∧ p5.outline_levels = p4.outline_levels := by
    intro p4 p5 hp5
    rw [hp5]
    split_ifs <;> exact ⟨rfl, rfl⟩
  have hd4 := h4d
    { id := (out_node_id r.pdev).1,
      parent_id :=
        if r.pdev.outline_depth = 0 then (out_node_id r.pdev).2.outlines_id
        else ((out_node_id r.pdev).2.outline_levels (r.pdev.outline_depth - 1)).last.id,
      prev_id := ((out_node_id r.pdev).2.outline_levels r.pdev.outline_depth).last.id,
      first_id := 0, last_id := 0, count := out_sub_count pairs 0,
      action := some { elements := r.pcd } }
  have hl4 := h4l
    { id := (out_node_id r.pdev).1,
      parent_id :=
        if r.pdev.outline_depth = 0 then (out_node_id r.pdev).2.outlines_id
        else ((out_node_id r.pdev).2.outline_levels (r.pdev.outline_depth - 1)).last.id,
      prev_id := ((out_node_id r.pdev).2.outline_levels r.pdev.outline_depth).last.id,
      first_id := 0, last_id := 0, count := out_sub_count pairs 0,
      action := some { elements := r.pcd } }
  rw [← hD]
  generalize (out_add_node (out_node_id r.pdev).2
    { id := (out_node_id r.pdev).1,
      parent_id :=
        if r.pdev.outline_depth = 0 then (out_node_id r.pdev).2.outlines_id
        else ((out_node_id r.pdev).2.outline_levels (r.pdev.outline_depth - 1)).last.id,
      prev_id := ((out_node_id r.pdev).2.outline_levels r.pdev.outline_depth).last.id,
      first_id := 0, last_id := 0, count := out_sub_count pairs 0,
      action := some { elements := r.pcd } }) = p4 at *
  obtain ⟨h5a, h5b⟩ := h5 p4 _ rfl
  generalize (if p4.closed_outline_depth = 0 then
        { p4 with outlines_open := p4.outlines_open + 1 } else p4) = p5 at *
  rw [hD]
  by_cases h4 : out_sub_count pairs 0 ≠ 0
  · rw [if_pos h4]
    left
    refine ⟨fun e => h1 ⟨h4, e⟩, rfl, ?_, ?_⟩
    · show (Function.update p5.outline_levels (pdev.outline_depth + 1) _
        (pdev.outline_depth + 1)).left = _
      rw [Function.update_same]
    · intro d hd
      show (Function.update p5.outline_levels (pdev.outline_depth + 1) _ d).left = _
      rw [Function.update_noteq hd, h5b]
      exact hl4 d
  · rw [if_neg h4]
    right
    obtain ⟨c1, c2⟩ := out_close_loop_left p5.outline_depth p5
    refine ⟨?_, ?_, ?_⟩
    · show (out_close_loop p5.outline_depth p5).outline_depth ≤ pdev.outline_depth
      rw [← hd4, ← h5a]
      exact c1
    · intro d
      show ((out_close_loop p5.outline_depth p5).outline_levels d).left = _
      rw [c2 d, h5b]
      exact hl4 d
    · exact out_close_loop_done p5.outline_depth p5 (le_refl _)
/-- One OUT mark keeps the depth below MAX_OUTLINE_DEPTH. -/
theorem OUT_depth_bound (E : Env) (pdev : gx_device_pdf) (pairs : List Str) (pctm : gs_matrix)
    (objname : Option Str) (h : pdev.outline_depth < E.MAX_OUTLINE_DEPTH) :
    (pdfmark_OUT E pdev pairs pctm objname).2.outline_depth < E.MAX_OUTLINE_DEPTH := by
  rcases OUT_lefts E pdev pairs pctm objname with ⟨h1, _⟩ | ⟨h1, h2, _⟩ | ⟨h1, _⟩
  · omega
  · omega
  · omega

/-- C24: under every sequence of `pdfmark_OUT` and `pdfmark_close_outline` calls that
starts at a depth below MAX_OUTLINE_DEPTH (0 at the start of a document), the depth
stays within 0 .. MAX_OUTLINE_DEPTH - 1; and an OUT mark with a /Count other than 0
that arrives at depth MAX_OUTLINE_DEPTH - 1 returns limitcheck and leaves the
device as it is. -/
theorem C24_outline_depth_bound (E : Env) (calls : List outline_call) (pdev : gx_device_pdf)
    (h0 : pdev.outline_depth < E.MAX_OUTLINE_DEPTH) :
    (run_outline_calls E calls pdev).outline_depth ≤ E.MAX_OUTLINE_DEPTH - 1 ∧
    (∀ (p : gx_device_pdf) (pairs : List Str) (pctm : gs_matrix) (objname : Option Str),
      out_sub_count pairs 0 ≠ 0 → p.outline_depth = E.MAX_OUTLINE_DEPTH - 1 →
      pdfmark_OUT E p pairs pctm objname = (gs_error_limitcheck, p)) := by
  constructor
  · have key : ∀ (cs : List outline_call) (p : gx_device_pdf),
        p.outline_depth < E.MAX_OUTLINE_DEPTH →
        (run_outline_calls E cs p).outline_depth < E.MAX_OUTLINE_DEPTH := by
      intro cs
      induction cs with
      | nil => intro p hp; exact hp
      | cons c rest ih =>
        intro p hp
        cases c with
        | OUT pairs pctm =>
          rw [run_outline_calls]
          exact ih _ (OUT_depth_bound E p pairs pctm none hp)
        | close =>
          rw [run_outline_calls]
          apply ih
          rw [close_outline_depth]
          omega
    have := key calls pdev h0
    omega
  · intro p pairs pctm objname hs hd
    unfold pdfmark_OUT
    dsimp only
    rw [if_pos]
    refine ⟨hs, ?_⟩
    rw [hd]
    have : 1 ≤ E.MAX_OUTLINE_DEPTH := by omega
    omega

/-- C24 (witness): three nested OUT marks and two closing calls in the sample
environment, whose level stack has 32 levels. -/
theorem C24_outline_depth_bound_witness :
    (run_outline_calls sample_env
      [outline_call.OUT ["/Count".toList, "1".toList, "/Title".toList, "(A)".toList] {},
       outline_call.OUT ["/Count".toList, "-2".toList, "/Title".toList, "(B)".toList] {},
       outline_call.close,
       outline_call.OUT ["/Title".toList, "(C)".toList] {},
       outline_call.close] {}).outline_depth ≤ sample_env.MAX_OUTLINE_DEPTH - 1 ∧
    (∀ (p : gx_device_pdf) (pairs : List Str) (pctm : gs_matrix) (objname : Option Str),
      out_sub_count pairs 0 ≠ 0 → p.outline_depth = sample_env.MAX_OUTLINE_DEPTH - 1 →
      pdfmark_OUT sample_env p pairs pctm objname = (gs_error_limitcheck, p)) :=
  C24_outline_depth_bound sample_env
    [outline_call.OUT ["/Count".toList, "1".toList, "/Title".toList, "(A)".toList] {},
     outline_call.OUT ["/Count".toList, "-2".toList, "/Title".toList, "(B)".toList] {},
     outline_call.close,
     outline_call.OUT ["/Title".toList, "(C)".toList] {},
     outline_call.close] {} (by decide)

/-- C25 (failing input): the mark /Count -2147483648 /Title (A) at the start of a
document.  The count is scanned into the `int` `sub_count`; `-sub_count` does not
fit an `int` and wraps to -2147483648, which is stored in `left` of the new level:
`pdfmark_OUT` returns 0 and leaves the depth 1 with a negative `left`. -/
theorem C25_failing_input :
    (pdfmark_OUT sample_env {}
      ["/Count".toList, "-2147483648".toList, "/Title".toList, "(A)".toList] {} none).1 = 0 ∧
    (pdfmark_OUT sample_env {}
      ["/Count".toList, "-2147483648".toList, "/Title".toList, "(A)".toList] {}
      none).2.outline_depth = 1 ∧
    ((pdfmark_OUT sample_env {}
      ["/Count".toList, "-2147483648".toList, "/Title".toList, "(A)".toList] {}
      none).2.outline_levels 1).left = -2147483648 ∧
    out_sub_count ["/Count".toList, "-2147483648".toList, "/Title".toList, "(A)".toList] 0 =
      -2147483648 := by
  refine ⟨by decide, by decide, by decide, by decide⟩

/-- C26 (failing input): a parent count of 2147483646 and a child count of 5.  The
sum does not fit an `int`: `parent->last.count += count` wraps to -2147483645, so
the open parent becomes a closed one.  Such a state is reached by OUT marks: after
/Count 2147483647 /Title (P), /Count 1 /Title (Q) and /Title (Q1), the mark
/Title (R) writes Q, whose count is 1, and the count of P, 2147483647 until then,
becomes -2147483648. -/
theorem C26_failing_input :
    ((pdfmark_adjust_parent_count
        (fun d => if d = 0 then { last := { count := 2147483646 } }
          else { last := { count := 5 } }) 1) 0).last.count = -2147483645 ∧
    ((run_marks (pdfmark_OUT sample_env)
        [(["/Count".toList, "2147483647".toList, "/Title".toList, "(P)".toList], {}),
         (["/Count".toList, "1".toList, "/Title".toList, "(Q)".toList], {}),
         (["/Title".toList, "(Q1)".toList], {})] {}).outline_levels 0).last.count =
      2147483647 ∧
    ((run_marks (pdfmark_OUT sample_env)
        [(["/Count".toList, "2147483647".toList, "/Title".toList, "(P)".toList], {}),
         (["/Count".toList, "1".toList, "/Title".toList, "(Q)".toList], {}),
         (["/Title".toList, "(Q1)".toList], {}),
         (["/Title".toList, "(R)".toList], {})] {}).outline_levels 0).last.count =
      -2147483648 := by
  refine ⟨by decide, by decide, by decide⟩

/-! ## C21, C27: the PDF/A and PDF/X checks of `pdfmark_annot` -/

/-- The flags found by the prescan of `pdfmark_annot` are 0 or the scanned value of
a /F pair. -/
theorem annot_flags_spec (l : List Str) :
    annot_flags l = 0 ∨
      ∃ p ∈ pairs_of l, p.1 = "/F".toList ∧ annot_flags l = (sscanf_d p.2).getD 0 := by
  induction l using pair_list_induction with
  | h0 => exact Or.inl rfl
  | h1 k =>
    rw [annot_flags]
    by_cases hk : k = "/F".toList
    · right
      have e : pdf_key_eq k "/F".toList = true := decide_eq_true hk
      refine ⟨(k, []), List.mem_cons_self _ _, hk, ?_⟩
      rw [if_pos e]
    · left
      have e : ¬ pdf_key_eq k "/F".toList = true := fun h => hk (of_decide_eq_true h)
      rw [if_neg e]
  | h2 k v rest ih =>
    rw [annot_flags]
    by_cases hk : k = "/F".toList
    · right
      have e : pdf_key_eq k "/F".toList = true := decide_eq_true hk
      refine ⟨(k, v), List.mem_cons_self _ _, hk, ?_⟩
      rw [if_pos e]
    · have e : ¬ pdf_key_eq k "/F".toList = true := fun h => hk (of_decide_eq_true h)
      rw [if_neg e]
      rcases ih with h | ⟨p, hp, h1, h2⟩
      · exact Or.inl h
      · exact Or.inr ⟨p, List.mem_cons_of_mem _ hp, h1, h2⟩

/-- An `annot_add` that returns 0 has appended one annotation object to the Annots
array of one page and has left the PDF/A and PDF/X settings alone. -/
theorem annot_add_ok (E : Env) (pdev : gx_device_pdf) (ps : gx_device_pdf_annot)
    (pairs : List Str) (pctm : gs_matrix) (objname : Option Str) (subtype : Option Str)
    (h : (annot_add E pdev ps pairs pctm objname subtype).1 = 0) :
    (∃ page obj, (annot_add E pdev ps pairs pctm objname subtype).2.2.pages_Annots =
      Function.update ps.pages_Annots page (some ((ps.pages_Annots page).getD [] ++ [obj]))) ∧
    (annot_add E pdev ps pairs pctm objname subtype).2.2.PDFA = ps.PDFA ∧
    (annot_add E pdev ps pairs pctm objname subtype).2.2.PDFX = ps.PDFX ∧
    (annot_add E pdev ps pairs pctm objname subtype).2.2.AbortPDFAX = ps.AbortPDFAX := by
  unfold annot_add at h ⊢
  dsimp only at h ⊢
  by_cases c1 : (E.pdf_make_named_dict pdev objname true).1 < 0
  · rw [if_pos c1] at h
    exact absurd h (by dsimp only; omega)
  rw [if_neg c1] at h ⊢
  by_cases c2 : (pdfmark_put_ao_pairs E (E.pdf_make_named_dict pdev objname true).2.2
      { id := (E.pdf_make_named_dict pdev objname true).2.1,
        elements := cos_dict_put [] "/Type".toList (cos_value_t.scalar "/Annot".toList) }
      pairs pctm { subtype := subtype, src_pg := -1 } false).1 < 0
  · rw [if_pos c2] at h
    exact absurd h (by dsimp only; omega)
  rw [if_neg c2] at h ⊢
  split_ifs at h ⊢
  all_goals first
    | exact absurd h (show gs_error_rangecheck ≠ 0 by decide)
    | exact absurd h (show gs_error_VMerror ≠ 0 by decide)
    | exact ⟨⟨_, _, rfl⟩, rfl, rfl, rfl⟩
/-- The PDF/X block of `pdfmark_annot` returns early only with a negative code when
the policy is neither 1 nor 2, and then changes nothing but PDFX and AbortPDFAX. -/
theorem annot_pdfx_other (E : Env) (pdev : gx_device_pdf) (ps : gx_device_pdf_annot)
    (pairs : List Str) (pctm : gs_matrix) (subtype : Option Str)
    (h1 : ps.PDFACompatibilityPolicy ≠ 1) (h2 : ps.PDFACompatibilityPolicy ≠ 2) :
    (∀ code, (annot_pdfx E pdev ps pairs pctm subtype).1 = some code → code < 0) ∧
    (annot_pdfx E pdev ps pairs pctm subtype).2.PDFA = ps.PDFA ∧
    (annot_pdfx E pdev ps pairs pctm subtype).2.pages_Annots = ps.pages_Annots ∧
    (ps.AbortPDFAX = true → (annot_pdfx E pdev ps pairs pctm subtype).2.AbortPDFAX = true) := by
  have hp : annot_pdfx_policy ps = (none, { ps with AbortPDFAX := true, PDFX := 0 }) := by
    unfold annot_pdfx_policy
    rw [if_neg h1, if_neg h2]
  unfold annot_pdfx
  cases annot_find_rect pairs <;> dsimp only <;> split_ifs <;> (try rw [hp]) <;>
    first
    | (refine ⟨fun code h => ?_, rfl, rfl, fun h => h⟩; cases h; assumption)
    | exact ⟨(fun _ h => by cases h), rfl, rfl, fun h => h⟩
    | exact ⟨(fun _ h => by cases h), rfl, rfl, fun _ => rfl⟩

/-- C21: when PDF/A mode is active (`PDFA` is not 0) and no /F pair of an annotation
mark has a value with the print bit 4 set (a value that does not scan counts as 0),
`pdfmark_annot` acts by `PDFACompatibilityPolicy`: with policy 1 it returns 0 and
changes nothing, so no annotation is added to a page; with policy 2 it returns
the error invalidfont and changes nothing; with any other policy it goes on as it
does from the state with `PDFA` cleared and `AbortPDFAX` set, and when it then
returns 0 it has appended the annotation to the Annots array of one page, with
`PDFA` cleared and `AbortPDFAX` set. -/
theorem C21_pdfa_policy (E : Env) (pdev : gx_device_pdf) (ps : gx_device_pdf_annot)
    (pairs : List Str) (pctm : gs_matrix) (objname : Option Str) (subtype : Option Str)
    (hA : ps.PDFA ≠ 0)
    (hF : ∀ p ∈ pairs_of pairs, p.1 = "/F".toList →
      Int.land ((sscanf_d p.2).getD 0) 4 = 0) :
    (ps.PDFACompatibilityPolicy = 1 →
      pdfmark_annot E pdev ps pairs pctm objname subtype = (0, pdev, ps)) ∧
    (ps.PDFACompatibilityPolicy = 2 →
      pdfmark_annot E pdev ps pairs pctm objname subtype = (gs_error_invalidfont, pdev, ps)) ∧
    (ps.PDFACompatibilityPolicy ≠ 1 → ps.PDFACompatibilityPolicy ≠ 2 →
      pdfmark_annot E pdev ps pairs pctm objname subtype =
        pdfmark_annot E pdev { ps with AbortPDFAX := true, PDFA := 0 } pairs pctm objname
          subtype ∧
      ((pdfmark_annot E pdev ps pairs pctm objname subtype).1 = 0 →
        (∃ page obj, (pdfmark_annot E pdev ps pairs pctm objname subtype).2.2.pages_Annots =
          Function.update ps.pages_Annots page
            (some ((ps.pages_Annots page).getD [] ++ [obj]))) ∧
        (pdfmark_annot E pdev ps pairs pctm objname subtype).2.2.PDFA = 0 ∧
        (pdfmark_annot E pdev ps pairs pctm objname subtype).2.2.AbortPDFAX = true)) := by
  have hflags : Int.land (annot_flags pairs) 4 = 0 := by
    rcases annot_flags_spec pairs with h | ⟨p, hp, h1, h2⟩
    · rw [h]
      rfl
    · rw [h2]
      exact hF p hp h1
  have hpa : annot_pdfa pairs ps =
      (if ps.PDFACompatibilityPolicy = 1 then (some 0, ps)
       else if ps.PDFACompatibilityPolicy = 2 then (some gs_error_invalidfont, ps)
       else (none, { ps with AbortPDFAX := true, PDFA := 0 })) := by
    unfold annot_pdfa
    rw [if_pos hA]
    dsimp only
    rw [if_pos hflags]
  refine ⟨?_, ?_, ?_⟩
  · intro h
    unfold pdfmark_annot
    rw [hpa, if_pos h]
  · intro h
    have h1 : ps.PDFACompatibilityPolicy ≠ 1 := by
      rw [h]
      decide
    unfold pdfmark_annot
    rw [hpa, if_neg h1, if_pos h]
  · intro h1 h2
    have hpb : annot_pdfa pairs { ps with AbortPDFAX := true, PDFA := 0 } =
        (none, { ps with AbortPDFAX := true, PDFA := 0 }) := by
      unfold annot_pdfa
      rw [if_neg (by simp)]
    have heq : pdfmark_annot E pdev ps pairs pctm objname subtype =
        pdfmark_annot E pdev { ps with AbortPDFAX := true, PDFA := 0 } pairs pctm objname
          subtype := by
      unfold pdfmark_annot
      rw [hpa, hpb, if_neg h1, if_neg h2]
    refine ⟨heq, ?_⟩
    obtain ⟨x1, x2, x3, x4⟩ := annot_pdfx_other E pdev
      { ps with AbortPDFAX := true, PDFA := 0 } pairs pctm subtype h1 h2
    unfold pdfmark_annot
    rw [hpa, if_neg h1, if_neg h2]
    dsimp only
    cases hx : (annot_pdfx E pdev { ps with AbortPDFAX := true, PDFA := 0 } pairs pctm
        subtype).1 with
    | some code =>
      dsimp only
      intro hcode
      have := x1 code hx
      omega
    | none =>
      dsimp only
      intro hcode
      obtain ⟨a1, a2, _, a4⟩ := annot_add_ok E pdev _ pairs pctm objname subtype hcode
      rw [x3] at a1
      rw [a2, a4, x2, x4 rfl]
      exact ⟨a1, rfl, rfl⟩

/-- C21 (witness): in PDF/A mode, a Text annotation with /F 2 (the print bit is not
set) on a device whose pages have the object id 5: nothing is done for policy 1,
invalidfont for policy 2, and for policy 0 the annotation is added to page 0 with
`PDFA` cleared and `AbortPDFAX` set. -/
theorem C21_pdfa_policy_witness :
    pdfmark_annot sample_env { page_ids := fun _ => 5 }
        { PDFA := 1, PDFACompatibilityPolicy := 1 }
        ["/F".toList, "2".toList, "/Contents".toList, "(c)".toList] {} none
        (some "/Text".toList) =
      (0, { page_ids := fun _ => 5 }, { PDFA := 1, PDFACompatibilityPolicy := 1 }) ∧
    pdfmark_annot sample_env { page_ids := fun _ => 5 }
        { PDFA := 1, PDFACompatibilityPolicy := 2 }
        ["/F".toList, "2".toList, "/Contents".toList, "(c)".toList] {} none
        (some "/Text".toList) =
      (gs_error_invalidfont, { page_ids := fun _ => 5 },
        { PDFA := 1, PDFACompatibilityPolicy := 2 }) ∧
    ((pdfmark_annot sample_env { page_ids := fun _ => 5 }
        { PDFA := 1, PDFACompatibilityPolicy := 0 }
        ["/F".toList, "2".toList, "/Contents".toList, "(c)".toList] {} none
        (some "/Text".toList)).2.2.PDFA = 0 ∧
      (pdfmark_annot sample_env { page_ids := fun _ => 5 }
        { PDFA := 1, PDFACompatibilityPolicy := 0 }
        ["/F".toList, "2".toList, "/Contents".toList, "(c)".toList] {} none
        (some "/Text".toList)).2.2.AbortPDFAX = true) ∧
    (pdfmark_annot sample_env { page_ids := fun _ => 5 }
        { PDFA := 1, PDFACompatibilityPolicy := 0 }
        ["/F".toList, "2".toList, "/Contents".toList, "(c)".toList] {} none
        (some "/Text".toList)).2.2.pages_Annots 0 =
      some [{ id := 0,
              elements := [("/Type".toList, cos_value_t.scalar "/Annot".toList),
                ("/F".toList, cos_value_t.scalar "2".toList),
                ("/Contents".toList, cos_value_t.scalar "(c)".toList),
                ("/Subtype".toList, cos_value_t.scalar "/Text".toList)] }] :=
  ⟨(C21_pdfa_policy sample_env { page_ids := fun _ => 5 }
      { PDFA := 1, PDFACompatibilityPolicy := 1 }
      ["/F".toList, "2".toList, "/Contents".toList, "(c)".toList] {} none
      (some "/Text".toList) (by decide) (by decide)).1 rfl,
    (C21_pdfa_policy sample_env { page_ids := fun _ => 5 }
      { PDFA := 1, PDFACompatibilityPolicy := 2 }
      ["/F".toList, "2".toList, "/Contents".toList, "(c)".toList] {} none
      (some "/Text".toList) (by decide) (by decide)).2.1 rfl,
    (((C21_pdfa_policy sample_env { page_ids := fun _ => 5 }
      { PDFA := 1, PDFACompatibilityPolicy := 0 }
      ["/F".toList, "2".toList, "/Contents".toList, "(c)".toList] {} none
      (some "/Text".toList) (by decide) (by decide)).2.2 (by decide) (by decide)).2
      (by decide)).2,
    by decide⟩

/-- The integer scanner of the sample environment on two /Rect values, with the
identity transform. -/
theorem sample_scan_rect_values :
    pdfmark_scan_rect sample_env "[100 100 200 200]".toList {} =
      (0, { p := { x := 100, y := 100 }, q := { x := 200, y := 200 } }) ∧
    pdfmark_scan_rect sample_env "[100 700 200 750]".toList {} =
      (0, { p := { x := 100, y := 700 }, q := { x := 200, y := 750 } }) := by
  have h1 : sample_env.sscanf_rect (c_string ("[100 100 200 200]".toList ++ " 0".toList)) =
      some (100, 100, 200, 200) := by decide
  have h2 : sample_env.sscanf_rect (c_string ("[100 700 200 750]".toList ++ " 0".toList)) =
      some (100, 700, 200, 750) := by decide
  constructor
  · unfold pdfmark_scan_rect
    rw [if_neg (by decide), h1]
    simp [gs_point_transform]
  · unfold pdfmark_scan_rect
    rw [if_neg (by decide), h2]
    simp [gs_point_transform]

/-- C27 (failing input): PDF/X is active, the policy is 2 (abort), the page is
612 by 792 and has no boxes or offsets, so that the allowed page box is
[0 0 612 792].  A Text annotation with /Rect [100 100 200 200] lies inside that
box, yet the policy is not applied: the PDF/X block goes on, and `pdfmark_annot`
returns 0 and adds the annotation to page 0, because the C test compares
`rect.q.y` (200) with `pagebox[2]` (612) and takes the rectangle to be outside.
The same annotation with /Rect [100 700 200 750] is refused with invalidfont. -/
theorem C27_failing_input :
    pdfmark_scan_rect sample_env "[100 100 200 200]".toList {} =
      (0, { p := { x := 100, y := 100 }, q := { x := 200, y := 200 } }) ∧
    annot_pagebox sample_env { PDFX := 1, PDFACompatibilityPolicy := 2 } 0 =
      { b0 := 0, b1 := 0, b2 := 612, b3 := 792 } ∧
    annot_pdfx sample_env { page_ids := fun _ => 5 }
      { PDFX := 1, PDFACompatibilityPolicy := 2 }
      ["/Rect".toList, "[100 100 200 200]".toList] {} (some "/Text".toList) =
      (none, { PDFX := 1, PDFACompatibilityPolicy := 2 }) ∧
    (pdfmark_annot sample_env { page_ids := fun _ => 5 }
      { PDFX := 1, PDFACompatibilityPolicy := 2 }
      ["/Rect".toList, "[100 100 200 200]".toList] {} none (some "/Text".toList)).1 = 0 ∧
    ((pdfmark_annot sample_env { page_ids := fun _ => 5 }
      { PDFX := 1, PDFACompatibilityPolicy := 2 }
      ["/Rect".toList, "[100 100 200 200]".toList] {} none
      (some "/Text".toList)).2.2.pages_Annots 0).isSome = true ∧
    (pdfmark_annot sample_env { page_ids := fun _ => 5 }
      { PDFX := 1, PDFACompatibilityPolicy := 2 }
      ["/Rect".toList, "[100 700 200 750]".toList] {} none (some "/Text".toList)).1 =
      gs_error_invalidfont := by
  obtain ⟨r1, r2⟩ := sample_scan_rect_values
  have hb : annot_pagebox sample_env { PDFX := 1, PDFACompatibilityPolicy := 2 } 0 =
      { b0 := 0, b1 := 0, b2 := 612, b3 := 792 } := by decide
  have hf1 : annot_find_rect ["/Rect".toList, "[100 100 200 200]".toList] =
      some "[100 100 200 200]".toList := by decide
  have hf2 : annot_find_rect ["/Rect".toList, "[100 700 200 750]".toList] =
      some "[100 700 200 750]".toList := by decide
  have hd : (!(pdf_key_eq "/Text".toList "/TrapNet".toList ||
      pdf_key_eq "/Text".toList "/PrinterMark".toList)) = true := by decide
  have hx1 : annot_pdfx sample_env { page_ids := fun _ => 5 }
      { PDFX := 1, PDFACompatibilityPolicy := 2 }
      ["/Rect".toList, "[100 100 200 200]".toList] {} (some "/Text".toList) =
      (none, { PDFX := 1, PDFACompatibilityPolicy := 2 }) := by
    unfold annot_pdfx
    simp only [hf1, hd, r1, hb]
    norm_num
  have hx2 : annot_pdfx sample_env { page_ids := fun _ => 5 }
      { PDFX := 1, PDFACompatibilityPolicy := 2 }
      ["/Rect".toList, "[100 700 200 750]".toList] {} (some "/Text".toList) =
      (some gs_error_invalidfont, { PDFX := 1, PDFACompatibilityPolicy := 2 }) := by
    unfold annot_pdfx
    simp only [hf2, hd, r2, hb]
    norm_num [annot_pdfx_policy]
  have ha : annot_pdfa ["/Rect".toList, "[100 100 200 200]".toList]
      { PDFX := 1, PDFACompatibilityPolicy := 2 } =
      (none, { PDFX := 1, PDFACompatibilityPolicy := 2 }) := rfl
  have ha2 : annot_pdfa ["/Rect".toList, "[100 700 200 750]".toList]
      { PDFX := 1, PDFACompatibilityPolicy := 2 } =
      (none, { PDFX := 1, PDFACompatibilityPolicy := 2 }) := rfl
  refine ⟨r1, hb, hx1, ?_, ?_, ?_⟩
  · unfold pdfmark_annot
    rw [ha]
    dsimp only
    rw [hx1]
    decide
  · unfold pdfmark_annot
    rw [ha]
    dsimp only
    rw [hx1]
    decide
  · unfold pdfmark_annot
    rw [ha2]
    dsimp only
    rw [hx2]

/-! ## C38: the size of an escape expansion -/

theorem getLast_cons_cons_str (c d : Char) (rest : Str) :
    (c :: d :: rest).getLast? = (d :: rest).getLast? := by
  simp [List.getLast?_cons_cons]

/-- The expansion with the byte after the value is the expansion of the value alone
when the value does not end with a backslash or that byte is no escape letter. -/
theorem escape_expand_at_eq (past : Char) :
    ∀ s : Str, (s.getLast? = some '\\' → past ∉ ['b', 'f', 'n', 'r', 't']) →
      escape_expand_at past s = escape_expand s
  | [], _ => by rw [escape_expand_at, escape_expand]
  | [c], h => by
    rw [escape_expand_at, escape_expand]
    by_cases hc : c = '\\'
    · subst hc
      have hp := h rfl
      simp only [List.mem_cons, List.mem_singleton, List.not_mem_nil, or_false, not_or] at hp
      obtain ⟨h1, h2, h3, h4, h5⟩ := hp
      simp [h1, h2, h3, h4, h5]
    · simp [hc]
  | c :: d :: rest, h => by
    have h1 : escape_expand_at past (d :: rest) = escape_expand (d :: rest) :=
      escape_expand_at_eq past (d :: rest) (fun hl => h (by rw [getLast_cons_cons_str]; exact hl))
    have h2 : escape_expand_at past rest = escape_expand rest := by
      apply escape_expand_at_eq past rest
      intro hl
      apply h
      rw [getLast_cons_cons_str]
      cases rest with
      | nil => cases hl
      | cons a t => rw [getLast_cons_cons_str]; exact hl
    rw [escape_expand_at, escape_expand, h1, h2]

/-- The expansion of a value alone is at most twice as long as the value. -/
theorem escape_expand_length : ∀ s : Str, (escape_expand s).length ≤ 2 * s.length
  | [] => by simp [escape_expand]
  | [c] => by simp [escape_expand]
  | c :: d :: rest => by
    have h1 := escape_expand_length (d :: rest)
    have h2 := escape_expand_length rest
    rw [escape_expand]
    simp only [List.length_cons] at h1 ⊢
    split_ifs <;> simp only [List.length_cons] <;> omega

/-- C38: the escape expansion of a generic string value writes at most twice as
many bytes as the value has, whenever a backslash in the last position of the value
is followed in memory by a byte that is none of b, f, n, r, t (so that the byte read
past the end triggers nothing); the bytes written are then those of the expansion of
the value alone. -/
theorem C38_escape_expand_bound (past : Char) (s : Str)
    (h : s.getLast? = some '\\' → past ∉ ['b', 'f', 'n', 'r', 't']) :
    (escape_expand_at past s).length ≤ 2 * s.length ∧
    escape_expand_at past s = escape_expand s := by
  rw [escape_expand_at_eq past s h]
  exact ⟨escape_expand_length s, rfl⟩

/-- C38 (witness): the value a\n\ followed in memory by a NUL byte is expanded to
a\012\, six bytes for four; followed by the letter n, the lone backslash alone
would be expanded to four bytes. -/
theorem C38_escape_expand_bound_witness :
    ((escape_expand_at (Char.ofNat 0) ['a', '\\', 'n', '\\']).length ≤
        2 * ['a', '\\', 'n', '\\'].length ∧
      escape_expand_at (Char.ofNat 0) ['a', '\\', 'n', '\\'] =
        escape_expand ['a', '\\', 'n', '\\']) ∧
    escape_expand_at (Char.ofNat 0) ['a', '\\', 'n', '\\'] =
      ['a', '\\', '0', '1', '2', '\\'] ∧
    escape_expand_at 'n' ['\\'] = ['\\', '0', '1', '2'] :=
  ⟨C38_escape_expand_bound (Char.ofNat 0) ['a', '\\', 'n', '\\'] (fun _ => by decide),
    by decide, by decide⟩

/-! ## C34: the rewrite of a /Contents value twice -/

/-- Rewriting a rewritten value changes nothing, also when the second rewrite starts
after a backslash, provided it does so whenever the first one did. -/
theorem contents_rewrite_pure_twice (pb : Bool) (s : Str) :
    ∀ pb1 : Bool, (pb = true → pb1 = true) →
      contents_rewrite_pure pb1 (contents_rewrite_pure pb s) = contents_rewrite_pure pb s := by
  induction pb, s using contents_rewrite_pure.induct with
  | case1 x =>
    intro pb1 _
    rw [contents_rewrite_pure, contents_rewrite_pure]
  | case2 rest ih =>
    intro pb1 _
    rw [contents_rewrite_pure]
    have e1 : contents_rewrite_pure pb1 ('\\' :: 'r' :: contents_rewrite_pure false rest) =
        '\\' :: contents_rewrite_pure true ('r' :: contents_rewrite_pure false rest) := by
      cases pb1 <;> rfl
    rw [e1, contents_rewrite_pure_copy true 'r' _ (by decide), ih false (fun h => by cases h)]
  | case3 rest ih =>
    intro pb1 _
    rw [contents_rewrite_pure]
    have e1 : contents_rewrite_pure pb1 ('\\' :: 'r' :: contents_rewrite_pure false rest) =
        '\\' :: contents_rewrite_pure true ('r' :: contents_rewrite_pure false rest) := by
      cases pb1 <;> rfl
    rw [e1, contents_rewrite_pure_copy true 'r' _ (by decide), ih false (fun h => by cases h)]
  | case4 x c rest s1 s2 ih =>
    intro pb1 hpb
    rw [contents_rewrite_pure.eq_4 x c rest s1 s2]
    by_cases hc : c = '\\'
    · subst hc
      have hi := ih true (fun _ => rfl)
      rw [decide_eq_true rfl] at hi ⊢
      have hx : pb1 = false → x = false := by
        intro h1
        cases x with
        | false => rfl
        | true => rw [hpb rfl] at h1; cases h1
      obtain ⟨a1, a2⟩ := contents_rewrite_pure_after rest
      rw [contents_rewrite_pure.eq_4 pb1 '\\' (contents_rewrite_pure true rest)
        (fun r hp _ hr => by
          obtain ⟨r1, hr1⟩ := a1 (by rw [hr]; rfl)
          exact s1 r1 (hx hp) rfl hr1)
        (fun r hp _ hr => by
          obtain ⟨r1, hr1⟩ := a2 (by rw [hr]; rfl)
          exact s2 r1 (hx hp) rfl hr1)]
      rw [decide_eq_true rfl, hi]
    · rw [contents_rewrite_pure_copy pb1 c _ hc]
      have hi := ih false
      rw [decide_eq_false hc] at hi ⊢
      rw [hi (fun h => by cases h)]

/-- C34: the escape rewrite of a /Contents value is idempotent: rewriting the
rewritten value once more gives the same bytes. -/
theorem C34_contents_rewrite_idempotent (value : Str) :
    contents_rewrite (contents_rewrite value) = contents_rewrite value := by
  rw [(contents_rewrite_eq_pure (contents_rewrite value)).1, (contents_rewrite_eq_pure value).1]
  exact contents_rewrite_pure_twice false value false (fun h => h)

/-! ## C32: the positions where references are substituted -/

theorem replace_names_at_length (E : Env) (l : List Nat) :
    ∀ (pairs : List Str) (pdev : gx_device_pdf),
      (replace_names_at E l pairs pdev).2.1.length = pairs.length := by
  induction l with
  | nil => intro pairs pdev; rfl
  | cons j rest ih =>
    intro pairs pdev
    rw [replace_names_at]
    split_ifs
    · rfl
    · rw [ih, List.length_set]

/-- A position that is not listed keeps its parameter. -/
theorem replace_names_at_other (E : Env) (l : List Nat) (i : Nat) (hi : i ∉ l) :
    ∀ (pairs : List Str) (pdev : gx_device_pdf),
      (replace_names_at E l pairs pdev).2.1[i]? = pairs[i]? := by
  induction l with
  | nil => intro pairs pdev; rfl
  | cons j rest ih =>
    intro pairs pdev
    rw [replace_names_at]
    have hj : j ≠ i := fun e => hi (by rw [e]; exact List.mem_cons_self _ _)
    split_ifs
    · rfl
    · rw [ih (fun h => hi (List.mem_cons_of_mem _ h)), List.getElem?_set_ne hj]

/-- The substitution loop with step 1 visits every position from `j` on. -/
theorem process_refs_step1 (E : Env) (P : Nat → Bool) :
    ∀ (fuel j : Nat) (pairs : List Str) (pdev : gx_device_pdf),
      pairs.length ≤ fuel + j → (∀ i, j ≤ i → P i = true) →
      process_refs E 1 fuel j pairs pdev =
        replace_names_at E ((List.range' j (pairs.length - j)).filter P) pairs pdev := by
  intro fuel
  induction fuel with
  | zero =>
    intro j pairs pdev hf _
    have : pairs.length - j = 0 := by omega
    rw [this]
    rfl
  | succ fuel ih =>
    intro j pairs pdev hf hP
    rw [process_refs]
    by_cases hj : j < pairs.length
    · rw [if_pos hj]
      obtain ⟨n, hn⟩ : ∃ n, pairs.length - j = n + 1 := ⟨pairs.length - j - 1, by omega⟩
      rw [hn, List.range'_succ, List.filter_cons_of_pos (hP j (le_refl _)), replace_names_at]
      dsimp only
      split_ifs
      · rfl
      · rw [ih (j + 1) _ _ (by rw [List.length_set]; omega) (fun i hi => hP i (by omega)),
          List.length_set]
        have : pairs.length - (j + 1) = n := by omega
        rw [this]
    · rw [if_neg hj]
      have : pairs.length - j = 0 := by omega
      rw [this]
      rfl

/-- The substitution loop with step 2 visits every second position from `j` on. -/
theorem process_refs_step2 (E : Env) (P : Nat → Bool) :
    ∀ (fuel j : Nat) (pairs : List Str) (pdev : gx_device_pdf),
      pairs.length ≤ fuel + j → (∀ i, j ≤ i → P i = decide (i % 2 = j % 2)) →
      process_refs E 2 fuel j pairs pdev =
        replace_names_at E ((List.range' j (pairs.length - j)).filter P) pairs pdev := by
  intro fuel
  induction fuel with
  | zero =>
    intro j pairs pdev hf _
    have : pairs.length - j = 0 := by omega
    rw [this]
    rfl
  | succ fuel ih =>
    intro j pairs pdev hf hP
    rw [process_refs]
    by_cases hj : j < pairs.length
    · rw [if_pos hj]
      obtain ⟨n, hn⟩ : ∃ n, pairs.length - j = n + 1 := ⟨pairs.length - j - 1, by omega⟩
      have hPj : P j = true := by rw [hP j (le_refl _)]; exact decide_eq_true rfl
      rw [hn, List.range'_succ, List.filter_cons_of_pos hPj, replace_names_at]
      dsimp only
      split_ifs
      · rfl
      · have e : (List.range' (j + 1) n).filter P =
            (List.range' (j + 2) (pairs.length - (j + 2))).filter P := by
          cases n with
          | zero =>
            have : pairs.length - (j + 2) = 0 := by omega
            rw [this]
            rfl
          | succ m =>
            have hP1 : ¬ (P (j + 1) = true) := by
              rw [hP (j + 1) (by omega)]
              simp only [decide_eq_true_eq]
              omega
            have : pairs.length - (j + 2) = m := by omega
            rw [this, List.range'_succ, List.filter_cons_of_neg hP1]
        rw [ih (j + 2) _ _ (by rw [List.length_set]; omega)
          (fun i hi => by rw [hP i (by omega)]; congr 1; simp only [eq_iff_iff]; omega),
          List.length_set, e]
    · rw [if_neg hj]
      have : pairs.length - j = 0 := by omega
      rw [this]
      rfl

/-- Position 0 is not filtered: the filter of the positions below `n` is the filter
of the positions from 1 on. -/
theorem filter_range_skip0 (P : Nat → Bool) (h0 : P 0 = false) (n : Nat) :
    (List.range n).filter P = (List.range' 1 (n - 1)).filter P := by
  rw [List.range_eq_range']
  cases n with
  | zero => rfl
  | succ m =>
    rw [List.range'_succ, List.filter_cons_of_neg (by rw [h0]; exact Bool.false_ne_true)]
    rfl

/-- The substitution loop of `pdfmark_process`, with its start index and its step,
is the substitution at the positions `ref_positions`. -/
theorem process_refs_positions (E : Env) (options : Nat) (pairs : List Str)
    (pdev : gx_device_pdf) :
    (if options &&& PDFMARK_NO_REFS = 0 then
      process_refs E (2 - (if options &&& PDFMARK_ODD_OK ≠ 0 then 1 else 0)) pairs.length
        (if options &&& PDFMARK_KEEP_NAME ≠ 0 then 1
         else 1 - (if options &&& PDFMARK_ODD_OK ≠ 0 then 1 else 0)) pairs pdev
     else (0, pairs, pdev)) =
      replace_names_at E (ref_positions options pairs.length) pairs pdev := by
  unfold ref_positions
  by_cases hn : options &&& PDFMARK_NO_REFS = 0
  · rw [if_pos hn]
    by_cases ho : options &&& PDFMARK_ODD_OK = 0
    · have hP : ∀ i, ref_position options i = decide (i % 2 = 1) := by
        intro i
        simp only [ref_position, hn, ho, decide_True, Bool.true_and, if_true]
      rw [if_neg (not_not.mpr ho), filter_range_skip0 _ (by rw [hP]; rfl)]
      have hs : (if options &&& PDFMARK_KEEP_NAME ≠ 0 then 1 else 1 - 0) = 1 := by
        split_ifs <;> rfl
      rw [hs]
      exact process_refs_step2 E _ pairs.length 1 pairs pdev (by omega) (fun i _ => hP i)
    · rw [if_pos ho]
      by_cases hk : options &&& PDFMARK_KEEP_NAME ≠ 0
      · have hP : ∀ i, ref_position options i = !(decide (i = 0)) := by
          intro i
          simp only [ref_position, hn, ho, decide_True, Bool.true_and, if_false,
            decide_eq_true hk, Bool.and_true]
        rw [if_pos hk, filter_range_skip0 _ (by rw [hP]; rfl)]
        exact process_refs_step1 E _ pairs.length 1 pairs pdev (by omega)
          (fun i hi => by rw [hP]; simp only [Bool.not_eq_true', decide_eq_false_iff_not]; omega)
      · have hP : ∀ i, ref_position options i = true := by
          intro i
          simp only [ref_position, hn, ho, hk, decide_True, Bool.true_and, if_false,
            decide_False, Bool.and_false, Bool.not_false]
        rw [if_neg hk, List.range_eq_range']
        exact process_refs_step1 E _ pairs.length 0 pairs pdev (by omega) (fun i _ => hP i)
  · rw [if_neg hn]
    have hP : ∀ i, ref_position options i = false := by
      intro i
      simp only [ref_position, hn, decide_False, Bool.false_and]
    have : (List.range pairs.length).filter (ref_position options) = [] := by
      rw [List.filter_eq_nil_iff]
      intro a _
      rw [hP]
      exact Bool.false_ne_true
    rw [this]
    rfl

/-- C32: `pdfmark_process` substitutes object references (`pdf_replace_names`) at
exactly the positions `ref_positions` of the parameters passed to the handler (the
parameters without the /_objdef pair), in rising order and up to the first
substitution that fails: the body of the dispatch loop is the one with the
substitution at these positions.  These are no position when the type has
PDFMARK_NO_REFS; otherwise the odd positions 1, 3, 5, ... for a type that requires an
even count, and every position for a type with PDFMARK_ODD_OK but for position 0
when PDFMARK_KEEP_NAME is set.  A position that is not among them keeps its
parameter. -/
theorem C32_reference_positions (E : Env) (pdev : gx_device_pdf) (data : List Str)
    (ctm : gs_matrix) (pmn : pdfmark_name) :
    process_entry E pdev data ctm pmn = process_entry_at E pdev data ctm pmn ∧
    (∀ size i, i ∈ ref_positions pmn.options size ↔
      (i < size ∧ pmn.options &&& PDFMARK_NO_REFS = 0 ∧
        (pmn.options &&& PDFMARK_ODD_OK = 0 → i % 2 = 1) ∧
        (pmn.options &&& PDFMARK_ODD_OK ≠ 0 → pmn.options &&& PDFMARK_KEEP_NAME ≠ 0 →
          i ≠ 0))) ∧
    (∀ (pairs : List Str) (p : gx_device_pdf) (i : Nat),
      i ∉ ref_positions pmn.options pairs.length →
      (replace_names_at E (ref_positions pmn.options pairs.length) pairs p).2.1[i]? =
        pairs[i]?) := by
  refine ⟨?_, ?_, ?_⟩
  · unfold process_entry process_entry_at
    simp only [process_refs_positions]
  · intro size i
    unfold ref_positions ref_position
    rw [List.mem_filter, List.mem_range]
    by_cases hn : pmn.options &&& PDFMARK_NO_REFS = 0
    · by_cases ho : pmn.options &&& PDFMARK_ODD_OK = 0
      · simp [hn, ho]
      · by_cases hk : pmn.options &&& PDFMARK_KEEP_NAME = 0
        · simp [hn, ho, hk]
        · simp [hn, ho, hk]
    · simp [hn]
  · intro pairs p i hi
    exact replace_names_at_other E _ i hi pairs p

/-- C32 (witness): with the marking substitution, three parameters of a type with
PDFMARK_ODD_OK and PDFMARK_KEEP_NAME (PUT) keep the first and get the other two
substituted; four parameters of a type that requires an even count (OUT) get the
values at positions 1 and 3 substituted; a type with PDFMARK_NO_REFS (.PUTSTREAM)
gets none. -/
theorem C32_reference_positions_witness :
    (replace_names_at sample_env_names
      (ref_positions (PDFMARK_ODD_OK ||| PDFMARK_KEEP_NAME) 3)
      ["a".toList, "b".toList, "c".toList] {}).2.1 = ["a".toList, "@b".toList, "@c".toList] ∧
    (replace_names_at sample_env_names (ref_positions PDFMARK_ODD_OK 3)
      ["a".toList, "b".toList, "c".toList] {}).2.1 =
        ["@a".toList, "@b".toList, "@c".toList] ∧
    (replace_names_at sample_env_names (ref_positions 0 4)
      ["a".toList, "b".toList, "c".toList, "d".toList] {}).2.1 =
        ["a".toList, "@b".toList, "c".toList, "@d".toList] ∧
    (replace_names_at sample_env_names
      (ref_positions (PDFMARK_ODD_OK ||| PDFMARK_KEEP_NAME ||| PDFMARK_NO_REFS) 3)
      ["a".toList, "b".toList, "c".toList] {}).2.1 = ["a".toList, "b".toList, "c".toList] ∧
    (replace_names_at sample_env_names (ref_positions 0 4)
      ["a".toList, "b".toList, "c".toList, "d".toList] {}).2.1[2]? = some "c".toList :=
  ⟨by decide, by decide, by decide, by decide,
    (C32_reference_positions sample_env_names {} [] {} ⟨"OUT".toList, pdfmark_OUT sample_env_names, 0⟩).2.2
      ["a".toList, "b".toList, "c".toList, "d".toList] {} 2 (by decide)⟩

/-! ## C35: an OUT mark that fails -/

/-- The return code of `pdfmark_OUT`. -/
theorem OUT_code (E : Env) (pdev : gx_device_pdf) (pairs : List Str) (pctm : gs_matrix)
    (objname : Option Str) :
    (pdfmark_OUT E pdev pairs pctm objname).1 =
      (if out_sub_count pairs 0 ≠ 0 ∧
          (pdev.outline_depth : Int) = (E.MAX_OUTLINE_DEPTH : Int) - 1 then gs_error_limitcheck
       else if (!(alloc E pdev).1) = true then gs_error_VMerror
       else if (pdfmark_put_ao_pairs E (alloc E pdev).2 {} pairs pctm {} true).1 < 0 then
         (pdfmark_put_ao_pairs E (alloc E pdev).2 {} pairs pctm {} true).1
       else 0) := by
  unfold pdfmark_OUT
  dsimp only
  split_ifs <;> rfl

/-- An OUT mark that returns an error leaves the device as it was but for the
allocation count and `max_referred_page`. -/
theorem OUT_error_frame (E : Env) (pdev : gx_device_pdf) (pairs : List Str) (pctm : gs_matrix)
    (objname : Option Str) (h : (pdfmark_OUT E pdev pairs pctm objname).1 < 0) :
    dev_frame (pdfmark_OUT E pdev pairs pctm objname).2 = dev_frame pdev := by
  rw [OUT_code] at h
  unfold pdfmark_OUT
  dsimp only
  by_cases h1 : out_sub_count pairs 0 ≠ 0 ∧
      (pdev.outline_depth : Int) = (E.MAX_OUTLINE_DEPTH : Int) - 1
  · rw [if_pos h1]
  rw [if_neg h1] at h ⊢
  by_cases h2 : (!(alloc E pdev).1) = true
  · rw [if_pos h2]
    rfl
  rw [if_neg h2] at h ⊢
  by_cases h3 : (pdfmark_put_ao_pairs E (alloc E pdev).2 {} pairs pctm {} true).1 < 0
  · rw [if_pos h3, put_ao_pairs_frame]
    rfl
  rw [if_neg h3] at h
  exact absurd h (by decide)

/-- C35: when `pdfmark_OUT` returns an error, the outline state is unchanged: the
depth, every level of the stack (first, last, left), `outlines_open`,
`closed_outline_depth` and `outlines_id` keep their values, no object id is
allocated and nothing is written; the device differs from the one before at most
in the allocation count and in `max_referred_page`.  The error is limitcheck for a
/Count other than 0 at depth MAX_OUTLINE_DEPTH - 1, VMerror when the allocation of
the action dictionary fails, and the code of `pdfmark_put_ao_pairs` otherwise. -/
theorem C35_OUT_error_state (E : Env) (pdev : gx_device_pdf) (pairs : List Str)
    (pctm : gs_matrix) (objname : Option Str)
    (h : (pdfmark_OUT E pdev pairs pctm objname).1 < 0) :
    (pdfmark_OUT E pdev pairs pctm objname).2.outline_depth = pdev.outline_depth ∧
    (pdfmark_OUT E pdev pairs pctm objname).2.outline_levels = pdev.outline_levels ∧
    (pdfmark_OUT E pdev pairs pctm objname).2.outlines_open = pdev.outlines_open ∧
    (pdfmark_OUT E pdev pairs pctm objname).2.closed_outline_depth =
      pdev.closed_outline_depth ∧
    (pdfmark_OUT E pdev pairs pctm objname).2.outlines_id = pdev.outlines_id ∧
    (pdfmark_OUT E pdev pairs pctm objname).2.next_id = pdev.next_id ∧
    (pdfmark_OUT E pdev pairs pctm objname).2.strm = pdev.strm ∧
    dev_frame (pdfmark_OUT E pdev pairs pctm objname).2 = dev_frame pdev ∧
    ((pdfmark_OUT E pdev pairs pctm objname).1 = gs_error_limitcheck ∨
      (pdfmark_OUT E pdev pairs pctm objname).1 = gs_error_VMerror ∨
      (pdfmark_OUT E pdev pairs pctm objname).1 =
        (pdfmark_put_ao_pairs E (alloc E pdev).2 {} pairs pctm {} true).1) := by
  have hf := OUT_error_frame E pdev pairs pctm objname h
  have e1 := congrArg gx_device_pdf.outline_depth hf
  have e2 := congrArg gx_device_pdf.outline_levels hf
  have e3 := congrArg gx_device_pdf.outlines_open hf
  have e4 := congrArg gx_device_pdf.closed_outline_depth hf
  have e5 := congrArg gx_device_pdf.outlines_id hf
  have e6 := congrArg gx_device_pdf.next_id hf
  have e7 := congrArg gx_device_pdf.strm hf
  refine ⟨e1, e2, e3, e4, e5, e6, e7, hf, ?_⟩
  rw [OUT_code] at h ⊢
  by_cases h1 : out_sub_count pairs 0 ≠ 0 ∧
      (pdev.outline_depth : Int) = (E.MAX_OUTLINE_DEPTH : Int) - 1
  · rw [if_pos h1]
    exact Or.inl rfl
  rw [if_neg h1] at h ⊢
  by_cases h2 : (!(alloc E pdev).1) = true
  · rw [if_pos h2]
    exact Or.inr (Or.inl rfl)
  rw [if_neg h2] at h ⊢
  by_cases h3 : (pdfmark_put_ao_pairs E (alloc E pdev).2 {} pairs pctm {} true).1 < 0
  · rw [if_pos h3]
    exact Or.inr (Or.inr rfl)
  rw [if_neg h3] at h
  exact absurd h (by decide)

/-- C35 (witness): at depth 1 with one child expected, in an environment with a
level stack of two levels, the mark /Count 1 /Title (B) returns limitcheck; the mark
/Title (B) /Rect (x), whose /Rect does not scan, returns rangecheck; and with a
failing allocator the mark /Title (B) returns VMerror. -/
theorem C35_OUT_error_state_witness :
    ((pdfmark_OUT { sample_env with MAX_OUTLINE_DEPTH := 2 }
        (pdfmark_OUT { sample_env with MAX_OUTLINE_DEPTH := 2 } {}
          ["/Count".toList, "1".toList, "/Title".toList, "(A)".toList] {} none).2
        ["/Count".toList, "1".toList, "/Title".toList, "(B)".toList] {} none).1 =
      gs_error_limitcheck) ∧
    ((pdfmark_OUT { sample_env with MAX_OUTLINE_DEPTH := 2 }
        (pdfmark_OUT { sample_env with MAX_OUTLINE_DEPTH := 2 } {}
          ["/Count".toList, "1".toList, "/Title".toList, "(A)".toList] {} none).2
        ["/Count".toList, "1".toList, "/Title".toList, "(B)".toList] {} none).2.outline_depth =
      1) ∧
    (pdfmark_OUT sample_env {} ["/Title".toList, "(B)".toList, "/Rect".toList, "(x)".toList]
      {} none).1 = gs_error_rangecheck ∧
    (pdfmark_OUT { sample_env with alloc_ok := fun _ => false } {}
      ["/Title".toList, "(B)".toList] {} none).1 = gs_error_VMerror :=
  ⟨by decide,
    ((C35_OUT_error_state { sample_env with MAX_OUTLINE_DEPTH := 2 }
      (pdfmark_OUT { sample_env with MAX_OUTLINE_DEPTH := 2 } {}
        ["/Count".toList, "1".toList, "/Title".toList, "(A)".toList] {} none).2
      ["/Count".toList, "1".toList, "/Title".toList, "(B)".toList] {} none (by decide)).1).trans
      (by decide),
    by decide, by decide⟩

/-! ## C37: the page indices of the PageLabels array -/

theorem some_getD_eq (buf : List Nat) (i : Nat) (h : i < buf.length) :
    some (buf.getD i 0) = buf[i]? := by
  rw [List.getD_eq_getElem?_getD, List.getElem?_eq_getElem h]
  rfl

theorem getElem?_set_same (buf : List Nat) (i a : Nat) (h : i < buf.length) :
    (buf.set i a)[i]? = some a := by
  rw [List.getElem?_set_self h]

theorem unread_shift_length (size : Nat) :
    ∀ (index : Nat) (buf : List Nat), (unread_shift size index buf).length = buf.length := by
  intro index
  induction index with
  | zero => intro buf; rw [unread_shift, List.length_set]
  | succ index ih => intro buf; rw [unread_shift, ih, List.length_set]

/-- The loop of `pdfi_unread` copies the bytes at 0 .. index to size .. size + index
and leaves the other bytes as they are. -/
theorem unread_shift_get (size : Nat) :
    ∀ (index : Nat) (buf : List Nat), size + index < buf.length → buf.length < 2 ^ 32 →
      ∀ k, (unread_shift size index buf)[k]? =
        (if size ≤ k ∧ k ≤ size + index then buf[k - size]? else buf[k]?) := by
  intro index
  induction index with
  | zero =>
    intro buf h1 h2 k
    rw [unread_shift, Nat.mod_eq_of_lt (by omega)]
    by_cases hk : size = k
    · subst hk
      rw [getElem?_set_same _ _ _ (by omega), if_pos ⟨le_refl _, le_refl _⟩, Nat.sub_self]
      exact some_getD_eq buf 0 (by omega)
    · rw [List.getElem?_set_ne hk, if_neg (by omega)]
  | succ index ih =>
    intro buf h1 h2 k
    rw [unread_shift, Nat.mod_eq_of_lt (by omega),
      ih _ (by rw [List.length_set]; omega) (by rw [List.length_set]; exact h2)]
    by_cases hk : size ≤ k ∧ k ≤ size + index
    · rw [if_pos hk, if_pos ⟨hk.1, by omega⟩, List.getElem?_set_ne (by omega)]
    · rw [if_neg hk]
      by_cases hk1 : size + (index + 1) = k
      · subst hk1
        rw [getElem?_set_same _ _ _ (by omega), if_pos ⟨by omega, le_refl _⟩,
          Nat.add_sub_cancel_left]
        exact some_getD_eq buf _ (by omega)
      · rw [List.getElem?_set_ne hk1, if_neg (by omega)]

theorem read_shift_length (total : Nat) :
    ∀ (n i : Nat) (buf : List Nat), (read_shift total n i buf).length = buf.length := by
  intro n
  induction n with
  | zero => intro i buf; rfl
  | succ n ih => intro i buf; rw [read_shift, ih, List.length_set]

/-- The loop of `pdfi_read_bytes` moves the bytes at i + total .. i + n + total - 1
to i .. i + n - 1 and leaves the other bytes as they are. -/
theorem read_shift_get (total : Nat) :
    ∀ (n i : Nat) (buf : List Nat), i + n + total ≤ buf.length → buf.length < 2 ^ 32 →
      ∀ k, (read_shift total n i buf)[k]? =
        (if i ≤ k ∧ k < i + n then buf[k + total]? else buf[k]?) := by
  intro n
  induction n with
  | zero =>
    intro i buf _ _ k
    rw [read_shift, if_neg (by omega)]
  | succ n ih =>
    intro i buf h1 h2 k
    rw [read_shift, Nat.mod_eq_of_lt (by omega),
      ih _ _ (by rw [List.length_set]; omega) (by rw [List.length_set]; exact h2)]
    by_cases hk : i + 1 ≤ k ∧ k < i + 1 + n
    · rw [if_pos hk, if_pos (by omega), List.getElem?_set_ne (by omega)]
    · rw [if_neg hk]
      by_cases hk1 : i = k
      · subst hk1
        rw [getElem?_set_same _ _ _ (by omega), if_pos (by omega)]
        exact some_getD_eq buf _ (by omega)
      · rw [List.getElem?_set_ne hk1, if_neg (by omega)]

/-- After the loop of `pdfi_unread` over `u` unread bytes, the buffer from `size` on
holds the `u` bytes followed by the bytes that were beyond position `size + u`. -/
theorem unread_shift_drop (size u : Nat) (buf : List Nat) (h1 : size + u ≤ buf.length)
    (h2 : buf.length < 2 ^ 32) :
    (if u ≠ 0 then unread_shift size (u - 1) buf else buf).drop size =
      buf.take u ++ buf.drop (size + u) := by
  by_cases hu : u = 0
  · subst hu
    rw [if_neg (by simp)]
    rfl
  · rw [if_pos hu]
    apply List.ext_getElem?
    intro k
    rw [List.getElem?_drop, unread_shift_get size (u - 1) buf (by omega) h2]
    by_cases hk : k < u
    · rw [if_pos (by omega), List.getElem?_append_left (by rw [List.length_take]; omega),
        List.getElem?_take_of_lt hk, Nat.add_sub_cancel_left]
    · rw [if_neg (by omega), List.getElem?_append_right (by rw [List.length_take]; omega),
        List.length_take, List.getElem?_drop, Nat.min_eq_left (by omega)]
      congr 1
      omega

/-- After the loop of `pdfi_read_bytes`, the first `u` bytes of the buffer are the
`u` bytes that followed the `total` bytes delivered. -/
theorem read_shift_take (total u : Nat) (buf : List Nat) (h1 : u + total ≤ buf.length)
    (h2 : buf.length < 2 ^ 32) :
    (read_shift total u 0 buf).take u = (buf.drop total).take u := by
  apply List.ext_getElem?
  intro k
  by_cases hk : k < u
  · rw [List.getElem?_take_of_lt hk, List.getElem?_take_of_lt hk,
      read_shift_get total u 0 buf (by omega) h2, if_pos (by omega), List.getElem?_drop,
      Nat.add_comm]
  · rw [List.getElem?_eq_none (by rw [List.length_take]; omega),
      List.getElem?_eq_none (by rw [List.length_take]; omega)]

/-- What `pdfi_unread` does when there is room for the bytes. -/
theorem pdfi_unread_spec {σ : Type} (F : file_env σ) (s : pdf_stream σ) (B : List Nat)
    (hbuf : s.unget_buffer.length = F.UNREAD_BUFFER_SIZE) (hmax : F.UNREAD_BUFFER_SIZE < 2 ^ 32)
    (hn : B.length + s.unread_size ≤ F.UNREAD_BUFFER_SIZE) :
    pdfi_unread F s B B.length =
      (0, { s with unget_buffer := B ++ (s.unget_buffer.take s.unread_size ++
                      s.unget_buffer.drop (B.length + s.unread_size)),
                   unread_size := B.length + s.unread_size }) := by
  unfold pdfi_unread
  rw [if_neg (by rw [Nat.mod_eq_of_lt (by omega)]; omega)]
  dsimp only
  rw [Nat.mod_eq_of_lt (by omega), Nat.add_comm s.unread_size]
  unfold memcpy
  rw [List.take_length, unread_shift_drop B.length s.unread_size s.unget_buffer (by omega)
    (by omega)]

/-- C39: `pdfi_unread` followed by `pdfi_read_bytes` is a round trip.  For a stream
whose unread buffer (of UNREAD_BUFFER_SIZE bytes, a 32-bit size) holds `u` unread
bytes and for bytes `B` with `|B| + u ≤ UNREAD_BUFFER_SIZE`, `pdfi_unread` of `B`
returns 0 and makes the unread bytes `B` followed by the previous `u` bytes; a
following `pdfi_read_bytes` of `size * count = |B|` bytes delivers exactly `B`, and
the unread bytes and `unread_size` are the previous ones again, with the underlying
stream and the end-of-file flag untouched. -/
theorem C39_unread_read_round_trip {σ : Type} (F : file_env σ) (s : pdf_stream σ)
    (B : List Nat) (size count : Nat)
    (hbuf : s.unget_buffer.length = F.UNREAD_BUFFER_SIZE) (hmax : F.UNREAD_BUFFER_SIZE < 2 ^ 32)
    (hn : B.length + s.unread_size ≤ F.UNREAD_BUFFER_SIZE)
    (hsc : size * count = B.length) :
    (pdfi_unread F s B B.length).1 = 0 ∧
    (pdfi_unread F s B B.length).2.unread_size = B.length + s.unread_size ∧
    (pdfi_unread F s B B.length).2.unget_buffer.take (B.length + s.unread_size) =
      B ++ s.unget_buffer.take s.unread_size ∧
    (pdfi_read_bytes F size count (pdfi_unread F s B B.length).2).2.1 = B ∧
    (pdfi_read_bytes F size count (pdfi_unread F s B B.length).2).2.2.unread_size =
      s.unread_size ∧
    (pdfi_read_bytes F size count (pdfi_unread F s B B.length).2).2.2.unget_buffer.take
      s.unread_size = s.unget_buffer.take s.unread_size ∧
    (pdfi_read_bytes F size count (pdfi_unread F s B B.length).2).2.2.unget_buffer.length =
      F.UNREAD_BUFFER_SIZE ∧
    (pdfi_read_bytes F size count (pdfi_unread F s B B.length).2).2.2.s = s.s ∧
    (pdfi_read_bytes F size count (pdfi_unread F s B B.length).2).2.2.eof = s.eof := by
  rw [pdfi_unread_spec F s B hbuf hmax hn]
  have hlen : (B ++ (s.unget_buffer.take s.unread_size ++
      s.unget_buffer.drop (B.length + s.unread_size))).length = F.UNREAD_BUFFER_SIZE := by
    simp only [List.length_append, List.length_take, List.length_drop]
    omega
  have htake : (B ++ (s.unget_buffer.take s.unread_size ++
      s.unget_buffer.drop (B.length + s.unread_size))).take (B.length + s.unread_size) =
      B ++ s.unget_buffer.take s.unread_size := by
    rw [← List.append_assoc]
    apply List.take_left'
    rw [List.length_append, List.length_take]
    omega
  refine ⟨rfl, rfl, htake, ?_⟩
  unfold pdfi_read_bytes
  dsimp only
  rw [hsc, Nat.mod_eq_of_lt (by omega)]
  by_cases h0 : B.length + s.unread_size = 0
  · have hB : B = [] := List.length_eq_zero.mp (by omega)
    have hu : s.unread_size = 0 := by omega
    subst hB
    rw [if_neg (by omega)]
    simp only [List.length_nil, Nat.zero_add, hu, List.take_zero, List.nil_append,
      Nat.sub_self, ne_eq, not_true_eq_false, if_false, ge_iff_le, le_refl, if_true,
      List.drop_zero, List.length_nil, and_self, true_and]
    exact ⟨hbuf, trivial⟩
  · rw [if_pos ⟨h0, by omega⟩]
    dsimp only
    refine ⟨List.take_left' rfl, by omega, ?_, ?_, rfl, rfl⟩
    · rw [Nat.add_sub_cancel_left, read_shift_take _ _ _ (by rw [hlen]; omega)
        (by rw [hlen]; exact hmax), List.drop_left' rfl]
      apply List.take_left'
      rw [List.length_take]
      omega
    · rw [read_shift_length]
      exact hlen

/-- C39 (witness): a stream with the unread bytes 7, 8 in a buffer of 8 bytes; the
bytes 1, 2, 3 are pushed back and then read again. -/
theorem C39_unread_read_round_trip_witness :
    (pdfi_unread sample_file_env
      { s := [40, 41], unread_size := 2, unget_buffer := [7, 8, 0, 0, 0, 0, 0, 0] }
      [1, 2, 3] 3).2.unget_buffer = [1, 2, 3, 7, 8, 0, 0, 0] ∧
    (pdfi_read_bytes sample_file_env 1 3 (pdfi_unread sample_file_env
      { s := [40, 41], unread_size := 2, unget_buffer := [7, 8, 0, 0, 0, 0, 0, 0] }
      [1, 2, 3] 3).2).2.1 = [1, 2, 3] ∧
    (pdfi_read_bytes sample_file_env 1 3 (pdfi_unread sample_file_env
      { s := [40, 41], unread_size := 2, unget_buffer := [7, 8, 0, 0, 0, 0, 0, 0] }
      [1, 2, 3] 3).2).2.2.unget_buffer = [7, 8, 3, 7, 8, 0, 0, 0] ∧
    (pdfi_read_bytes sample_file_env 1 3 (pdfi_unread sample_file_env
      { s := [40, 41], unread_size := 2, unget_buffer := [7, 8, 0, 0, 0, 0, 0, 0] }
      [1, 2, 3] 3).2).2.2.unread_size = 2 :=
  ⟨by decide,
    (C39_unread_read_round_trip sample_file_env
      { s := [40, 41], unread_size := 2, unget_buffer := [7, 8, 0, 0, 0, 0, 0, 0] }
      [1, 2, 3] 1 3 rfl (by decide) (by decide) rfl).2.2.2.1,
    by decide, by decide⟩

theorem int32_of_small (u L : Nat) (h : u + L < 2 ^ 31) :
    int32_of (((u : Int) + (L : Int)) % 2 ^ 32) = ((u + L : Nat) : Int) := by
  unfold int32_of
  push_cast
  omega

/-- When the request is not served from the unread buffer alone and `sfread` reports
the number of bytes it stored, `pdfi_read_bytes` returns the number of bytes
delivered: the unread bytes plus the bytes read. -/
theorem pdfi_read_bytes_stream {σ : Type} (F : file_env σ) (size count : Nat)
    (s : pdf_stream σ) (hu : s.unread_size ≤ s.unget_buffer.length)
    (hpart : ¬ (s.unread_size ≠ 0 ∧ s.unread_size ≥ (size * count) % 2 ^ 32))
    (hrd : (F.sfread s.s ((size * count) % 2 ^ 32 - s.unread_size)).1 =
      ((F.sfread s.s ((size * count) % 2 ^ 32 - s.unread_size)).2.1.length : Int))
    (hsmall : s.unread_size +
      (F.sfread s.s ((size * count) % 2 ^ 32 - s.unread_size)).2.1.length < 2 ^ 31) :
    (pdfi_read_bytes F size count s).1 = ((pdfi_read_bytes F size count s).2.1.length : Int) := by
  unfold pdfi_read_bytes
  dsimp only
  rw [if_neg hpart]
  by_cases ht : (size * count) % 2 ^ 32 - s.unread_size ≠ 0
  · rw [if_pos ht, hrd, if_pos (by omega)]
    dsimp only
    rw [List.length_append, List.length_take, Nat.min_eq_left hu]
    exact int32_of_small _ _ hsmall
  · rw [if_neg ht]
    dsimp only
    rw [if_pos (le_refl _)]
    dsimp only
    have h0 : s.unread_size = 0 := by
      by_contra h
      exact hpart ⟨h, by omega⟩
    rw [h0, List.take_zero, List.append_nil, List.length_nil]
    exact int32_of_small 0 0 (by norm_num)

/-- C40 (failing input): a stream with three unread bytes and a read of three items
of one byte (`size` 1, `count` 3): the three bytes are delivered and the return value
is 1, the value of `size`; and a stream with one unread byte whose underlying stream
is at its end: a read of three bytes delivers the unread byte, sets the end-of-file
flag and returns 0. -/
theorem C40_failing_input :
    (pdfi_read_bytes sample_file_env 1 3
      { s := [40], unread_size := 3, unget_buffer := [1, 2, 3, 0, 0, 0, 0, 0] }).1 = 1 ∧
    (pdfi_read_bytes sample_file_env 1 3
      { s := [40], unread_size := 3, unget_buffer := [1, 2, 3, 0, 0, 0, 0, 0] }).2.1 =
      [1, 2, 3] ∧
    (pdfi_read_bytes sample_file_env 1 3
      { s := [], unread_size := 1, unget_buffer := [1, 0, 0, 0, 0, 0, 0, 0] }).1 = 0 ∧
    (pdfi_read_bytes sample_file_env 1 3
      { s := [], unread_size := 1, unget_buffer := [1, 0, 0, 0, 0, 0, 0, 0] }).2.1 = [1] ∧
    (pdfi_read_bytes sample_file_env 1 3
      { s := [], unread_size := 1, unget_buffer := [1, 0, 0, 0, 0, 0, 0, 0] }).2.2.eof = true ∧
    (pdfi_read_bytes sample_file_env 1 3
      { s := [40, 41], unread_size := 1, unget_buffer := [1, 0, 0, 0, 0, 0, 0, 0] }).1 = 3 ∧
    (pdfi_read_bytes sample_file_env 1 3
      { s := [40, 41], unread_size := 1, unget_buffer := [1, 0, 0, 0, 0, 0, 0, 0] }).2.1 =
      [1, 40, 41] := by
  refine ⟨?_, ?_, ?_, ?_, ?_, ?_, ?_⟩ <;> decide

/-! ## C31: the dash array of a border -/

/-- The text that the sample printer prints for the absolute values of the
distance-transformed numbers 0 to 3 under the identity transform. -/
theorem sample_dash_values :
    sample_env_dashes.pprintg |(gs_distance_transform 0 0 {}).x| = "0".toList ∧
    sample_env_dashes.pprintg |(gs_distance_transform 0 0 {}).y| = "0".toList ∧
    sample_env_dashes.pprintg
      |(gs_distance_transform 0 1 {}).x + (gs_distance_transform 0 1 {}).y| = "1".toList ∧
    sample_env_dashes.pprintg
      |(gs_distance_transform 0 2 {}).x + (gs_distance_transform 0 2 {}).y| = "2".toList ∧
    sample_env_dashes.pprintg
      |(gs_distance_transform 0 3 {}).x + (gs_distance_transform 0 3 {}).y| = "3".toList := by
  have e0 : sprintf_d 0 = "0".toList := by decide
  have e1 : sprintf_d 1 = "1".toList := by decide
  have e2 : sprintf_d 2 = "2".toList := by decide
  have e3 : sprintf_d 3 = "3".toList := by decide
  refine ⟨?_, ?_, ?_, ?_, ?_⟩ <;>
    simp [sample_env_dashes, gs_distance_transform, e0, e1, e2, e3]

/-- The text of a border with something after the first closing bracket. -/
theorem write_border_dash_branch (E : Env) (str : Str) (pctm : gs_matrix)
    (v : double × double × double) (next : Str) (hlen : ¬ str.length > 100)
    (hs : E.sscanf_border (c_string str) = some v)
    (hn : strchr ((c_string str).drop 1) ']' = some next) (hd : next.drop 1 ≠ []) :
    pdfmark_write_border E str pctm =
      (0, write_border_dashes E pctm (next.length + 1) (some next)
        ("[".toList ++ E.pprintg |(gs_distance_transform v.1 v.2.1 pctm).x| ++ " ".toList ++
          E.pprintg |(gs_distance_transform v.1 v.2.1 pctm).y| ++ " ".toList ++
          E.pprintg |(gs_distance_transform 0 v.2.2 pctm).x +
            (gs_distance_transform 0 v.2.2 pctm).y| ++ "[".toList) ++ "]".toList ++ "]".toList) := by
  unfold pdfmark_write_border
  rw [if_neg hlen]
  dsimp only
  rw [hs]
  dsimp only
  rw [hn]
  dsimp only
  rw [if_pos hd]

/-- One round of the dash array loop that scans a number. -/
theorem write_border_dashes_some (E : Env) (pctm : gs_matrix) (fuel : Nat) (s out : Str)
    (v : double) (hf : 0 < fuel) (h : E.sscanf_lg (s.drop 1) = some v) :
    write_border_dashes E pctm fuel (some s) out =
      write_border_dashes E pctm (fuel - 1) (strchr (s.drop 1) ' ')
        (out ++ E.pprintg |(gs_distance_transform 0 v pctm).x +
          (gs_distance_transform 0 v pctm).y| ++ " ".toList) := by
  obtain ⟨k, rfl⟩ : ∃ k, fuel = k + 1 := ⟨fuel - 1, by omega⟩
  rw [write_border_dashes]
  dsimp only
  rw [h]
  rfl

/-- The round of the dash array loop that does not scan a number ends the loop. -/
theorem write_border_dashes_none (E : Env) (pctm : gs_matrix) (fuel : Nat) (s out : Str)
    (hf : 0 < fuel) (h : E.sscanf_lg (s.drop 1) = none) :
    write_border_dashes E pctm fuel (some s) out = out := by
  obtain ⟨k, rfl⟩ : ∃ k, fuel = k + 1 := ⟨fuel - 1, by omega⟩
  rw [write_border_dashes]
  dsimp only
  rw [h]

/-- C31 (failing input): in the border `[0 0 1] 3 2` the closing bracket is followed
by a dash array of two numbers, 3 and 2; under the identity transform
`pdfmark_write_border` returns 0 and writes a dash array of three values, 3 3 2: after
the first number the search for the next blank starts at the blank in front of it,
so that the number is scanned twice.  For the border `[0 0 1 [3 2]]` of the pdfmark
reference, and for `[0 0 1][3 2]`, the loop stops at the bracket and the dash array
written is empty.  Only when the numbers follow the bracket directly and are
separated by one blank each, as in `[0 0 1]3 2`, are they written one by one. -/
theorem C31_failing_input :
    pdfmark_write_border sample_env_dashes "[0 0 1] 3 2".toList {} =
      (0, "[0 0 1[3 3 2 ]]".toList) ∧
    pdfmark_write_border sample_env_dashes "[0 0 1 [3 2]]".toList {} =
      (0, "[0 0 1[]]".toList) ∧
    pdfmark_write_border sample_env_dashes "[0 0 1][3 2]".toList {} =
      (0, "[0 0 1[]]".toList) ∧
    pdfmark_write_border sample_env_dashes "[0 0 1]3 2".toList {} =
      (0, "[0 0 1[3 2 ]]".toList) := by
  obtain ⟨v0, w0, v1, v2, v3⟩ := sample_dash_values
  have s1 : sample_env_dashes.sscanf_border (c_string "[0 0 1] 3 2".toList) = some (0, 0, 1) := by
    decide
  have s2 : sample_env_dashes.sscanf_border (c_string "[0 0 1 [3 2]]".toList) =
      some (0, 0, 1) := by decide
  have s3 : sample_env_dashes.sscanf_border (c_string "[0 0 1][3 2]".toList) =
      some (0, 0, 1) := by decide
  have s4 : sample_env_dashes.sscanf_border (c_string "[0 0 1]3 2".toList) = some (0, 0, 1) := by
    decide
  have n1 : strchr ((c_string "[0 0 1] 3 2".toList).drop 1) ']' = some "] 3 2".toList := by
    decide
  have n2 : strchr ((c_string "[0 0 1 [3 2]]".toList).drop 1) ']' = some "]]".toList := by
    decide
  have n3 : strchr ((c_string "[0 0 1][3 2]".toList).drop 1) ']' = some "][3 2]".toList := by
    decide
  have n4 : strchr ((c_string "[0 0 1]3 2".toList).drop 1) ']' = some "]3 2".toList := by
    decide
  have l3 : sample_env_dashes.sscanf_lg ("] 3 2".toList.drop 1) = some 3 := by decide
  have l3a : sample_env_dashes.sscanf_lg (" 3 2".toList.drop 1) = some 3 := by decide
  have l3b : sample_env_dashes.sscanf_lg ("]3 2".toList.drop 1) = some 3 := by decide
  have l2 : sample_env_dashes.sscanf_lg (" 2".toList.drop 1) = some 2 := by decide
  have lb : sample_env_dashes.sscanf_lg ("]]".toList.drop 1) = none := by decide
  have lc : sample_env_dashes.sscanf_lg ("][3 2]".toList.drop 1) = none := by decide
  have c1 : strchr ("] 3 2".toList.drop 1) ' ' = some " 3 2".toList := by decide
  have c2 : strchr (" 3 2".toList.drop 1) ' ' = some " 2".toList := by decide
  have c3 : strchr (" 2".toList.drop 1) ' ' = none := by decide
  have c4 : strchr ("]3 2".toList.drop 1) ' ' = some " 2".toList := by decide
  have hend : ∀ (fuel : Nat) (out : Str),
      write_border_dashes sample_env_dashes {} fuel none out = out := by
    intro fuel out
    cases fuel <;> rfl
  refine ⟨?_, ?_, ?_, ?_⟩
  · rw [write_border_dash_branch _ _ _ _ _ (by decide) s1 n1 (by decide),
      write_border_dashes_some _ _ _ _ _ _ (by decide) l3, c1, write_border_dashes_some _ _ _ _ _ _ (by decide) l3a, c2,
      write_border_dashes_some _ _ _ _ _ _ (by decide) l2, c3, hend, v0, w0, v1, v2, v3]
    rfl
  · rw [write_border_dash_branch _ _ _ _ _ (by decide) s2 n2 (by decide),
      write_border_dashes_none _ _ _ _ _ (by decide) lb, v0, w0, v1]
    rfl
  · rw [write_border_dash_branch _ _ _ _ _ (by decide) s3 n3 (by decide),
      write_border_dashes_none _ _ _ _ _ (by decide) lc, v0, w0, v1]
    rfl
  · rw [write_border_dash_branch _ _ _ _ _ (by decide) s4 n4 (by decide),
      write_border_dashes_some _ _ _ _ _ _ (by decide) l3b, c4, write_border_dashes_some _ _ _ _ _ _ (by decide) l2, c3,
      hend, v0, w0, v1, v2, v3]
    rfl

/-! ## C33: the Producer of the document information -/

/-- Without a `+` below `j` the backward search ends at 0. -/
theorem producer_find_plus_none (vdata : Str) (h : '+' ∉ vdata) :
    ∀ j, producer_find_plus vdata j = 0 := by
  intro j
  induction j with
  | zero => rfl
  | succ j ih =>
    rw [producer_find_plus, if_pos, ih]
    intro e
    by_cases hj : j < vdata.length
    · rw [List.getD_eq_getElem _ _ hj] at e
      exact h (e ▸ List.getElem_mem hj)
    · rw [List.getD_eq_default _ _ (by omega)] at e
      exact absurd e (by decide)

/-- For a value without `+` the whole value is replaced: what is stored is the
default producer without its first byte, the opening parenthesis. -/
theorem producer_replace_no_plus (P : producer_env) (vdata : Str) (h : '+' ∉ vdata) :
    producer_replace P vdata = P.default_Producer.drop 1 := by
  unfold producer_replace
  dsimp only
  rw [producer_find_plus_none vdata h, if_neg, List.take_zero, List.nil_append]
  rintro ⟨h1, h2⟩
  have hl : 0 < vdata.length := by omega
  rw [List.getD_eq_getElem _ _ hl] at h2
  exact h (h2 ▸ List.getElem_mem hl)

/-- C33 (failing input): the mark /Producer (Acrobat Distiller 5.0) with the default
producer (GPL Ghostscript 9.27): the value has no `+`, the backward search ends at
index 0, and the value stored in the Info dictionary is `GPL Ghostscript 9.27)`,
which does not begin with `(`.  With /Producer (PScript5.dll + Acrobat Distiller 5.0)
only the part after ` + ` is replaced and the stored value is parenthesised. -/
theorem C33_failing_input :
    pdfmark_DOCINFO sample_env sample_producer_env {} {}
        ["/Producer".toList, "(Acrobat Distiller 5.0)".toList] =
      (0, { elements := [("/Producer".toList,
              cos_value_t.scalar "GPL Ghostscript 9.27)".toList)] }, { allocs := 1 }) ∧
    sample_producer_env.string_match "(Acrobat Distiller 5.0)".toList "*Distiller*".toList =
      true ∧
    "GPL Ghostscript 9.27)".toList.head? ≠ some '(' ∧
    (pdfmark_DOCINFO sample_env sample_producer_env {} {}
        ["/Producer".toList, "(PScript5.dll + Acrobat Distiller 5.0)".toList]).2.1 =
      { elements := [("/Producer".toList,
          cos_value_t.scalar "(PScript5.dll + GPL Ghostscript 9.27)".toList)] } := by
  refine ⟨?_, by decide, by decide, by decide⟩
  rfl

/-! ## C36: the counters of open outline items -/

/-- C36 (failing input): (1) the marks /Count 2147483647 /Title (A),
/Count 1 /Title (B), /Title (C), /Title (D), all successful (each is counted in
`outlines_open`).  When D is added, the count 1 of B is added to the count of A;
the sum does not fit an `int` and wraps to -2147483648.  Level 1 is then an open
level whose parent node A has a negative count, while `closed_outline_depth` is 0.
(2) The marks /Count 4294967295 /Title (A), /Title (B).  The declared count is
positive, but the `int` that `sscanf` stores is -1: after A the level of its
children is taken as closed (`closed_outline_depth` is 1), and B, none of whose
ancestors declared a negative count, is not counted: `outlines_open` is 1 after
two appended nodes. -/
theorem C36_failing_input :
    (run_marks (pdfmark_OUT sample_env)
        [(["/Count".toList, "2147483647".toList, "/Title".toList, "(A)".toList], {}),
         (["/Count".toList, "1".toList, "/Title".toList, "(B)".toList], {}),
         (["/Title".toList, "(C)".toList], {}),
         (["/Title".toList, "(D)".toList], {})] {}).outline_depth = 1 ∧
    ((run_marks (pdfmark_OUT sample_env)
        [(["/Count".toList, "2147483647".toList, "/Title".toList, "(A)".toList], {}),
         (["/Count".toList, "1".toList, "/Title".toList, "(B)".toList], {}),
         (["/Title".toList, "(C)".toList], {}),
         (["/Title".toList, "(D)".toList], {})] {}).outline_levels 0).last.count =
      -2147483648 ∧
    (run_marks (pdfmark_OUT sample_env)
        [(["/Count".toList, "2147483647".toList, "/Title".toList, "(A)".toList], {}),
         (["/Count".toList, "1".toList, "/Title".toList, "(B)".toList], {}),
         (["/Title".toList, "(C)".toList], {}),
         (["/Title".toList, "(D)".toList], {})] {}).closed_outline_depth = 0 ∧
    (run_marks (pdfmark_OUT sample_env)
        [(["/Count".toList, "2147483647".toList, "/Title".toList, "(A)".toList], {}),
         (["/Count".toList, "1".toList, "/Title".toList, "(B)".toList], {}),
         (["/Title".toList, "(C)".toList], {}),
         (["/Title".toList, "(D)".toList], {})] {}).outlines_open = 4 ∧
    sscanf_d "4294967295".toList = some 4294967295 ∧
    (pdfmark_OUT sample_env {}
      ["/Count".toList, "4294967295".toList, "/Title".toList, "(A)".toList] {} none).1 = 0 ∧
    (pdfmark_OUT sample_env {}
      ["/Count".toList, "4294967295".toList, "/Title".toList, "(A)".toList] {}
      none).2.closed_outline_depth = 1 ∧
    (pdfmark_OUT sample_env
      (pdfmark_OUT sample_env {}
        ["/Count".toList, "4294967295".toList, "/Title".toList, "(A)".toList] {} none).2
      ["/Title".toList, "(B)".toList] {} none).1 = 0 ∧
    (run_marks (pdfmark_OUT sample_env)
        [(["/Count".toList, "4294967295".toList, "/Title".toList, "(A)".toList], {}),
         (["/Title".toList, "(B)".toList], {})] {}).outlines_open = 1 := by
  refine ⟨by decide, by decide, by decide, by decide, by decide, by decide, by decide,
    by decide, by decide⟩

end PDFMark
